import Mathlib

/-!
Intent-aware iterator (docdb/intent_aware_iterator.cc)

A shallow embedding of `IntentAwareIterator`: the merge iterator over the regular
(committed) key space and the intents (provisional) key space.

* Byte strings (`Slice`, `KeyBuffer`, `EncodedDocHybridTime`) are lists of naturals.
* The two storage cursors are finite lists of entries with a position.
* Everything the iterator uses but that lives in other files of the repository
  (the time codec, the intent decoder, the marker bytes, the seek helpers) is a field
  of `Env`, so every theorem holds for every such collaborator.
* Loops carry an explicit iteration budget; `none` means the budget ran out.
-/

namespace docdb

/-! ## Byte strings -/

abbrev Slice := List Nat

/-- Three-way byte-wise comparison, `Slice::compare`: negative, zero or positive. -/
def Slice.compare : List Nat → List Nat → Int
  | [], [] => 0
  | [], _ :: _ => -1
  | _ :: _, [] => 1
  | a :: as, b :: bs =>
    if a < b then -1 else if b < a then 1 else Slice.compare as bs

/-- The last `n` bytes, `Slice::Suffix`. -/
def Slice.Suffix (s : List Nat) (n : Nat) : List Nat := s.drop (s.length - n)

/-- All but the last `n` bytes, `Slice::WithoutSuffix`. -/
def Slice.WithoutSuffix (s : List Nat) (n : Nat) : List Nat := s.take (s.length - n)

/-- The rest of the slice when it starts with byte `c`, `Slice::TryConsumeByte`. -/
def Slice.TryConsumeByte (s : List Nat) (c : Nat) : Option (List Nat) :=
  match s with
  | [] => none
  | b :: rest => if b = c then some rest else none

/-- Prefix test, `Slice::starts_with`. -/
def Slice.starts_with (s p : List Nat) : Bool := p.isPrefixOf s

/-! ## Status -/

/-- A `Status`: OK or an error with its code. -/
inductive Status where
  | OK
  | Error (code : Nat)
deriving DecidableEq, Repr

def Status.ok : Status → Bool
  | .OK => true
  | .Error _ => false

def Status.Corruption : Status := .Error 2

def Status.InvalidArgument : Status := .Error 4

def Status.IOError : Status := .Error 5

def Status.TimedOut : Status := .Error 6

/-- A `Result<T>`: a value or a non-OK status (its error code). -/
abbrev Result (α : Type) := Except Nat α

deriving instance DecidableEq for Except

/-! ## Storage cursors -/

structure KeyValueEntry where
  key : Slice
  value : Slice
deriving DecidableEq, Repr

inductive Direction where
  | kForward
  | kBackward
deriving DecidableEq, Repr

/-- Modelled from the spec: the byte-ordered cursor object of the storage engine
(`BoundedRocksDbIterator`, Seek/Next/Prev/Valid/Key/Value/SetUpperBound/Status), which is
not among the sources. `data` is the content of the snapshot in cursor order, `pos` the
index the cursor rests on, `upper` the exclusive upper bound it honours and `status` the
I/O status it reports. -/
structure Cursor where
  data : List KeyValueEntry
  pos : Option Nat
  upper : Option Slice
  status : Status
deriving DecidableEq, Repr

/-- Whether the cursor may expose a key under its exclusive upper bound. -/
def Cursor.below (c : Cursor) (key : Slice) : Bool :=
  match c.upper with
  | none => true
  | some u => decide (Slice.compare key u < 0)

/-- The entry the cursor rests on, `Entry()`; `none` when the cursor is not valid. -/
def Cursor.Entry (c : Cursor) : Option KeyValueEntry :=
  match c.pos with
  | none => none
  | some i =>
    match c.data.get? i with
    | none => none
    | some e => if c.below e.key then some e else none

/-- Index of the first entry whose key is at or after `target`. -/
def lowerBound (target : Slice) : List KeyValueEntry → Nat
  | [] => 0
  | e :: rest => if Slice.compare e.key target ≥ 0 then 0 else lowerBound target rest + 1

/-- Position at the first entry at or after `target`, `Seek`. -/
def Cursor.Seek (c : Cursor) (target : Slice) : Cursor :=
  { c with pos := some (lowerBound target c.data) }

/-- Step to the following entry, `Next`. -/
def Cursor.Next (c : Cursor) : Cursor :=
  { c with pos := c.pos.map (· + 1) }

/-- Step to the preceding entry, `Prev`; stepping before the first entry invalidates. -/
def Cursor.Prev (c : Cursor) : Cursor :=
  { c with pos := match c.pos with
                  | some (i + 1) => some i
                  | _ => none }

/-- Index of the last entry of the list that the bound allows. -/
def lastBelow (allow : Slice → Bool) : List KeyValueEntry → Option Nat
  | [] => none
  | e :: rest =>
    match lastBelow allow rest with
    | some i => some (i + 1)
    | none => if allow e.key then some 0 else none

/-- Position at the last entry under the upper bound, `SeekToLast`. -/
def Cursor.SeekToLast (c : Cursor) : Cursor :=
  { c with pos := lastBelow c.below c.data }

/-- The cursor step of a direction, `MoveIterator<direction>`. -/
def MoveIterator (direction : Direction) (c : Cursor) : Cursor :=
  match direction with
  | .kForward => c.Next
  | .kBackward => c.Prev

/-! ## Read snapshot -/

/-- The encoded read snapshot, `EncodedReadHybridTime`: four encoded times. -/
structure EncodedReadHybridTime where
  read : Slice
  local_limit : Slice
  global_limit : Slice
  in_txn_limit : Slice
deriving DecidableEq, Repr

/-- Modelled from the spec: time order on encoded times, "later times sort as smaller
encoded bytes" (the comparison operators of `EncodedDocHybridTime` are declared in a header
that is not among the sources). `timeLE a b` says time `a` is not later than time `b`. -/
def timeLE (a b : Slice) : Bool := decide (Slice.compare a b ≥ 0)

/-- Modelled from the spec: `timeLT a b` says time `a` is strictly earlier than time `b`. -/
def timeLT (a b : Slice) : Bool := decide (Slice.compare a b > 0)

/-- Modelled from the spec: `regular_limit = max(read, local_limit)`, the later of the two
(the accessor `regular_limit()` is declared in a header that is not among the sources). -/
def EncodedReadHybridTime.regular_limit (t : EncodedReadHybridTime) : Slice :=
  if timeLT t.read t.local_limit then t.local_limit else t.read

/-! ## Collaborators outside this file -/

/-- The decoded intent, `DecodeStrongWriteIntentResult`. -/
structure DecodeStrongWriteIntentResult where
  intent_prefix_ : Slice
  intent_value : Slice
  intent_time : Slice
  value_time : Slice
  same_transaction : Bool
deriving DecidableEq, Repr

/-- What the iterator takes from other files of the repository, none of which is among the
sources: the marker bytes of `dockv::KeyEntryTypeAsChar`, the time codec `DocHybridTime`,
the intent decoder with its transaction status cache, and the seek helpers of `iter_util`.
The runtime flag `max_next_calls_while_skipping_future_records` is kept here as well. -/
structure Env where
  kHybridTime : Nat
  kTransactionId : Nat
  kMaxByte : Nat
  kHighest : Nat
  kGreaterThanIntentType : Nat
  /-- The encoding of the minimal time, `EncodedDocHybridTime::kMin`. -/
  kMin : Slice
  /-- Whether a byte is an intent-type marker, `dockv::IntentValueType`. -/
  IntentValueType : Nat → Bool
  /-- Size of the encoded time at the end of a key, `DocHybridTime::GetEncodedSize`. -/
  GetEncodedSize : Slice → Result Nat
  /-- Size of the encoded time at the start of a value, `DocHybridTime::EncodedFromStart`. -/
  EncodedFromStart : Slice → Result Nat
  /-- The decoder `DecodeStrongWriteIntent` applied to the entry the intents cursor is on. -/
  DecodeStrongWriteIntent : KeyValueEntry → Result DecodeStrongWriteIntentResult
  /-- The bound `DecodeStrongWriteIntentResult::MaxAllowedValueTime`. -/
  MaxAllowedValueTime : DecodeStrongWriteIntentResult → EncodedReadHybridTime → Slice
  /-- The seek suffix `StrongWriteSuffix(key)`. -/
  StrongWriteSuffix : Slice → Slice
  /-- Size of the time suffix that `DocHybridTime::DecodeFromEnd` removes from a key. -/
  DecodeFromEnd : Slice → Result Nat
  /-- Size of the doc key part of a key, `DocKey::EncodedSize(.., kWholeDocKey)`. -/
  DocKeyEncodedSize : Slice → Result Nat
  /-- Seek helper `docdb::SeekForward(slice, iter)`. -/
  SeekForward : Slice → Cursor → Cursor
  /-- Seek helper `docdb::SeekPastSubKey(key, iter)`. -/
  SeekPastSubKey : Slice → Cursor → Cursor
  /-- Seek helper `docdb::SeekOutOfSubKey(key_bytes, iter)`. -/
  SeekOutOfSubKey : Slice → Cursor → Cursor
  /-- The flag `FLAGS_max_next_calls_while_skipping_future_records` (default 3). -/
  max_next_calls_while_skipping_future_records : Nat
  /-- Whether a value is a merge record, `dockv::IsMergeRecord`. -/
  IsMergeRecord : Slice → Bool
  /-- The hybrid time of a decoded time, `EncodedDocHybridTime::Decode().hybrid_time()`. -/
  Decode : Slice → Result Nat
  /-- The encoding `EncodedDocHybridTime(hybrid_time, kMaxWriteId)` of a hybrid time. -/
  EncodeHybridTime : Nat → Slice
  /-- Size of the encoded time at the end of a key that ends with the `kHybridTime` marker and
  a time, `dockv::CheckHybridTimeSizeAndValueType`. -/
  CheckHybridTimeSizeAndValueType : Slice → Result Nat

/-! ## Iterator state -/

structure FetchedEntry where
  valid : Bool
  key : Slice
  value : Slice
  write_time : Slice
  same_transaction : Bool
deriving DecidableEq, Repr

inductive ResolvedIntentState where
  | kNoIntent
  | kInvalidPrefix
  | kValid
deriving DecidableEq, Repr

/-- The member fields of `IntentAwareIterator`. `intent_iter_` is `none` when the intents
cursor was not created (`!intent_iter_.Initialized()`); the slice `intent_upperbound_` the
intents cursor points at is the cursor's `upper`. -/
structure IntentAwareIterator where
  encoded_read_time_ : EncodedReadHybridTime
  upperbound_ : Slice
  iter_ : Cursor
  intent_iter_ : Option Cursor
  intent_upperbound_buffer_ : Slice
  status_ : Status
  max_seen_ht_ : Slice
  regular_entry_ : Option KeyValueEntry
  resolved_intent_state_ : ResolvedIntentState
  resolved_intent_key_prefix_ : Slice
  resolved_intent_txn_dht_ : Slice
  intent_dht_from_same_txn_ : Slice
  resolved_intent_sub_doc_key_encoded_ : Slice
  resolved_intent_value_ : Slice
  seek_buffer_ : Slice
  entry_ : FetchedEntry
deriving DecidableEq, Repr

/-- Latch a non-OK status, `HandleStatus`; the flag tells whether the status was OK. -/
def HandleStatus (s : IntentAwareIterator) (status : Status) : IntentAwareIterator × Bool :=
  if status.ok then (s, true) else ({ s with status_ := status }, false)

/-- The bound test `SatisfyBounds` against `upperbound_`. -/
def SatisfyBounds (upperbound : Slice) (slice : Slice) : Bool :=
  decide (Slice.compare slice upperbound ≤ 0)

/-! ## SkipFutureRecords -/

/-- How the loop of `SkipFutureRecords` ended, with the cursor it left. -/
inductive SkipOutcome where
  /-- A record passed the visibility test: `regular_entry_ = {key, value}; return`. -/
  | found (c : Cursor) (e : KeyValueEntry)
  /-- A record beyond the upper bound: `regular_entry_.Reset(); return`. -/
  | outOfBounds (c : Cursor)
  /-- A decode failure: `HandleStatus` latched `code`, `regular_entry_` is left as it was. -/
  | failed (c : Cursor) (code : Nat)
  /-- The cursor ran out: `HandleStatus(iter_.status()); regular_entry_.Reset()`. -/
  | exhausted (c : Cursor)
deriving DecidableEq, Repr

/-- What the body of the loop of `SkipFutureRecords` decides for the record it examines,
once the record is within the upper bound. -/
inductive SkipVerdict where
  /-- The record is visible: it becomes the regular candidate. -/
  | keep (e : KeyValueEntry)
  /-- Decoding failed with this error code. -/
  | fail (code : Nat)
  /-- The record is skipped; `encoded_doc_ht` is the time suffix of its key. -/
  | skip (doc_ht_size : Nat)
deriving DecidableEq, Repr

/-- The visibility test in the body of the loop of `SkipFutureRecords`: the decoding of the
time suffix of the key and the comparison against the read snapshot. -/
def SkipFutureRecordsCheck (env : Env) (rt : EncodedReadHybridTime) (entry : KeyValueEntry) :
    SkipVerdict :=
  let key := entry.key
  match env.GetEncodedSize key with
  | .error code => .fail code
  | .ok doc_ht_size =>
    let encoded_doc_ht := Slice.Suffix key doc_ht_size
    match Slice.TryConsumeByte entry.value env.kHybridTime with
    | some value =>
      let max_allowed :=
        if Slice.compare value rt.local_limit > 0 then rt.global_limit else rt.read
      if Slice.compare encoded_doc_ht max_allowed > 0 then
        match env.EncodedFromStart value with
        | .error code => .fail code
        | .ok n => .keep { key := entry.key, value := value.drop n }
      else .skip doc_ht_size
    | none =>
      if Slice.compare encoded_doc_ht rt.regular_limit > 0 then
        .keep { key := entry.key, value := entry.value }
      else .skip doc_ht_size

/-- The loop of `SkipFutureRecords<direction>` over the regular cursor. `budget` bounds the
number of iterations, `next_counter` is the local counter of the source. -/
def SkipFutureRecordsLoop (env : Env) (rt : EncodedReadHybridTime) (upperbound : Slice)
    (direction : Direction) : Nat → Cursor → Nat → Option SkipOutcome
  | 0, _, _ => none
  | budget + 1, c, next_counter =>
    match c.Entry with
    | none => some (.exhausted c)
    | some entry =>
      if !SatisfyBounds upperbound entry.key then some (.outOfBounds c) else
      match SkipFutureRecordsCheck env rt entry with
      | .keep e => some (.found c e)
      | .fail code => some (.failed c code)
      | .skip doc_ht_size =>
        if direction = .kForward ∧
            next_counter + 1 ≥ env.max_next_calls_while_skipping_future_records then
          if Slice.compare rt.global_limit (Slice.Suffix entry.key doc_ht_size) > 0 then
            SkipFutureRecordsLoop env rt upperbound direction budget
              (c.Seek (Slice.WithoutSuffix entry.key doc_ht_size ++ rt.global_limit)) 0
          else
            SkipFutureRecordsLoop env rt upperbound direction budget c 0
        else
          SkipFutureRecordsLoop env rt upperbound direction budget
            (MoveIterator direction c)
            (if direction = .kForward then next_counter + 1 else next_counter)

/-- The operation `SkipFutureRecords<direction>(entry)`, where `entry` is the entry the
regular cursor `iter_` rests on. -/
def SkipFutureRecords (env : Env) (direction : Direction) (budget : Nat)
    (s : IntentAwareIterator) : Option IntentAwareIterator :=
  match SkipFutureRecordsLoop env s.encoded_read_time_ s.upperbound_ direction budget s.iter_ 0 with
  | none => none
  | some (.found c e) => some { s with iter_ := c, regular_entry_ := some e }
  | some (.outOfBounds c) => some { s with iter_ := c, regular_entry_ := none }
  | some (.failed c code) => some { s with iter_ := c, status_ := .Error code }
  | some (.exhausted c) =>
    some { (HandleStatus { s with iter_ := c } c.status).1 with regular_entry_ := none }

/-! ## Resolving intents -/

/-- The test `IsIntentForTheSameKey(key, intent_prefix)`. -/
def IsIntentForTheSameKey (env : Env) (key : Slice) (intent_prefix_ : Slice) : Bool :=
  Slice.starts_with key intent_prefix_ &&
  decide (key.length > intent_prefix_.length) &&
  env.IntentValueType (key.getD intent_prefix_.length 0)

/-- The step `ProcessIntent()`; `entry` is the entry the intents cursor rests on. -/
def ProcessIntent (env : Env) (entry : KeyValueEntry) (s : IntentAwareIterator) :
    IntentAwareIterator :=
  match env.DecodeStrongWriteIntent entry with
  | .error code => { s with status_ := .Error code }
  | .ok decoded =>
    let resolved_intent_time :=
      if decoded.same_transaction then s.intent_dht_from_same_txn_ else s.resolved_intent_txn_dht_
    if timeLE decoded.value_time resolved_intent_time then s
    else if timeLT (env.MaxAllowedValueTime decoded s.encoded_read_time_) decoded.value_time then s
    else
      { s with
        resolved_intent_key_prefix_ :=
          if s.resolved_intent_state_ = .kNoIntent then decoded.intent_prefix_
          else s.resolved_intent_key_prefix_
        resolved_intent_state_ :=
          if s.resolved_intent_state_ = .kNoIntent then
            if !SatisfyBounds s.upperbound_ decoded.intent_prefix_ then .kNoIntent else .kValid
          else s.resolved_intent_state_
        intent_dht_from_same_txn_ :=
          if decoded.same_transaction then decoded.value_time else s.intent_dht_from_same_txn_
        resolved_intent_txn_dht_ :=
          if decoded.same_transaction then s.encoded_read_time_.read else decoded.value_time
        resolved_intent_value_ := decoded.intent_value }

/-- The buffer update `UpdateResolvedIntentSubDocKeyEncoded()`: the resolved prefix followed
by the `kHybridTime` marker and the resolved time (`AppendEncodedDocHt`). -/
def UpdateResolvedIntentSubDocKeyEncoded (env : Env) (s : IntentAwareIterator) :
    IntentAwareIterator :=
  { s with resolved_intent_sub_doc_key_encoded_ :=
      s.resolved_intent_key_prefix_ ++ [env.kHybridTime] ++ s.resolved_intent_txn_dht_ }

/-- The entry the intents cursor rests on; `none` when there is no valid entry. -/
def intentEntry (s : IntentAwareIterator) : Option KeyValueEntry :=
  match s.intent_iter_ with
  | none => none
  | some it => it.Entry

/-- Apply a cursor operation to the intents cursor. -/
def onIntentIter (f : Cursor → Cursor) (s : IntentAwareIterator) : IntentAwareIterator :=
  { s with intent_iter_ := s.intent_iter_.map f }

/-- The status `intent_iter_.status()`. -/
def intentStatus (s : IntentAwareIterator) : Status :=
  match s.intent_iter_ with
  | none => .OK
  | some it => it.status

/-- The tail of `SeekToSuitableIntent` after its loop. -/
def SeekToSuitableIntentFinish (env : Env) (s : IntentAwareIterator) : IntentAwareIterator :=
  let s1 := (HandleStatus s (intentStatus s)).1
  if s1.resolved_intent_state_ ≠ .kNoIntent then UpdateResolvedIntentSubDocKeyEncoded env s1
  else s1

/-- The jump over the transaction metadata and reverse index region in the loop of
`SeekToSuitableIntent<direction>`: forward a seek to the byte after `kTransactionId`,
backward the intent upper bound is set to `kTransactionId` and the cursor seeks to the last
entry. -/
def SkipTransactionRegion (env : Env) (direction : Direction) (s : IntentAwareIterator) :
    IntentAwareIterator :=
  match direction with
  | .kForward => onIntentIter (fun it => it.Seek [(env.kTransactionId + 1) % 256]) s
  | .kBackward =>
    onIntentIter (fun it => Cursor.SeekToLast { it with upper := some [env.kTransactionId] })
      { s with intent_upperbound_buffer_ := [env.kTransactionId] }

/-- One iteration of the loop of `SeekToSuitableIntent<direction>` on the entry the intents
cursor rests on: either the loop ends with a state (`Sum.inl`) or it goes on (`Sum.inr`). -/
def SeekToSuitableIntentStep (env : Env) (direction : Direction) (entry : KeyValueEntry)
    (s : IntentAwareIterator) : IntentAwareIterator ⊕ IntentAwareIterator :=
  if entry.key.head? = some env.kTransactionId then
    .inr (SkipTransactionRegion env direction s)
  else if s.resolved_intent_state_ ≠ .kNoIntent ∧
      !IsIntentForTheSameKey env entry.key s.resolved_intent_key_prefix_ then
    .inl (SeekToSuitableIntentFinish env s)
  else if !SatisfyBounds s.upperbound_ entry.key then
    .inl (SeekToSuitableIntentFinish env s)
  else
    let s1 := ProcessIntent env entry s
    if !s1.status_.ok then .inl s1
    else .inr (onIntentIter (MoveIterator direction) s1)

/-- The loop of `SeekToSuitableIntent<direction>`. -/
def SeekToSuitableIntentLoop (env : Env) (direction : Direction) :
    Nat → IntentAwareIterator → Option IntentAwareIterator
  | 0, _ => none
  | budget + 1, s =>
    match intentEntry s with
    | none => some (SeekToSuitableIntentFinish env s)
    | some entry =>
      match SeekToSuitableIntentStep env direction entry s with
      | .inl r => some r
      | .inr s1 => SeekToSuitableIntentLoop env direction budget s1

/-- The operation `SeekToSuitableIntent<direction>(entry)`, where `entry` is the entry the
intents cursor rests on. -/
def SeekToSuitableIntent (env : Env) (direction : Direction) (budget : Nat)
    (s : IntentAwareIterator) : Option IntentAwareIterator :=
  SeekToSuitableIntentLoop env direction budget
    { s with
      resolved_intent_state_ := .kNoIntent
      resolved_intent_txn_dht_ := env.kMin
      intent_dht_from_same_txn_ := env.kMin }

/-! ## The intent upper bound -/

/-- The update `SyncIntentUpperbound()`. -/
def SyncIntentUpperbound (s : IntentAwareIterator) : IntentAwareIterator :=
  let s1 := onIntentIter (fun it => { it with upper := some s.intent_upperbound_buffer_ }) s
  (HandleStatus s1 (intentStatus s1)).1

/-- The update `ResetIntentUpperbound()`. -/
def ResetIntentUpperbound (env : Env) (s : IntentAwareIterator) : IntentAwareIterator :=
  if s.upperbound_.isEmpty then
    SyncIntentUpperbound { s with intent_upperbound_buffer_ := [env.kHighest] }
  else
    SyncIntentUpperbound { s with intent_upperbound_buffer_ := s.upperbound_ }

/-- The update `SetIntentUpperbound()` with its boolean result. -/
def SetIntentUpperbound (env : Env) (s : IntentAwareIterator) : IntentAwareIterator × Bool :=
  match s.regular_entry_ with
  | some e =>
    match env.GetEncodedSize e.key with
    | .error code => ({ s with status_ := .Error code }, false)
    | .ok doc_ht_size =>
      let s1 := SyncIntentUpperbound
        { s with intent_upperbound_buffer_ :=
            Slice.WithoutSuffix e.key (1 + doc_ht_size) ++ [env.kMaxByte] }
      (s1, s1.status_.ok)
  | none =>
    if !s.status_.ok then (s, false)
    else (ResetIntentUpperbound env s, true)

/-! ## Filling the fetched entry -/

/-- Modelled from the spec: `DocHybridTime::EncodedFromEnd`, "the trailing EncodedTime is the
commit time"; the function is not among the sources and is taken to return the suffix whose
size `GetEncodedSize` reports. -/
def EncodedFromEnd (env : Env) (slice : Slice) : Result Slice :=
  match env.GetEncodedSize slice with
  | .error code => .error code
  | .ok n => .ok (Slice.Suffix slice n)

/-- Modelled from the spec: `EncodedDocHybridTime::MakeAtLeast`, the monotonic "maximum time
observed so far" update (declared in a header that is not among the sources). -/
def MakeAtLeast (cur other : Slice) : Slice := if timeLT cur other then other else cur

/-- The accessor `GetIntentDocHybridTime(&same_transaction)`: the time and the flag. -/
def GetIntentDocHybridTime (env : Env) (s : IntentAwareIterator) : Slice × Bool :=
  if s.intent_dht_from_same_txn_ ≠ env.kMin then (s.intent_dht_from_same_txn_, true)
  else (s.resolved_intent_txn_dht_, false)

/-- The update `FillRegularEntry()`; `e` is the regular candidate. -/
def FillRegularEntry (env : Env) (e : KeyValueEntry) (s : IntentAwareIterator) :
    IntentAwareIterator :=
  let entry1 := { s.entry_ with valid := true, key := e.key }
  match EncodedFromEnd env e.key with
  | .error code => { s with entry_ := entry1, status_ := .Error code }
  | .ok write_time =>
    { s with
      entry_ :=
        { valid := true
          key := Slice.WithoutSuffix e.key (write_time.length + 1)
          write_time := write_time
          same_transaction := false
          value := e.value }
      max_seen_ht_ := MakeAtLeast s.max_seen_ht_ write_time }

/-- The update `FillIntentEntry()`. -/
def FillIntentEntry (env : Env) (s : IntentAwareIterator) : IntentAwareIterator :=
  { s with
    entry_ :=
      { valid := true
        key := s.resolved_intent_key_prefix_
        write_time := (GetIntentDocHybridTime env s).1
        same_transaction := (GetIntentDocHybridTime env s).2
        value := s.resolved_intent_value_ }
    max_seen_ht_ := MakeAtLeast s.max_seen_ht_ s.resolved_intent_txn_dht_ }

/-- The merge `FillEntry()`. -/
def FillEntry (env : Env) (s : IntentAwareIterator) : IntentAwareIterator :=
  let has_intent := decide (s.resolved_intent_state_ = .kValid)
  match s.regular_entry_ with
  | some e =>
    if !has_intent ∨ Slice.compare e.key s.resolved_intent_sub_doc_key_encoded_ < 0 then
      FillRegularEntry env e s
    else
      FillIntentEntry env s
  | none =>
    if has_intent then FillIntentEntry env s
    else { s with entry_ := { s.entry_ with valid := false } }

/-- The read `Fetch()`: the stored error, or the entry of the last positioning call. -/
def Fetch (s : IntentAwareIterator) : Except Status FetchedEntry :=
  if !s.status_.ok then .error s.status_ else .ok s.entry_

/-- The test `HasCurrentEntry()`. -/
def HasCurrentEntry (s : IntentAwareIterator) : Bool :=
  s.regular_entry_.isSome || decide (s.resolved_intent_state_ = .kValid)

/-- The key `iter_.key()` of the regular cursor (empty when the cursor is not valid). -/
def iterKey (s : IntentAwareIterator) : Slice :=
  match s.iter_.Entry with
  | none => []
  | some e => e.key

/-- The test `IsEntryRegular(descending)`. -/
def IsEntryRegular (s : IntentAwareIterator) (descending : Bool) : Bool :=
  if s.regular_entry_.isNone then false
  else if s.resolved_intent_state_ = .kValid then
    decide (Slice.compare (iterKey s) s.resolved_intent_sub_doc_key_encoded_ < 0) != descending
  else true

/-! ## Positioning operations -/

/-- The operation `Seek(key, full)`. -/
def Seek (env : Env) (budget : Nat) (key : Slice) (full : Bool) (s : IntentAwareIterator) :
    Option IntentAwareIterator :=
  if !s.status_.ok then some s else
  match SkipFutureRecords env .kForward budget { s with iter_ := s.iter_.Seek key } with
  | none => none
  | some s1 =>
    if s1.intent_iter_.isSome then
      let r := SetIntentUpperbound env s1
      if !r.2 then some r.1 else
      let s2 := if full then { r.1 with seek_buffer_ := key ++ env.StrongWriteSuffix key } else r.1
      let key2 := if full then s2.seek_buffer_ else key
      match SeekToSuitableIntent env .kForward budget (onIntentIter (fun it => it.Seek key2) s2) with
      | none => none
      | some s3 => some (FillEntry env s3)
    else some (FillEntry env s1)

/-- The operation `Next()`. -/
def Next (env : Env) (budget : Nat) (s : IntentAwareIterator) : Option IntentAwareIterator :=
  if !s.status_.ok then some s else
  if IsEntryRegular s false then
    match SkipFutureRecords env .kForward budget { s with iter_ := s.iter_.Next } with
    | none => none
    | some s1 => some (FillEntry env s1)
  else some s

/-- The overload `IntentPrepareSeek(key, char suffix)`: the new state and the prefix length. -/
def IntentPrepareSeekChar (key : Slice) (suffix : Nat) (s : IntentAwareIterator) :
    IntentAwareIterator × Nat :=
  ({ s with seek_buffer_ := key ++ [suffix] }, (key ++ [suffix]).length)

/-- The overload `IntentPrepareSeek(key, Slice suffix)`: the new state and the prefix length. -/
def IntentPrepareSeek (key : Slice) (suffix : Slice) (s : IntentAwareIterator) :
    IntentAwareIterator × Nat :=
  ({ s with seek_buffer_ := key ++ suffix }, key.length)

/-- The operation `SeekForwardRegular(slice)`. -/
def SeekForwardRegular (env : Env) (budget : Nat) (slice : Slice) (s : IntentAwareIterator) :
    Option IntentAwareIterator :=
  SkipFutureRecords env .kForward budget { s with iter_ := env.SeekForward slice s.iter_ }

/-- The operation `IntentSeekForward(prefix_len)`. -/
def IntentSeekForward (env : Env) (budget : Nat) (prefix_len : Nat) (s : IntentAwareIterator) :
    Option IntentAwareIterator :=
  if prefix_len = 0 ∨ !s.status_.ok then some s else
  let prefix_ := s.seek_buffer_.take prefix_len
  let r := SetIntentUpperbound env s
  if !r.2 then some r.1 else
  if r.1.resolved_intent_state_ ≠ .kNoIntent ∧
      Slice.compare r.1.resolved_intent_key_prefix_ prefix_ ≥ 0 then some r.1
  else
    SeekToSuitableIntent env .kForward budget
      (onIntentIter (env.SeekForward r.1.seek_buffer_) r.1)

/-- The operation `SeekForward(key)`. -/
def SeekForward (env : Env) (budget : Nat) (key : Slice) (s : IntentAwareIterator) :
    Option IntentAwareIterator :=
  if !s.status_.ok then some s else
  let p := if s.intent_iter_.isSome then IntentPrepareSeek key (env.StrongWriteSuffix key) s
           else (s, 0)
  match SeekForwardRegular env budget key p.1 with
  | none => none
  | some s1 =>
    match IntentSeekForward env budget p.2 s1 with
    | none => none
    | some s2 => some (FillEntry env s2)

/-- The operation `SeekPastSubKey(key)`. -/
def SeekPastSubKey (env : Env) (budget : Nat) (key : Slice) (s : IntentAwareIterator) :
    Option IntentAwareIterator :=
  if !s.status_.ok then some s else
  let p := if s.intent_iter_.isSome then IntentPrepareSeekChar key env.kGreaterThanIntentType s
           else (s, 0)
  match SkipFutureRecords env .kForward budget
      { p.1 with iter_ := env.SeekPastSubKey key p.1.iter_ } with
  | none => none
  | some s1 =>
    match IntentSeekForward env budget p.2 s1 with
    | none => none
    | some s2 => some (FillEntry env s2)

/-- The operation `SeekOutOfSubDoc(key_bytes)`. -/
def SeekOutOfSubDoc (env : Env) (budget : Nat) (key_bytes : Slice) (s : IntentAwareIterator) :
    Option IntentAwareIterator :=
  if !s.status_.ok then some s else
  let p := if s.intent_iter_.isSome then IntentPrepareSeekChar key_bytes env.kMaxByte s
           else (s, 0)
  match SkipFutureRecords env .kForward budget
      { p.1 with iter_ := env.SeekOutOfSubKey key_bytes p.1.iter_ } with
  | none => none
  | some s1 =>
    match IntentSeekForward env budget p.2 s1 with
    | none => none
    | some s2 => some (FillEntry env s2)

/-- The key `LatestSubDocKey()`. -/
def LatestSubDocKey (s : IntentAwareIterator) : Slice :=
  if IsEntryRegular s true then iterKey s else s.resolved_intent_key_prefix_

/-- The operation `SeekToLatestSubDocKeyInternal()`. -/
def SeekToLatestSubDocKeyInternal (env : Env) (budget : Nat) (s : IntentAwareIterator) :
    Option IntentAwareIterator :=
  let subdockey_slice := LatestSubDocKey s
  match env.DecodeFromEnd subdockey_slice with
  | .error code => some { s with status_ := .Error code }
  | .ok n => Seek env budget (Slice.WithoutSuffix (Slice.WithoutSuffix subdockey_slice n) 1) false s

/-- The operation `SeekToLatestDocKeyInternal()`. -/
def SeekToLatestDocKeyInternal (env : Env) (budget : Nat) (s : IntentAwareIterator) :
    Option IntentAwareIterator :=
  let subdockey_slice := LatestSubDocKey s
  match env.DocKeyEncodedSize subdockey_slice with
  | .error code => some { s with status_ := .Error code }
  | .ok dockey_size => Seek env budget (subdockey_slice.take dockey_size) false s

/-- The operation `PreparePrev(key)`: the new state and the boolean result. -/
def PreparePrev (env : Env) (budget : Nat) (key : Slice) (s : IntentAwareIterator) :
    Option (IntentAwareIterator × Bool) :=
  let s0 := { s with iter_ := s.iter_.Seek key }
  let skipped :=
    if s0.iter_.Entry.isSome then
      SkipFutureRecords env .kBackward budget { s0 with iter_ := s0.iter_.Prev }
    else
      let s1 := (HandleStatus s0 s0.iter_.status).1
      SkipFutureRecords env .kBackward budget { s1 with iter_ := s1.iter_.SeekToLast }
  match skipped with
  | none => none
  | some s2 =>
    if s2.intent_iter_.isSome then
      let s3 := onIntentIter (fun it => it.Seek key) (ResetIntentUpperbound env s2)
      if (intentEntry s3).isSome then
        match SeekToSuitableIntent env .kBackward budget (onIntentIter Cursor.Prev s3) with
        | none => none
        | some s4 => some (s4, HasCurrentEntry s4)
      else
        let s4 := (HandleStatus s3 (intentStatus s3)).1
        if !s4.status_.ok then some (s4, false) else
        match SeekToSuitableIntent env .kBackward budget (onIntentIter Cursor.SeekToLast s4) with
        | none => none
        | some s5 => some (s5, HasCurrentEntry s5)
    else some (s2, HasCurrentEntry s2)

/-- The operation `PrevSubDocKey(key_bytes)`. -/
def PrevSubDocKey (env : Env) (budget : Nat) (key_bytes : Slice) (s : IntentAwareIterator) :
    Option IntentAwareIterator :=
  match PreparePrev env budget key_bytes s with
  | none => none
  | some (s1, true) =>
    match SeekToLatestSubDocKeyInternal env budget s1 with
    | none => none
    | some s2 => some (FillEntry env s2)
  | some (s1, false) => some (FillEntry env s1)

/-- The operation `PrevDocKey(encoded_doc_key)`. -/
def PrevDocKey (env : Env) (budget : Nat) (encoded_doc_key : Slice) (s : IntentAwareIterator) :
    Option IntentAwareIterator :=
  match PreparePrev env budget encoded_doc_key s with
  | none => none
  | some (s1, true) =>
    match SeekToLatestDocKeyInternal env budget s1 with
    | none => none
    | some s2 => some (FillEntry env s2)
  | some (s1, false) => some (FillEntry env s1)

/-- The operation `SeekToLastDocKey()`. -/
def SeekToLastDocKey (env : Env) (budget : Nat) (s : IntentAwareIterator) :
    Option IntentAwareIterator :=
  match SkipFutureRecords env .kBackward budget { s with iter_ := s.iter_.SeekToLast } with
  | none => none
  | some s1 =>
    let resolved :=
      if s1.intent_iter_.isSome then
        SeekToSuitableIntent env .kBackward budget
          (onIntentIter Cursor.SeekToLast (ResetIntentUpperbound env s1))
      else some s1
    match resolved with
    | none => none
    | some s2 =>
      if HasCurrentEntry s2 then
        match SeekToLatestDocKeyInternal env budget s2 with
        | none => none
        | some s3 => some (FillEntry env s3)
      else some (FillEntry env s2)

/-! ## Revalidation and the upper bound -/

/-- The step `SkipFutureIntents()`. -/
def SkipFutureIntents (env : Env) (budget : Nat) (s : IntentAwareIterator) :
    Option IntentAwareIterator :=
  if !s.intent_iter_.isSome ∨ !s.status_.ok then some s else
  if s.resolved_intent_state_ ≠ .kNoIntent then
    some { s with resolved_intent_state_ :=
      if !SatisfyBounds s.upperbound_ s.resolved_intent_key_prefix_ then .kNoIntent
      else .kValid }
  else SeekToSuitableIntent env .kForward budget s

/-- The operation `Revalidate()`. -/
def Revalidate (env : Env) (budget : Nat) (s : IntentAwareIterator) :
    Option IntentAwareIterator :=
  match SkipFutureRecords env .kForward budget s with
  | none => none
  | some s1 =>
    if s1.intent_iter_.isSome then
      let r := SetIntentUpperbound env s1
      if !r.2 then some r.1 else
      match SkipFutureIntents env budget r.1 with
      | none => none
      | some s2 => some (FillEntry env s2)
    else some (FillEntry env s1)

/-- The operation `SetUpperbound(upperbound)`: the new state and the previous bound. -/
def SetUpperbound (upperbound : Slice) (s : IntentAwareIterator) : IntentAwareIterator × Slice :=
  ({ s with upperbound_ := upperbound }, s.upperbound_)

/-- The call `Fetch()` as an operation on the state: the state after the call and the
result. The only member it writes is the debug-build flag `need_fetch_`, which is not part
of the state. -/
def FetchCall (s : IntentAwareIterator) : IntentAwareIterator × Except Status FetchedEntry :=
  (s, Fetch s)

/-- Consecutive calls of `Fetch()`: the state after them and their results in order. -/
def FetchCalls : Nat → IntentAwareIterator → IntentAwareIterator × List (Except Status FetchedEntry)
  | 0, s => (s, [])
  | n + 1, s =>
    let r := FetchCall s
    let rest := FetchCalls n r.1
    (rest.1, r.2 :: rest.2)

/-! ## Read restart -/

/-- The query `RestartReadHt()`; `none` is `HybridTime::kInvalid`. -/
def RestartReadHt (env : Env) (s : IntentAwareIterator) : Result (Option Nat) :=
  if timeLE s.max_seen_ht_ s.encoded_read_time_.read then .ok none
  else
    match env.Decode s.max_seen_ht_ with
    | .error code => .error code
    | .ok decoded_max_seen_ht => .ok (some decoded_max_seen_ht)

/-! ## Queries for one key -/

/-- The query `FindMatchingIntentRecordDocHybridTime(key_without_ht)`: the state it leaves
and its result; the empty slice is the empty `EncodedDocHybridTime()`. -/
def FindMatchingIntentRecordDocHybridTime (env : Env) (budget : Nat) (key_without_ht : Slice)
    (s : IntentAwareIterator) : Option (IntentAwareIterator × Except Status Slice) :=
  let p := IntentPrepareSeek key_without_ht [] s
  match IntentSeekForward env budget p.2 p.1 with
  | none => none
  | some s1 =>
    if !s1.status_.ok then some (s1, .error s1.status_)
    else if s1.resolved_intent_state_ ≠ .kValid then some (s1, .ok [])
    else if Slice.compare s1.resolved_intent_key_prefix_ key_without_ht = 0 then
      some ({ s1 with max_seen_ht_ := MakeAtLeast s1.max_seen_ht_ s1.resolved_intent_txn_dht_ },
        .ok (GetIntentDocHybridTime env s1).1)
    else some (s1, .ok [])

/-- The query `GetMatchingRegularRecordDocHybridTime(key_without_ht)` on the key the regular
cursor rests on. -/
def GetMatchingRegularRecordDocHybridTime (env : Env) (key_without_ht : Slice)
    (s : IntentAwareIterator) : IntentAwareIterator × Except Status Slice :=
  match env.CheckHybridTimeSizeAndValueType (iterKey s) with
  | .error code => (s, .error (.Error code))
  | .ok other_encoded_ht_size =>
    let iter_key_without_ht := Slice.WithoutSuffix (iterKey s) (1 + other_encoded_ht_size)
    if key_without_ht = iter_key_without_ht then
      match EncodedFromEnd env (iterKey s) with
      | .error code => (s, .error (.Error code))
      | .ok result =>
        ({ s with max_seen_ht_ := MakeAtLeast s.max_seen_ht_ result }, .ok result)
    else (s, .ok [])

/-- Modelled from the spec: `HybridTime::MakeAtMost` on a result that starts as
`HybridTime::kInvalid` (`none`), "the earliest"; the class is declared in a header that is
not among the sources. -/
def MakeAtMost (cur : Option Nat) (ht : Nat) : Option Nat :=
  match cur with
  | none => some ht
  | some r => some (min r ht)

/-- The part of `FindOldestRecord` that consults the intents: the state and the `result` so
far (`none` is `HybridTime::kInvalid`). -/
def FindOldestRecordIntent (env : Env) (budget : Nat) (key_without_ht encoded_min : Slice)
    (s : IntentAwareIterator) : Option (IntentAwareIterator × Except Status (Option Nat)) :=
  if s.intent_iter_.isSome then
    match FindMatchingIntentRecordDocHybridTime env budget key_without_ht s with
    | none => none
    | some (s1, .error st) => some (s1, .error st)
    | some (s1, .ok intent_dht) =>
      if !intent_dht.isEmpty ∧ timeLT encoded_min intent_dht then
        match env.Decode intent_dht with
        | .error code => some (s1, .error (.Error code))
        | .ok ht => some (s1, .ok (some ht))
      else some (s1, .ok none)
  else some (s, .ok none)

/-- The part of `FindOldestRecord` that consults the regular candidate. -/
def FindOldestRecordRegular (env : Env) (key_without_ht : Slice) (min_hybrid_time : Nat)
    (result : Option Nat) (s : IntentAwareIterator) :
    IntentAwareIterator × Except Status (Option Nat) :=
  if s.regular_entry_.isSome then
    match GetMatchingRegularRecordDocHybridTime env key_without_ht s with
    | (s1, .error st) => (s1, .error st)
    | (s1, .ok regular_dht) =>
      if !regular_dht.isEmpty then
        match env.Decode regular_dht with
        | .error code => (s1, .error (.Error code))
        | .ok ht => (s1, .ok (if ht > min_hybrid_time then MakeAtMost result ht else result))
      else (s1, .ok result)
  else (s, .ok result)

/-- The repositioning of the regular cursor in `FindOldestRecord` after the seek: one step
back, or to the last record when the cursor is not valid, and `SkipFutureRecords`; the flag
is false when `RETURN_NOT_OK(status_)` returned. -/
def FindOldestRecordStepBack (env : Env) (budget : Nat) (s : IntentAwareIterator) :
    Option (IntentAwareIterator × Bool) :=
  if s.iter_.Entry.isSome then
    (SkipFutureRecords env .kForward budget { s with iter_ := s.iter_.Prev }).map
      fun t => (t, true)
  else
    let s1 := (HandleStatus s s.iter_.status).1
    if !s1.status_.ok then some (s1, false)
    else
      (SkipFutureRecords env .kForward budget { s1 with iter_ := s1.iter_.SeekToLast }).map
        fun t => (t, true)

/-- The query `FindOldestRecord(key_without_ht, min_hybrid_time)`: the state it leaves and
its result, where `none` is `HybridTime::kInvalid`. -/
def FindOldestRecord (env : Env) (budget : Nat) (key_without_ht : Slice)
    (min_hybrid_time : Nat) (s : IntentAwareIterator) :
    Option (IntentAwareIterator × Except Status (Option Nat)) :=
  match Fetch s with
  | .error st => some (s, .error st)
  | .ok entry =>
    if !entry.valid then some (s, .ok none) else
    let encoded_min := env.EncodeHybridTime min_hybrid_time
    match FindOldestRecordIntent env budget key_without_ht encoded_min s with
    | none => none
    | some (s1, .error st) => some (s1, .error st)
    | some (s1, .ok result) =>
      let s2 := { s1 with seek_buffer_ := key_without_ht ++ [env.kHybridTime] ++ encoded_min }
      match SeekForwardRegular env budget s2.seek_buffer_ s2 with
      | none => none
      | some s3 =>
        if !s3.status_.ok then some (s3, .error s3.status_) else
        match FindOldestRecordStepBack env budget s3 with
        | none => none
        | some (s4, false) => some (s4, .error s4.status_)
        | some (s4, true) =>
          some (FindOldestRecordRegular env key_without_ht min_hybrid_time result s4)

/-- What `FindLatestRecord` hands back: the state, the returned status and the contents of
the two output parameters (`none` for a null pointer). -/
structure FindLatestRecordResult where
  state : IntentAwareIterator
  status : Status
  latest_record_ht : Option Slice
  result_value : Option Slice
deriving DecidableEq, Repr

/-- The part of `FindLatestRecord` that consults the intents: the state, the new
`*latest_record_ht` and `found_later_intent_result`. -/
def FindLatestRecordIntent (env : Env) (budget : Nat) (key_without_ht latest : Slice)
    (s : IntentAwareIterator) : Option (IntentAwareIterator × Except Status (Slice × Bool)) :=
  if s.intent_iter_.isSome then
    match FindMatchingIntentRecordDocHybridTime env budget key_without_ht s with
    | none => none
    | some (s1, .error st) => some (s1, .error st)
    | some (s1, .ok dht) =>
      if !dht.isEmpty ∧ timeLT latest dht then some (s1, .ok (dht, true))
      else some (s1, .ok (latest, false))
  else some (s, .ok (latest, false))

/-- The part of `FindLatestRecord` that consults the regular candidate: the state, the new
`*latest_record_ht` and `found_later_regular_result`. -/
def FindLatestRecordRegular (env : Env) (key_without_ht latest : Slice)
    (s : IntentAwareIterator) : IntentAwareIterator × Except Status (Slice × Bool) :=
  if s.regular_entry_.isSome then
    match GetMatchingRegularRecordDocHybridTime env key_without_ht s with
    | (s1, .error st) => (s1, .error st)
    | (s1, .ok dht) =>
      if !dht.isEmpty ∧ timeLT latest dht then (s1, .ok (dht, true))
      else (s1, .ok (latest, false))
  else (s, .ok (latest, false))

/-- The final assignment to `*result_value` in `FindLatestRecord`. -/
def FindLatestRecordValue (s : IntentAwareIterator) (result_value : Option Slice)
    (found_later_intent_result found_later_regular_result : Bool) : Option Slice :=
  match result_value with
  | none => none
  | some v =>
    if found_later_regular_result then
      match s.regular_entry_ with
      | some e => some e.value
      | none => some v
    else if found_later_intent_result then some s.resolved_intent_value_
    else some v

/-- The query `FindLatestRecord(key_without_ht, latest_record_ht, result_value)`. -/
def FindLatestRecord (env : Env) (budget : Nat) (key_without_ht : Slice)
    (latest_record_ht : Option Slice) (result_value : Option Slice)
    (s : IntentAwareIterator) : Option FindLatestRecordResult :=
  match latest_record_ht with
  | none =>
    some { state := s, status := Status.Corruption, latest_record_ht := none,
           result_value := result_value }
  | some t0 =>
    match Fetch s with
    | .error st =>
      some { state := s, status := st, latest_record_ht := some t0, result_value := result_value }
    | .ok entry =>
      if !entry.valid then
        some { state := s, status := .OK, latest_record_ht := some t0,
               result_value := result_value }
      else
      match FindLatestRecordIntent env budget key_without_ht t0 s with
      | none => none
      | some (s1, .error st) =>
        some { state := s1, status := st, latest_record_ht := some t0,
               result_value := result_value }
      | some (s1, .ok (t1, found_later_intent_result)) =>
        let s2 := { s1 with seek_buffer_ :=
          key_without_ht ++ [env.kHybridTime] ++ s1.encoded_read_time_.global_limit }
        match SeekForwardRegular env budget s2.seek_buffer_ s2 with
        | none => none
        | some s3 =>
          match Fetch s3 with
          | .error st =>
            some { state := s3, status := st, latest_record_ht := some t1,
                   result_value := result_value }
          | .ok entry3 =>
            if !entry3.valid then
              some { state := s3, status := .OK, latest_record_ht := some t1,
                     result_value := result_value }
            else
            match FindLatestRecordRegular env key_without_ht t1 s3 with
            | (s4, .error st) =>
              some { state := s4, status := st, latest_record_ht := some t1,
                     result_value := result_value }
            | (s4, .ok (t2, found_later_regular_result)) =>
              some { state := s4, status := .OK, latest_record_ht := some t2,
                     result_value := FindLatestRecordValue s4 result_value
                       found_later_intent_result found_later_regular_result }

/-! ## Merge record chains -/

/-- The key `intent_iter_.key()` (empty when the intents cursor is not valid). -/
def intentKey (s : IntentAwareIterator) : Slice :=
  match intentEntry s with
  | none => []
  | some e => e.key

/-- The value `intent_iter_.value()` (empty when the intents cursor is not valid). -/
def intentValue (s : IntentAwareIterator) : Slice :=
  match intentEntry s with
  | none => []
  | some e => e.value

/-- The first loop of `NextFullValue`, over the regular cursor: the cursor it leaves and the
locals `found_record`, `key` and `key_data.value`. `start_key` is `key_data.key`; the byte
`key[key_size]` of a key of exactly `key_size` bytes is read as 0. -/
def NextFullValueRegularLoop (env : Env) (start_key : Slice) :
    Nat → Cursor → Slice → Slice → Option (Cursor × Bool × Slice × Slice)
  | 0, _, _, _ => none
  | budget + 1, c, key, value =>
    match c.Entry with
    | none => some (c, false, key, value)
    | some e =>
      if Slice.starts_with e.key start_key ∧
          e.key.getD start_key.length 0 = env.kHybridTime then
        if env.IsMergeRecord e.value then
          NextFullValueRegularLoop env start_key budget c.Next e.key e.value
        else some (c, true, e.key, e.value)
      else some (c, true, e.key, value)

/-- The second loop of `NextFullValue`, over the intents cursor: the state it leaves and the
locals `found_record` and `key_data.value`. -/
def NextFullValueIntentLoop (env : Env) (start_key : Slice) :
    Nat → IntentAwareIterator → Slice → Option (IntentAwareIterator × Bool × Slice)
  | 0, _, _ => none
  | budget + 1, s, value =>
    if IsIntentForTheSameKey env (intentKey s) start_key then
      if env.IsMergeRecord (intentValue s) then
        NextFullValueIntentLoop env start_key budget (onIntentIter Cursor.Next s) (intentValue s)
      else some (s, true, intentValue s)
    else some (s, false, value)

/-- The part of `NextFullValue` after the first loop that takes the time and the key from the
record the regular cursor stopped on: `key_data` and `found_something`. -/
def NextFullValueRegular (env : Env) (key_data : FetchedEntry) (found_record : Bool)
    (key : Slice) : Except Status (FetchedEntry × Bool) :=
  if found_record then
    match EncodedFromEnd env key with
    | .error code => .error (.Error code)
    | .ok write_time =>
      .ok ({ key_data with write_time := write_time,
                           key := Slice.WithoutSuffix key write_time.length }, true)
  else .ok (key_data, false)

/-- The part of `NextFullValue` that consults the intents cursor: the state, `key_data` and
`found_something`. -/
def NextFullValueIntents (env : Env) (budget : Nat) (key_data : FetchedEntry)
    (found_something : Bool) (s : IntentAwareIterator) :
    Option (IntentAwareIterator × Except Status (FetchedEntry × Bool)) :=
  if s.intent_iter_.isSome then
    match NextFullValueIntentLoop env key_data.key budget s key_data.value with
    | none => none
    | some (s1, found_record, value) =>
      let kd := { key_data with value := value }
      if found_record ∧ !(intentKey s1).isEmpty then
        match EncodedFromEnd env (intentKey s1) with
        | .error code => some (s1, .error (.Error code))
        | .ok doc_ht =>
          if timeLE kd.write_time doc_ht then
            some (s1, .ok ({ kd with write_time := doc_ht,
                                     key := Slice.WithoutSuffix (intentKey s1) doc_ht.length },
              true))
          else some (s1, .ok (kd, found_something))
      else some (s1, .ok (kd, found_something))
  else some (s, .ok (key_data, found_something))

/-- The operation `NextFullValue()`: the state it leaves and its result. -/
def NextFullValue (env : Env) (budget : Nat) (s : IntentAwareIterator) :
    Option (IntentAwareIterator × Except Status FetchedEntry) :=
  match Fetch s with
  | .error st => some (s, .error st)
  | .ok entry =>
    if !entry.valid ∨ !env.IsMergeRecord entry.value then some (s, .ok entry) else
    match NextFullValueRegularLoop env entry.key budget s.iter_ entry.key entry.value with
    | none => none
    | some (c, found_record, key, value) =>
      let s1 := (HandleStatus { s with iter_ := c } c.status).1
      if !s1.status_.ok then some (s1, .error s1.status_) else
      match NextFullValueRegular env { entry with write_time := env.kMin, value := value }
          found_record key with
      | .error st => some (s1, .error st)
      | .ok (kd1, found1) =>
        match NextFullValueIntents env budget kd1 found1 s1 with
        | none => none
        | some (s2, .error st) => some (s2, .error st)
        | some (s2, .ok (kd2, found_something)) =>
          let s3 := if found_something then s2 else { s2 with regular_entry_ := none }
          if !s3.status_.ok then some (s3, .error s3.status_) else some (s3, .ok kd2)

/-! ## A concrete collaborator

A small instance of `Env` on which the definitions can be evaluated: times are single bytes,
time `t` is encoded as `255 - t`, an intent key is `prefix ++ [20, encoded intent time]` and
an intent value is `[kind, commit time] ++ payload` with kind 0 for the reader's own
transaction, kind 1 for a committed transaction and any other kind for a pending one. -/

/-- Encoding of time `t` in the small instance. -/
def enc (t : Nat) : Slice := [255 - t]

/-- Intent decoder of the small instance. -/
def miniDecode (e : KeyValueEntry) : Result DecodeStrongWriteIntentResult :=
  if e.key.length < 2 then .error 2 else
  match e.value with
  | kind :: commit :: payload =>
    let intent_time := Slice.Suffix e.key 1
    .ok { intent_prefix_ := Slice.WithoutSuffix e.key 2
          intent_value := payload
          intent_time := intent_time
          value_time := if kind = 0 then intent_time else if kind = 1 then enc commit else enc 0
          same_transaction := decide (kind = 0) }
  | _ => .error 2

/-- The small instance of the collaborators. -/
def miniEnv : Env where
  kHybridTime := 35
  kTransactionId := 120
  kMaxByte := 255
  kHighest := 126
  kGreaterThanIntentType := 21
  kMin := enc 0
  IntentValueType := fun b => b == 20
  GetEncodedSize := fun key => if key.isEmpty then .error 2 else .ok 1
  EncodedFromStart := fun value => if value.isEmpty then .error 2 else .ok 1
  DecodeStrongWriteIntent := miniDecode
  MaxAllowedValueTime := fun d rt =>
    if d.same_transaction then rt.in_txn_limit
    else if timeLT rt.local_limit d.intent_time then rt.read else rt.global_limit
  StrongWriteSuffix := fun _ => [20]
  DecodeFromEnd := fun key => if key.isEmpty then .error 2 else .ok 1
  DocKeyEncodedSize := fun key => if key.isEmpty then .error 2 else .ok 1
  SeekForward := fun target c =>
    match c.Entry with
    | none => c
    | some e => if Slice.compare e.key target ≥ 0 then c else c.Seek target
  SeekPastSubKey := fun key c => c.Seek (key ++ [35] ++ enc 0)
  SeekOutOfSubKey := fun key c => c.Seek (key ++ [255])
  max_next_calls_while_skipping_future_records := 3
  IsMergeRecord := fun value => value.head? == some 77
  Decode := fun t =>
    match t with
    | [b] => .ok (255 - b)
    | _ => .error 2
  EncodeHybridTime := enc
  CheckHybridTimeSizeAndValueType := fun key =>
    if key.length < 2 then .error 2
    else if key.getD (key.length - 2) 0 = 35 then .ok 1 else .error 2

/-- An iterator over the given regular and intents content with nothing positioned yet. -/
def mkIterator (rt : EncodedReadHybridTime) (upperbound : Slice)
    (regular : List KeyValueEntry) (intents : Option (List KeyValueEntry)) :
    IntentAwareIterator where
  encoded_read_time_ := rt
  upperbound_ := upperbound
  iter_ := { data := regular, pos := none, upper := none, status := .OK }
  intent_iter_ := intents.map fun d => { data := d, pos := none, upper := none, status := .OK }
  intent_upperbound_buffer_ := []
  status_ := .OK
  max_seen_ht_ := enc 0
  regular_entry_ := none
  resolved_intent_state_ := .kNoIntent
  resolved_intent_key_prefix_ := []
  resolved_intent_txn_dht_ := enc 0
  intent_dht_from_same_txn_ := enc 0
  resolved_intent_sub_doc_key_encoded_ := []
  resolved_intent_value_ := []
  seek_buffer_ := []
  entry_ := { valid := false, key := [], value := [], write_time := [], same_transaction := false }

/-! ## Snapshot bound of the skipper: auxiliary definitions and example states -/

/-- A regular store with one transactional record of key `k` committed at time 15 whose
value embeds the intent time 12, read with `read = 10`, `local_limit = 12`,
`global_limit = 20`; the regular cursor rests on the record. -/
def snapshotBoundState : IntentAwareIterator :=
  let s := mkIterator
    { read := enc 10, local_limit := enc 12, global_limit := enc 20, in_txn_limit := enc 10 }
    [255] [{ key := [107, 35] ++ enc 15, value := [35] ++ enc 12 ++ [1] }] none
  { s with iter_ := s.iter_.Seek [107] }

/-- The state `SkipFutureRecords` leaves from `snapshotBoundState`: the record is kept. -/
def snapshotBoundResult : IntentAwareIterator :=
  { snapshotBoundState with regular_entry_ := some { key := [107, 35, 240], value := [1] } }

/-! ## The merge of the two sources: auxiliary definitions and example states -/

/-- The regular record `k → v1` at time 10 next to an intent on `k` resolved at time 12. -/
def mergeState : IntentAwareIterator :=
  { mkIterator
      { read := enc 15, local_limit := enc 15, global_limit := enc 15, in_txn_limit := enc 15 }
      [255] [{ key := [107, 35] ++ enc 10, value := [1] }] none with
    regular_entry_ := some { key := [107] ++ [35] ++ enc 10, value := [1] }
    resolved_intent_state_ := .kValid
    resolved_intent_key_prefix_ := [107]
    resolved_intent_txn_dht_ := enc 12
    resolved_intent_value_ := [9] }

/-! ## Intents the resolver ignores: auxiliary definitions and example states -/

/-- Regular `k → v2` at 20 and `k → v1` at 10, read at 15, with one intent on `k` written at
provisional time 25 by a transaction that is still pending. -/
def pendingIntentState : IntentAwareIterator :=
  mkIterator
    { read := enc 15, local_limit := enc 15, global_limit := enc 15, in_txn_limit := enc 15 }
    [255]
    [{ key := [107, 35] ++ enc 20, value := [2] }, { key := [107, 35] ++ enc 10, value := [1] }]
    (some [{ key := [107, 20] ++ enc 25, value := [2, 0, 9] }])

/-! ## Same-transaction visibility: auxiliary definitions and example states -/

/-- A regular record `k → v` committed at `commit`, read at 15 with all limits at 30, and an
intent on `k` written by the reader's own transaction at provisional time 25. -/
def ownIntentState (commit : Nat) : IntentAwareIterator :=
  mkIterator
    { read := enc 15, local_limit := enc 30, global_limit := enc 30, in_txn_limit := enc 30 }
    [255]
    [{ key := [107, 35] ++ enc commit, value := [1] }]
    (some [{ key := [107, 20] ++ enc 25, value := [0, 0, 9] }])

/-! ## Positioning in a failed state: auxiliary definitions and example states -/

/-- The iterator over `k → v2` at 20 and `k → v1` at 10 with a latched I/O error. -/
def failedState : IntentAwareIterator :=
  { mkIterator
      { read := enc 15, local_limit := enc 15, global_limit := enc 15, in_txn_limit := enc 15 }
      [255]
      [{ key := [107, 35] ++ enc 20, value := [2] }, { key := [107, 35] ++ enc 10, value := [1] }]
      none with
    status_ := Status.IOError }

/-! ## Seek idempotence: auxiliary definitions and example states -/

/-- The fields of the state other than the fetched entry, the maximum seen time, the seek
buffer and the three resolved-intent buffers. -/
def core (t : IntentAwareIterator) : IntentAwareIterator :=
  { t with
    entry_ := { valid := false, key := [], value := [], write_time := [],
                same_transaction := false }
    max_seen_ht_ := []
    resolved_intent_key_prefix_ := []
    resolved_intent_value_ := []
    resolved_intent_sub_doc_key_encoded_ := []
    seek_buffer_ := [] }

/-- Two states that the resolver cannot tell apart: equal cores and, once an intent is
resolved, equal resolved prefix and value. -/
def Rel (t t' : IntentAwareIterator) : Prop :=
  core t = core t' ∧
  (t.resolved_intent_state_ ≠ .kNoIntent →
    t.resolved_intent_key_prefix_ = t'.resolved_intent_key_prefix_ ∧
    t.resolved_intent_value_ = t'.resolved_intent_value_)

/-- The part of a cursor no operation changes: its content and its I/O status. -/
def cursorStatic (c : Cursor) : List KeyValueEntry × Status := (c.data, c.status)

/-- What resolving intents leaves alone: everything about the regular side and the fetched
entry, the content of the intents cursor, and a latched error. -/
def Frame (t r : IntentAwareIterator) : Prop :=
  r.encoded_read_time_ = t.encoded_read_time_ ∧ r.upperbound_ = t.upperbound_ ∧
  r.iter_ = t.iter_ ∧ r.regular_entry_ = t.regular_entry_ ∧ r.entry_ = t.entry_ ∧
  r.max_seen_ht_ = t.max_seen_ht_ ∧ r.seek_buffer_ = t.seek_buffer_ ∧
  r.intent_iter_.map cursorStatic = t.intent_iter_.map cursorStatic ∧
  (r.status_.ok = true → t.status_.ok = true)

/-- At a normal exit the buffer `resolved_intent_sub_doc_key_encoded_` of a resolved intent
is the same in both states. -/
def ExitAgree (r r' : IntentAwareIterator) : Prop :=
  r.status_.ok = true → r.resolved_intent_state_ ≠ .kNoIntent →
    r.resolved_intent_sub_doc_key_encoded_ = r'.resolved_intent_sub_doc_key_encoded_

/-- The cursor an outcome of the skipper's loop leaves. -/
def SkipOutcome.cursor : SkipOutcome → Cursor
  | .found c _ => c
  | .outOfBounds c => c
  | .failed c _ => c
  | .exhausted c => c

/-- The state `SkipFutureRecords` builds from an outcome of its loop. -/
def applySkipOutcome (s : IntentAwareIterator) : SkipOutcome → IntentAwareIterator
  | .found c e => { s with iter_ := c, regular_entry_ := some e }
  | .outOfBounds c => { s with iter_ := c, regular_entry_ := none }
  | .failed c code => { s with iter_ := c, status_ := .Error code }
  | .exhausted c => { (HandleStatus { s with iter_ := c } c.status).1 with regular_entry_ := none }

/-- The candidate an outcome of the skipper's loop leaves. -/
def SkipOutcome.candidate : SkipOutcome → Option KeyValueEntry
  | .found _ e => some e
  | _ => none

/-- The status an outcome of the skipper's loop leaves, from the status `st` before. -/
def SkipOutcome.newStatus (st : Status) : SkipOutcome → Status
  | .found _ _ => st
  | .outOfBounds _ => st
  | .failed _ code => .Error code
  | .exhausted c => if c.status.ok then st else c.status

/-- The buffer `SetIntentUpperbound` computes from the regular candidate and the scan upper
bound; `none` when the time suffix of the candidate does not decode. -/
def intentUpperboundFor (env : Env) (re : Option KeyValueEntry) (ub : Slice) : Option Slice :=
  match re with
  | some e =>
    match env.GetEncodedSize e.key with
    | .error _ => none
    | .ok n => some (Slice.WithoutSuffix e.key (1 + n) ++ [env.kMaxByte])
  | none => some (if ub.isEmpty then [env.kHighest] else ub)

/-- The part of `Seek(key, full)` after `SkipFutureRecords`. -/
def SeekTail (env : Env) (budget : Nat) (key : Slice) (full : Bool) (s1 : IntentAwareIterator) :
    Option IntentAwareIterator :=
  if s1.intent_iter_.isSome then
    let r := SetIntentUpperbound env s1
    if !r.2 then some r.1 else
    let s2 := if full then { r.1 with seek_buffer_ := key ++ env.StrongWriteSuffix key } else r.1
    let key2 := if full then s2.seek_buffer_ else key
    match SeekToSuitableIntent env .kForward budget (onIntentIter (fun it => it.Seek key2) s2) with
    | none => none
    | some s3 => some (FillEntry env s3)
  else some (FillEntry env s1)

/-- What the tail of `Seek` reads of the state it is given. -/
def TailRel (b b' : IntentAwareIterator) : Prop :=
  b'.encoded_read_time_ = b.encoded_read_time_ ∧ b'.upperbound_ = b.upperbound_ ∧
  b'.iter_ = b.iter_ ∧ b'.regular_entry_ = b.regular_entry_ ∧ b'.status_ = b.status_ ∧
  b'.intent_iter_.map cursorStatic = b.intent_iter_.map cursorStatic ∧
  (b.intent_iter_ = none → core b' = core b ∧
    b'.resolved_intent_key_prefix_ = b.resolved_intent_key_prefix_ ∧
    b'.resolved_intent_value_ = b.resolved_intent_value_ ∧
    b'.resolved_intent_sub_doc_key_encoded_ = b.resolved_intent_sub_doc_key_encoded_)

/-- The intent side of the state: the intents cursor, its bound and the resolved intent. -/
def IntentSide (t r : IntentAwareIterator) : Prop :=
  r.intent_iter_ = t.intent_iter_ ∧
  r.intent_upperbound_buffer_ = t.intent_upperbound_buffer_ ∧
  r.resolved_intent_state_ = t.resolved_intent_state_ ∧
  r.resolved_intent_txn_dht_ = t.resolved_intent_txn_dht_ ∧
  r.intent_dht_from_same_txn_ = t.intent_dht_from_same_txn_ ∧
  r.resolved_intent_key_prefix_ = t.resolved_intent_key_prefix_ ∧
  r.resolved_intent_value_ = t.resolved_intent_value_ ∧
  r.resolved_intent_sub_doc_key_encoded_ = t.resolved_intent_sub_doc_key_encoded_

/-- The state on which `SeekToSuitableIntent` starts its loop. -/
def resetResolved (env : Env) (s : IntentAwareIterator) : IntentAwareIterator :=
  { s with
    resolved_intent_state_ := .kNoIntent
    resolved_intent_txn_dht_ := env.kMin
    intent_dht_from_same_txn_ := env.kMin }

/-- The state `Seek(k)` leaves from `pendingIntentState`. -/
def seekOnceState : IntentAwareIterator :=
  (Seek miniEnv 10 [107] false pendingIntentState).getD pendingIntentState

/-! ## Skipping by steps and skipping with seeks: auxiliary definitions and example states -/

/-- The content of a cursor is in byte order of its keys. -/
def SortedKeys (data : List KeyValueEntry) : Prop :=
  data.Pairwise (fun a b => Slice.compare a.key b.key ≤ 0)

/-- The part of a key before its time suffix (the logical key and the marker byte); `none`
when the time suffix does not decode. -/
def keyBeforeTime (env : Env) (key : Slice) : Option Slice :=
  match env.GetEncodedSize key with
  | .error _ => none
  | .ok n => some (Slice.WithoutSuffix key n)

/-- Well-formed keys: the time suffix of every key decodes, and a key that starts with the
part before the time suffix of another key has that same part before its own time suffix
(the marker byte ends the logical key). -/
def WellFormedKeys (env : Env) (data : List KeyValueEntry) : Bool :=
  data.all fun a =>
    match keyBeforeTime env a.key with
    | none => false
    | some p =>
      data.all fun b => !Slice.starts_with b.key p || (keyBeforeTime env b.key == some p)

/-- The limits of the snapshot are ordered: `read ≤ global_limit` and
`local_limit ≤ global_limit`. -/
def OrderedLimits (rt : EncodedReadHybridTime) : Prop :=
  timeLE rt.read rt.global_limit = true ∧ timeLE rt.local_limit rt.global_limit = true

/-- The result of examining records one after the other. -/
inductive ScanResult where
  | found (e : KeyValueEntry)
  | outOfBounds
  | failed (code : Nat)
  | exhausted
deriving DecidableEq, Repr

/-- Examining the records of a list in order, one at a time: the first record beyond the
upper bound, kept by the visibility test or failing to decode ends the scan. -/
def scanRecords (env : Env) (rt : EncodedReadHybridTime) (ub : Slice) :
    List KeyValueEntry → ScanResult
  | [] => .exhausted
  | entry :: rest =>
    if !SatisfyBounds ub entry.key then .outOfBounds else
    match SkipFutureRecordsCheck env rt entry with
    | .keep e => .found e
    | .fail code => .failed code
    | .skip _ => scanRecords env rt ub rest

/-- Two scan results leave the same regular candidate and the same error. -/
def ScanResult.same (r r' : ScanResult) : Prop :=
  r = r' ∨ ((r = .outOfBounds ∨ r = .exhausted) ∧ (r' = .outOfBounds ∨ r' = .exhausted))

/-- The scan result of an outcome of the skipper's loop: the outcome without its cursor. -/
def SkipOutcome.result : SkipOutcome → ScanResult
  | .found _ e => .found e
  | .outOfBounds _ => .outOfBounds
  | .failed _ code => .failed code
  | .exhausted _ => .exhausted

/-- The reference of the skip-optimization claim, after the words of the spec ("pure
stepping", "forward skipping that only steps one record at a time"): the loop of forward
`SkipFutureRecords` without its seek-ahead branch. -/
def SkipFutureRecordsStepOnlyLoop (env : Env) (rt : EncodedReadHybridTime) (upperbound : Slice) :
    Nat → Cursor → Option SkipOutcome
  | 0, _ => none
  | budget + 1, c =>
    match c.Entry with
    | none => some (.exhausted c)
    | some entry =>
      if !SatisfyBounds upperbound entry.key then some (.outOfBounds c) else
      match SkipFutureRecordsCheck env rt entry with
      | .keep e => some (.found c e)
      | .fail code => some (.failed c code)
      | .skip _ => SkipFutureRecordsStepOnlyLoop env rt upperbound budget c.Next

/-- Forward `SkipFutureRecords` that only steps, on the iterator state. -/
def SkipFutureRecordsStepOnly (env : Env) (budget : Nat) (s : IntentAwareIterator) :
    Option IntentAwareIterator :=
  (SkipFutureRecordsStepOnlyLoop env s.encoded_read_time_ s.upperbound_ budget s.iter_).map
    (applySkipOutcome s)

/-- Key `k` with four buried future versions (times 50, 45, 40, 35) ahead of the visible
one (time 10), read at 15 with all limits at 15; the regular cursor rests on the first. -/
def buriedState : IntentAwareIterator :=
  let s := mkIterator
    { read := enc 15, local_limit := enc 15, global_limit := enc 15, in_txn_limit := enc 15 }
    [255]
    [{ key := [107, 35] ++ enc 50, value := [5] }, { key := [107, 35] ++ enc 45, value := [4] },
     { key := [107, 35] ++ enc 40, value := [3] }, { key := [107, 35] ++ enc 35, value := [2] },
     { key := [107, 35] ++ enc 10, value := [1] }] none
  { s with iter_ := { s.iter_ with pos := some 0 } }

/-- Key `k` at times 50, 45, 40, 32 and 8, read with `read = local_limit = 35` and
`global_limit = 10`; the regular cursor rests on the first record. -/
def unorderedLimitsState : IntentAwareIterator :=
  let s := mkIterator
    { read := enc 35, local_limit := enc 35, global_limit := enc 10, in_txn_limit := enc 35 }
    [255]
    [{ key := [107, 35] ++ enc 50, value := [5] }, { key := [107, 35] ++ enc 45, value := [4] },
     { key := [107, 35] ++ enc 40, value := [3] }, { key := [107, 35] ++ enc 32, value := [2] },
     { key := [107, 35] ++ enc 8, value := [1] }] none
  { s with iter_ := { s.iter_ with pos := some 0 } }

/-- Key `k` at times 222, 221, 220 and 10 and, before the last of them in byte order, the
longer key `(k, 0x23)` at time 5, read with all limits at 15; the regular cursor rests on the
first record. -/
def extendedKeyAtStart : IntentAwareIterator :=
  let s := mkIterator
    { read := enc 15, local_limit := enc 15, global_limit := enc 15, in_txn_limit := enc 15 }
    [255]
    [{ key := [107, 35] ++ enc 222, value := [5] }, { key := [107, 35] ++ enc 221, value := [4] },
     { key := [107, 35] ++ enc 220, value := [3] }, { key := [107, 35, 35] ++ enc 5, value := [2] },
     { key := [107, 35] ++ enc 10, value := [1] }] none
  { s with iter_ := { s.iter_ with pos := some 0 } }

/-! ## Seek and Fetch over the regular store: auxiliary definitions and example states -/

/-- Scenario A: the regular store has `k → v2` at time 20 and `k → v1` at time 10, there is
no intents cursor, and the snapshot reads at 15. -/
def scenarioA : IntentAwareIterator :=
  mkIterator
    { read := enc 15, local_limit := enc 15, global_limit := enc 15, in_txn_limit := enc 15 }
    [255]
    [{ key := [107, 35] ++ enc 20, value := [2] }, { key := [107, 35] ++ enc 10, value := [1] }]
    none

/-- A byte-sorted store in which key `k` has three future versions (times 222, 221, 220),
followed by a record whose key extends `k ++ kHybridTime` (logical key `k ++ kHybridTime`
at time 5) and by `k → v1` at time 10; read at 15 with all limits at 15. -/
def extendedKeyState : IntentAwareIterator :=
  mkIterator
    { read := enc 15, local_limit := enc 15, global_limit := enc 15, in_txn_limit := enc 15 }
    [255]
    [{ key := [107, 35] ++ enc 222, value := [5] }, { key := [107, 35] ++ enc 221, value := [4] },
     { key := [107, 35] ++ enc 220, value := [3] }, { key := [107, 35, 35] ++ enc 5, value := [2] },
     { key := [107, 35] ++ enc 10, value := [1] }] none

/-! ## Order of the records exposed by Next: auxiliary definitions and example states -/

/-- The content of a cursor is in strict byte order of its keys. -/
def StrictlySortedKeys (data : List KeyValueEntry) : Prop :=
  data.Pairwise (fun a b => Slice.compare a.key b.key < 0)

/-- The regular cursor of `s` rests on the record of `data` whose key is the key of `e`. -/
def RestsOn (data : List KeyValueEntry) (s : IntentAwareIterator) (e : KeyValueEntry)
    (p : Nat) : Prop :=
  s.regular_entry_ = some e ∧ s.iter_.data = data ∧ s.iter_.pos = some p ∧
    ∃ raw, data.get? p = some raw ∧ raw.key = e.key

/-- A non-failed iterator, no intents cursor, `read = 15`, over two versions of `k` (written at
10 and at 5, both visible) followed by one version of a later key. -/
def twoVersionsState : IntentAwareIterator :=
  mkIterator
    { read := enc 15, local_limit := enc 15, global_limit := enc 15, in_txn_limit := enc 15 }
    [255]
    [{ key := [107, 35] ++ enc 10, value := [2] }, { key := [107, 35] ++ enc 5, value := [1] },
     { key := [108, 35] ++ enc 7, value := [3] }]
    none

/-- The state `Seek(k)` leaves from `twoVersionsState`. -/
def twoVersionsSought : IntentAwareIterator :=
  (Seek miniEnv 10 [107] false twoVersionsState).getD twoVersionsState

/-- The state `Next()` leaves from `twoVersionsSought`. -/
def twoVersionsNext : IntentAwareIterator :=
  (Next miniEnv 10 twoVersionsSought).getD twoVersionsSought

/-! ## Fetch, the stored status and the upper bound: auxiliary definitions and example states -/

/-- Scenario A with a latched corruption error and an intents cursor that reports an I/O
error. -/
def latchedState : IntentAwareIterator :=
  { scenarioA with
    status_ := Status.Corruption
    intent_iter_ := some { data := [], pos := none, upper := none, status := Status.IOError } }

/-- A non-failed iterator whose regular candidate is `k@10`, whose regular store holds a
record with an empty key (its time suffix does not decode) before that record, and whose
intents cursor reports an I/O error. -/
def twoErrorsState : IntentAwareIterator :=
  { mkIterator
      { read := enc 15, local_limit := enc 15, global_limit := enc 15, in_txn_limit := enc 15 }
      [255]
      [{ key := [], value := [2] }, { key := [107, 35] ++ enc 10, value := [1] }]
      none with
    regular_entry_ := some { key := [107, 35] ++ enc 10, value := [1] }
    intent_iter_ := some { data := [], pos := none, upper := none, status := Status.IOError } }

/-- The record `k@10` read at 15 under the upper bound `k@10` itself; the regular cursor rests
on the record. -/
def boundaryState : IntentAwareIterator :=
  let s := mkIterator
    { read := enc 15, local_limit := enc 15, global_limit := enc 15, in_txn_limit := enc 15 }
    ([107, 35] ++ enc 10)
    [{ key := [107, 35] ++ enc 10, value := [1] }] none
  { s with iter_ := { s.iter_ with pos := some 0 } }

/-! ## Read restart: auxiliary definitions and example states -/

/-- A regular record `k → v` committed at 12, read at 15 with all limits at 30, and an intent
on `k` written at provisional time 18 by another transaction that committed at 20. -/
def foreignIntentState : IntentAwareIterator :=
  mkIterator
    { read := enc 15, local_limit := enc 30, global_limit := enc 30, in_txn_limit := enc 30 }
    [255]
    [{ key := [107, 35] ++ enc 12, value := [1] }]
    (some [{ key := [107, 20] ++ enc 18, value := [1, 20, 9] }])

/-- The state before the final `FillEntry` of `Seek(k)` from `foreignIntentState`. -/
def foreignIntentResolved : IntentAwareIterator :=
  { foreignIntentState with
    iter_ := { foreignIntentState.iter_ with pos := some 0 }
    regular_entry_ := some { key := [107, 35] ++ enc 12, value := [1] }
    intent_iter_ := some { data := [{ key := [107, 20] ++ enc 18, value := [1, 20, 9] }],
                           pos := some 1, upper := some [107, 255], status := .OK }
    intent_upperbound_buffer_ := [107, 255]
    resolved_intent_state_ := .kValid
    resolved_intent_key_prefix_ := [107]
    resolved_intent_txn_dht_ := enc 20
    resolved_intent_sub_doc_key_encoded_ := [107, 35] ++ enc 20
    resolved_intent_value_ := [9] }

/-! ## Queries for one key: auxiliary definitions and example states -/

/-- What the operations on the intents cursor leave alone on the regular side: the snapshot,
the upper bound, the regular cursor, the regular candidate and the fetched entry; and they do
not clear an error. -/
def RegularSide (t r : IntentAwareIterator) : Prop :=
  r.encoded_read_time_ = t.encoded_read_time_ ∧ r.upperbound_ = t.upperbound_ ∧
  r.iter_ = t.iter_ ∧ r.regular_entry_ = t.regular_entry_ ∧ r.entry_ = t.entry_ ∧
  (r.status_.ok = true → t.status_.ok = true)

/-- The later of the time `a` and the time `b`, where an empty `b` is no time at all. -/
def laterOf (a b : Slice) : Slice := if !b.isEmpty ∧ timeLT a b then b else a

/-- The time of the resolved intent of state `st` when its prefix is exactly `key`, the empty
slice otherwise. -/
def matchingIntentTime (env : Env) (key : Slice) (st : IntentAwareIterator) : Slice :=
  if st.resolved_intent_state_ = .kValid ∧
      Slice.compare st.resolved_intent_key_prefix_ key = 0 then
    (GetIntentDocHybridTime env st).1
  else []

/-- The value of the regular candidate, `dflt` when there is none. -/
def candidateValue (st : IntentAwareIterator) (dflt : Slice) : Slice :=
  match st.regular_entry_ with
  | some e => e.value
  | none => dflt

/-- The hybrid time of the intent time `ti` when it counts for `FindOldestRecord`: it is not
absent and it is later than the encoded minimum. -/
def countedIntentTime (env : Env) (min_hybrid_time : Nat) (ti : Slice) : Option Nat :=
  if !ti.isEmpty ∧ timeLT (env.EncodeHybridTime min_hybrid_time) ti then
    match env.Decode ti with
    | .ok ht => some ht
    | .error _ => none
  else none

/-- The hybrid time of the regular time `tr` when it counts for `FindOldestRecord`: it is not
absent and its hybrid time is greater than the minimum. -/
def countedRegularTime (env : Env) (min_hybrid_time : Nat) (tr : Slice) : Option Nat :=
  if !tr.isEmpty then
    match env.Decode tr with
    | .ok ht => if ht > min_hybrid_time then some ht else none
    | .error _ => none
  else none

/-- The earlier of two hybrid times either of which may be absent. -/
def earlierOf (a b : Option Nat) : Option Nat :=
  match a, b with
  | none, b => b
  | some x, none => some x
  | some x, some y => some (min x y)

/-- A regular record `k → v` committed at `commit`, read at 15, and an intent on `k` written
at provisional time 11 by another transaction that committed at 12. -/
def committedIntentState (commit : Nat) : IntentAwareIterator :=
  mkIterator
    { read := enc 15, local_limit := enc 15, global_limit := enc 15, in_txn_limit := enc 15 }
    [255]
    [{ key := [107, 35] ++ enc commit, value := [1] }]
    (some [{ key := [107, 20] ++ enc 11, value := [1, 12, 9] }])

/-- The state `Seek(k)` leaves from `committedIntentState 12`. -/
def committedIntentSought : IntentAwareIterator :=
  (Seek miniEnv 10 [107] false (committedIntentState 12)).getD (committedIntentState 12)

/-- What `FindLatestRecord(k, &t, &v)` with `t = kMin` and an empty `v` hands back in
`committedIntentSought`. -/
def latestRecordOut : FindLatestRecordResult :=
  match FindLatestRecord miniEnv 10 [107] (some (enc 0)) (some []) committedIntentSought with
  | some out => out
  | none => { state := committedIntentSought, status := Status.Corruption,
              latest_record_ht := none, result_value := none }

/-- No regular record, read at 15, and two intents on `k` by two other transactions that
committed at 14 and at 12. -/
def twoIntentsState : IntentAwareIterator :=
  mkIterator
    { read := enc 15, local_limit := enc 15, global_limit := enc 15, in_txn_limit := enc 15 }
    [255]
    []
    (some [{ key := [107, 20] ++ enc 13, value := [1, 14, 8] },
           { key := [107, 20] ++ enc 11, value := [1, 12, 9] }])

/-- The state `Seek(k)` leaves from `twoIntentsState`. -/
def twoIntentsSought : IntentAwareIterator :=
  (Seek miniEnv 10 [107] false twoIntentsState).getD twoIntentsState

/-- Three versions of `k` read with `read = local_limit = 15` and `global_limit = 20`: the
one committed at 18 embeds the intent time 14 and is visible, the plain one committed at 17
is not, the plain one committed at 10 is. -/
def mixedVisibilityState : IntentAwareIterator :=
  mkIterator
    { read := enc 15, local_limit := enc 15, global_limit := enc 20, in_txn_limit := enc 15 }
    [255]
    [{ key := [107, 35] ++ enc 18, value := [35] ++ enc 14 ++ [3] },
     { key := [107, 35] ++ enc 17, value := [2] },
     { key := [107, 35] ++ enc 10, value := [1] }]
    none

/-- The state `Seek(k)` leaves from `mixedVisibilityState`. -/
def mixedVisibilitySought : IntentAwareIterator :=
  (Seek miniEnv 10 [107] false mixedVisibilityState).getD mixedVisibilityState

/-- Three versions of `k`, committed at 14, 12 and 10, read at 15, no intents cursor. -/
def threeVersionsState : IntentAwareIterator :=
  mkIterator
    { read := enc 15, local_limit := enc 15, global_limit := enc 15, in_txn_limit := enc 15 }
    [255]
    [{ key := [107, 35] ++ enc 14, value := [3] }, { key := [107, 35] ++ enc 12, value := [2] },
     { key := [107, 35] ++ enc 10, value := [1] }]
    none

/-- The state `Seek(k)` leaves from `threeVersionsState`. -/
def threeVersionsSought : IntentAwareIterator :=
  (Seek miniEnv 10 [107] false threeVersionsState).getD threeVersionsState

/-- The state `FindOldestRecord(k, 11)` leaves from `threeVersionsSought`. -/
def threeVersionsOldest : IntentAwareIterator :=
  match FindOldestRecord miniEnv 10 [107] 11 threeVersionsSought with
  | some r => r.1
  | none => threeVersionsSought

/-! ## Merge record chains: auxiliary definitions and example states -/

/-- A record of the key `K`: the key is `K`, the `kHybridTime` marker and a time. -/
def IsRecordOf (env : Env) (K : Slice) (e : KeyValueEntry) : Prop :=
  ∃ t, e.key = K ++ [env.kHybridTime] ++ t

/-- Scenario D: the merge records `k → mergeOp2` at time 8 and `k → mergeOp1` at time 5
before the base record `k → base` at time 2, read at 10, no intents cursor. -/
def scenarioD : IntentAwareIterator :=
  mkIterator
    { read := enc 10, local_limit := enc 10, global_limit := enc 10, in_txn_limit := enc 10 }
    [255]
    [{ key := [107, 35] ++ enc 8, value := [77, 2] },
     { key := [107, 35] ++ enc 5, value := [77, 1] },
     { key := [107, 35] ++ enc 2, value := [9] }]
    none

/-- The state `Seek(k)` leaves in Scenario D. -/
def scenarioDSought : IntentAwareIterator :=
  (Seek miniEnv 10 [107] false scenarioD).getD scenarioD

/-- The merge record `k → mergeOp` at time 8 followed by the record `l → w` at time 5 of
another key, read at 10, no intents cursor. -/
def keyChangeState : IntentAwareIterator :=
  mkIterator
    { read := enc 10, local_limit := enc 10, global_limit := enc 10, in_txn_limit := enc 10 }
    [255]
    [{ key := [107, 35] ++ enc 8, value := [77, 2] },
     { key := [108, 35] ++ enc 5, value := [9] }]
    none

/-- The state `Seek(k)` leaves from `keyChangeState`. -/
def keyChangeSought : IntentAwareIterator :=
  (Seek miniEnv 10 [107] false keyChangeState).getD keyChangeState

/-! ## Next on an intent winner: auxiliary definitions and example states -/

/-- The state `Seek(k)` leaves from `ownIntentState 5`: the regular candidate is `k@5` and the
reader's own intent on `k`, written at 25, is the winner. -/
def intentWinsState : IntentAwareIterator :=
  (Seek miniEnv 20 [107] false (ownIntentState 5)).getD (ownIntentState 5)

/-! ## Resolved intents beyond the scan bound: auxiliary definitions and example states -/

/-- The intent on `k` committed at 12, as an entry of the intents cursor. -/
def committedIntentEntry : KeyValueEntry := { key := [107, 20] ++ enc 12, value := [1, 12, 9] }

/-- No regular records and one intent on `k`, committed at 12; read at 15 with all limits at
15 and the scan upper bound `[255]`. -/
def resolvedIntentStart : IntentAwareIterator :=
  mkIterator
    { read := enc 15, local_limit := enc 15, global_limit := enc 15, in_txn_limit := enc 15 }
    [255] [] (some [committedIntentEntry])

/-- The state `Seek(k)` leaves from `resolvedIntentStart`: the intent on `k` is resolved as
Valid. -/
def resolvedIntentSought : IntentAwareIterator :=
  (Seek miniEnv 10 [107] false resolvedIntentStart).getD resolvedIntentStart

/-- The state after `SetUpperbound([100])` lowered the scan upper bound of
`resolvedIntentSought` below `k`. -/
def boundLoweredState : IntentAwareIterator :=
  (SetUpperbound [100] resolvedIntentSought).1

/-- The state `SkipFutureIntents` leaves from `boundLoweredState`. -/
def boundLoweredRechecked : IntentAwareIterator :=
  (SkipFutureIntents miniEnv 10 boundLoweredState).getD boundLoweredState

/-! ## The merge rules: auxiliary definitions and example states -/

/-- The state `mergeState` with the buffer of the resolved intent rebuilt. -/
def mergeStateEncoded : IntentAwareIterator :=
  UpdateResolvedIntentSubDocKeyEncoded miniEnv mergeState

/-! ## The seek-ahead threshold: auxiliary definitions and example states -/

/-- The collaborators with the flag `max_next_calls_while_skipping_future_records` set to
`n`. -/
def withThreshold (env : Env) (n : Nat) : Env :=
  { env with max_next_calls_while_skipping_future_records := n }

/-- Key `k` with a plain record at time 15 ahead of the record at time 5, read with
`read = local_limit = 10` and `global_limit = 20`: the first record is skipped and is not
later than `global_limit`; the regular cursor rests on it. -/
def slowRecordState : IntentAwareIterator :=
  let s := mkIterator
    { read := enc 10, local_limit := enc 10, global_limit := enc 20, in_txn_limit := enc 10 }
    [255]
    [{ key := [107, 35] ++ enc 15, value := [2] }, { key := [107, 35] ++ enc 5, value := [1] }]
    none
  { s with iter_ := { s.iter_ with pos := some 0 } }

/-! ## Same-transaction pinning: auxiliary definitions and example states -/

/-- The reader's own intent on `k`, written at provisional time 25. -/
def ownIntentEntry : KeyValueEntry := { key := [107, 20] ++ enc 25, value := [0, 0, 9] }

/-- An intent on `k` of another transaction, written at 18 and committed at 20. -/
def foreignLaterEntry : KeyValueEntry := { key := [107, 20] ++ enc 18, value := [1, 20, 7] }

/-- No regular records, and on `k` the reader's own intent followed by the intent of another
transaction committed at 20; read at 15 with all limits at 30. -/
def ownThenForeignState : IntentAwareIterator :=
  mkIterator
    { read := enc 15, local_limit := enc 30, global_limit := enc 30, in_txn_limit := enc 30 }
    [255] [] (some [ownIntentEntry, foreignLaterEntry])

/-- The resolver state after `ProcessIntent` accepted the reader's own intent. -/
def pinnedState : IntentAwareIterator :=
  ProcessIntent miniEnv ownIntentEntry (resetResolved miniEnv ownThenForeignState)

/-! ## The intent upper bound: auxiliary definitions and example states -/

/-- The intent upper bound of the state is the one `SetIntentUpperbound` computes for the
regular candidate and the scan upper bound of the state. -/
def IntentBoundTracks (env : Env) (r : IntentAwareIterator) : Prop :=
  intentUpperboundFor env r.regular_entry_ r.upperbound_ = some r.intent_upperbound_buffer_

/-- Regular records of `k` and of a later key `m`, both at time 10, and an intent on a key
between the two; read at 15 with all limits at 15. -/
def gapIntentState : IntentAwareIterator :=
  mkIterator
    { read := enc 15, local_limit := enc 15, global_limit := enc 15, in_txn_limit := enc 15 }
    [255]
    [{ key := [107, 35] ++ enc 10, value := [1] }, { key := [109, 35] ++ enc 10, value := [3] }]
    (some [{ key := [108, 20] ++ enc 12, value := [1, 12, 9] }])

/-- The state `Seek(k)` leaves from `gapIntentState`. -/
def gapIntentSought : IntentAwareIterator :=
  (Seek miniEnv 20 [107] false gapIntentState).getD gapIntentState

/-- The state `Next()` leaves from `gapIntentSought`. -/
def gapIntentNext : IntentAwareIterator :=
  (Next miniEnv 20 gapIntentSought).getD gapIntentSought

/-- The state a seek beyond the last record leaves from `gapIntentState`: no candidate. -/
def gapIntentPastEnd : IntentAwareIterator :=
  (Seek miniEnv 20 [110] false gapIntentState).getD gapIntentState

/-! ## The transaction region: auxiliary definitions and example states -/

/-- An intents cursor over an intent on `k`, two entries of the transaction region (first byte
`kTransactionId`) and an intent on a key after the region, resting on the first entry of the
region; read at 15 with all limits at 15. -/
def regionState : IntentAwareIterator :=
  let s := mkIterator
    { read := enc 15, local_limit := enc 15, global_limit := enc 15, in_txn_limit := enc 15 }
    [255] []
    (some [{ key := [107, 20] ++ enc 12, value := [1, 12, 9] }, { key := [120, 1], value := [] },
           { key := [120, 2], value := [] }, { key := [121, 20] ++ enc 11, value := [1, 11, 8] }])
  { s with intent_iter_ := s.intent_iter_.map fun it => { it with pos := some 1 } }

/-- The intents cursor of `regionState`. -/
def regionCursor : Cursor :=
  { data := [{ key := [107, 20] ++ enc 12, value := [1, 12, 9] }, { key := [120, 1], value := [] },
             { key := [120, 2], value := [] }, { key := [121, 20] ++ enc 11, value := [1, 11, 8] }]
    pos := some 1, upper := none, status := .OK }

/-! ## The resolved intent of a forward scan: auxiliary definitions and example states -/

/-- The entry is exposed by the intents cursor (its key is under the cursor's bound) and its
key is within the scan upper bound. -/
def withinBounds (c : Cursor) (ub : Slice) (e : KeyValueEntry) : Bool :=
  c.below e.key && SatisfyBounds ub e.key

/-- The key of the entry lies in the transaction-metadata region: it begins with the
`kTransactionId` marker byte. -/
def inTransactionRegion (env : Env) (e : KeyValueEntry) : Bool :=
  e.key.head? == some env.kTransactionId

/-- The intent of the entry is visible: it decodes, its `value_time` is later than the
minimum time and does not exceed its maximum allowed time under the snapshot. -/
def visibleIntent (env : Env) (rt : EncodedReadHybridTime) (e : KeyValueEntry) : Bool :=
  match env.DecodeStrongWriteIntent e with
  | .error _ => false
  | .ok d => timeLT env.kMin d.value_time && !timeLT (env.MaxAllowedValueTime d rt) d.value_time

/-- The entries at or after position `p` that lie outside the transaction-metadata region, in
scan order. -/
def scanCandidates (env : Env) (data : List KeyValueEntry) (p : Nat) : List KeyValueEntry :=
  (data.drop p).filter (fun e => !inTransactionRegion env e)

/-- The entry is within the bounds and its intent is visible. -/
def eligibleIntent (env : Env) (c : Cursor) (ub : Slice) (rt : EncodedReadHybridTime)
    (e : KeyValueEntry) : Bool :=
  withinBounds c ub e && visibleIntent env rt e

/-- The contiguous run of entries of the list that are intents for the prefix within the
bounds. -/
def sameKeyRun (env : Env) (c : Cursor) (ub : Slice) (intent_prefix_ : Slice)
    (l : List KeyValueEntry) : List KeyValueEntry :=
  l.takeWhile (fun e => IsIntentForTheSameKey env e.key intent_prefix_ && withinBounds c ub e)

/-- An intents cursor, resting on its first entry, over a pending intent on `j`, two intents
on `k` committed at 12 and at 13, and an intent on `m` committed at 5; read at 15 with all
limits at 15. -/
def scanState : IntentAwareIterator :=
  let s := mkIterator
    { read := enc 15, local_limit := enc 15, global_limit := enc 15, in_txn_limit := enc 15 }
    [255] []
    (some [{ key := [106, 20] ++ enc 30, value := [2, 0, 5] },
           { key := [107, 20] ++ enc 14, value := [1, 12, 9] },
           { key := [107, 20] ++ enc 11, value := [1, 13, 8] },
           { key := [108, 20] ++ enc 5, value := [1, 5, 7] }])
  { s with intent_iter_ := s.intent_iter_.map fun it => { it with pos := some 0 } }

/-- The intents cursor of `scanState`. -/
def scanCursor : Cursor :=
  { data := [{ key := [106, 20] ++ enc 30, value := [2, 0, 5] },
             { key := [107, 20] ++ enc 14, value := [1, 12, 9] },
             { key := [107, 20] ++ enc 11, value := [1, 13, 8] },
             { key := [108, 20] ++ enc 5, value := [1, 5, 7] }]
    pos := some 0, upper := none, status := .OK }

/-- An intents cursor resting on the only entry, a pending intent on `k`; read at 15 with all
limits at 15. -/
def pendingOnlyState : IntentAwareIterator :=
  let s := mkIterator
    { read := enc 15, local_limit := enc 15, global_limit := enc 15, in_txn_limit := enc 15 }
    [255] [] (some [{ key := [107, 20] ++ enc 25, value := [2, 0, 9] }])
  { s with intent_iter_ := s.intent_iter_.map fun it => { it with pos := some 0 } }

/-- Every entry that decodes is an intent of another transaction. -/
def onlyForeignIntents (env : Env) (data : List KeyValueEntry) : Bool :=
  data.all fun e =>
    match env.DecodeStrongWriteIntent e with
    | .error _ => true
    | .ok d => !d.same_transaction

/-- The decoded prefix of every entry that decodes is a prefix of the key of the entry. -/
def prefixesOfKeys (env : Env) (data : List KeyValueEntry) : Bool :=
  data.all fun e =>
    match env.DecodeStrongWriteIntent e with
    | .error _ => true
    | .ok d => Slice.starts_with e.key d.intent_prefix_

/-- The state forward `SeekToSuitableIntent` leaves from `scanState`. -/
def scanResolved : IntentAwareIterator :=
  (SeekToSuitableIntent miniEnv .kForward 5 scanState).getD scanState

/-- The state forward `SeekToSuitableIntent` leaves from `pendingOnlyState`. -/
def pendingOnlyResolved : IntentAwareIterator :=
  (SeekToSuitableIntent miniEnv .kForward 5 pendingOnlyState).getD pendingOnlyState

/-- The small instance with an intent decoder whose decoded prefix is not a prefix of the
key of the entry: it reports the prefix `[255, 255]` for every intent. -/
def strayPrefixEnv : Env :=
  { miniEnv with
    DecodeStrongWriteIntent := fun e =>
      match miniDecode e with
      | .error code => .error code
      | .ok d => .ok { d with intent_prefix_ := [255, 255] } }

/-- An intents cursor resting on the only entry, an intent on `k` committed at 12; read at 15
with all limits at 15 and the scan upper bound `[255]`. -/
def committedOnlyState : IntentAwareIterator :=
  let s := mkIterator
    { read := enc 15, local_limit := enc 15, global_limit := enc 15, in_txn_limit := enc 15 }
    [255] [] (some [committedIntentEntry])
  { s with intent_iter_ := s.intent_iter_.map fun it => { it with pos := some 0 } }

/-! ## FindLatestRecord away from the key: auxiliary definitions and example states -/

/-- The state a seek past the last record leaves from `twoVersionsState`: the regular cursor
is exhausted, there is no candidate and the fetched entry is invalid. -/
def exhaustedSought : IntentAwareIterator :=
  (Seek miniEnv 10 [109] false twoVersionsState).getD twoVersionsState

/-- The state `Seek(l)` leaves from `twoVersionsState`: the iterator rests on `l@7`, the
record of the key after `k`. -/
def pastKeySought : IntentAwareIterator :=
  (Seek miniEnv 10 [108] false twoVersionsState).getD twoVersionsState

/-! ## Byte-wise comparison -/

theorem Slice.compare_self (a : List Nat) : Slice.compare a a = 0 := by
  induction a with
  | nil => rfl
  | cons x xs ih => simp [Slice.compare, ih]

theorem Slice.compare_append_left (p a b : List Nat) :
    Slice.compare (p ++ a) (p ++ b) = Slice.compare a b := by
  induction p with
  | nil => rfl
  | cons x xs ih => simp [Slice.compare, ih]

theorem Slice.compare_antisymm (a : List Nat) :
    ∀ b : List Nat, Slice.compare b a = - Slice.compare a b := by
  induction a with
  | nil => intro b; cases b <;> simp [Slice.compare]
  | cons x xs ih =>
    intro b
    cases b with
    | nil => simp [Slice.compare]
    | cons y ys =>
      simp only [Slice.compare]
      by_cases h1 : x < y
      · have h2 : ¬ y < x := by omega
        simp [h1, h2]
      · by_cases h2 : y < x
        · simp [h1, h2]
        · simp [h1, h2, ih ys]

theorem Slice.compare_eq_zero (a : List Nat) :
    ∀ b : List Nat, Slice.compare a b = 0 → a = b := by
  induction a with
  | nil => intro b h; cases b <;> simp_all [Slice.compare]
  | cons x xs ih =>
    intro b h
    cases b with
    | nil => simp [Slice.compare] at h
    | cons y ys =>
      simp only [Slice.compare] at h
      by_cases h1 : x < y
      · simp [h1] at h
      · by_cases h2 : y < x
        · simp [h1, h2] at h
        · simp only [h1, h2, if_false] at h
          have : x = y := by omega
          rw [this, ih ys h]

theorem Slice.compare_lt_trans (a : List Nat) :
    ∀ b c : List Nat, Slice.compare a b < 0 → Slice.compare b c < 0 →
      Slice.compare a c < 0 := by
  induction a with
  | nil =>
    intro b c h1 h2
    cases b with
    | nil => simp [Slice.compare] at h1
    | cons y ys =>
      cases c with
      | nil => simp [Slice.compare] at h2
      | cons z zs => simp [Slice.compare]
  | cons x xs ih =>
    intro b c h1 h2
    cases b with
    | nil => simp [Slice.compare] at h1
    | cons y ys =>
      cases c with
      | nil => simp [Slice.compare] at h2
      | cons z zs =>
        simp only [Slice.compare] at h1 h2 ⊢
        by_cases hxy : x < y
        · by_cases hyz : y < z
          · have : x < z := by omega
            simp [this]
          · by_cases hzy : z < y
            · simp [hyz, hzy] at h2
            · have : x < z := by omega
              simp [this]
        · by_cases hyx : y < x
          · simp [hxy, hyx] at h1
          · simp only [hxy, hyx, if_false] at h1
            by_cases hyz : y < z
            · have : x < z := by omega
              simp [this]
            · by_cases hzy : z < y
              · simp [hyz, hzy] at h2
              · simp only [hyz, hzy, if_false] at h2
                have h3 : ¬ x < z := by omega
                have h4 : ¬ z < x := by omega
                simp only [h3, h4, if_false]
                exact ih ys zs h1 h2

theorem Slice.compare_le_lt_trans (a b c : List Nat)
    (h1 : Slice.compare a b ≤ 0) (h2 : Slice.compare b c < 0) : Slice.compare a c < 0 := by
  by_cases h : Slice.compare a b = 0
  · rw [Slice.compare_eq_zero a b h]; exact h2
  · exact Slice.compare_lt_trans a b c (by omega) h2

theorem Slice.compare_lt_le_trans (a b c : List Nat)
    (h1 : Slice.compare a b < 0) (h2 : Slice.compare b c ≤ 0) : Slice.compare a c < 0 := by
  by_cases h : Slice.compare b c = 0
  · rw [← Slice.compare_eq_zero b c h]; exact h1
  · exact Slice.compare_lt_trans a b c h1 (by omega)

theorem Slice.compare_le_trans (a b c : List Nat)
    (h1 : Slice.compare a b ≤ 0) (h2 : Slice.compare b c ≤ 0) : Slice.compare a c ≤ 0 := by
  by_cases h : Slice.compare b c = 0
  · rw [← Slice.compare_eq_zero b c h]; exact h1
  · exact Int.le_of_lt (Slice.compare_le_lt_trans a b c h1 (by omega))

theorem Slice.Suffix_append (a b : List Nat) : Slice.Suffix (a ++ b) b.length = b := by
  simp [Slice.Suffix]

theorem Slice.WithoutSuffix_append (a b : List Nat) :
    Slice.WithoutSuffix (a ++ b) b.length = a := by
  simp [Slice.WithoutSuffix]

/-- A byte string between two strings that share a prefix has that prefix too. -/
theorem Slice.between_append (p : List Nat) :
    ∀ (a b k : List Nat), Slice.compare (p ++ a) k ≤ 0 → Slice.compare k (p ++ b) ≤ 0 →
      ∃ x, k = p ++ x := by
  induction p with
  | nil => intro a b k _ _; exact ⟨k, rfl⟩
  | cons y ys ih =>
    intro a b k h1 h2
    cases k with
    | nil => simp [Slice.compare] at h1
    | cons z zs =>
      simp only [List.cons_append, Slice.compare] at h1 h2
      by_cases hyz : y < z
      · have hzy : ¬ z < y := by omega
        simp [hyz, hzy] at h2
      · by_cases hzy : z < y
        · simp [hyz, hzy] at h1
        · simp only [hyz, hzy, if_false] at h1 h2
          obtain ⟨x, hx⟩ := ih a b zs h1 h2
          have : y = z := by omega
          exact ⟨x, by rw [this, hx]; rfl⟩

/-! ## Snapshot bound of the skipper -/

/-- A `found` outcome of the loop names the entry the cursor rests on, and that entry is
within the upper bound and was kept by the visibility test. -/
theorem SkipFutureRecordsLoop_found (env : Env) (rt : EncodedReadHybridTime) (ub : Slice)
    (dir : Direction) :
    ∀ (budget : Nat) (c : Cursor) (cnt : Nat) (c' : Cursor) (e : KeyValueEntry),
      SkipFutureRecordsLoop env rt ub dir budget c cnt = some (.found c' e) →
      ∃ raw, c'.Entry = some raw ∧ SatisfyBounds ub raw.key = true ∧
        SkipFutureRecordsCheck env rt raw = .keep e := by
  intro budget
  induction budget with
  | zero => intro c cnt c' e h; simp [SkipFutureRecordsLoop] at h
  | succ n ih =>
    intro c cnt c' e h
    unfold SkipFutureRecordsLoop at h
    split at h
    · simp at h
    · rename_i entry hentry
      split at h
      · simp at h
      · rename_i hb
        split at h
        · rename_i e0 hk
          simp only [Option.some.injEq, SkipOutcome.found.injEq] at h
          obtain ⟨rfl, rfl⟩ := h
          exact ⟨entry, hentry, by simpa using hb, hk⟩
        · simp at h
        · split at h
          · split at h
            · exact ih _ _ _ _ h
            · exact ih _ _ _ _ h
          · exact ih _ _ _ _ h

/-- What a kept record satisfies: the key is unchanged, and the time suffix of the key is
strictly earlier than the limit the test selected. -/
theorem SkipFutureRecordsCheck_keep (env : Env) (rt : EncodedReadHybridTime)
    (raw e : KeyValueEntry) (h : SkipFutureRecordsCheck env rt raw = .keep e) :
    e.key = raw.key ∧ ∃ n, env.GetEncodedSize raw.key = .ok n ∧
      (Slice.TryConsumeByte raw.value env.kHybridTime = none →
        e.value = raw.value ∧ Slice.compare (Slice.Suffix raw.key n) rt.regular_limit > 0) ∧
      (∀ rest, Slice.TryConsumeByte raw.value env.kHybridTime = some rest →
        (∃ m, env.EncodedFromStart rest = .ok m ∧ e.value = rest.drop m) ∧
        (Slice.compare rest rt.local_limit > 0 →
          Slice.compare (Slice.Suffix raw.key n) rt.global_limit > 0) ∧
        (¬ Slice.compare rest rt.local_limit > 0 →
          Slice.compare (Slice.Suffix raw.key n) rt.read > 0)) := by
  unfold SkipFutureRecordsCheck at h
  cases hn : env.GetEncodedSize raw.key with
  | error code => simp [hn] at h
  | ok n =>
    cases hv : Slice.TryConsumeByte raw.value env.kHybridTime with
    | none =>
      simp only [hn, hv] at h
      split at h
      · rename_i hcmp
        simp only [SkipVerdict.keep.injEq] at h
        subst h
        exact ⟨rfl, n, rfl, fun _ => ⟨rfl, hcmp⟩, fun rest hrest => by simp at hrest⟩
      · simp at h
    | some value =>
      simp only [hn, hv] at h
      by_cases hacc : Slice.compare (Slice.Suffix raw.key n)
          (if Slice.compare value rt.local_limit > 0 then rt.global_limit else rt.read) > 0
      · rw [if_pos hacc] at h
        cases hm : env.EncodedFromStart value with
        | error code => simp [hm] at h
        | ok m =>
          simp only [hm, SkipVerdict.keep.injEq] at h
          subst h
          refine ⟨rfl, n, rfl, fun h0 => by simp at h0, ?_⟩
          intro rest hrest
          simp only [Option.some.injEq] at hrest
          subst hrest
          refine ⟨⟨m, hm, rfl⟩, ?_, ?_⟩
          · intro hl; simpa [hl] using hacc
          · intro hl; simpa [hl] using hacc
      · rw [if_neg hacc] at h; simp at h

theorem TryConsumeByte_eq_none (v : Slice) (c : Nat) :
    Slice.TryConsumeByte v c = none ↔ v.head? ≠ some c := by
  cases v with
  | nil => simp [Slice.TryConsumeByte]
  | cons b rest =>
    by_cases hb : b = c <;> simp [Slice.TryConsumeByte, hb]

theorem TryConsumeByte_eq_some (v : Slice) (c : Nat) (rest : Slice) :
    Slice.TryConsumeByte v c = some rest ↔ v = c :: rest := by
  cases v with
  | nil => simp [Slice.TryConsumeByte]
  | cons b rest0 =>
    by_cases hb : b = c <;> simp [Slice.TryConsumeByte, hb]

/-- C1 (as amended). Whenever `SkipFutureRecords`, in either direction, returns with status
OK and a regular candidate, the candidate is the record the regular cursor rests on, its key
passes `SatisfyBounds`, and its commit time (the time suffix of the key) is not later than
`regular_limit` when the raw value does not begin with the `kHybridTime` marker; when the raw
value is the marker followed by `rest` (the embedded intent time and the payload), the commit
time is not later than `global_limit` if `rest` is byte-wise greater than the encoded
`local_limit`, and not later than `read` otherwise. -/
theorem SkipFutureRecords_snapshot_bound (env : Env) (dir : Direction) (budget : Nat)
    (s s' : IntentAwareIterator) (cand : KeyValueEntry)
    (h : SkipFutureRecords env dir budget s = some s')
    (hok : s'.status_ = .OK) (hc : s'.regular_entry_ = some cand) :
    ∃ raw n, s'.iter_.Entry = some raw ∧ raw.key = cand.key ∧
      SatisfyBounds s'.upperbound_ cand.key = true ∧
      env.GetEncodedSize cand.key = .ok n ∧
      (raw.value.head? ≠ some env.kHybridTime →
        timeLE (Slice.Suffix cand.key n) s'.encoded_read_time_.regular_limit = true) ∧
      (∀ rest, raw.value = env.kHybridTime :: rest →
        (Slice.compare rest s'.encoded_read_time_.local_limit > 0 →
          timeLE (Slice.Suffix cand.key n) s'.encoded_read_time_.global_limit = true) ∧
        (¬ Slice.compare rest s'.encoded_read_time_.local_limit > 0 →
          timeLE (Slice.Suffix cand.key n) s'.encoded_read_time_.read = true)) := by
  unfold SkipFutureRecords at h
  split at h
  · simp at h
  · rename_i c e hloop
    simp only [Option.some.injEq] at h
    subst h
    simp only [Option.some.injEq] at hc
    subst hc
    obtain ⟨raw, hraw, hb, hkeep⟩ := SkipFutureRecordsLoop_found env _ _ dir _ _ _ _ _ hloop
    obtain ⟨hkey, n, hn, hplain, htxn⟩ := SkipFutureRecordsCheck_keep env _ raw e hkeep
    refine ⟨raw, n, hraw, hkey.symm, by rw [hkey]; exact hb, by rw [hkey]; exact hn, ?_, ?_⟩
    · intro hhead
      have := (hplain ((TryConsumeByte_eq_none _ _).2 hhead)).2
      rw [hkey]
      simp only [timeLE, decide_eq_true_eq]
      omega
    · intro rest hrest
      obtain ⟨_, hg, hr⟩ := htxn rest ((TryConsumeByte_eq_some _ _ _).2 hrest)
      rw [hkey]
      simp only [timeLE, decide_eq_true_eq]
      exact ⟨fun hl => by have := hg hl; omega, fun hl => by have := hr hl; omega⟩
  · simp only [Option.some.injEq] at h
    subst h
    simp at hc
  · simp only [Option.some.injEq] at h
    subst h
    simp at hok
  · simp only [Option.some.injEq] at h
    subst h
    simp at hc

/-- Witness of `SkipFutureRecords_snapshot_bound` on `snapshotBoundState`. -/
theorem SkipFutureRecords_snapshot_bound_witness :
    ∃ raw n, snapshotBoundResult.iter_.Entry = some raw ∧
      raw.key = [107, 35, 240] ∧
      SatisfyBounds snapshotBoundResult.upperbound_ [107, 35, 240] = true ∧
      miniEnv.GetEncodedSize [107, 35, 240] = .ok n ∧
      (raw.value.head? ≠ some miniEnv.kHybridTime →
        timeLE (Slice.Suffix [107, 35, 240] n)
          snapshotBoundResult.encoded_read_time_.regular_limit = true) ∧
      (∀ rest, raw.value = miniEnv.kHybridTime :: rest →
        (Slice.compare rest snapshotBoundResult.encoded_read_time_.local_limit > 0 →
          timeLE (Slice.Suffix [107, 35, 240] n)
            snapshotBoundResult.encoded_read_time_.global_limit = true) ∧
        (¬ Slice.compare rest snapshotBoundResult.encoded_read_time_.local_limit > 0 →
          timeLE (Slice.Suffix [107, 35, 240] n)
            snapshotBoundResult.encoded_read_time_.read = true)) :=
  SkipFutureRecords_snapshot_bound miniEnv .kForward 5 snapshotBoundState snapshotBoundResult
    { key := [107, 35, 240], value := [1] } (by decide) (by decide) (by decide)

/-- C1 (counterexample). On `snapshotBoundState` the skipper returns with status OK and keeps
the record as candidate although its raw value begins with the `kHybridTime` marker, the
intent time embedded in the value (12) is not earlier than `local_limit` (12), and the commit
time (15) is later than `read` (10). -/
theorem SkipFutureRecords_snapshot_bound_counterexample :
    ∃ s' cand raw rest m n,
      SkipFutureRecords miniEnv .kForward 5 snapshotBoundState = some s' ∧
      s'.status_ = .OK ∧ s'.regular_entry_ = some cand ∧
      s'.iter_.Entry = some raw ∧ raw.key = cand.key ∧
      raw.value = miniEnv.kHybridTime :: rest ∧
      miniEnv.EncodedFromStart rest = .ok m ∧
      timeLT (rest.take m) s'.encoded_read_time_.local_limit = false ∧
      miniEnv.GetEncodedSize cand.key = .ok n ∧
      timeLE (Slice.Suffix cand.key n) s'.encoded_read_time_.read = false :=
  ⟨snapshotBoundResult, { key := [107, 35, 240], value := [1] },
    { key := [107, 35, 240], value := [35, 243, 1] }, [243, 1], 1, 1, by decide⟩

/-! ## The merge of the two sources -/

/-- C3. Latest version wins across the two sources: with a regular candidate
`K ++ kHybridTime ++ enc(t_r)` and a Valid resolved intent of prefix `K` and resolved time
`t_i`, after `UpdateResolvedIntentSubDocKeyEncoded` the merge `FillEntry` exposes the intent
exactly when `t_i` is later than or equal to `t_r` (later times being byte-wise smaller), and
the regular record (key `K`, its value, write time `t_r`) otherwise. -/
theorem FillEntry_latest_version_wins (env : Env) (s : IntentAwareIterator)
    (K er value : Slice)
    (hreg : s.regular_entry_ = some { key := K ++ [env.kHybridTime] ++ er, value := value })
    (hvalid : s.resolved_intent_state_ = .kValid)
    (hpfx : s.resolved_intent_key_prefix_ = K)
    (hsize : env.GetEncodedSize (K ++ [env.kHybridTime] ++ er) = .ok er.length) :
    (timeLE er s.resolved_intent_txn_dht_ = true →
      (FillEntry env (UpdateResolvedIntentSubDocKeyEncoded env s)).entry_ =
        { valid := true
          key := K
          value := s.resolved_intent_value_
          write_time := (GetIntentDocHybridTime env s).1
          same_transaction := (GetIntentDocHybridTime env s).2 }) ∧
    (timeLE er s.resolved_intent_txn_dht_ = false →
      (FillEntry env (UpdateResolvedIntentSubDocKeyEncoded env s)).entry_ =
        { valid := true, key := K, value := value, write_time := er,
          same_transaction := false }) := by
  have hcmp : Slice.compare (K ++ env.kHybridTime :: er)
      (K ++ env.kHybridTime :: s.resolved_intent_txn_dht_) =
      Slice.compare er s.resolved_intent_txn_dht_ := by
    have := Slice.compare_append_left (K ++ [env.kHybridTime]) er s.resolved_intent_txn_dht_
    simpa using this
  have hsize' : env.GetEncodedSize (K ++ env.kHybridTime :: er) = .ok er.length := by
    simpa using hsize
  have hsuf : Slice.Suffix (K ++ env.kHybridTime :: er) er.length = er := by
    have := Slice.Suffix_append (K ++ [env.kHybridTime]) er
    simpa using this
  have hpre : Slice.WithoutSuffix (K ++ env.kHybridTime :: er) (er.length + 1) = K := by
    have := Slice.WithoutSuffix_append K (env.kHybridTime :: er)
    simpa using this
  constructor
  · intro hle
    have hle' : ¬ Slice.compare er s.resolved_intent_txn_dht_ < 0 := by
      simp only [timeLE, decide_eq_true_eq] at hle; omega
    simp [FillEntry, UpdateResolvedIntentSubDocKeyEncoded, hreg, hvalid, hpfx, hcmp, hle',
      FillIntentEntry, GetIntentDocHybridTime]
  · intro hlt
    have hlt' : Slice.compare er s.resolved_intent_txn_dht_ < 0 := by
      simp only [timeLE, decide_eq_false_iff_not] at hlt; omega
    simp only [FillEntry, UpdateResolvedIntentSubDocKeyEncoded, hreg, hvalid, hpfx,
      List.append_assoc, List.singleton_append, hcmp, hlt', or_true, if_true,
      FillRegularEntry, EncodedFromEnd, hsize', hsuf, hpre]

/-- Witness of `FillEntry_latest_version_wins`: regular `k@10` and an intent on `k` committed
at 12 give `(k, intent value, 12)`. -/
theorem FillEntry_latest_version_wins_witness :
    ((timeLE (enc 10) mergeState.resolved_intent_txn_dht_ = true →
      (FillEntry miniEnv (UpdateResolvedIntentSubDocKeyEncoded miniEnv mergeState)).entry_ =
        { valid := true
          key := [107]
          value := mergeState.resolved_intent_value_
          write_time := (GetIntentDocHybridTime miniEnv mergeState).1
          same_transaction := (GetIntentDocHybridTime miniEnv mergeState).2 }) ∧
    (timeLE (enc 10) mergeState.resolved_intent_txn_dht_ = false →
      (FillEntry miniEnv (UpdateResolvedIntentSubDocKeyEncoded miniEnv mergeState)).entry_ =
        { valid := true, key := [107], value := [1], write_time := enc 10,
          same_transaction := false })) ∧
    (FillEntry miniEnv (UpdateResolvedIntentSubDocKeyEncoded miniEnv mergeState)).entry_ =
      { valid := true, key := [107], value := [9], write_time := enc 12,
        same_transaction := false } :=
  ⟨FillEntry_latest_version_wins miniEnv mergeState [107] (enc 10) [1]
    (by decide) (by decide) (by decide) (by decide), by decide⟩

/-! ## Intents the resolver ignores -/

/-- C4. An invisible or stale intent changes nothing: when the decoded intent's `value_time`
exceeds its maximum allowed value time under the snapshot, or is not strictly newer than the
applicable high-water mark (`intent_dht_from_same_txn_` for a same-transaction intent,
`resolved_intent_txn_dht_` otherwise), `ProcessIntent` returns the state it was given, so
the resolved state, key prefix, value and both resolved times are unchanged. -/
theorem ProcessIntent_ignores_invisible_or_stale (env : Env) (entry : KeyValueEntry)
    (s : IntentAwareIterator) (decoded : DecodeStrongWriteIntentResult)
    (hdec : env.DecodeStrongWriteIntent entry = .ok decoded)
    (h : timeLT (env.MaxAllowedValueTime decoded s.encoded_read_time_) decoded.value_time = true ∨
      timeLE decoded.value_time
        (if decoded.same_transaction then s.intent_dht_from_same_txn_
         else s.resolved_intent_txn_dht_) = true) :
    ProcessIntent env entry s = s := by
  unfold ProcessIntent
  simp only [hdec]
  by_cases hstale : timeLE decoded.value_time
      (if decoded.same_transaction then s.intent_dht_from_same_txn_
       else s.resolved_intent_txn_dht_) = true
  · simp [hstale]
  · rcases h with h | h
    · simp [hstale, h]
    · exact absurd h hstale

/-- Witness of `ProcessIntent_ignores_invisible_or_stale`: the pending intent at provisional
time 25 is ignored, and `Seek(k)` still fetches `(k, v1, 10)`. -/
theorem ProcessIntent_ignores_invisible_or_stale_witness :
    ProcessIntent miniEnv { key := [107, 20] ++ enc 25, value := [2, 0, 9] } pendingIntentState =
      pendingIntentState ∧
    (Seek miniEnv 10 [107] false pendingIntentState).map Fetch =
      some (.ok { valid := true, key := [107], value := [1], write_time := enc 10,
                  same_transaction := false }) :=
  ⟨ProcessIntent_ignores_invisible_or_stale miniEnv
      { key := [107, 20] ++ enc 25, value := [2, 0, 9] } pendingIntentState
      { intent_prefix_ := [107], intent_value := [9], intent_time := enc 25,
        value_time := enc 0, same_transaction := false }
      (by decide) (Or.inr (by decide)),
    by decide⟩

/-! ## Same-transaction visibility -/

/-- C5 (as amended). When `ProcessIntent` accepts, as the first intent of its key prefix `K`,
an intent written by the reader's own transaction (whatever its provisional time, also one
greater than `read`), and the regular candidate is a record of the same key `K` whose commit
time is not later than `read`, then `FillEntry` exposes the intent: key `K`, the intent's
value, `write_time` the intent's provisional time and `same_transaction = true`. -/
theorem FillEntry_same_transaction_intent (env : Env) (entry : KeyValueEntry)
    (s : IntentAwareIterator) (decoded : DecodeStrongWriteIntentResult) (K er value : Slice)
    (hdec : env.DecodeStrongWriteIntent entry = .ok decoded)
    (hsame : decoded.same_transaction = true)
    (hfirst : s.resolved_intent_state_ = .kNoIntent)
    (hmin : s.intent_dht_from_same_txn_ = env.kMin)
    (hnewer : timeLE decoded.value_time env.kMin = false)
    (hallowed :
      timeLT (env.MaxAllowedValueTime decoded s.encoded_read_time_) decoded.value_time = false)
    (hkey : decoded.intent_prefix_ = K)
    (hbound : SatisfyBounds s.upperbound_ K = true)
    (hreg : s.regular_entry_ = some { key := K ++ [env.kHybridTime] ++ er, value := value })
    (hold : timeLE er s.encoded_read_time_.read = true) :
    (FillEntry env (UpdateResolvedIntentSubDocKeyEncoded env (ProcessIntent env entry s))).entry_ =
      { valid := true, key := K, value := decoded.intent_value,
        write_time := decoded.value_time, same_transaction := true } := by
  have hne : decoded.value_time ≠ env.kMin := by
    intro heq
    rw [heq] at hnewer
    simp [timeLE, Slice.compare_self] at hnewer
  have hcmp : ¬ Slice.compare (K ++ env.kHybridTime :: er)
      (K ++ env.kHybridTime :: s.encoded_read_time_.read) < 0 := by
    have := Slice.compare_append_left (K ++ [env.kHybridTime]) er s.encoded_read_time_.read
    simp only [List.append_assoc, List.singleton_append] at this
    rw [this]
    simp only [timeLE, decide_eq_true_eq] at hold
    omega
  subst hkey
  simp [ProcessIntent, hdec, hsame, hfirst, hmin, hnewer, hallowed, hbound,
    UpdateResolvedIntentSubDocKeyEncoded, FillEntry, hreg, hcmp, FillIntentEntry,
    GetIntentDocHybridTime, hne]

/-- Witness of `FillEntry_same_transaction_intent`: the own intent at 25 wins over the
regular record committed at 12, with `read = 15`. -/
theorem FillEntry_same_transaction_intent_witness :
    (FillEntry miniEnv (UpdateResolvedIntentSubDocKeyEncoded miniEnv
      (ProcessIntent miniEnv { key := [107, 20] ++ enc 25, value := [0, 0, 9] }
        { ownIntentState 12 with
          regular_entry_ := some { key := [107] ++ [35] ++ enc 12, value := [1] } }))).entry_ =
      { valid := true, key := [107], value := [9], write_time := enc 25,
        same_transaction := true } :=
  FillEntry_same_transaction_intent miniEnv { key := [107, 20] ++ enc 25, value := [0, 0, 9] }
    { ownIntentState 12 with
      regular_entry_ := some { key := [107] ++ [35] ++ enc 12, value := [1] } }
    { intent_prefix_ := [107], intent_value := [9], intent_time := enc 25,
      value_time := enc 25, same_transaction := true }
    [107] (enc 12) [1]
    (by decide) (by decide) (by decide) (by decide) (by decide) (by decide) (by decide)
    (by decide) (by decide) (by decide)

/-- C5 (counterexample). With `read = 15`, the reader's own intent on `k` at provisional time
25 is accepted by the resolver (state Valid, same-transaction time 25), the regular candidate
is the record of `k` committed at 20, older than the intent, and yet `Seek(k)` exposes the
regular record, not the intent. -/
theorem FillEntry_same_transaction_intent_counterexample :
    ∃ s', Seek miniEnv 10 [107] false (ownIntentState 20) = some s' ∧
      s'.status_ = .OK ∧
      s'.resolved_intent_state_ = .kValid ∧
      s'.resolved_intent_key_prefix_ = [107] ∧
      s'.intent_dht_from_same_txn_ = enc 25 ∧
      timeLT s'.encoded_read_time_.read (enc 25) = true ∧
      s'.regular_entry_ = some { key := [107] ++ [35] ++ enc 20, value := [1] } ∧
      timeLT (enc 20) (enc 25) = true ∧
      s'.entry_ = { valid := true, key := [107], value := [1], write_time := enc 20,
                    same_transaction := false } :=
  ⟨_, rfl, by decide⟩

/-! ## Positioning in a failed state -/

/-- C9. Fail-sticky forward positioning: when the status is not OK, each of `Seek`,
`SeekForward`, `SeekPastSubKey`, `SeekOutOfSubDoc` and `Next` returns the state it was
given: neither cursor moves and the regular candidate, the resolved intent, the fetched
entry, the intent upper bound and the status are unchanged. -/
theorem forward_positioning_fail_sticky (env : Env) (budget : Nat) (key : Slice) (full : Bool)
    (s : IntentAwareIterator) (hfailed : s.status_.ok = false) :
    Seek env budget key full s = some s ∧
    SeekForward env budget key s = some s ∧
    SeekPastSubKey env budget key s = some s ∧
    SeekOutOfSubDoc env budget key s = some s ∧
    Next env budget s = some s := by
  simp [Seek, SeekForward, SeekPastSubKey, SeekOutOfSubDoc, Next, hfailed]

/-- Witness of `forward_positioning_fail_sticky` on `failedState`. -/
theorem forward_positioning_fail_sticky_witness :
    Seek miniEnv 10 [107] false failedState = some failedState ∧
    SeekForward miniEnv 10 [107] failedState = some failedState ∧
    SeekPastSubKey miniEnv 10 [107] failedState = some failedState ∧
    SeekOutOfSubDoc miniEnv 10 [107] failedState = some failedState ∧
    Next miniEnv 10 failedState = some failedState :=
  forward_positioning_fail_sticky miniEnv 10 [107] false failedState (by decide)

/-- C10 (the code at the failing input). In `failedState`, whose status is not OK, each of
`PrevDocKey`, `PrevSubDocKey` and `SeekToLastDocKey` moves the regular cursor onto the record
`k@10`, makes it the regular candidate and refills the fetched entry. -/
theorem reverse_positioning_not_fail_sticky :
    failedState.status_.ok = false ∧
    failedState.iter_.pos = none ∧ failedState.regular_entry_ = none ∧
    failedState.entry_.valid = false ∧
    (∃ s', PrevDocKey miniEnv 10 [255] failedState = some s' ∧
      s'.iter_.pos = some 1 ∧
      s'.regular_entry_ = some { key := [107, 35] ++ enc 10, value := [1] } ∧
      s'.entry_ = { valid := true, key := [107], value := [1], write_time := enc 10,
                    same_transaction := false }) ∧
    (∃ s', PrevSubDocKey miniEnv 10 [255] failedState = some s' ∧
      s'.iter_.pos = some 1 ∧
      s'.regular_entry_ = some { key := [107, 35] ++ enc 10, value := [1] } ∧
      s'.entry_ = { valid := true, key := [107], value := [1], write_time := enc 10,
                    same_transaction := false }) ∧
    (∃ s', SeekToLastDocKey miniEnv 10 failedState = some s' ∧
      s'.iter_.pos = some 1 ∧
      s'.regular_entry_ = some { key := [107, 35] ++ enc 10, value := [1] } ∧
      s'.entry_ = { valid := true, key := [107], value := [1], write_time := enc 10,
                    same_transaction := false }) :=
  ⟨by decide, by decide, by decide, by decide, ⟨_, rfl, by decide⟩, ⟨_, rfl, by decide⟩,
    ⟨_, rfl, by decide⟩⟩

/-! ## Seek idempotence -/

theorem core_eq_iff (t t' : IntentAwareIterator) :
    core t = core t' ↔
      t.encoded_read_time_ = t'.encoded_read_time_ ∧ t.upperbound_ = t'.upperbound_ ∧
      t.iter_ = t'.iter_ ∧ t.intent_iter_ = t'.intent_iter_ ∧
      t.intent_upperbound_buffer_ = t'.intent_upperbound_buffer_ ∧
      t.status_ = t'.status_ ∧ t.regular_entry_ = t'.regular_entry_ ∧
      t.resolved_intent_state_ = t'.resolved_intent_state_ ∧
      t.resolved_intent_txn_dht_ = t'.resolved_intent_txn_dht_ ∧
      t.intent_dht_from_same_txn_ = t'.intent_dht_from_same_txn_ := by
  cases t; cases t'
  simp only [core, IntentAwareIterator.mk.injEq, and_true, true_and]

theorem Rel_ProcessIntent (env : Env) (entry : KeyValueEntry) (t t' : IntentAwareIterator)
    (h : Rel t t') : Rel (ProcessIntent env entry t) (ProcessIntent env entry t') := by
  obtain ⟨hc, hg⟩ := h
  obtain ⟨h1, h2, h3, h4, h5, h6, h7, h8, h9, h10⟩ := (core_eq_iff t t').1 hc
  unfold ProcessIntent
  cases hdec : env.DecodeStrongWriteIntent entry with
  | error code =>
    exact ⟨(core_eq_iff _ _).2 ⟨h1, h2, h3, h4, h5, rfl, h7, h8, h9, h10⟩, hg⟩
  | ok decoded =>
    simp only [← h1, ← h2, ← h8, ← h9, ← h10]
    by_cases hstale : timeLE decoded.value_time
        (if decoded.same_transaction = true then t.intent_dht_from_same_txn_
         else t.resolved_intent_txn_dht_) = true
    · rw [if_pos hstale, if_pos hstale]; exact ⟨hc, hg⟩
    · rw [if_neg hstale, if_neg hstale]
      by_cases hmax :
          timeLT (env.MaxAllowedValueTime decoded t.encoded_read_time_) decoded.value_time = true
      · rw [if_pos hmax, if_pos hmax]; exact ⟨hc, hg⟩
      · rw [if_neg hmax, if_neg hmax]
        refine ⟨(core_eq_iff _ _).2 ⟨rfl, rfl, h3, h4, h5, h6, h7, rfl, rfl, rfl⟩, ?_⟩
        intro _
        refine ⟨?_, rfl⟩
        by_cases hs : t.resolved_intent_state_ = .kNoIntent
        · simp [hs]
        · simp only [hs, if_false]; exact (hg hs).1

theorem Frame.refl (t : IntentAwareIterator) : Frame t t :=
  ⟨rfl, rfl, rfl, rfl, rfl, rfl, rfl, rfl, id⟩

theorem Frame.trans {t r u : IntentAwareIterator} (h1 : Frame t r) (h2 : Frame r u) :
    Frame t u := by
  obtain ⟨a1, a2, a3, a4, a5, a6, a7, a8, a9⟩ := h1
  obtain ⟨b1, b2, b3, b4, b5, b6, b7, b8, b9⟩ := h2
  exact ⟨b1.trans a1, b2.trans a2, b3.trans a3, b4.trans a4, b5.trans a5, b6.trans a6,
    b7.trans a7, b8.trans a8, fun h => a9 (b9 h)⟩

theorem Frame_HandleStatus (t : IntentAwareIterator) (st : Status) :
    Frame t (HandleStatus t st).1 := by
  unfold HandleStatus
  by_cases h : st.ok = true
  · simp only [h, if_true]; exact Frame.refl t
  · simp only [h, if_false]
    refine ⟨rfl, rfl, rfl, rfl, rfl, rfl, rfl, rfl, ?_⟩
    intro h'; exact absurd h' h

theorem Frame_ProcessIntent (env : Env) (entry : KeyValueEntry) (t : IntentAwareIterator) :
    Frame t (ProcessIntent env entry t) := by
  unfold ProcessIntent
  cases hdec : env.DecodeStrongWriteIntent entry with
  | error code =>
    refine ⟨rfl, rfl, rfl, rfl, rfl, rfl, rfl, rfl, ?_⟩
    intro h; simp [Status.ok] at h
  | ok decoded =>
    simp only
    by_cases hstale : timeLE decoded.value_time
        (if decoded.same_transaction = true then t.intent_dht_from_same_txn_
         else t.resolved_intent_txn_dht_) = true
    · rw [if_pos hstale]; exact Frame.refl t
    · rw [if_neg hstale]
      by_cases hmax :
          timeLT (env.MaxAllowedValueTime decoded t.encoded_read_time_) decoded.value_time = true
      · rw [if_pos hmax]; exact Frame.refl t
      · rw [if_neg hmax]; exact ⟨rfl, rfl, rfl, rfl, rfl, rfl, rfl, rfl, id⟩

theorem Frame_onIntentIter (g : Cursor → Cursor) (t : IntentAwareIterator)
    (hg : ∀ c, cursorStatic (g c) = cursorStatic c) : Frame t (onIntentIter g t) := by
  refine ⟨rfl, rfl, rfl, rfl, rfl, rfl, rfl, ?_, id⟩
  simp only [onIntentIter, Option.map_map]
  congr 1
  funext c
  exact hg c

theorem Frame_Finish (env : Env) (t : IntentAwareIterator) :
    Frame t (SeekToSuitableIntentFinish env t) := by
  unfold SeekToSuitableIntentFinish
  simp only
  split
  · exact Frame.trans (Frame_HandleStatus t _) ⟨rfl, rfl, rfl, rfl, rfl, rfl, rfl, rfl, id⟩
  · exact Frame_HandleStatus t _

theorem cursorStatic_Move (direction : Direction) (c : Cursor) :
    cursorStatic (MoveIterator direction c) = cursorStatic c := by
  cases direction <;> rfl

theorem Frame_SkipTransactionRegion (env : Env) (direction : Direction)
    (t : IntentAwareIterator) : Frame t (SkipTransactionRegion env direction t) := by
  cases direction with
  | kForward => exact Frame_onIntentIter _ t (fun c => rfl)
  | kBackward =>
    exact Frame.trans (t := t)
      (r := { t with intent_upperbound_buffer_ := [env.kTransactionId] })
      ⟨rfl, rfl, rfl, rfl, rfl, rfl, rfl, rfl, id⟩
      (Frame_onIntentIter _ _ (fun c => rfl))

theorem Frame_SeekToSuitableIntentStep (env : Env) (direction : Direction)
    (entry : KeyValueEntry) (t r : IntentAwareIterator)
    (h : SeekToSuitableIntentStep env direction entry t = .inl r ∨
      SeekToSuitableIntentStep env direction entry t = .inr r) : Frame t r := by
  unfold SeekToSuitableIntentStep at h
  by_cases htxn : entry.key.head? = some env.kTransactionId
  · simp only [htxn, if_true, Sum.inr.injEq, false_or, reduceCtorEq] at h
    subst h
    exact Frame_SkipTransactionRegion env direction t
  · simp only [htxn, if_false] at h
    by_cases hkey : t.resolved_intent_state_ ≠ .kNoIntent ∧
        (!IsIntentForTheSameKey env entry.key t.resolved_intent_key_prefix_) = true
    · rw [if_pos hkey] at h
      simp only [Sum.inl.injEq, or_false, reduceCtorEq] at h
      subst h
      exact Frame_Finish env t
    · rw [if_neg hkey] at h
      by_cases hb : (!SatisfyBounds t.upperbound_ entry.key) = true
      · rw [if_pos hb] at h
        simp only [Sum.inl.injEq, or_false, reduceCtorEq] at h
        subst h
        exact Frame_Finish env t
      · rw [if_neg hb] at h
        by_cases hst : (!(ProcessIntent env entry t).status_.ok) = true
        · rw [if_pos hst] at h
          simp only [Sum.inl.injEq, or_false, reduceCtorEq] at h
          subst h
          exact Frame_ProcessIntent env entry t
        · rw [if_neg hst] at h
          simp only [Sum.inr.injEq, false_or, reduceCtorEq] at h
          subst h
          exact Frame.trans (Frame_ProcessIntent env entry t)
            (Frame_onIntentIter _ _ (cursorStatic_Move direction))

/-- The loop of `SeekToSuitableIntent` only touches the resolved-intent fields, the position
and bound of the intents cursor, and the status, which it can only turn into an error. -/
theorem Frame_SeekToSuitableIntentLoop (env : Env) (direction : Direction) :
    ∀ (budget : Nat) (t r : IntentAwareIterator),
      SeekToSuitableIntentLoop env direction budget t = some r → Frame t r := by
  intro budget
  induction budget with
  | zero => intro t r h; simp [SeekToSuitableIntentLoop] at h
  | succ n ih =>
    intro t r h
    unfold SeekToSuitableIntentLoop at h
    cases he : intentEntry t with
    | none =>
      simp only [he, Option.some.injEq] at h
      subst h
      exact Frame_Finish env t
    | some entry =>
      simp only [he] at h
      cases hs : SeekToSuitableIntentStep env direction entry t with
      | inl r0 =>
        simp only [hs, Option.some.injEq] at h
        subst h
        exact Frame_SeekToSuitableIntentStep env direction entry t _ (Or.inl hs)
      | inr s1 =>
        simp only [hs] at h
        exact Frame.trans (Frame_SeekToSuitableIntentStep env direction entry t _ (Or.inr hs))
          (ih _ _ h)

theorem Rel_onIntentIter (g : Cursor → Cursor) (t t' : IntentAwareIterator) (h : Rel t t') :
    Rel (onIntentIter g t) (onIntentIter g t') := by
  obtain ⟨hc, hg⟩ := h
  obtain ⟨h1, h2, h3, h4, h5, h6, h7, h8, h9, h10⟩ := (core_eq_iff t t').1 hc
  exact ⟨(core_eq_iff _ _).2 ⟨h1, h2, h3, by simp [onIntentIter, h4], h5, h6, h7, h8, h9, h10⟩,
    hg⟩

theorem Rel_SkipTransactionRegion (env : Env) (direction : Direction)
    (t t' : IntentAwareIterator) (h : Rel t t') :
    Rel (SkipTransactionRegion env direction t) (SkipTransactionRegion env direction t') := by
  cases direction with
  | kForward => exact Rel_onIntentIter _ t t' h
  | kBackward =>
    refine Rel_onIntentIter _ _ _ ?_
    obtain ⟨hc, hg⟩ := h
    obtain ⟨h1, h2, h3, h4, h5, h6, h7, h8, h9, h10⟩ := (core_eq_iff t t').1 hc
    exact ⟨(core_eq_iff _ _).2 ⟨h1, h2, h3, h4, rfl, h6, h7, h8, h9, h10⟩, hg⟩

theorem Rel_HandleStatus (st : Status) (t t' : IntentAwareIterator) (h : Rel t t') :
    Rel (HandleStatus t st).1 (HandleStatus t' st).1 := by
  unfold HandleStatus
  by_cases hok : st.ok = true
  · rw [if_pos hok, if_pos hok]; exact h
  · rw [if_neg hok, if_neg hok]
    obtain ⟨hc, hg⟩ := h
    obtain ⟨h1, h2, h3, h4, h5, h6, h7, h8, h9, h10⟩ := (core_eq_iff t t').1 hc
    exact ⟨(core_eq_iff _ _).2 ⟨h1, h2, h3, h4, h5, rfl, h7, h8, h9, h10⟩, hg⟩

theorem Rel_Update (env : Env) (t t' : IntentAwareIterator) (h : Rel t t') :
    Rel (UpdateResolvedIntentSubDocKeyEncoded env t)
      (UpdateResolvedIntentSubDocKeyEncoded env t') ∧
    (t.resolved_intent_state_ ≠ .kNoIntent →
      (UpdateResolvedIntentSubDocKeyEncoded env t).resolved_intent_sub_doc_key_encoded_ =
      (UpdateResolvedIntentSubDocKeyEncoded env t').resolved_intent_sub_doc_key_encoded_) := by
  obtain ⟨hc, hg⟩ := h
  obtain ⟨h1, h2, h3, h4, h5, h6, h7, h8, h9, h10⟩ := (core_eq_iff t t').1 hc
  refine ⟨⟨(core_eq_iff _ _).2 ⟨h1, h2, h3, h4, h5, h6, h7, h8, h9, h10⟩, hg⟩, ?_⟩
  intro hs
  simp only [UpdateResolvedIntentSubDocKeyEncoded, (hg hs).1, h9]

theorem Rel_Finish (env : Env) (t t' : IntentAwareIterator) (h : Rel t t') :
    Rel (SeekToSuitableIntentFinish env t) (SeekToSuitableIntentFinish env t') ∧
    ExitAgree (SeekToSuitableIntentFinish env t) (SeekToSuitableIntentFinish env t') := by
  have hst : intentStatus t' = intentStatus t := by
    have h4 : t.intent_iter_ = t'.intent_iter_ := ((core_eq_iff t t').1 h.1).2.2.2.1
    simp [intentStatus, h4]
  have hr := Rel_HandleStatus (intentStatus t) t t' h
  unfold SeekToSuitableIntentFinish
  simp only [hst]
  generalize (HandleStatus t (intentStatus t)).1 = u at hr ⊢
  generalize (HandleStatus t' (intentStatus t)).1 = u' at hr ⊢
  have h8 : u.resolved_intent_state_ = u'.resolved_intent_state_ :=
    ((core_eq_iff u u').1 hr.1).2.2.2.2.2.2.2.1
  by_cases hs : u.resolved_intent_state_ = .kNoIntent
  · have hs' : u'.resolved_intent_state_ = .kNoIntent := h8 ▸ hs
    simp only [hs, hs', ne_eq, not_true_eq_false, if_false]
    exact ⟨hr, fun _ h0 => absurd hs h0⟩
  · have hs' : ¬ u'.resolved_intent_state_ = .kNoIntent := h8 ▸ hs
    simp only [hs, hs', ne_eq, not_false_eq_true, if_true]
    exact ⟨(Rel_Update env u u' hr).1, fun _ _ => (Rel_Update env u u' hr).2 hs⟩

theorem Rel_SeekToSuitableIntentStep (env : Env) (direction : Direction)
    (entry : KeyValueEntry) (t t' : IntentAwareIterator) (h : Rel t t') :
    (∃ r r', SeekToSuitableIntentStep env direction entry t = .inl r ∧
      SeekToSuitableIntentStep env direction entry t' = .inl r' ∧ Rel r r' ∧ ExitAgree r r') ∨
    (∃ r r', SeekToSuitableIntentStep env direction entry t = .inr r ∧
      SeekToSuitableIntentStep env direction entry t' = .inr r' ∧ Rel r r') := by
  have h0 := h
  obtain ⟨hc, hg⟩ := h
  obtain ⟨h1, h2, h3, h4, h5, h6, h7, h8, h9, h10⟩ := (core_eq_iff t t').1 hc
  unfold SeekToSuitableIntentStep
  by_cases htxn : entry.key.head? = some env.kTransactionId
  · simp only [htxn, if_true]
    exact Or.inr ⟨_, _, rfl, rfl, Rel_SkipTransactionRegion env direction t t' h0⟩
  · simp only [htxn, if_false]
    have hkeyiff : (t'.resolved_intent_state_ ≠ .kNoIntent ∧
        (!IsIntentForTheSameKey env entry.key t'.resolved_intent_key_prefix_) = true) ↔
        (t.resolved_intent_state_ ≠ .kNoIntent ∧
        (!IsIntentForTheSameKey env entry.key t.resolved_intent_key_prefix_) = true) := by
      rw [← h8]
      constructor
      · rintro ⟨a, b⟩; exact ⟨a, by rw [(hg a).1]; exact b⟩
      · rintro ⟨a, b⟩; exact ⟨a, by rw [← (hg a).1]; exact b⟩
    by_cases hkey : t.resolved_intent_state_ ≠ .kNoIntent ∧
        (!IsIntentForTheSameKey env entry.key t.resolved_intent_key_prefix_) = true
    · rw [if_pos hkey, if_pos (hkeyiff.2 hkey)]
      exact Or.inl ⟨_, _, rfl, rfl, Rel_Finish env t t' h0⟩
    · rw [if_neg hkey, if_neg (fun hk => hkey (hkeyiff.1 hk))]
      rw [← h2]
      by_cases hb : (!SatisfyBounds t.upperbound_ entry.key) = true
      · rw [if_pos hb, if_pos hb]
        exact Or.inl ⟨_, _, rfl, rfl, Rel_Finish env t t' h0⟩
      · rw [if_neg hb, if_neg hb]
        have hp := Rel_ProcessIntent env entry t t' h0
        have hpst : (ProcessIntent env entry t').status_ = (ProcessIntent env entry t).status_ :=
          ((core_eq_iff _ _).1 hp.1).2.2.2.2.2.1.symm
        simp only [hpst]
        by_cases hst : (!(ProcessIntent env entry t).status_.ok) = true
        · rw [if_pos hst, if_pos hst]
          refine Or.inl ⟨_, _, rfl, rfl, hp, ?_⟩
          intro hok; simp [hok] at hst
        · rw [if_neg hst, if_neg hst]
          exact Or.inr ⟨_, _, rfl, rfl, Rel_onIntentIter _ _ _ hp⟩

/-- The loop of `SeekToSuitableIntent` cannot tell related states apart. -/
theorem Rel_SeekToSuitableIntentLoop (env : Env) (direction : Direction) :
    ∀ (budget : Nat) (t t' : IntentAwareIterator), Rel t t' →
      (SeekToSuitableIntentLoop env direction budget t = none ∧
        SeekToSuitableIntentLoop env direction budget t' = none) ∨
      (∃ r r', SeekToSuitableIntentLoop env direction budget t = some r ∧
        SeekToSuitableIntentLoop env direction budget t' = some r' ∧ Rel r r' ∧
        ExitAgree r r') := by
  intro budget
  induction budget with
  | zero => intro t t' _; exact Or.inl ⟨rfl, rfl⟩
  | succ n ih =>
    intro t t' h
    have h4 : t.intent_iter_ = t'.intent_iter_ := ((core_eq_iff t t').1 h.1).2.2.2.1
    have he : intentEntry t' = intentEntry t := by simp [intentEntry, h4]
    unfold SeekToSuitableIntentLoop
    rw [he]
    cases hentry : intentEntry t with
    | none => exact Or.inr ⟨_, _, rfl, rfl, Rel_Finish env t t' h⟩
    | some entry =>
      simp only
      rcases Rel_SeekToSuitableIntentStep env direction entry t t' h with
        ⟨r, r', e1, e2, hr, hx⟩ | ⟨r, r', e1, e2, hr⟩
      · rw [e1, e2]; exact Or.inr ⟨r, r', rfl, rfl, hr, hx⟩
      · rw [e1, e2]; exact ih r r' hr

theorem cursorStatic_Seek (c : Cursor) (target : Slice) :
    cursorStatic (c.Seek target) = cursorStatic c ∧ (c.Seek target).upper = c.upper :=
  ⟨rfl, rfl⟩

/-- The loop of `SkipFutureRecords` only moves the cursor. -/
theorem SkipFutureRecordsLoop_cursor (env : Env) (rt : EncodedReadHybridTime) (ub : Slice)
    (dir : Direction) :
    ∀ (budget : Nat) (c : Cursor) (cnt : Nat) (out : SkipOutcome),
      SkipFutureRecordsLoop env rt ub dir budget c cnt = some out →
      cursorStatic out.cursor = cursorStatic c ∧ out.cursor.upper = c.upper := by
  intro budget
  induction budget with
  | zero => intro c cnt out h; simp [SkipFutureRecordsLoop] at h
  | succ n ih =>
    intro c cnt out h
    unfold SkipFutureRecordsLoop at h
    split at h
    · simp only [Option.some.injEq] at h; subst h; exact ⟨rfl, rfl⟩
    · split at h
      · simp only [Option.some.injEq] at h; subst h; exact ⟨rfl, rfl⟩
      · split at h
        · simp only [Option.some.injEq] at h; subst h; exact ⟨rfl, rfl⟩
        · simp only [Option.some.injEq] at h; subst h; exact ⟨rfl, rfl⟩
        · split at h
          · split at h
            · have := ih _ _ _ h
              exact this
            · exact ih _ _ _ h
          · have := ih _ _ _ h
            cases dir <;> exact this

theorem SkipFutureRecords_eq (env : Env) (dir : Direction) (budget : Nat)
    (s : IntentAwareIterator) :
    SkipFutureRecords env dir budget s =
      (SkipFutureRecordsLoop env s.encoded_read_time_ s.upperbound_ dir budget s.iter_ 0).map
        (applySkipOutcome s) := by
  unfold SkipFutureRecords
  cases h : SkipFutureRecordsLoop env s.encoded_read_time_ s.upperbound_ dir budget s.iter_ 0 with
  | none => rfl
  | some out => cases out <;> rfl

theorem applySkipOutcome_status (s : IntentAwareIterator) (out : SkipOutcome) :
    (applySkipOutcome s out).status_ = out.newStatus s.status_ := by
  cases out with
  | found c e => rfl
  | outOfBounds c => rfl
  | failed c code => rfl
  | exhausted c =>
    simp only [applySkipOutcome, HandleStatus, SkipOutcome.newStatus]
    by_cases h : c.status.ok = true <;> simp [h]

theorem newStatus_ok (st : Status) (out : SkipOutcome) (h : (out.newStatus st).ok = true) :
    st.ok = true ∧ (∀ c code, out ≠ .failed c code) := by
  cases out with
  | found c e => exact ⟨h, fun _ _ => by simp⟩
  | outOfBounds c => exact ⟨h, fun _ _ => by simp⟩
  | failed c code => simp [SkipOutcome.newStatus, Status.ok] at h
  | exhausted c =>
    simp only [SkipOutcome.newStatus] at h
    by_cases hc : c.status.ok = true
    · simp only [hc, if_true] at h; exact ⟨h, fun _ _ => by simp⟩
    · simp only [hc, if_false] at h; exact absurd h hc

/-- Unless the loop failed, `SkipFutureRecords` overwrites the cursor, the candidate and the
status and nothing else. -/
theorem applySkipOutcome_eq (s : IntentAwareIterator) (out : SkipOutcome)
    (h : ∀ c code, out ≠ .failed c code) :
    applySkipOutcome s out =
      { s with iter_ := out.cursor, regular_entry_ := out.candidate,
               status_ := out.newStatus s.status_ } := by
  cases out with
  | found c e => rfl
  | outOfBounds c => rfl
  | failed c code => exact absurd rfl (h c code)
  | exhausted c =>
    simp only [applySkipOutcome, HandleStatus, SkipOutcome.newStatus, SkipOutcome.cursor,
      SkipOutcome.candidate]
    by_cases hc : c.status.ok = true <;> simp [hc]

theorem Cursor_Seek_congr (c c' : Cursor) (target : Slice)
    (h1 : cursorStatic c = cursorStatic c') (h2 : c.upper = c'.upper) :
    c.Seek target = c'.Seek target := by
  cases c; cases c'
  simp only [cursorStatic, Prod.mk.injEq] at h1
  simp only at h2
  simp [Cursor.Seek, h1.1, h1.2, h2]

/-- The update of the fetched entry by `FillEntry`, as a function of the entry before. -/
theorem FillEntry_status_mono (env : Env) (t : IntentAwareIterator)
    (h : (FillEntry env t).status_.ok = true) : t.status_.ok = true := by
  unfold FillEntry at h
  simp only at h
  split at h
  · rename_i e _
    split at h
    · unfold FillRegularEntry at h
      simp only at h
      split at h
      · simp [Status.ok] at h
      · exact h
    · exact h
  · split at h
    · exact h
    · exact h

theorem FillEntry_frame (env : Env) (t : IntentAwareIterator) :
    (FillEntry env t).encoded_read_time_ = t.encoded_read_time_ ∧
    (FillEntry env t).upperbound_ = t.upperbound_ ∧
    (FillEntry env t).iter_ = t.iter_ ∧
    (FillEntry env t).intent_iter_ = t.intent_iter_ := by
  unfold FillEntry
  simp only
  split
  · split
    · unfold FillRegularEntry
      simp only
      split <;> exact ⟨rfl, rfl, rfl, rfl⟩
    · exact ⟨rfl, rfl, rfl, rfl⟩
  · split <;> exact ⟨rfl, rfl, rfl, rfl⟩

/-- On states the resolver cannot tell apart, `FillEntry` ends with the same status and,
when that status is OK, either builds the same entry or only clears the valid flag. -/
theorem FillEntry_congr (env : Env) (f f' : IntentAwareIterator)
    (hcore : core f = core f')
    (hguard : f.resolved_intent_state_ = .kValid →
      f.resolved_intent_key_prefix_ = f'.resolved_intent_key_prefix_ ∧
      f.resolved_intent_value_ = f'.resolved_intent_value_ ∧
      f.resolved_intent_sub_doc_key_encoded_ = f'.resolved_intent_sub_doc_key_encoded_)
    (hok : (FillEntry env f).status_.ok = true) :
    (FillEntry env f').status_ = (FillEntry env f).status_ ∧
    ((FillEntry env f').entry_ = (FillEntry env f).entry_ ∨
      ((FillEntry env f).entry_ = { f.entry_ with valid := false } ∧
       (FillEntry env f').entry_ = { f'.entry_ with valid := false })) := by
  obtain ⟨h1, h2, h3, h4, h5, h6, h7, h8, h9, h10⟩ := (core_eq_iff f f').1 hcore
  unfold FillEntry at hok ⊢
  simp only [← h7, ← h8] at hok ⊢
  cases hre : f.regular_entry_ with
  | none =>
    simp only [hre] at hok ⊢
    by_cases hv : f.resolved_intent_state_ = .kValid
    · obtain ⟨g1, g2, g3⟩ := hguard hv
      simp only [hv, decide_True, if_true, FillIntentEntry, GetIntentDocHybridTime,
        ← g1, ← g2, ← h9, ← h10, ← h6]
      exact ⟨trivial, Or.inl trivial⟩
    · simp only [hv, decide_False, Bool.false_eq_true, if_false, ← h6]
      exact ⟨trivial, Or.inr ⟨trivial, trivial⟩⟩
  | some e =>
    simp only [hre] at hok ⊢
    by_cases hv : f.resolved_intent_state_ = .kValid
    · obtain ⟨g1, g2, g3⟩ := hguard hv
      simp only [hv, decide_True, Bool.not_true, Bool.false_eq_true, false_or, ← g3] at hok ⊢
      by_cases hcmp : Slice.compare e.key f.resolved_intent_sub_doc_key_encoded_ < 0
      · simp only [hcmp, if_true, FillRegularEntry] at hok ⊢
        cases hdec : EncodedFromEnd env e.key with
        | error code => simp [hdec, Status.ok] at hok
        | ok wt => simp only [hdec, ← h6]; exact ⟨trivial, Or.inl trivial⟩
      · simp only [hcmp, if_false, FillIntentEntry, GetIntentDocHybridTime,
          ← g1, ← g2, ← h9, ← h10, ← h6]
        exact ⟨trivial, Or.inl trivial⟩
    · simp only [hv, decide_False, Bool.not_false, true_or, if_true, FillRegularEntry] at hok ⊢
      cases hdec : EncodedFromEnd env e.key with
      | error code => simp [hdec, Status.ok] at hok
      | ok wt => simp only [hdec, ← h6]; exact ⟨trivial, Or.inl trivial⟩

theorem intentStatus_of_static (t t' : IntentAwareIterator)
    (h : t.intent_iter_.map cursorStatic = t'.intent_iter_.map cursorStatic) :
    intentStatus t = intentStatus t' := by
  unfold intentStatus
  cases h1 : t.intent_iter_ with
  | none =>
    cases h2 : t'.intent_iter_ with
    | none => rfl
    | some c' => simp [h1, h2] at h
  | some c =>
    cases h2 : t'.intent_iter_ with
    | none => simp [h1, h2] at h
    | some c' =>
      simp only [h1, h2, Option.map_some', Option.some.injEq, cursorStatic, Prod.mk.injEq] at h
      exact h.2

theorem SyncIntentUpperbound_eq (t : IntentAwareIterator) :
    SyncIntentUpperbound t =
      { t with
        intent_iter_ :=
          t.intent_iter_.map (fun it => { it with upper := some t.intent_upperbound_buffer_ })
        status_ := if (intentStatus t).ok then t.status_ else intentStatus t } := by
  have hst : intentStatus (onIntentIter
      (fun it => { it with upper := some t.intent_upperbound_buffer_ }) t) = intentStatus t := by
    unfold intentStatus onIntentIter
    cases t.intent_iter_ <;> rfl
  unfold SyncIntentUpperbound HandleStatus
  simp only [hst]
  by_cases h : (intentStatus t).ok = true
  · simp only [h, if_true]; rfl
  · simp only [h, if_false]; rfl

theorem Frame_SyncIntentUpperbound (t : IntentAwareIterator) :
    Frame t (SyncIntentUpperbound t) := by
  rw [SyncIntentUpperbound_eq]
  refine ⟨rfl, rfl, rfl, rfl, rfl, rfl, rfl, ?_, ?_⟩
  · simp only [Option.map_map]
    congr 1
  · intro h
    simp only at h
    by_cases hi : (intentStatus t).ok = true
    · simpa [hi] using h
    · simp only [hi, if_false] at h; exact absurd h hi

theorem Frame_ResetIntentUpperbound (env : Env) (t : IntentAwareIterator) :
    Frame t (ResetIntentUpperbound env t) := by
  unfold ResetIntentUpperbound
  split
  · exact Frame.trans (t := t) (r := { t with intent_upperbound_buffer_ := [env.kHighest] })
      ⟨rfl, rfl, rfl, rfl, rfl, rfl, rfl, rfl, id⟩ (Frame_SyncIntentUpperbound _)
  · exact Frame.trans (t := t) (r := { t with intent_upperbound_buffer_ := t.upperbound_ })
      ⟨rfl, rfl, rfl, rfl, rfl, rfl, rfl, rfl, id⟩ (Frame_SyncIntentUpperbound _)

theorem Frame_SetIntentUpperbound (env : Env) (t : IntentAwareIterator) :
    Frame t (SetIntentUpperbound env t).1 := by
  unfold SetIntentUpperbound
  split
  · split
    · refine ⟨rfl, rfl, rfl, rfl, rfl, rfl, rfl, rfl, ?_⟩
      intro h; simp [Status.ok] at h
    · exact Frame.trans (t := t)
        (r := { t with intent_upperbound_buffer_ := _ })
        ⟨rfl, rfl, rfl, rfl, rfl, rfl, rfl, rfl, id⟩ (Frame_SyncIntentUpperbound _)
  · split
    · exact Frame.refl t
    · exact Frame_ResetIntentUpperbound env t

/-- When `SetIntentUpperbound` returns true, it has stored the buffer `intentUpperboundFor`
in the state and in the intents cursor, and the status is OK unless the cursor reports an
error while there is no regular candidate. -/
theorem SetIntentUpperbound_true (env : Env) (t : IntentAwareIterator)
    (h : (SetIntentUpperbound env t).2 = true) :
    ∃ buf, intentUpperboundFor env t.regular_entry_ t.upperbound_ = some buf ∧
      (SetIntentUpperbound env t).1 =
        { t with
          intent_upperbound_buffer_ := buf
          intent_iter_ := t.intent_iter_.map (fun it => { it with upper := some buf })
          status_ := if (intentStatus t).ok then t.status_ else intentStatus t } ∧
      t.status_.ok = true ∧
      (t.regular_entry_ ≠ none → (intentStatus t).ok = true) := by
  obtain ⟨rt, ub, it, iit, buf0, st, ms, re, rs, pfx, txn, same, sub, val, sb, en⟩ := t
  have hstat : ∀ a b : Status, (if a.ok then b else a).ok = true → b.ok = true ∧ a.ok = true := by
    intro a b h0
    by_cases hi : a.ok = true
    · simp only [hi, if_true] at h0; exact ⟨h0, hi⟩
    · simp only [hi, if_false] at h0; exact absurd h0 hi
  cases re with
  | none =>
    simp only [SetIntentUpperbound, intentUpperboundFor] at h ⊢
    by_cases hst : st.ok = true
    · simp only [hst, Bool.not_true, Bool.false_eq_true, if_false, ResetIntentUpperbound]
      refine ⟨_, rfl, ?_, trivial, fun h0 => absurd rfl h0⟩
      by_cases hub : ub.isEmpty = true
      · simp [hub, SyncIntentUpperbound_eq, intentStatus]
      · simp [hub, SyncIntentUpperbound_eq, intentStatus]
    · simp [hst] at h
  | some e =>
    simp only [SetIntentUpperbound, intentUpperboundFor] at h ⊢
    cases hn : env.GetEncodedSize e.key with
    | error code => simp [hn] at h
    | ok n =>
      simp only [hn, SyncIntentUpperbound_eq, intentStatus] at h ⊢
      exact ⟨_, rfl, rfl, (hstat _ _ h).1, fun _ => (hstat _ _ h).2⟩

theorem SetIntentUpperbound_of (env : Env) (t : IntentAwareIterator) (buf : Slice)
    (hbuf : intentUpperboundFor env t.regular_entry_ t.upperbound_ = some buf)
    (hst : t.status_.ok = true)
    (hist : t.regular_entry_ ≠ none → (intentStatus t).ok = true) :
    SetIntentUpperbound env t =
      ({ t with
          intent_upperbound_buffer_ := buf
          intent_iter_ := t.intent_iter_.map (fun it => { it with upper := some buf })
          status_ := if (intentStatus t).ok then t.status_ else intentStatus t }, true) := by
  obtain ⟨rt, ub, it, iit, buf0, st, ms, re, rs, pfx, txn, same, sub, val, sb, en⟩ := t
  cases re with
  | none =>
    simp only [intentUpperboundFor, Option.some.injEq] at hbuf
    subst hbuf
    simp only at hst
    simp only [SetIntentUpperbound, hst, Bool.not_true, Bool.false_eq_true, if_false,
      ResetIntentUpperbound]
    by_cases hub : ub.isEmpty = true
    · simp [hub, SyncIntentUpperbound_eq, intentStatus]
    · simp [hub, SyncIntentUpperbound_eq, intentStatus]
  | some e =>
    simp only [intentUpperboundFor] at hbuf
    cases hn : env.GetEncodedSize e.key with
    | error code => simp [hn] at hbuf
    | ok n =>
      simp only [hn, Option.some.injEq] at hbuf
      subst hbuf
      have hi := hist (by simp)
      simp only [intentStatus] at hi
      simp only at hst
      simp [SetIntentUpperbound, hn, SyncIntentUpperbound_eq, intentStatus, hi, hst]

theorem SetIntentUpperbound_false (env : Env) (t : IntentAwareIterator)
    (h : (SetIntentUpperbound env t).2 = false) :
    (SetIntentUpperbound env t).1.status_.ok = false := by
  obtain ⟨rt, ub, it, iit, buf0, st, ms, re, rs, pfx, txn, same, sub, val, sb, en⟩ := t
  cases re with
  | none =>
    simp only [SetIntentUpperbound] at h ⊢
    by_cases hst : st.ok = true
    · simp [hst] at h
    · simp [hst]
  | some e =>
    simp only [SetIntentUpperbound] at h ⊢
    cases hn : env.GetEncodedSize e.key with
    | error code => simp [hn, Status.ok]
    | ok n =>
      simp only [hn] at h ⊢
      simpa using h

theorem Seek_eq (env : Env) (budget : Nat) (key : Slice) (full : Bool)
    (s : IntentAwareIterator) :
    Seek env budget key full s =
      if !s.status_.ok then some s else
      ((SkipFutureRecordsLoop env s.encoded_read_time_ s.upperbound_ .kForward budget
          (s.iter_.Seek key) 0).map
        (applySkipOutcome { s with iter_ := s.iter_.Seek key })).bind
        (SeekTail env budget key full) := by
  unfold Seek
  by_cases hs : s.status_.ok = true
  · simp only [hs, Bool.not_true, Bool.false_eq_true, if_false, SkipFutureRecords_eq]
    cases SkipFutureRecordsLoop env s.encoded_read_time_ s.upperbound_ .kForward budget
        (s.iter_.Seek key) 0 with
    | none => rfl
    | some out => rfl
  · simp [hs]

theorem map_upper_seek_congr (x x' : Option Cursor) (buf key : Slice)
    (h : x'.map cursorStatic = x.map cursorStatic) :
    (x'.map (fun it => { it with upper := some buf })).map (fun it => it.Seek key) =
    (x.map (fun it => { it with upper := some buf })).map (fun it => it.Seek key) := by
  cases x with
  | none =>
    cases x' with
    | none => rfl
    | some c' => simp at h
  | some c =>
    cases x' with
    | none => simp at h
    | some c' =>
      simp only [Option.map_some', Option.some.injEq, cursorStatic, Prod.mk.injEq] at h
      obtain ⟨d, p, u, st⟩ := c
      obtain ⟨d', p', u', st'⟩ := c'
      simp only at h
      simp [Cursor.Seek, h.1, h.2]

theorem IntentSide_FillEntry (env : Env) (t : IntentAwareIterator) :
    IntentSide t (FillEntry env t) := by
  unfold FillEntry
  simp only
  split
  · split
    · unfold FillRegularEntry
      simp only
      split <;> exact ⟨rfl, rfl, rfl, rfl, rfl, rfl, rfl, rfl⟩
    · exact ⟨rfl, rfl, rfl, rfl, rfl, rfl, rfl, rfl⟩
  · split <;> exact ⟨rfl, rfl, rfl, rfl, rfl, rfl, rfl, rfl⟩

theorem IntentSide_applySkipOutcome (t : IntentAwareIterator) (out : SkipOutcome) :
    IntentSide t (applySkipOutcome t out) ∧
    (applySkipOutcome t out).encoded_read_time_ = t.encoded_read_time_ ∧
    (applySkipOutcome t out).upperbound_ = t.upperbound_ ∧
    (applySkipOutcome t out).entry_ = t.entry_ ∧
    (applySkipOutcome t out).iter_ = out.cursor := by
  cases out with
  | found c e => exact ⟨⟨rfl, rfl, rfl, rfl, rfl, rfl, rfl, rfl⟩, rfl, rfl, rfl, rfl⟩
  | outOfBounds c => exact ⟨⟨rfl, rfl, rfl, rfl, rfl, rfl, rfl, rfl⟩, rfl, rfl, rfl, rfl⟩
  | failed c code => exact ⟨⟨rfl, rfl, rfl, rfl, rfl, rfl, rfl, rfl⟩, rfl, rfl, rfl, rfl⟩
  | exhausted c =>
    simp only [applySkipOutcome, HandleStatus]
    split <;> exact ⟨⟨rfl, rfl, rfl, rfl, rfl, rfl, rfl, rfl⟩, rfl, rfl, rfl, rfl⟩

theorem Status.ok_iff (st : Status) : st.ok = true ↔ st = .OK := by
  cases st <;> simp [Status.ok]

theorem SeekToSuitableIntent_eq (env : Env) (direction : Direction) (budget : Nat)
    (s : IntentAwareIterator) :
    SeekToSuitableIntent env direction budget s =
      SeekToSuitableIntentLoop env direction budget (resetResolved env s) := rfl

theorem Rel_start (env : Env) (g : Cursor → Cursor) (d d' : IntentAwareIterator)
    (h1 : d'.encoded_read_time_ = d.encoded_read_time_) (h2 : d'.upperbound_ = d.upperbound_)
    (h3 : d'.iter_ = d.iter_) (h4 : d'.regular_entry_ = d.regular_entry_)
    (h5 : d'.status_ = d.status_)
    (h6 : d'.intent_upperbound_buffer_ = d.intent_upperbound_buffer_)
    (h7 : d'.intent_iter_.map g = d.intent_iter_.map g) :
    Rel (resetResolved env (onIntentIter g d)) (resetResolved env (onIntentIter g d')) := by
  refine ⟨(core_eq_iff _ _).2 ⟨h1.symm, h2.symm, h3.symm, h7.symm, h6.symm, h5.symm, h4.symm,
    rfl, rfl, rfl⟩, ?_⟩
  intro hne
  exact absurd rfl hne

theorem Frame_start (env : Env) (g : Cursor → Cursor) (d : IntentAwareIterator)
    (hg : ∀ c, cursorStatic (g c) = cursorStatic c) :
    Frame d (resetResolved env (onIntentIter g d)) :=
  Frame.trans (Frame_onIntentIter g d hg) ⟨rfl, rfl, rfl, rfl, rfl, rfl, rfl, rfl, id⟩

/-- The tail of `Seek` on two states it cannot tell apart: what it leaves alone, and that
both runs end with the same status and the same update of the fetched entry. -/
theorem SeekTail_congr (env : Env) (budget : Nat) (k : Slice) (full : Bool)
    (b b' s1 : IntentAwareIterator) (hrel : TailRel b b')
    (h : SeekTail env budget k full b = some s1) (hs1 : s1.status_.ok = true) :
    (s1.encoded_read_time_ = b.encoded_read_time_ ∧ s1.upperbound_ = b.upperbound_ ∧
      s1.iter_ = b.iter_ ∧
      s1.intent_iter_.map cursorStatic = b.intent_iter_.map cursorStatic ∧
      (b.intent_iter_ = none → IntentSide b s1) ∧ b.status_.ok = true) ∧
    ∃ s1', SeekTail env budget k full b' = some s1' ∧ s1'.status_ = s1.status_ ∧
      (s1'.entry_ = s1.entry_ ∨
        (s1.entry_ = { b.entry_ with valid := false } ∧
         s1'.entry_ = { b'.entry_ with valid := false })) := by
  obtain ⟨r1, r2, r3, r4, r5, r6, r7⟩ := hrel
  unfold SeekTail at h ⊢
  rcases Option.eq_none_or_eq_some b.intent_iter_ with hi | ⟨c, hi⟩
  · have hi' : b'.intent_iter_ = none := by
      rw [hi] at r6
      cases hx : b'.intent_iter_ with
      | none => rfl
      | some c' => simp [hx] at r6
    simp only [hi, hi', Option.isSome_none, Bool.false_eq_true, if_false,
      Option.some.injEq] at h ⊢
    subst h
    obtain ⟨q1, q2, q3, q4⟩ := r7 hi
    have hc := FillEntry_congr env b b' q1.symm (fun _ => ⟨q2.symm, q3.symm, q4.symm⟩) hs1
    obtain ⟨f1, f2, f3, f4⟩ := FillEntry_frame env b
    refine ⟨⟨f1, f2, f3, by rw [f4, hi], fun _ => IntentSide_FillEntry env b,
      FillEntry_status_mono env b hs1⟩, _, rfl, hc.1, hc.2⟩
  · have hi' : ∃ c', b'.intent_iter_ = some c' := by
      rw [hi] at r6
      cases hx : b'.intent_iter_ with
      | none => simp [hx] at r6
      | some c' => exact ⟨c', rfl⟩
    obtain ⟨c', hi'⟩ := hi'
    have hsome : b.intent_iter_.isSome = true := by rw [hi]; rfl
    have hsome' : b'.intent_iter_.isSome = true := by rw [hi']; rfl
    simp only [hsome, hsome', if_true] at h ⊢
    by_cases hr2 : (SetIntentUpperbound env b).2 = true
    · obtain ⟨buf, hbuf, hr1, hbok, hist⟩ := SetIntentUpperbound_true env b hr2
      have hist' : intentStatus b' = intentStatus b := intentStatus_of_static b' b r6
      have hS' := SetIntentUpperbound_of env b' buf (by rw [r4, r2]; exact hbuf)
        (by rw [r5]; exact hbok) (by rw [r4, hist']; exact hist)
      have hp2 : (SetIntentUpperbound env b').2 = true := by rw [hS']
      have hp1 := congrArg Prod.fst hS'
      simp only at hp1
      simp only [hr2, hp2, Bool.not_true, Bool.false_eq_true, if_false,
        SeekToSuitableIntent_eq] at h ⊢
      generalize (SetIntentUpperbound env b).1 = R at h hr1
      generalize (SetIntentUpperbound env b').1 = R' at hp1 ⊢
      have hR := hr1.symm
      have hR' := hp1.symm
      have hd : ∀ (X : IntentAwareIterator) (key : Slice),
          (if full = true then
            ({ X with seek_buffer_ := k ++ env.StrongWriteSuffix k } : IntentAwareIterator)
           else X).encoded_read_time_ = X.encoded_read_time_ ∧
          (if full = true then
            ({ X with seek_buffer_ := k ++ env.StrongWriteSuffix k } : IntentAwareIterator)
           else X).upperbound_ = X.upperbound_ ∧
          (if full = true then
            ({ X with seek_buffer_ := k ++ env.StrongWriteSuffix k } : IntentAwareIterator)
           else X).iter_ = X.iter_ ∧
          (if full = true then
            ({ X with seek_buffer_ := k ++ env.StrongWriteSuffix k } : IntentAwareIterator)
           else X).regular_entry_ = X.regular_entry_ ∧
          (if full = true then
            ({ X with seek_buffer_ := k ++ env.StrongWriteSuffix k } : IntentAwareIterator)
           else X).status_ = X.status_ ∧
          (if full = true then
            ({ X with seek_buffer_ := k ++ env.StrongWriteSuffix k } : IntentAwareIterator)
           else X).intent_upperbound_buffer_ = X.intent_upperbound_buffer_ ∧
          (if full = true then
            ({ X with seek_buffer_ := k ++ env.StrongWriteSuffix k } : IntentAwareIterator)
           else X).intent_iter_ = X.intent_iter_ ∧
          (if full = true then
            ({ X with seek_buffer_ := k ++ env.StrongWriteSuffix k } : IntentAwareIterator)
           else X).entry_ = X.entry_ ∧
          (if full = true then
            (if full = true then
              ({ X with seek_buffer_ := k ++ env.StrongWriteSuffix k } : IntentAwareIterator)
             else X).seek_buffer_
           else k) = (if full = true then k ++ env.StrongWriteSuffix k else k) := by
        intro X _
        cases full <;> simp
      obtain ⟨a1, a2, a3, a4, a5, a6, a7, a8, a9⟩ := hd R k
      obtain ⟨b1, b2, b3, b4, b5, b6, b7, b8, b9⟩ := hd R' k
      rw [a9] at h
      rw [b9]
      generalize hkey : (if full = true then k ++ env.StrongWriteSuffix k else k) = key2 at h ⊢
      generalize hD : (if full = true then
          ({ R with seek_buffer_ := k ++ env.StrongWriteSuffix k } : IntentAwareIterator)
         else R) = D at h a1 a2 a3 a4 a5 a6 a7 a8
      generalize hD' : (if full = true then
          ({ R' with seek_buffer_ := k ++ env.StrongWriteSuffix k } : IntentAwareIterator)
         else R') = D' at b1 b2 b3 b4 b5 b6 b7 b8 ⊢
      have hrel0 : Rel (resetResolved env (onIntentIter (fun it => it.Seek key2) D))
          (resetResolved env (onIntentIter (fun it => it.Seek key2) D')) := by
        apply Rel_start
        · rw [b1, a1, ← hR, ← hR']; exact r1
        · rw [b2, a2, ← hR, ← hR']; exact r2
        · rw [b3, a3, ← hR, ← hR']; exact r3
        · rw [b4, a4, ← hR, ← hR']; exact r4
        · rw [b5, a5, ← hR, ← hR']; simp only [hist', r5]
        · rw [b6, a6, ← hR, ← hR']
        · rw [b7, a7, ← hR, ← hR']
          exact map_upper_seek_congr _ _ buf key2 r6
      rcases Rel_SeekToSuitableIntentLoop env .kForward budget _ _ hrel0 with
        ⟨n1, _⟩ | ⟨f, f', e1, e2, hr, hx⟩
      · rw [n1] at h; simp at h
      · rw [e1] at h
        rw [e2]
        simp only [Option.some.injEq] at h ⊢
        subst h
        have hF := Frame.trans (Frame_start env (fun it => it.Seek key2) D (fun c => rfl))
          (Frame_SeekToSuitableIntentLoop env .kForward budget _ _ e1)
        have hF' := Frame.trans (Frame_start env (fun it => it.Seek key2) D' (fun c => rfl))
          (Frame_SeekToSuitableIntentLoop env .kForward budget _ _ e2)
        have hfok : f.status_.ok = true := FillEntry_status_mono env f hs1
        have hc := FillEntry_congr env f f' hr.1
          (fun hv => by
            have hne : f.resolved_intent_state_ ≠ .kNoIntent := by rw [hv]; simp
            exact ⟨(hr.2 hne).1, (hr.2 hne).2, hx hfok hne⟩) hs1
        obtain ⟨f1, f2, f3, f4⟩ := FillEntry_frame env f
        obtain ⟨g1, g2, g3, g4, g5, g6, g7, g8, g9⟩ := hF
        obtain ⟨g1', g2', g3', g4', g5', g6', g7', g8', g9'⟩ := hF'
        refine ⟨⟨?_, ?_, ?_, ?_, ?_, hbok⟩, _, rfl, hc.1, ?_⟩
        · rw [f1, g1, a1, ← hR]
        · rw [f2, g2, a2, ← hR]
        · rw [f3, g3, a3, ← hR]
        · rw [f4, g8, a7, ← hR]
          simp only [Option.map_map]
          congr 1
        · intro hn; rw [hi] at hn; simp at hn
        · rcases hc.2 with hc2 | ⟨hc2, hc3⟩
          · exact Or.inl hc2
          · refine Or.inr ⟨?_, ?_⟩
            · rw [hc2, g5, a8, ← hR]
            · rw [hc3, g5', b8, ← hR']
    · have hr2' : (SetIntentUpperbound env b).2 = false := by simpa using hr2
      have hbad := SetIntentUpperbound_false env b hr2'
      simp only [hr2', Bool.not_false, if_true, Option.some.injEq] at h
      subst h
      rw [hbad] at hs1
      exact absurd hs1 (by simp)

/-- C8. Seek idempotence: whatever state the first `Seek(k)` started from, a second
`Seek(k)` returns as well, and `Fetch` after it gives the same result (the stored error, or
the same valid flag, key, value, write time and same-transaction flag) as `Fetch` after the
first. The intent decoder is a function of the entry and the cursors' contents are
unchanged between the calls. -/
theorem Seek_idempotent (env : Env) (budget : Nat) (k : Slice) (full : Bool)
    (s s1 : IntentAwareIterator) (h : Seek env budget k full s = some s1) :
    ∃ s2, Seek env budget k full s1 = some s2 ∧ Fetch s2 = Fetch s1 := by
  by_cases hs1 : s1.status_.ok = true
  swap
  · exact ⟨s1, by rw [Seek_eq]; simp [hs1], rfl⟩
  have hs : s.status_.ok = true := by
    by_contra hn
    rw [Seek_eq] at h
    simp only [hn, Bool.not_false, if_true, Option.some.injEq] at h
    subst h
    exact hn hs1
  rw [Seek_eq] at h
  simp only [hs, Bool.not_true, Bool.false_eq_true, if_false] at h
  cases hloop : SkipFutureRecordsLoop env s.encoded_read_time_ s.upperbound_ .kForward budget
      (s.iter_.Seek k) 0 with
  | none => simp [hloop] at h
  | some out =>
    simp only [hloop, Option.map_some', Option.some_bind] at h
    obtain ⟨hcs, hcu⟩ := SkipFutureRecordsLoop_cursor env _ _ _ _ _ _ _ hloop
    obtain ⟨i1, i2, i3, i4, i5⟩ :=
      IntentSide_applySkipOutcome { s with iter_ := s.iter_.Seek k } out
    have hrefl : TailRel (applySkipOutcome { s with iter_ := s.iter_.Seek k } out)
        (applySkipOutcome { s with iter_ := s.iter_.Seek k } out) :=
      ⟨rfl, rfl, rfl, rfl, rfl, rfl, fun _ => ⟨rfl, rfl, rfl, rfl⟩⟩
    obtain ⟨⟨t1, t2, t3, t4, t5, t6⟩, _⟩ := SeekTail_congr env budget k full _ _ s1 hrefl h hs1
    rw [applySkipOutcome_status] at t6
    obtain ⟨_, hnf⟩ := newStatus_ok _ _ t6
    -- the second run repeats the first skip
    have hseek : s1.iter_.Seek k = s.iter_.Seek k := by
      apply Cursor_Seek_congr
      · rw [t3, i5, hcs]; rfl
      · rw [t3, i5, hcu]; rfl
    have hst : s1.status_ = s.status_ := by
      rw [(Status.ok_iff _).1 hs1, (Status.ok_iff _).1 hs]
    obtain ⟨j1, j2, j3, j4, j5⟩ :=
      IntentSide_applySkipOutcome { s1 with iter_ := s1.iter_.Seek k } out
    have hrel : TailRel (applySkipOutcome { s with iter_ := s.iter_.Seek k } out)
        (applySkipOutcome { s1 with iter_ := s1.iter_.Seek k } out) := by
      refine ⟨?_, ?_, ?_, ?_, ?_, ?_, ?_⟩
      · rw [j2, i2]; exact t1.trans i2
      · rw [j3, i3]; exact t2.trans i3
      · rw [j5, i5]
      · rw [applySkipOutcome_eq _ _ hnf, applySkipOutcome_eq _ _ hnf]
      · rw [applySkipOutcome_status, applySkipOutcome_status]; simp only [hst]
      · rw [j1.1]; exact t4
      · intro hnone
        obtain ⟨u1, u2, u3, u4, u5, u6, u7, u8⟩ := t5 hnone
        obtain ⟨v1, v2, v3, v4, v5, v6, v7, v8⟩ := j1
        obtain ⟨w1, w2, w3, w4, w5, w6, w7, w8⟩ := i1
        refine ⟨(core_eq_iff _ _).2 ⟨?_, ?_, ?_, ?_, ?_, ?_, ?_, ?_, ?_, ?_⟩, ?_, ?_, ?_⟩
        · rw [j2, i2]; exact t1.trans i2
        · rw [j3, i3]; exact t2.trans i3
        · rw [j5, i5]
        · rw [v1]; exact u1
        · rw [v2]; exact u2
        · rw [applySkipOutcome_status, applySkipOutcome_status]; simp only [hst]
        · rw [applySkipOutcome_eq _ _ hnf, applySkipOutcome_eq _ _ hnf]
        · rw [v3]; exact u3
        · rw [v4]; exact u4
        · rw [v5]; exact u5
        · rw [v6]; exact u6
        · rw [v7]; exact u7
        · rw [v8]; exact u8
    obtain ⟨_, s2, hs2, hstat, hent⟩ := SeekTail_congr env budget k full _ _ s1 hrel h hs1
    refine ⟨s2, ?_, ?_⟩
    · have e1 : s1.encoded_read_time_ = s.encoded_read_time_ := t1.trans i2
      have e2 : s1.upperbound_ = s.upperbound_ := t2.trans i3
      have hloop2 : SkipFutureRecordsLoop env s1.encoded_read_time_ s1.upperbound_ .kForward
          budget (s1.iter_.Seek k) 0 = some out := by
        rw [e1, e2, hseek]; exact hloop
      rw [Seek_eq]
      simp only [hs1, Bool.not_true, Bool.false_eq_true, if_false, hloop2, Option.map_some',
        Option.some_bind]
      exact hs2
    · have he : s2.entry_ = s1.entry_ := by
        rcases hent with he | ⟨he1, he2⟩
        · exact he
        · rw [he2, j4]
          simp only
          rw [he1]
      unfold Fetch
      rw [hstat, he]

/-- Witness of `Seek_idempotent`: seeking `k` twice over the store of `pendingIntentState`
fetches `(k, v1, 10)` both times. -/
theorem Seek_idempotent_witness :
    (∃ s2, Seek miniEnv 10 [107] false seekOnceState = some s2 ∧
      Fetch s2 = Fetch seekOnceState) ∧
    Fetch seekOnceState =
      .ok { valid := true, key := [107], value := [1], write_time := enc 10,
            same_transaction := false } :=
  ⟨Seek_idempotent miniEnv 10 [107] false pendingIntentState seekOnceState (by decide),
    by decide⟩

/-! ## Skipping by steps and skipping with seeks -/

theorem lowerBound_take (target : Slice) :
    ∀ (l : List KeyValueEntry), ∀ e ∈ l.take (lowerBound target l),
      Slice.compare e.key target < 0 := by
  intro l
  induction l with
  | nil => intro e he; simp [lowerBound] at he
  | cons x xs ih =>
    intro e he
    unfold lowerBound at he
    by_cases hx : Slice.compare x.key target ≥ 0
    · simp [hx] at he
    · simp only [hx, if_false, List.take_succ_cons, List.mem_cons] at he
      rcases he with rfl | he
      · omega
      · exact ih e he

theorem lowerBound_append (target : Slice) (l2 : List KeyValueEntry) :
    ∀ (l1 : List KeyValueEntry), (∀ e ∈ l1, Slice.compare e.key target < 0) →
      lowerBound target (l1 ++ l2) = l1.length + lowerBound target l2 := by
  intro l1
  induction l1 with
  | nil => intro _; simp
  | cons x xs ih =>
    intro h
    have hx : ¬ Slice.compare x.key target ≥ 0 := by
      have := h x (by simp); omega
    have := ih (fun e he => h e (by simp [he]))
    simp only [List.cons_append, lowerBound, hx, if_false, List.length_cons, List.append_eq,
      this]
    omega

theorem lowerBound_le_length (target : Slice) :
    ∀ (l : List KeyValueEntry), lowerBound target l ≤ l.length := by
  intro l
  induction l with
  | nil => simp [lowerBound]
  | cons x xs ih =>
    unfold lowerBound
    split
    · simp
    · simp only [List.length_cons]; omega

theorem ScanResult.same_refl (r : ScanResult) : r.same r := Or.inl rfl

theorem ScanResult.same_trans {a b c : ScanResult} (h1 : a.same b) (h2 : b.same c) :
    a.same c := by
  rcases h1 with rfl | ⟨ha, hb⟩
  · exact h2
  · rcases h2 with rfl | ⟨_, hc⟩
    · exact Or.inr ⟨ha, hb⟩
    · exact Or.inr ⟨ha, hc⟩

/-- A run of in-order records that the visibility test skips does not change the outcome of
a scan. -/
theorem scanRecords_skip_segment (env : Env) (rt : EncodedReadHybridTime) (ub : Slice)
    (rest : List KeyValueEntry) :
    ∀ (seg : List KeyValueEntry),
      (∀ x ∈ seg, ∃ n, SkipFutureRecordsCheck env rt x = .skip n) →
      SortedKeys (seg ++ rest) →
      (scanRecords env rt ub (seg ++ rest)).same (scanRecords env rt ub rest) := by
  intro seg
  induction seg with
  | nil => intro _ _; exact ScanResult.same_refl _
  | cons x xs ih =>
    intro hskip hsorted
    have hs' : SortedKeys (xs ++ rest) := (List.pairwise_cons.1 hsorted).2
    have hx := hskip x (by simp)
    obtain ⟨n, hn⟩ := hx
    have ih' := ih (fun y hy => hskip y (by simp [hy])) hs'
    simp only [List.cons_append, scanRecords, hn]
    by_cases hb : SatisfyBounds ub x.key = true
    · simp only [hb, Bool.not_true, Bool.false_eq_true, if_false]
      exact ih'
    · simp only [hb, Bool.not_false, if_true]
      refine Or.inr ⟨Or.inl rfl, ?_⟩
      cases rest with
      | nil => exact Or.inr rfl
      | cons y ys =>
        have hxy : Slice.compare x.key y.key ≤ 0 :=
          (List.pairwise_cons.1 hsorted).1 y (by simp)
        have hyb : SatisfyBounds ub y.key = false := by
          simp only [SatisfyBounds, decide_eq_true_eq, not_le] at hb
          simp only [SatisfyBounds, decide_eq_false_iff_not, not_le]
          have h1 : Slice.compare ub x.key < 0 := by
            have := Slice.compare_antisymm x.key ub; omega
          have h2 := Slice.compare_lt_le_trans ub x.key y.key h1 hxy
          have := Slice.compare_antisymm y.key ub; omega
        left
        simp [scanRecords, hyb]

theorem WellFormedKeys_decodes (env : Env) (data : List KeyValueEntry)
    (h : WellFormedKeys env data = true) (a : KeyValueEntry) (ha : a ∈ data) :
    ∃ p, keyBeforeTime env a.key = some p := by
  simp only [WellFormedKeys, List.all_eq_true] at h
  have := h a ha
  cases hk : keyBeforeTime env a.key with
  | none => simp [hk] at this
  | some p => exact ⟨p, rfl⟩

theorem WellFormedKeys_shared (env : Env) (data : List KeyValueEntry)
    (h : WellFormedKeys env data = true) (a b : KeyValueEntry) (ha : a ∈ data) (hb : b ∈ data)
    (p : Slice) (hp : keyBeforeTime env a.key = some p)
    (hstart : Slice.starts_with b.key p = true) : keyBeforeTime env b.key = some p := by
  simp only [WellFormedKeys, List.all_eq_true] at h
  have := h a ha
  simp only [hp, List.all_eq_true] at this
  have := this b hb
  simpa [hstart] using this

theorem keyBeforeTime_eq (env : Env) (key p : Slice) (h : keyBeforeTime env key = some p) :
    ∃ n, env.GetEncodedSize key = .ok n ∧ Slice.WithoutSuffix key n = p ∧
      key = p ++ Slice.Suffix key n := by
  unfold keyBeforeTime at h
  cases hn : env.GetEncodedSize key with
  | error code => simp [hn] at h
  | ok n =>
    simp only [hn, Option.some.injEq] at h
    refine ⟨n, rfl, h, ?_⟩
    rw [← h]
    simp [Slice.WithoutSuffix, Slice.Suffix]

/-- A record whose commit time is later than `global_limit` is skipped under ordered
limits, whatever its value. -/
theorem SkipFutureRecordsCheck_later (env : Env) (rt : EncodedReadHybridTime)
    (hord : OrderedLimits rt) (x : KeyValueEntry) (m : Nat)
    (hm : env.GetEncodedSize x.key = .ok m)
    (hlate : Slice.compare (Slice.Suffix x.key m) rt.global_limit < 0) :
    SkipFutureRecordsCheck env rt x = .skip m := by
  obtain ⟨h1, h2⟩ := hord
  simp only [timeLE, decide_eq_true_eq] at h1 h2
  have hread : Slice.compare (Slice.Suffix x.key m) rt.read < 0 := by
    have := Slice.compare_antisymm rt.read rt.global_limit
    exact Slice.compare_lt_le_trans _ _ _ hlate (by omega)
  have hlocal : Slice.compare (Slice.Suffix x.key m) rt.local_limit < 0 := by
    have := Slice.compare_antisymm rt.local_limit rt.global_limit
    exact Slice.compare_lt_le_trans _ _ _ hlate (by omega)
  have hreg : Slice.compare (Slice.Suffix x.key m) rt.regular_limit < 0 := by
    unfold EncodedReadHybridTime.regular_limit
    split
    · exact hlocal
    · exact hread
  unfold SkipFutureRecordsCheck
  simp only [hm]
  cases hv : Slice.TryConsumeByte x.value env.kHybridTime with
  | none =>
    simp only
    have : ¬ Slice.compare (Slice.Suffix x.key m) rt.regular_limit > 0 := by omega
    simp [this]
  | some value =>
    simp only
    by_cases hl : Slice.compare value rt.local_limit > 0
    · have : ¬ Slice.compare (Slice.Suffix x.key m) rt.global_limit > 0 := by omega
      simp [hl, this]
    · have : ¬ Slice.compare (Slice.Suffix x.key m) rt.read > 0 := by omega
      simp [hl, this]

theorem starts_with_append (p x : List Nat) : Slice.starts_with (p ++ x) p = true := by
  simp [Slice.starts_with]

/-- The records a seek to `(key prefix, global_limit)` jumps over are records the visibility
test skips, in a store of well-formed keys read under ordered limits. -/
theorem skipped_by_seek (env : Env) (rt : EncodedReadHybridTime) (data : List KeyValueEntry)
    (hwf : WellFormedKeys env data = true) (hord : OrderedLimits rt)
    (entry : KeyValueEntry) (hmem : entry ∈ data) (n : Nat)
    (hn : env.GetEncodedSize entry.key = .ok n)
    (x : KeyValueEntry) (hx : x ∈ data)
    (h1 : Slice.compare entry.key x.key ≤ 0)
    (h2 : Slice.compare x.key (Slice.WithoutSuffix entry.key n ++ rt.global_limit) < 0) :
    ∃ m, SkipFutureRecordsCheck env rt x = .skip m := by
  have hp : keyBeforeTime env entry.key = some (Slice.WithoutSuffix entry.key n) := by
    simp [keyBeforeTime, hn]
  obtain ⟨_, _, _, hsplit⟩ := keyBeforeTime_eq env entry.key _ hp
  have hn' : env.GetEncodedSize entry.key = .ok n := hn
  have hkey : entry.key = Slice.WithoutSuffix entry.key n ++ Slice.Suffix entry.key n := by
    simp [Slice.WithoutSuffix, Slice.Suffix]
  have h1' : Slice.compare
      (Slice.WithoutSuffix entry.key n ++ Slice.Suffix entry.key n) x.key ≤ 0 := by
    rw [← hkey]; exact h1
  obtain ⟨y, hy⟩ := Slice.between_append (Slice.WithoutSuffix entry.key n)
    (Slice.Suffix entry.key n) rt.global_limit x.key h1' (Int.le_of_lt h2)
  have hstart : Slice.starts_with x.key (Slice.WithoutSuffix entry.key n) = true := by
    rw [hy]; exact starts_with_append _ _
  have hxp := WellFormedKeys_shared env data hwf entry x hmem hx _ hp hstart
  obtain ⟨m, hm, hpm, hxsplit⟩ := keyBeforeTime_eq env x.key _ hxp
  have hsuf : Slice.Suffix x.key m = y := by
    have : Slice.WithoutSuffix entry.key n ++ Slice.Suffix x.key m =
        Slice.WithoutSuffix entry.key n ++ y := by
      rw [← hxsplit, hy]
    exact List.append_cancel_left this
  refine ⟨m, SkipFutureRecordsCheck_later env rt hord x m hm ?_⟩
  rw [hsuf]
  rw [hy, Slice.compare_append_left] at h2
  exact h2

theorem get?_split {α : Type} :
    ∀ (l : List α) (p : Nat) (e : α), l.get? p = some e →
      l.drop p = e :: l.drop (p + 1) ∧ l = l.take p ++ e :: l.drop (p + 1) ∧
      p < l.length ∧ e ∈ l := by
  intro l
  induction l with
  | nil => intro p e h; simp at h
  | cons x xs ih =>
    intro p e h
    cases p with
    | zero =>
      simp only [List.get?_cons_zero, Option.some.injEq] at h
      subst h
      simp
    | succ q =>
      simp only [List.get?_cons_succ] at h
      obtain ⟨h1, h2, h3, h4⟩ := ih q e h
      refine ⟨by simpa using h1, ?_, by simpa using h3, by simp [h4]⟩
      simp only [List.take_succ_cons, List.drop_succ_cons, List.cons_append, List.cons.injEq,
        true_and]
      exact h2

theorem get?_none_drop {α : Type} (l : List α) (p : Nat) (h : l.get? p = none) :
    l.drop p = [] := by
  rw [List.get?_eq_none] at h
  exact List.drop_eq_nil_of_le h

theorem Cursor.Entry_unbounded (data : List KeyValueEntry) (p : Nat) (st : Status) :
    Cursor.Entry { data := data, pos := some p, upper := none, status := st } = data.get? p := by
  unfold Cursor.Entry Cursor.below
  simp only
  cases data.get? p <;> simp

theorem SortedKeys_split (pre post : List KeyValueEntry) (e : KeyValueEntry)
    (h : SortedKeys (pre ++ e :: post)) :
    (∀ x ∈ pre, Slice.compare x.key e.key ≤ 0) ∧
    (∀ x ∈ post, Slice.compare e.key x.key ≤ 0) ∧ SortedKeys post := by
  unfold SortedKeys at h ⊢
  rw [List.pairwise_append] at h
  obtain ⟨_, h2, h3⟩ := h
  rw [List.pairwise_cons] at h2
  exact ⟨fun x hx => h3 x hx e (by simp), h2.1, h2.2⟩

theorem SkipFutureRecordsCheck_skip_size (env : Env) (rt : EncodedReadHybridTime)
    (entry : KeyValueEntry) (m : Nat) (h : SkipFutureRecordsCheck env rt entry = .skip m) :
    env.GetEncodedSize entry.key = .ok m := by
  unfold SkipFutureRecordsCheck at h
  cases hn : env.GetEncodedSize entry.key with
  | error code => simp [hn] at h
  | ok n =>
    simp only [hn] at h
    cases hv : Slice.TryConsumeByte entry.value env.kHybridTime with
    | none =>
      simp only [hv] at h
      split at h
      · simp at h
      · simp only [SkipVerdict.skip.injEq] at h; rw [h]
    | some value =>
      simp only [hv] at h
      by_cases hacc : Slice.compare (Slice.Suffix entry.key n)
          (if Slice.compare value rt.local_limit > 0 then rt.global_limit else rt.read) > 0
      · rw [if_pos hacc] at h
        cases hm : env.EncodedFromStart value with
        | error code => simp [hm] at h
        | ok k => simp [hm] at h
      · rw [if_neg hacc] at h
        simp only [SkipVerdict.skip.injEq] at h; rw [h]

/-- Skipping with seeks agrees with skipping by steps: over a byte-sorted store of
well-formed keys read under ordered limits, with a seek threshold of at least 2, the loop of
forward `SkipFutureRecords` started anywhere returns within `2 * (records left) + 2`
iterations, with the candidate and the error that examining the records one at a time
gives. -/
theorem SkipFutureRecordsLoop_scan (env : Env) (rt : EncodedReadHybridTime) (ub : Slice)
    (data : List KeyValueEntry) (st : Status)
    (hsorted : SortedKeys data) (hwf : WellFormedKeys env data = true)
    (hord : OrderedLimits rt)
    (hthr : 2 ≤ env.max_next_calls_while_skipping_future_records) :
    ∀ (budget p cnt : Nat),
      2 * (data.length - p) +
        (if cnt + 1 ≥ env.max_next_calls_while_skipping_future_records then 1 else 0) + 1
        ≤ budget →
      ∃ out, SkipFutureRecordsLoop env rt ub .kForward budget
          { data := data, pos := some p, upper := none, status := st } cnt = some out ∧
        out.result.same (scanRecords env rt ub (data.drop p)) := by
  intro budget
  induction budget with
  | zero => intro p cnt hb; omega
  | succ n ih =>
    intro p cnt hb
    unfold SkipFutureRecordsLoop
    rw [Cursor.Entry_unbounded]
    cases hget : data.get? p with
    | none =>
      rw [get?_none_drop data p hget]
      exact ⟨_, rfl, Or.inl rfl⟩
    | some entry =>
      obtain ⟨hdrop, hsplit, hlt, hmem⟩ := get?_split data p entry hget
      rw [hdrop]
      simp only [scanRecords]
      by_cases hbound : SatisfyBounds ub entry.key = true
      swap
      · simp only [hbound, Bool.not_false, if_true]
        exact ⟨_, rfl, Or.inl rfl⟩
      simp only [hbound, Bool.not_true, Bool.false_eq_true, if_false]
      cases hcheck : SkipFutureRecordsCheck env rt entry with
      | keep e => exact ⟨_, rfl, Or.inl rfl⟩
      | fail code => exact ⟨_, rfl, Or.inl rfl⟩
      | skip m =>
        simp only [true_and]
        by_cases hcnt : cnt + 1 ≥ env.max_next_calls_while_skipping_future_records
        · simp only [hcnt, if_true] at hb ⊢
          by_cases hG : Slice.compare rt.global_limit (Slice.Suffix entry.key m) > 0
          · simp only [hG, if_true]
            -- the seek lands after the current record
            have hm := SkipFutureRecordsCheck_skip_size env rt entry m hcheck
            have hsorted' := hsorted
            rw [hsplit] at hsorted'
            obtain ⟨hpre, hpost, hspost⟩ := SortedKeys_split _ _ _ hsorted'
            have hkey : entry.key =
                Slice.WithoutSuffix entry.key m ++ Slice.Suffix entry.key m := by
              simp [Slice.WithoutSuffix, Slice.Suffix]
            have hentryT : Slice.compare entry.key
                (Slice.WithoutSuffix entry.key m ++ rt.global_limit) < 0 := by
              have h0 := Slice.compare_append_left (Slice.WithoutSuffix entry.key m)
                (Slice.Suffix entry.key m) rt.global_limit
              rw [← hkey] at h0
              have := Slice.compare_antisymm rt.global_limit (Slice.Suffix entry.key m)
              omega
            have hfront : ∀ e ∈ data.take p ++ [entry],
                Slice.compare e.key (Slice.WithoutSuffix entry.key m ++ rt.global_limit) < 0 := by
              intro e he
              simp only [List.mem_append, List.mem_singleton] at he
              rcases he with he | rfl
              · exact Slice.compare_le_lt_trans _ _ _ (hpre e he) hentryT
              · exact hentryT
            have hdata : data = (data.take p ++ [entry]) ++ data.drop (p + 1) := by
              rw [List.append_assoc]; exact hsplit
            have hlb : lowerBound (Slice.WithoutSuffix entry.key m ++ rt.global_limit) data =
                (p + 1) + lowerBound (Slice.WithoutSuffix entry.key m ++ rt.global_limit)
                  (data.drop (p + 1)) := by
              conv_lhs => rw [hdata]
              rw [lowerBound_append _ _ _ hfront]
              simp only [List.length_append, List.length_take, List.length_singleton]
              have : min p data.length = p := by omega
              rw [this]
            generalize hq : lowerBound (Slice.WithoutSuffix entry.key m ++ rt.global_limit)
              (data.drop (p + 1)) = q at hlb
            have hqle : q ≤ (data.drop (p + 1)).length := by
              rw [← hq]; exact lowerBound_le_length _ _
            simp only [List.length_drop] at hqle
            have hseek : Cursor.Seek
                { data := data, pos := some p, upper := none, status := st }
                (Slice.WithoutSuffix entry.key m ++ rt.global_limit) =
                { data := data, pos := some (p + 1 + q), upper := none, status := st } := by
              simp [Cursor.Seek, hlb]
            rw [hseek]
            obtain ⟨out, hout, hsame⟩ := ih (p + 1 + q) 0 (by
              have : ¬ (0 + 1 ≥ env.max_next_calls_while_skipping_future_records) := by omega
              simp only [this, if_false]
              omega)
            refine ⟨out, hout, ScanResult.same_trans hsame ?_⟩
            · -- the records jumped over are skipped by the scan as well
              have hseg : data.drop (p + 1) =
                  (data.drop (p + 1)).take q ++ data.drop (p + 1 + q) := by
                have h0 : data.drop (p + 1 + q) = (data.drop (p + 1)).drop q := by
                  rw [List.drop_drop]
                rw [h0]
                exact (List.take_append_drop q _).symm
              have hskipseg : ∀ x ∈ (data.drop (p + 1)).take q,
                  ∃ k, SkipFutureRecordsCheck env rt x = .skip k := by
                intro x hx
                have hxpost : x ∈ data.drop (p + 1) := List.mem_of_mem_take hx
                have hxdata : x ∈ data := List.mem_of_mem_drop hxpost
                have hxT : Slice.compare x.key
                    (Slice.WithoutSuffix entry.key m ++ rt.global_limit) < 0 := by
                  rw [← hq] at hx
                  exact lowerBound_take _ _ x hx
                exact skipped_by_seek env rt data hwf hord entry hmem m hm x hxdata
                  (hpost x hxpost) hxT
              have hs2 : SortedKeys ((data.drop (p + 1)).take q ++ data.drop (p + 1 + q)) := by
                rw [← hseg]; exact hspost
              have := scanRecords_skip_segment env rt ub (data.drop (p + 1 + q)) _ hskipseg hs2
              rw [← hseg] at this
              rcases this with heq | ⟨ha, hb'⟩
              · exact Or.inl heq.symm
              · exact Or.inr ⟨hb', ha⟩
          · simp only [hG, if_false]
            obtain ⟨out, hout, hsame⟩ := ih p 0 (by
              have : ¬ (0 + 1 ≥ env.max_next_calls_while_skipping_future_records) := by omega
              simp only [this, if_false]
              omega)
            refine ⟨out, hout, ?_⟩
            rw [hdrop] at hsame
            simpa [scanRecords, hbound, hcheck] using hsame
        · simp only [hcnt, if_false, and_false] at hb ⊢
          have hnext : MoveIterator .kForward
              { data := data, pos := some p, upper := none, status := st } =
              { data := data, pos := some (p + 1), upper := none, status := st } := rfl
          rw [hnext]
          obtain ⟨out, hout, hsame⟩ := ih (p + 1) (cnt + 1) (by
            have : (if cnt + 1 + 1 ≥ env.max_next_calls_while_skipping_future_records
                then 1 else 0) ≤ 1 := by split <;> omega
            omega)
          exact ⟨out, by simpa using hout, hsame⟩

theorem SkipFutureRecordsStepOnlyLoop_scan (env : Env) (rt : EncodedReadHybridTime) (ub : Slice)
    (data : List KeyValueEntry) (st : Status) :
    ∀ (budget p : Nat), (data.length - p) + 1 ≤ budget →
      ∃ out, SkipFutureRecordsStepOnlyLoop env rt ub budget
          { data := data, pos := some p, upper := none, status := st } = some out ∧
        out.result = scanRecords env rt ub (data.drop p) ∧
        out.cursor.status = st := by
  intro budget
  induction budget with
  | zero => intro p hb; omega
  | succ n ih =>
    intro p hb
    unfold SkipFutureRecordsStepOnlyLoop
    rw [Cursor.Entry_unbounded]
    cases hget : data.get? p with
    | none =>
      rw [get?_none_drop data p hget]
      exact ⟨_, rfl, rfl, rfl⟩
    | some entry =>
      obtain ⟨hdrop, _, hlt, _⟩ := get?_split data p entry hget
      rw [hdrop]
      simp only [scanRecords]
      by_cases hbound : SatisfyBounds ub entry.key = true
      swap
      · simp only [hbound, Bool.not_false, if_true]
        exact ⟨_, rfl, rfl, rfl⟩
      simp only [hbound, Bool.not_true, Bool.false_eq_true, if_false]
      cases hcheck : SkipFutureRecordsCheck env rt entry with
      | keep e => exact ⟨_, rfl, rfl, rfl⟩
      | fail code => exact ⟨_, rfl, rfl, rfl⟩
      | skip m =>
        simp only
        have hnext : Cursor.Next { data := data, pos := some p, upper := none, status := st } =
            { data := data, pos := some (p + 1), upper := none, status := st } := rfl
        rw [hnext]
        exact ih (p + 1) (by omega)

/-- Outcomes with the same scan result, on cursors that report no error, give states that
differ in the position of the regular cursor only. -/
theorem applySkipOutcome_same (s : IntentAwareIterator) (out out' : SkipOutcome)
    (h : out.result.same out'.result)
    (hst : out.cursor.status = .OK) (hst' : out'.cursor.status = .OK) :
    applySkipOutcome s out = { applySkipOutcome s out' with iter_ := out.cursor } := by
  have hex : ∀ c : Cursor, c.status = .OK →
      applySkipOutcome s (.exhausted c) = { s with iter_ := c, regular_entry_ := none } := by
    intro c hc
    simp [applySkipOutcome, HandleStatus, hc, Status.ok]
  cases out with
  | found c e =>
    cases out' with
    | found c' e' =>
      rcases h with h | ⟨h, _⟩
      · simp only [SkipOutcome.result, ScanResult.found.injEq] at h
        subst h; rfl
      · simp [SkipOutcome.result] at h
    | outOfBounds c' => rcases h with h | ⟨h, _⟩ <;> simp [SkipOutcome.result] at h
    | failed c' code' => rcases h with h | ⟨h, _⟩ <;> simp [SkipOutcome.result] at h
    | exhausted c' => rcases h with h | ⟨h, _⟩ <;> simp [SkipOutcome.result] at h
  | failed c code =>
    cases out' with
    | failed c' code' =>
      rcases h with h | ⟨h, _⟩
      · simp only [SkipOutcome.result, ScanResult.failed.injEq] at h
        subst h; rfl
      · simp [SkipOutcome.result] at h
    | outOfBounds c' => rcases h with h | ⟨h, _⟩ <;> simp [SkipOutcome.result] at h
    | found c' e' => rcases h with h | ⟨h, _⟩ <;> simp [SkipOutcome.result] at h
    | exhausted c' => rcases h with h | ⟨h, _⟩ <;> simp [SkipOutcome.result] at h
  | outOfBounds c =>
    cases out' with
    | outOfBounds c' => rfl
    | exhausted c' => rw [hex c' hst']; rfl
    | found c' e' => rcases h with h | ⟨_, h⟩ <;> simp [SkipOutcome.result] at h
    | failed c' code' => rcases h with h | ⟨_, h⟩ <;> simp [SkipOutcome.result] at h
  | exhausted c =>
    rw [hex c hst]
    cases out' with
    | outOfBounds c' => rfl
    | exhausted c' => rw [hex c' hst']; rfl
    | found c' e' => rcases h with h | ⟨_, h⟩ <;> simp [SkipOutcome.result] at h
    | failed c' code' => rcases h with h | ⟨_, h⟩ <;> simp [SkipOutcome.result] at h

theorem FillEntry_iter (env : Env) (t : IntentAwareIterator) (c : Cursor) :
    FillEntry env { t with iter_ := c } = { FillEntry env t with iter_ := c } := by
  obtain ⟨rt, ub, it, iit, buf0, st, ms, re, rs, pfx, txn, same, sub, val, sb, en⟩ := t
  cases re with
  | none =>
    simp only [FillEntry]
    split
    · simp [FillIntentEntry, GetIntentDocHybridTime]
    · rfl
  | some e =>
    simp only [FillEntry]
    split
    · simp only [FillRegularEntry]
      cases EncodedFromEnd env e.key <;> rfl
    · simp [FillIntentEntry, GetIntentDocHybridTime]

/-- C6 (as amended). Skip-optimization transparency: for every byte-sorted regular store of
well-formed keys, every start position, every upper bound and every snapshot with
`read ≤ global_limit` and `local_limit ≤ global_limit`, forward `SkipFutureRecords` with the
seek-ahead heuristic at its default threshold 3 returns, and ends with the same regular
candidate and the same status, hence the same `Fetch` result after `FillEntry`, as forward
skipping that only steps one record at a time. -/
theorem SkipFutureRecords_seek_transparent (env : Env) (s : IntentAwareIterator)
    (data : List KeyValueEntry) (p budget : Nat)
    (hiter : s.iter_ = { data := data, pos := some p, upper := none, status := .OK })
    (hsorted : SortedKeys data) (hwf : WellFormedKeys env data = true)
    (hord : OrderedLimits s.encoded_read_time_)
    (hthr : env.max_next_calls_while_skipping_future_records = 3)
    (hbudget : 2 * data.length + 2 ≤ budget) :
    ∃ s1 s2, SkipFutureRecords env .kForward budget s = some s1 ∧
      SkipFutureRecordsStepOnly env budget s = some s2 ∧
      s1.regular_entry_ = s2.regular_entry_ ∧ s1.status_ = s2.status_ ∧
      Fetch (FillEntry env s1) = Fetch (FillEntry env s2) := by
  obtain ⟨out, hout, hsame⟩ := SkipFutureRecordsLoop_scan env s.encoded_read_time_
    s.upperbound_ data .OK hsorted hwf hord (by omega) budget p 0 (by
      have : (if 0 + 1 ≥ env.max_next_calls_while_skipping_future_records then 1 else 0)
          ≤ 1 := by split <;> omega
      omega)
  obtain ⟨out', hout', hres', hst'⟩ := SkipFutureRecordsStepOnlyLoop_scan env
    s.encoded_read_time_ s.upperbound_ data .OK budget p (by omega)
  have hst : out.cursor.status = .OK := by
    have := (SkipFutureRecordsLoop_cursor env _ _ _ _ _ _ _ hout).1
    simp only [cursorStatic, Prod.mk.injEq] at this
    exact this.2
  have hs : out.result.same out'.result := by rw [hres']; exact hsame
  have heq := applySkipOutcome_same s out out' hs hst hst'
  refine ⟨applySkipOutcome s out, applySkipOutcome s out', ?_, ?_, ?_, ?_, ?_⟩
  · rw [SkipFutureRecords_eq, hiter, hout]; rfl
  · unfold SkipFutureRecordsStepOnly
    rw [hiter, hout']; rfl
  · rw [heq]
  · rw [heq]
  · rw [heq, FillEntry_iter]
    rfl

/-- Witness of `SkipFutureRecords_seek_transparent` on `buriedState`. -/
theorem SkipFutureRecords_seek_transparent_witness :
    ∃ s1 s2, SkipFutureRecords miniEnv .kForward 12 buriedState = some s1 ∧
      SkipFutureRecordsStepOnly miniEnv 12 buriedState = some s2 ∧
      s1.regular_entry_ = s2.regular_entry_ ∧ s1.status_ = s2.status_ ∧
      Fetch (FillEntry miniEnv s1) = Fetch (FillEntry miniEnv s2) :=
  SkipFutureRecords_seek_transparent miniEnv buriedState
    [{ key := [107, 35] ++ enc 50, value := [5] }, { key := [107, 35] ++ enc 45, value := [4] },
     { key := [107, 35] ++ enc 40, value := [3] }, { key := [107, 35] ++ enc 35, value := [2] },
     { key := [107, 35] ++ enc 10, value := [1] }] 0 12
    (by decide) (by unfold SortedKeys; decide) (by decide) (by unfold OrderedLimits; decide)
    (by decide) (by decide)

/-- C6 (counterexample). On the byte-sorted store of `unorderedLimitsState`, read with
`global_limit` (10) below `read` and `local_limit` (35), skipping with the seek-ahead
heuristic at threshold 3 seeks to `(k, global_limit)` after three steps and ends on `k@8`,
while skipping by steps ends on the visible record `k@32`: the candidates and the `Fetch`
results differ. On the byte-sorted store of `extendedKeyAtStart`, read with all limits at 15,
the same seek jumps over the visible record of the longer key `(k, 0x23)` and ends on `k@10`,
while skipping by steps ends on that record. -/
theorem SkipFutureRecords_seek_transparent_counterexample :
    (SortedKeys unorderedLimitsState.iter_.data ∧
      miniEnv.max_next_calls_while_skipping_future_records = 3 ∧
      ∃ s1 s2, SkipFutureRecords miniEnv .kForward 12 unorderedLimitsState = some s1 ∧
        SkipFutureRecordsStepOnly miniEnv 12 unorderedLimitsState = some s2 ∧
        s1.regular_entry_ = some { key := [107, 35] ++ enc 8, value := [1] } ∧
        s2.regular_entry_ = some { key := [107, 35] ++ enc 32, value := [2] } ∧
        s1.status_ = .OK ∧ s2.status_ = .OK ∧
        Fetch (FillEntry miniEnv s1) ≠ Fetch (FillEntry miniEnv s2)) ∧
    (SortedKeys extendedKeyAtStart.iter_.data ∧
      OrderedLimits extendedKeyAtStart.encoded_read_time_ ∧
      ∃ s1 s2, SkipFutureRecords miniEnv .kForward 12 extendedKeyAtStart = some s1 ∧
        SkipFutureRecordsStepOnly miniEnv 12 extendedKeyAtStart = some s2 ∧
        s1.regular_entry_ = some { key := [107, 35] ++ enc 10, value := [1] } ∧
        s2.regular_entry_ = some { key := [107, 35, 35] ++ enc 5, value := [2] } ∧
        s1.status_ = .OK ∧ s2.status_ = .OK ∧
        Fetch (FillEntry miniEnv s1) ≠ Fetch (FillEntry miniEnv s2)) :=
  ⟨⟨by unfold SortedKeys; decide, by decide, _, _, rfl, rfl, by decide, by decide, by decide,
      by decide, by decide⟩,
    ⟨by unfold SortedKeys; decide, by unfold OrderedLimits; decide, _, _, rfl, rfl, by decide,
      by decide, by decide, by decide, by decide⟩⟩

/-! ## Seek and Fetch over the regular store -/

theorem scanRecords_found (env : Env) (rt : EncodedReadHybridTime) (ub : Slice) :
    ∀ (l : List KeyValueEntry) (i : Nat) (raw e : KeyValueEntry),
      l.get? i = some raw →
      (∀ j x, j < i → l.get? j = some x →
        SatisfyBounds ub x.key = true ∧ ∃ m, SkipFutureRecordsCheck env rt x = .skip m) →
      SatisfyBounds ub raw.key = true → SkipFutureRecordsCheck env rt raw = .keep e →
      scanRecords env rt ub l = .found e := by
  intro l
  induction l with
  | nil => intro i raw e h; simp at h
  | cons x xs ih =>
    intro i raw e hget hbefore hb hk
    cases i with
    | zero =>
      simp only [List.get?_cons_zero, Option.some.injEq] at hget
      subst hget
      simp [scanRecords, hb, hk]
    | succ q =>
      simp only [List.get?_cons_succ] at hget
      obtain ⟨hxb, m, hxm⟩ := hbefore 0 x (by omega) (by simp)
      simp only [scanRecords, hxb, Bool.not_true, Bool.false_eq_true, if_false, hxm]
      exact ih q raw e hget
        (fun j y hj hy => hbefore (j + 1) y (by omega) (by simpa using hy)) hb hk

theorem scanRecords_none (env : Env) (rt : EncodedReadHybridTime) (ub : Slice) :
    ∀ (l : List KeyValueEntry),
      (∀ x ∈ l, SatisfyBounds ub x.key = true →
        ∃ m, SkipFutureRecordsCheck env rt x = .skip m) →
      scanRecords env rt ub l = .outOfBounds ∨ scanRecords env rt ub l = .exhausted := by
  intro l
  induction l with
  | nil => intro _; exact Or.inr rfl
  | cons x xs ih =>
    intro h
    by_cases hb : SatisfyBounds ub x.key = true
    · obtain ⟨m, hm⟩ := h x (by simp) hb
      simp only [scanRecords, hb, Bool.not_true, Bool.false_eq_true, if_false, hm]
      exact ih (fun y hy => h y (by simp [hy]))
    · left
      simp [scanRecords, hb]

theorem WithoutSuffix_Suffix_length (key : Slice) (n : Nat) :
    Slice.WithoutSuffix key ((Slice.Suffix key n).length + 1) = Slice.WithoutSuffix key (n + 1) := by
  simp only [Slice.WithoutSuffix, Slice.Suffix, List.length_drop]
  congr 1
  omega

theorem OrderedLimits_of_chain (rt : EncodedReadHybridTime)
    (h1 : timeLE rt.read rt.local_limit = true)
    (h2 : timeLE rt.local_limit rt.global_limit = true) : OrderedLimits rt := by
  refine ⟨?_, h2⟩
  simp only [timeLE, decide_eq_true_eq] at h1 h2 ⊢
  have a1 := Slice.compare_antisymm rt.read rt.local_limit
  have a2 := Slice.compare_antisymm rt.local_limit rt.global_limit
  have a3 := Slice.compare_antisymm rt.read rt.global_limit
  have := Slice.compare_le_trans rt.global_limit rt.local_limit rt.read (by omega) (by omega)
  omega

/-- C2 (as amended). Seek then Fetch with no intents cursor: for every byte-sorted regular
store of well-formed keys whose cursor reports no error, every snapshot with
`read ≤ local_limit ≤ global_limit` and every key `k`, `Seek(k)` in a non-failed state
returns, and afterwards
* if some record at or after `k` is kept by the skipper's visibility test and is within the
  upper bound, and every record between `k` and it is within the upper bound and skipped by
  the test, then `Fetch` returns that record: the key is the record key without the marker
  byte and the encoded time, `write_time` is that encoded time, the value is the value the
  test keeps (the record value, without the `kHybridTime` marker and the embedded intent
  time when it begins with them) and `same_transaction` is false;
* if every record at or after `k` within the upper bound is skipped by the test, the fetched
  entry is invalid. -/
theorem Seek_fetches_first_visible (env : Env) (s : IntentAwareIterator)
    (data : List KeyValueEntry) (k : Slice) (full : Bool) (budget : Nat)
    (hok : s.status_.ok = true) (hnoint : s.intent_iter_ = none)
    (hres : s.resolved_intent_state_ = .kNoIntent)
    (hdata : s.iter_.data = data) (hupper : s.iter_.upper = none)
    (hcst : s.iter_.status = .OK)
    (hsorted : SortedKeys data) (hwf : WellFormedKeys env data = true)
    (h1 : timeLE s.encoded_read_time_.read s.encoded_read_time_.local_limit = true)
    (h2 : timeLE s.encoded_read_time_.local_limit s.encoded_read_time_.global_limit = true)
    (hthr : env.max_next_calls_while_skipping_future_records = 3)
    (hbudget : 2 * data.length + 2 ≤ budget) :
    ∃ s1, Seek env budget k full s = some s1 ∧
      (∀ i raw e n, (data.drop (lowerBound k data)).get? i = some raw →
        (∀ j x, j < i → (data.drop (lowerBound k data)).get? j = some x →
          SatisfyBounds s.upperbound_ x.key = true ∧
          ∃ m, SkipFutureRecordsCheck env s.encoded_read_time_ x = .skip m) →
        SatisfyBounds s.upperbound_ raw.key = true →
        SkipFutureRecordsCheck env s.encoded_read_time_ raw = .keep e →
        env.GetEncodedSize raw.key = .ok n →
        (raw.value.head? ≠ some env.kHybridTime → e.value = raw.value) ∧
        Fetch s1 =
          .ok { valid := true, key := Slice.WithoutSuffix raw.key (n + 1), value := e.value,
                write_time := Slice.Suffix raw.key n, same_transaction := false }) ∧
      ((∀ x ∈ data.drop (lowerBound k data), SatisfyBounds s.upperbound_ x.key = true →
          ∃ m, SkipFutureRecordsCheck env s.encoded_read_time_ x = .skip m) →
        ∃ entry, Fetch s1 = .ok entry ∧ entry.valid = false) := by
  have hord := OrderedLimits_of_chain _ h1 h2
  have hseek : s.iter_.Seek k =
      { data := data, pos := some (lowerBound k data), upper := none, status := .OK } := by
    have hgen : ∀ c : Cursor, c.data = data → c.upper = none → c.status = .OK →
        c.Seek k =
          { data := data, pos := some (lowerBound k data), upper := none, status := .OK } := by
      intro c a b d
      cases c
      simp only at a b d
      simp [Cursor.Seek, a, b, d]
    exact hgen _ hdata hupper hcst
  obtain ⟨out, hout, hsame⟩ := SkipFutureRecordsLoop_scan env s.encoded_read_time_
    s.upperbound_ data .OK hsorted hwf hord (by omega) budget (lowerBound k data) 0 (by
      have : (if 0 + 1 ≥ env.max_next_calls_while_skipping_future_records then 1 else 0)
          ≤ 1 := by split <;> omega
      omega)
  have hst : out.cursor.status = .OK := by
    have := (SkipFutureRecordsLoop_cursor env _ _ _ _ _ _ _ hout).1
    simp only [cursorStatic, Prod.mk.injEq] at this
    exact this.2
  have hi : (applySkipOutcome { s with iter_ := s.iter_.Seek k } out).intent_iter_ = none := by
    rw [(IntentSide_applySkipOutcome _ out).1.1]; exact hnoint
  refine ⟨FillEntry env (applySkipOutcome { s with iter_ := s.iter_.Seek k } out), ?_, ?_, ?_⟩
  · rw [Seek_eq]
    simp only [hok, Bool.not_true, Bool.false_eq_true, if_false, hseek, hout, Option.map_some',
      Option.some_bind]
    rw [← hseek]
    unfold SeekTail
    simp [hi]
  · intro i raw e n hget hbefore hb hkeep hn
    have hscan := scanRecords_found env s.encoded_read_time_ s.upperbound_ _ i raw e hget
      hbefore hb hkeep
    rw [hscan] at hsame
    obtain ⟨hkey, _, _, hplain, _⟩ := SkipFutureRecordsCheck_keep env _ raw e hkeep
    refine ⟨fun hh => (hplain ((TryConsumeByte_eq_none _ _).2 hh)).1, ?_⟩
    cases out with
    | found c e' =>
      rcases hsame with h | ⟨h, _⟩
      · simp only [SkipOutcome.result, ScanResult.found.injEq] at h
        subst h
        simp only [applySkipOutcome, FillEntry, hres, Fetch, FillRegularEntry, EncodedFromEnd,
          hkey, hn, hok]
        simp [WithoutSuffix_Suffix_length, hok]
      · simp [SkipOutcome.result] at h
    | outOfBounds c => rcases hsame with h | ⟨_, h⟩ <;> simp [SkipOutcome.result] at h
    | failed c code => rcases hsame with h | ⟨_, h⟩ <;> simp [SkipOutcome.result] at h
    | exhausted c => rcases hsame with h | ⟨_, h⟩ <;> simp [SkipOutcome.result] at h
  · intro hnone
    have hscan := scanRecords_none env s.encoded_read_time_ s.upperbound_ _ hnone
    have hres2 : out.result = .outOfBounds ∨ out.result = .exhausted := by
      rcases hsame with h | ⟨h, _⟩
      · rw [h]; exact hscan
      · exact h
    cases out with
    | found c e => simp [SkipOutcome.result] at hres2
    | failed c code => simp [SkipOutcome.result] at hres2
    | outOfBounds c =>
      refine ⟨{ s.entry_ with valid := false }, ?_, rfl⟩
      simp [applySkipOutcome, FillEntry, hres, Fetch, hok]
    | exhausted c =>
      simp only [SkipOutcome.cursor] at hst
      refine ⟨{ s.entry_ with valid := false }, ?_, rfl⟩
      have hcok : c.status.ok = true := by rw [hst]; rfl
      simp [applySkipOutcome, HandleStatus, hcok, FillEntry, hres, Fetch, hok]

/-- Witness of `Seek_fetches_first_visible`: in Scenario A `Seek(k)` then `Fetch` gives
`(k, v1, 10)`. -/
theorem Seek_fetches_first_visible_witness :
    (∃ s1, Seek miniEnv 10 [107] false scenarioA = some s1 ∧
      (∀ i raw e n, (scenarioA.iter_.data.drop
            (lowerBound [107] scenarioA.iter_.data)).get? i = some raw →
        (∀ j x, j < i → (scenarioA.iter_.data.drop
            (lowerBound [107] scenarioA.iter_.data)).get? j = some x →
          SatisfyBounds scenarioA.upperbound_ x.key = true ∧
          ∃ m, SkipFutureRecordsCheck miniEnv scenarioA.encoded_read_time_ x = .skip m) →
        SatisfyBounds scenarioA.upperbound_ raw.key = true →
        SkipFutureRecordsCheck miniEnv scenarioA.encoded_read_time_ raw = .keep e →
        miniEnv.GetEncodedSize raw.key = .ok n →
        (raw.value.head? ≠ some miniEnv.kHybridTime → e.value = raw.value) ∧
        Fetch s1 =
          .ok { valid := true, key := Slice.WithoutSuffix raw.key (n + 1), value := e.value,
                write_time := Slice.Suffix raw.key n, same_transaction := false }) ∧
      ((∀ x ∈ scenarioA.iter_.data.drop (lowerBound [107] scenarioA.iter_.data),
          SatisfyBounds scenarioA.upperbound_ x.key = true →
          ∃ m, SkipFutureRecordsCheck miniEnv scenarioA.encoded_read_time_ x = .skip m) →
        ∃ entry, Fetch s1 = .ok entry ∧ entry.valid = false)) ∧
    (Seek miniEnv 10 [107] false scenarioA).map Fetch =
      some (.ok { valid := true, key := [107], value := [1], write_time := enc 10,
                  same_transaction := false }) :=
  ⟨Seek_fetches_first_visible miniEnv scenarioA scenarioA.iter_.data [107] false 10
    (by decide) (by decide) (by decide) rfl (by decide) (by decide)
    (by unfold SortedKeys; decide) (by decide) (by decide) (by decide) (by decide) (by decide),
   by decide⟩

/-- C2 (counterexample). On the byte-sorted store of `extendedKeyState`, read with
`read = local_limit = global_limit = 15` and no intents cursor, the first record at or after
`k` that passes the visibility test is the fourth one (all records before it are within the
upper bound and skipped), but after `Seek(k)` `Fetch` returns `(k, v1, 10)`, the fifth
record: the seek to `(k, global_limit)` issued after three steps jumped over the fourth. -/
theorem Seek_fetches_first_visible_counterexample :
    SortedKeys extendedKeyState.iter_.data ∧
    extendedKeyState.intent_iter_ = none ∧ extendedKeyState.status_ = .OK ∧
    timeLE extendedKeyState.encoded_read_time_.read
      extendedKeyState.encoded_read_time_.local_limit = true ∧
    timeLE extendedKeyState.encoded_read_time_.local_limit
      extendedKeyState.encoded_read_time_.global_limit = true ∧
    lowerBound [107] extendedKeyState.iter_.data = 0 ∧
    extendedKeyState.iter_.data.get? 3 = some { key := [107, 35, 35] ++ enc 5, value := [2] } ∧
    (∀ x ∈ extendedKeyState.iter_.data.take 3,
      SatisfyBounds extendedKeyState.upperbound_ x.key = true ∧
      SkipFutureRecordsCheck miniEnv extendedKeyState.encoded_read_time_ x = .skip 1) ∧
    SatisfyBounds extendedKeyState.upperbound_ ([107, 35, 35] ++ enc 5) = true ∧
    SkipFutureRecordsCheck miniEnv extendedKeyState.encoded_read_time_
      { key := [107, 35, 35] ++ enc 5, value := [2] } =
      .keep { key := [107, 35, 35] ++ enc 5, value := [2] } ∧
    (Seek miniEnv 12 [107] false extendedKeyState).map Fetch =
      some (.ok { valid := true, key := [107], value := [1], write_time := enc 10,
                  same_transaction := false }) := by
  refine ⟨by unfold SortedKeys; decide, by decide, by decide, by decide, by decide, by decide,
    by decide, by decide, by decide, by decide, by decide⟩

/-! ## Order of the records exposed by Next -/

theorem Cursor.Entry_some (c : Cursor) (entry : KeyValueEntry) (h : c.Entry = some entry) :
    ∃ p, c.pos = some p ∧ c.data.get? p = some entry := by
  obtain ⟨data, pos, upper, status⟩ := c
  cases pos with
  | none => simp [Cursor.Entry] at h
  | some p =>
    refine ⟨p, rfl, ?_⟩
    simp only [Cursor.Entry] at h
    cases hg : data.get? p with
    | none => rw [hg] at h; simp at h
    | some e =>
      rw [hg] at h
      simp only at h
      split at h
      · simp only [Option.some.injEq] at h; subst h; rfl
      · simp at h

theorem lowerBound_after (data : List KeyValueEntry) (hsorted : SortedKeys data) (p : Nat)
    (entry : KeyValueEntry) (hget : data.get? p = some entry) (target : Slice)
    (ht : Slice.compare entry.key target < 0) : p + 1 ≤ lowerBound target data := by
  obtain ⟨_, hsplit, hlt, _⟩ := get?_split data p entry hget
  have hsorted' := hsorted
  rw [hsplit] at hsorted'
  obtain ⟨hpre, _, _⟩ := SortedKeys_split _ _ _ hsorted'
  have hfront : ∀ e ∈ data.take p ++ [entry], Slice.compare e.key target < 0 := by
    intro e he
    simp only [List.mem_append, List.mem_singleton] at he
    rcases he with he | rfl
    · exact Slice.compare_le_lt_trans _ _ _ (hpre e he) ht
    · exact ht
  have hdata : data = (data.take p ++ [entry]) ++ data.drop (p + 1) := by
    rw [List.append_assoc]; exact hsplit
  have hlb : lowerBound target data =
      (data.take p ++ [entry]).length + lowerBound target (data.drop (p + 1)) := by
    conv_lhs => rw [hdata]
    exact lowerBound_append _ _ _ hfront
  rw [hlb]
  simp only [List.length_append, List.length_take, List.length_singleton]
  have : min p data.length = p := by omega
  omega

/-- Over a byte-sorted store the forward loop of `SkipFutureRecords` never ends before the
position it started from. -/
theorem SkipFutureRecordsLoop_forward (env : Env) (rt : EncodedReadHybridTime) (ub : Slice)
    (data : List KeyValueEntry) (hsorted : SortedKeys data) :
    ∀ (budget : Nat) (c : Cursor) (cnt p : Nat) (c' : Cursor) (e : KeyValueEntry),
      c.data = data → c.pos = some p →
      SkipFutureRecordsLoop env rt ub .kForward budget c cnt = some (.found c' e) →
      c'.data = data ∧ ∃ p', p ≤ p' ∧ c'.pos = some p' := by
  intro budget
  induction budget with
  | zero => intro c cnt p c' e _ _ h; simp [SkipFutureRecordsLoop] at h
  | succ n ih =>
    intro c cnt p c' e hdata hpos h
    unfold SkipFutureRecordsLoop at h
    cases hentry : c.Entry with
    | none => simp [hentry] at h
    | some entry =>
      simp only [hentry] at h
      obtain ⟨p0, hp0, hget⟩ := Cursor.Entry_some c entry hentry
      have hpp : p0 = p := by rw [hpos] at hp0; exact (Option.some.inj hp0).symm
      subst hpp
      rw [hdata] at hget
      by_cases hb : SatisfyBounds ub entry.key = true
      swap
      · simp [hb] at h
      simp only [hb, Bool.not_true, Bool.false_eq_true, if_false] at h
      cases hcheck : SkipFutureRecordsCheck env rt entry with
      | keep e0 =>
        simp only [hcheck, Option.some.injEq, SkipOutcome.found.injEq] at h
        obtain ⟨rfl, _⟩ := h
        exact ⟨hdata, p0, Nat.le_refl _, hpos⟩
      | fail code => simp [hcheck] at h
      | skip m =>
        simp only [hcheck, true_and] at h
        by_cases hcnt : cnt + 1 ≥ env.max_next_calls_while_skipping_future_records
        · simp only [hcnt, if_true] at h
          by_cases hG : Slice.compare rt.global_limit (Slice.Suffix entry.key m) > 0
          · simp only [hG, if_true] at h
            have hkey : entry.key =
                Slice.WithoutSuffix entry.key m ++ Slice.Suffix entry.key m := by
              simp [Slice.WithoutSuffix, Slice.Suffix]
            have hentryT : Slice.compare entry.key
                (Slice.WithoutSuffix entry.key m ++ rt.global_limit) < 0 := by
              have h0 := Slice.compare_append_left (Slice.WithoutSuffix entry.key m)
                (Slice.Suffix entry.key m) rt.global_limit
              rw [← hkey] at h0
              have := Slice.compare_antisymm rt.global_limit (Slice.Suffix entry.key m)
              omega
            have hlb := lowerBound_after data hsorted p0 entry hget _ hentryT
            have hseek : (c.Seek (Slice.WithoutSuffix entry.key m ++ rt.global_limit)).pos =
                some (lowerBound (Slice.WithoutSuffix entry.key m ++ rt.global_limit) data) := by
              simp [Cursor.Seek, hdata]
            obtain ⟨hd, p', hp', hpos'⟩ := ih _ _ _ c' e (by simpa [Cursor.Seek] using hdata)
              hseek h
            exact ⟨hd, p', by omega, hpos'⟩
          · simp only [hG, if_false] at h
            exact ih _ _ _ c' e hdata hpos h
        · simp only [hcnt, if_false, and_false] at h
          obtain ⟨hd, p', hp', hpos'⟩ := ih _ _ (p0 + 1) c' e
            (by simpa [MoveIterator, Cursor.Next] using hdata)
            (by simp [MoveIterator, Cursor.Next, hpos]) h
          exact ⟨hd, p', by omega, hpos'⟩

theorem pairwise_get? {α : Type} (R : α → α → Prop) :
    ∀ (l : List α) (i j : Nat) (a b : α), l.Pairwise R → i < j →
      l.get? i = some a → l.get? j = some b → R a b := by
  intro l
  induction l with
  | nil => intro i j a b _ _ h; simp at h
  | cons x xs ih =>
    intro i j a b hp hij ha hb
    rw [List.pairwise_cons] at hp
    cases j with
    | zero => omega
    | succ j' =>
      simp only [List.get?_cons_succ] at hb
      cases i with
      | zero =>
        simp only [List.get?_cons_zero, Option.some.injEq] at ha
        subst ha
        exact hp.1 b (List.get?_mem hb)
      | succ i' =>
        simp only [List.get?_cons_succ] at ha
        exact ih i' j' a b hp.2 (by omega) ha hb

theorem FillEntry_regular_entry (env : Env) (t : IntentAwareIterator) :
    (FillEntry env t).regular_entry_ = t.regular_entry_ := by
  obtain ⟨rt, ub, it, iit, buf0, st, ms, re, rs, pfx, txn, same, sub, val, sb, en⟩ := t
  cases re with
  | none =>
    simp only [FillEntry]
    split <;> rfl
  | some e =>
    simp only [FillEntry]
    split
    · simp only [FillRegularEntry]
      cases EncodedFromEnd env e.key <;> rfl
    · rfl

theorem SeekToSuitableIntent_regular (env : Env) (budget : Nat) (key : Slice)
    (d s3 : IntentAwareIterator)
    (h : SeekToSuitableIntent env .kForward budget (onIntentIter (fun it => it.Seek key) d) =
      some s3) :
    s3.regular_entry_ = d.regular_entry_ ∧ s3.iter_ = d.iter_ := by
  rw [SeekToSuitableIntent_eq] at h
  have hF := Frame.trans (Frame_start env (fun it => it.Seek key) d (fun c => rfl))
    (Frame_SeekToSuitableIntentLoop env .kForward budget _ _ h)
  exact ⟨hF.2.2.2.1, hF.2.2.1⟩

/-- The tail of `Seek`, which resolves intents and fills the fetched entry, leaves the regular
cursor and the regular candidate alone. -/
theorem SeekTail_regular (env : Env) (budget : Nat) (k : Slice) (full : Bool)
    (b s1 : IntentAwareIterator) (h : SeekTail env budget k full b = some s1) :
    s1.regular_entry_ = b.regular_entry_ ∧ s1.iter_ = b.iter_ := by
  unfold SeekTail at h
  by_cases hsome : b.intent_iter_.isSome = true
  · simp only [hsome, if_true] at h
    have hF0 := Frame_SetIntentUpperbound env b
    generalize SetIntentUpperbound env b = r at h hF0
    obtain ⟨r1, r2⟩ := r
    cases r2 with
    | false =>
      simp only [Bool.not_false, if_true, Option.some.injEq] at h
      subst h
      exact ⟨hF0.2.2.2.1, hF0.2.2.1⟩
    | true =>
      simp only [Bool.not_true, Bool.false_eq_true, if_false] at h
      cases full with
      | false =>
        simp only [Bool.false_eq_true, if_false] at h
        cases h3 : SeekToSuitableIntent env .kForward budget
            (onIntentIter (fun it => it.Seek k) r1) with
        | none => rw [h3] at h; simp at h
        | some s3 =>
          rw [h3] at h
          simp only [Option.some.injEq] at h
          subst h
          obtain ⟨q1, q2⟩ := SeekToSuitableIntent_regular env budget k r1 s3 h3
          rw [FillEntry_regular_entry, (FillEntry_frame env s3).2.2.1, q1, q2]
          exact ⟨hF0.2.2.2.1, hF0.2.2.1⟩
      | true =>
        simp only [if_true] at h
        cases h3 : SeekToSuitableIntent env .kForward budget
            (onIntentIter (fun it => it.Seek (k ++ env.StrongWriteSuffix k))
              { r1 with seek_buffer_ := k ++ env.StrongWriteSuffix k }) with
        | none => rw [h3] at h; simp at h
        | some s3 =>
          rw [h3] at h
          simp only [Option.some.injEq] at h
          subst h
          obtain ⟨q1, q2⟩ := SeekToSuitableIntent_regular env budget _ _ s3 h3
          rw [FillEntry_regular_entry, (FillEntry_frame env s3).2.2.1, q1, q2]
          exact ⟨hF0.2.2.2.1, hF0.2.2.1⟩
  · have hs : b.intent_iter_.isSome = false := by simpa using hsome
    simp only [hs, Bool.false_eq_true, if_false, Option.some.injEq] at h
    subst h
    exact ⟨FillEntry_regular_entry env b, (FillEntry_frame env b).2.2.1⟩

/-- What the forward skipper establishes when it leaves a candidate without failing: the
cursor rests, at or after the position it started from, on the record the candidate was
taken from. -/
theorem applySkipOutcome_rests (env : Env) (data : List KeyValueEntry)
    (hsorted : SortedKeys data) (budget : Nat) (a : IntentAwareIterator) (p : Nat)
    (out : SkipOutcome) (e : KeyValueEntry)
    (hdata : a.iter_.data = data) (hpos : a.iter_.pos = some p)
    (hloop : SkipFutureRecordsLoop env a.encoded_read_time_ a.upperbound_ .kForward budget
      a.iter_ 0 = some out)
    (hok : (applySkipOutcome a out).status_.ok = true)
    (hcand : (applySkipOutcome a out).regular_entry_ = some e) :
    ∃ p', p ≤ p' ∧ RestsOn data (applySkipOutcome a out) e p' := by
  rw [applySkipOutcome_status] at hok
  obtain ⟨_, hnf⟩ := newStatus_ok _ _ hok
  rw [applySkipOutcome_eq a out hnf] at hcand ⊢
  simp only at hcand
  cases out with
  | found c e0 =>
    simp only [SkipOutcome.candidate, Option.some.injEq] at hcand
    subst hcand
    obtain ⟨raw, hraw, _, hkeep⟩ := SkipFutureRecordsLoop_found env _ _ _ budget _ _ c e0 hloop
    obtain ⟨hd, p', hp', hpos'⟩ := SkipFutureRecordsLoop_forward env _ _ data hsorted budget
      _ _ p c e0 hdata hpos hloop
    obtain ⟨p0, hp0, hget⟩ := Cursor.Entry_some c raw hraw
    have hpp : p0 = p' := by rw [hpos'] at hp0; exact (Option.some.inj hp0).symm
    subst hpp
    rw [hd] at hget
    refine ⟨p0, hp', rfl, hd, hpos', raw, hget, ?_⟩
    exact (SkipFutureRecordsCheck_keep env _ raw e0 hkeep).1.symm
  | outOfBounds c => simp [SkipOutcome.candidate] at hcand
  | failed c code => simp [SkipOutcome.candidate] at hcand
  | exhausted c => simp [SkipOutcome.candidate] at hcand

theorem FillEntry_resolved (env : Env) (t : IntentAwareIterator) :
    (FillEntry env t).resolved_intent_state_ = t.resolved_intent_state_ ∧
    (FillEntry env t).resolved_intent_sub_doc_key_encoded_ =
      t.resolved_intent_sub_doc_key_encoded_ := by
  obtain ⟨rt, ub, it, iit, buf0, st, ms, re, rs, pfx, txn, same, sub, val, sb, en⟩ := t
  cases re with
  | none =>
    simp only [FillEntry]
    split <;> exact ⟨rfl, rfl⟩
  | some e =>
    simp only [FillEntry]
    split
    · simp only [FillRegularEntry]
      cases EncodedFromEnd env e.key <;> exact ⟨rfl, rfl⟩
    · exact ⟨rfl, rfl⟩

/-- When the regular candidate wins the merge and the merge does not fail, the fetched entry
is cut from the candidate's key. -/
theorem FillEntry_regular_wins (env : Env) (t : IntentAwareIterator) (e : KeyValueEntry)
    (hre : t.regular_entry_ = some e)
    (hwin : t.resolved_intent_state_ ≠ .kValid ∨
      Slice.compare e.key t.resolved_intent_sub_doc_key_encoded_ < 0)
    (hok : (FillEntry env t).status_.ok = true) :
    ∃ wt, EncodedFromEnd env e.key = .ok wt ∧
      (FillEntry env t).entry_ =
        { valid := true, key := Slice.WithoutSuffix e.key (wt.length + 1), value := e.value,
          write_time := wt, same_transaction := false } := by
  obtain ⟨rt, ub, it, iit, buf0, st, ms, re, rs, pfx, txn, same, sub, val, sb, en⟩ := t
  simp only at hre hwin
  subst hre
  have hc : (!decide (rs = ResolvedIntentState.kValid)) = true ∨ Slice.compare e.key sub < 0 := by
    rcases hwin with h | h
    · exact Or.inl (by simp [h])
    · exact Or.inr h
  simp only [FillEntry, hc, if_true] at hok ⊢
  simp only [FillRegularEntry] at hok ⊢
  cases hw : EncodedFromEnd env e.key with
  | error code => rw [hw] at hok; simp [Status.ok] at hok
  | ok wt => exact ⟨wt, rfl, rfl⟩

/-- After `Seek` in a non-failed state that ends non-failed with a regular candidate, the
regular cursor rests on the record the candidate was taken from. -/
theorem Seek_rests (env : Env) (budget : Nat) (k : Slice) (full : Bool)
    (data : List KeyValueEntry) (s0 s : IntentAwareIterator) (e : KeyValueEntry)
    (hsorted : SortedKeys data) (hdata : s0.iter_.data = data)
    (hok0 : s0.status_.ok = true)
    (hseek : Seek env budget k full s0 = some s) (hok : s.status_.ok = true)
    (hcand : s.regular_entry_ = some e) :
    ∃ p, RestsOn data s e p := by
  rw [Seek_eq] at hseek
  simp only [hok0, Bool.not_true, Bool.false_eq_true, if_false] at hseek
  cases hloop : SkipFutureRecordsLoop env s0.encoded_read_time_ s0.upperbound_ .kForward budget
      (s0.iter_.Seek k) 0 with
  | none => rw [hloop] at hseek; simp at hseek
  | some out =>
    rw [hloop] at hseek
    simp only [Option.map_some', Option.some_bind] at hseek
    obtain ⟨q1, q2⟩ := SeekTail_regular env budget k full _ s hseek
    have hbok := (SeekTail_congr env budget k full _ _ s
      ⟨rfl, rfl, rfl, rfl, rfl, rfl, fun _ => ⟨rfl, rfl, rfl, rfl⟩⟩ hseek hok).1.2.2.2.2.2
    obtain ⟨p', _, hr⟩ := applySkipOutcome_rests env data hsorted budget
      { s0 with iter_ := s0.iter_.Seek k } (lowerBound k data) out e
      (by simpa [Cursor.Seek] using hdata) (by simp [Cursor.Seek, hdata]) hloop hbok
      (by rw [← q1]; exact hcand)
    obtain ⟨r1, r2, r3, r4⟩ := hr
    exact ⟨p', hcand, by rw [q2]; exact r2, by rw [q2]; exact r3, r4⟩

/-- C7 (amended). Order under `Next` over a strictly byte-sorted regular store. Let the
regular candidate of a non-failed state be `e`, with the regular cursor resting on its record
at position `p` (what `Seek` leaves, `Seek_rests`), and let the candidate be the exposed
winner (`IsEntryRegular`). If `Next` returns non-failed with a regular candidate `e'`, then

* the full record key of `e'` (logical key, marker byte, encoded time) is strictly greater in
  byte order than that of `e`;
* the regular cursor rests on the record of `e'`, at a position strictly after `p`, so the
  same holds for the following `Next`;
* when `e'` wins the merge, `Fetch` returns the entry cut from that record key: the logical
  key is the record key without the marker byte and the time, `write_time` is the time.

Nothing is said about the logical keys alone: two visible versions of one key are returned
one after the other. -/
theorem Next_record_keys_increase (env : Env) (budget : Nat) (data : List KeyValueEntry)
    (s s' : IntentAwareIterator) (e e' : KeyValueEntry) (p : Nat)
    (hstrict : StrictlySortedKeys data) (hrest : RestsOn data s e p)
    (hok : s.status_.ok = true) (hreg : IsEntryRegular s false = true)
    (hnext : Next env budget s = some s') (hok' : s'.status_.ok = true)
    (hcand' : s'.regular_entry_ = some e') :
    Slice.compare e.key e'.key < 0 ∧
    (∃ p', p < p' ∧ RestsOn data s' e' p') ∧
    (s'.resolved_intent_state_ ≠ .kValid ∨
        Slice.compare e'.key s'.resolved_intent_sub_doc_key_encoded_ < 0 →
      ∃ wt, EncodedFromEnd env e'.key = .ok wt ∧
        Fetch s' =
          .ok { valid := true, key := Slice.WithoutSuffix e'.key (wt.length + 1),
                value := e'.value, write_time := wt, same_transaction := false }) := by
  obtain ⟨_, hdata, hpos, raw, hget, hkey⟩ := hrest
  have hsorted : SortedKeys data := by
    unfold SortedKeys
    exact List.Pairwise.imp (fun h => Int.le_of_lt h) hstrict
  unfold Next at hnext
  simp only [hok, hreg, Bool.not_true, Bool.false_eq_true, if_false, if_true,
    SkipFutureRecords_eq] at hnext
  cases hloop : SkipFutureRecordsLoop env s.encoded_read_time_ s.upperbound_ .kForward budget
      s.iter_.Next 0 with
  | none => rw [hloop] at hnext; simp at hnext
  | some out =>
    rw [hloop] at hnext
    simp only [Option.map_some', Option.some.injEq] at hnext
    subst hnext
    have hbok := FillEntry_status_mono env _ hok'
    rw [FillEntry_regular_entry] at hcand'
    obtain ⟨p', hp', hr⟩ := applySkipOutcome_rests env data hsorted budget
      { s with iter_ := s.iter_.Next } (p + 1) out e'
      (by simpa [Cursor.Next] using hdata) (by simp [Cursor.Next, hpos]) hloop hbok hcand'
    obtain ⟨r1, r2, r3, raw', hget', hkey'⟩ := hr
    have hlt : Slice.compare raw.key raw'.key < 0 :=
      pairwise_get? _ data p p' raw raw' hstrict (by omega) hget hget'
    refine ⟨by rw [← hkey, ← hkey']; exact hlt, ⟨p', by omega, ?_, ?_, ?_, raw', hget', hkey'⟩,
      ?_⟩
    · rw [FillEntry_regular_entry]; exact r1
    · rw [(FillEntry_frame env _).2.2.1]; exact r2
    · rw [(FillEntry_frame env _).2.2.1]; exact r3
    · intro hwin
      rw [(FillEntry_resolved env _).1, (FillEntry_resolved env _).2] at hwin
      obtain ⟨wt, hwt, hentry⟩ := FillEntry_regular_wins env _ e' r1 hwin hok'
      refine ⟨wt, hwt, ?_⟩
      unfold Fetch
      simp only [hok', Bool.not_true, Bool.false_eq_true, if_false]
      rw [hentry]

/-- Witness of `Next_record_keys_increase`: over the store of `twoVersionsState`, `Next` after
`Seek(k)` moves from the record `k@10` to the record `k@5`, whose record key is greater, and
`Fetch` returns `(k, v1, 5)`. -/
theorem Next_record_keys_increase_witness :
    Slice.compare ([107, 35] ++ enc 10) ([107, 35] ++ enc 5) < 0 ∧
    (∃ p', 0 < p' ∧
      RestsOn twoVersionsState.iter_.data twoVersionsNext
        { key := [107, 35] ++ enc 5, value := [1] } p') ∧
    (twoVersionsNext.resolved_intent_state_ ≠ .kValid ∨
        Slice.compare ([107, 35] ++ enc 5)
          twoVersionsNext.resolved_intent_sub_doc_key_encoded_ < 0 →
      ∃ wt, EncodedFromEnd miniEnv ([107, 35] ++ enc 5) = .ok wt ∧
        Fetch twoVersionsNext =
          .ok { valid := true, key := Slice.WithoutSuffix ([107, 35] ++ enc 5) (wt.length + 1),
                value := [1], write_time := wt, same_transaction := false }) :=
  Next_record_keys_increase miniEnv 10 twoVersionsState.iter_.data twoVersionsSought
    twoVersionsNext { key := [107, 35] ++ enc 10, value := [2] }
    { key := [107, 35] ++ enc 5, value := [1] } 0
    (by unfold StrictlySortedKeys; decide)
    ⟨by decide, by decide, by decide, { key := [107, 35] ++ enc 10, value := [2] },
      by decide, rfl⟩
    (by decide) (by decide) (by decide) (by decide) (by decide)

/-- C7 (counterexample). Over the store of `twoVersionsState`, read at 15 in a non-failed
state, `Seek(k)` then `Fetch` returns the valid entry `(k, v2, 10)` and `Next` then `Fetch`
returns the valid entry `(k, v1, 5)`: the logical keys of the two successive valid fetched
entries are equal, not strictly increasing. -/
theorem Next_record_keys_increase_counterexample :
    Seek miniEnv 10 [107] false twoVersionsState = some twoVersionsSought ∧
    Next miniEnv 10 twoVersionsSought = some twoVersionsNext ∧
    Fetch twoVersionsSought =
      .ok { valid := true, key := [107], value := [2], write_time := enc 10,
            same_transaction := false } ∧
    Fetch twoVersionsNext =
      .ok { valid := true, key := [107], value := [1], write_time := enc 5,
            same_transaction := false } ∧
    ¬ Slice.compare twoVersionsSought.entry_.key twoVersionsNext.entry_.key < 0 := by
  decide

/-! ## Fetch is a read -/

theorem FetchCalls_spec (s : IntentAwareIterator) :
    ∀ n, (FetchCalls n s).1 = s ∧ (FetchCalls n s).2 = List.replicate n (Fetch s) := by
  intro n
  induction n with
  | zero => exact ⟨rfl, rfl⟩
  | succ n ih =>
    simp only [FetchCalls, FetchCall]
    exact ⟨ih.1, by rw [ih.2]; rfl⟩

/-- C11. `Fetch` is a pure read. The call leaves the state as it was (both cursors, the
regular candidate, the resolved intent, the bounds, the maximum seen time and the status);
in a failed state it returns the stored error and in a non-failed state the stored fetched
entry `entry_`, which the last positioning call filled; and `n` consecutive calls leave the
state as it was and return `n` equal results. -/
theorem Fetch_pure_read (s : IntentAwareIterator) (n : Nat) :
    (FetchCall s).1 = s ∧
    (s.status_.ok = false → (FetchCall s).2 = .error s.status_) ∧
    (s.status_.ok = true → (FetchCall s).2 = .ok s.entry_) ∧
    (FetchCalls n s).1 = s ∧
    (FetchCalls n s).2 = List.replicate n (FetchCall s).2 := by
  refine ⟨rfl, ?_, ?_, (FetchCalls_spec s n).1, (FetchCalls_spec s n).2⟩
  · intro h; simp [FetchCall, Fetch, h]
  · intro h; simp [FetchCall, Fetch, h]

/-- Witness of `Fetch_pure_read`: after `Seek(k)` in Scenario B three calls of `Fetch` return
`(k, v1, 10)` three times, and in `failedState` `Fetch` returns the stored I/O error. -/
theorem Fetch_pure_read_witness :
    (FetchCalls 3 seekOnceState).1 = seekOnceState ∧
    (FetchCalls 3 seekOnceState).2 =
      List.replicate 3 (.ok { valid := true, key := [107], value := [1], write_time := enc 10,
                              same_transaction := false }) ∧
    (FetchCall failedState).2 = .error Status.IOError :=
  ⟨(Fetch_pure_read seekOnceState 3).2.2.2.1,
    by rw [(Fetch_pure_read seekOnceState 3).2.2.2.2]; decide,
    (Fetch_pure_read failedState 0).2.1 (by decide)⟩

/-! ## The stored status -/

/-- C12 (as amended). The last error is stored: for all non-OK statuses `e1` and `e2`, after
`HandleStatus(e1)` a later `HandleStatus(e2)` returns false and leaves the stored status equal
to `e2`, changing nothing else; a later `HandleStatus` with an OK status returns true and
leaves the stored status equal to `e1`. -/
theorem HandleStatus_stores_last_error (s : IntentAwareIterator) (e1 e2 : Status)
    (h1 : e1.ok = false) (h2 : e2.ok = false) :
    (HandleStatus s e1).1.status_ = e1 ∧
    HandleStatus (HandleStatus s e1).1 e2 = ({ s with status_ := e2 }, false) ∧
    HandleStatus (HandleStatus s e1).1 .OK = ({ s with status_ := e1 }, true) := by
  refine ⟨?_, ?_, ?_⟩
  · simp only [HandleStatus, h1, Bool.false_eq_true, if_false]
  · simp only [HandleStatus, h1, h2, Bool.false_eq_true, if_false]
  · have h0 : Status.OK.ok = true := rfl
    simp only [HandleStatus, h1, h0, Bool.false_eq_true, if_false, if_true]

/-- Witness of `HandleStatus_stores_last_error`: an I/O error followed by a corruption error
in Scenario A. -/
theorem HandleStatus_stores_last_error_witness :
    (HandleStatus scenarioA Status.IOError).1.status_ = Status.IOError ∧
    HandleStatus (HandleStatus scenarioA Status.IOError).1 Status.Corruption =
      ({ scenarioA with status_ := Status.Corruption }, false) ∧
    HandleStatus (HandleStatus scenarioA Status.IOError).1 .OK =
      ({ scenarioA with status_ := Status.IOError }, true) :=
  HandleStatus_stores_last_error scenarioA Status.IOError Status.Corruption (by decide)
    (by decide)

/-- C12 (counterexample). After `HandleStatus` has stored an I/O error, `HandleStatus` with a
corruption error leaves the corruption error stored, not the I/O error. In `latchedState`,
which has a corruption error stored, `SyncIntentUpperbound` and `SetIntentUpperbound` store
the I/O error of the intents cursor. In the non-failed `twoErrorsState`, `Seek` first meets the
corruption error of the record whose key does not decode (the status `SkipFutureRecords`
leaves) and returns with the I/O error of the intents cursor stored. -/
theorem HandleStatus_stores_last_error_counterexample :
    (HandleStatus (HandleStatus scenarioA Status.IOError).1 Status.Corruption).1.status_ ≠
      Status.IOError ∧
    latchedState.status_ = Status.Corruption ∧
    (SyncIntentUpperbound latchedState).status_ = Status.IOError ∧
    (SetIntentUpperbound miniEnv { latchedState with
        regular_entry_ := some { key := [107, 35] ++ enc 10, value := [1] } }).1.status_ =
      Status.IOError ∧
    twoErrorsState.status_ = .OK ∧
    (SkipFutureRecords miniEnv .kForward 10
        { twoErrorsState with iter_ := twoErrorsState.iter_.Seek [] }).map
      (fun t => t.status_) = some Status.Corruption ∧
    (Seek miniEnv 10 [] false twoErrorsState).map (fun t => t.status_) =
      some Status.IOError := by
  decide

/-! ## The upper bound of the scan -/

/-- C14 (as amended). The scan upper bound is inclusive: `SatisfyBounds` accepts exactly the
keys that are byte-wise less than or equal to the upper bound `u` and rejects every key that
is byte-wise greater, so whenever `SkipFutureRecords`, in either direction, returns without a
failure and leaves a regular candidate, the key of the candidate does not lie beyond `u` (it
may equal `u`). -/
theorem SatisfyBounds_inclusive (env : Env) (dir : Direction) (budget : Nat)
    (s s' : IntentAwareIterator) (e : KeyValueEntry)
    (hret : SkipFutureRecords env dir budget s = some s') (hok : s'.status_.ok = true)
    (hcand : s'.regular_entry_ = some e) :
    (∀ u k, SatisfyBounds u k = true ↔ Slice.compare k u ≤ 0) ∧
    (∀ u k, Slice.compare k u > 0 → SatisfyBounds u k = false) ∧
    Slice.compare e.key s.upperbound_ ≤ 0 := by
  refine ⟨fun u k => by simp [SatisfyBounds], fun u k h => by simp [SatisfyBounds]; omega, ?_⟩
  rw [SkipFutureRecords_eq] at hret
  cases hloop : SkipFutureRecordsLoop env s.encoded_read_time_ s.upperbound_ dir budget
      s.iter_ 0 with
  | none => rw [hloop] at hret; simp at hret
  | some out =>
    rw [hloop] at hret
    simp only [Option.map_some', Option.some.injEq] at hret
    subst hret
    rw [applySkipOutcome_status] at hok
    obtain ⟨_, hnf⟩ := newStatus_ok _ _ hok
    rw [applySkipOutcome_eq s out hnf] at hcand
    simp only at hcand
    cases out with
    | found c e0 =>
      simp only [SkipOutcome.candidate, Option.some.injEq] at hcand
      subst hcand
      obtain ⟨raw, _, hb, hkeep⟩ := SkipFutureRecordsLoop_found env _ _ _ budget _ _ c e0 hloop
      rw [(SkipFutureRecordsCheck_keep env _ raw e0 hkeep).1]
      simpa [SatisfyBounds] using hb
    | outOfBounds c => simp [SkipOutcome.candidate] at hcand
    | failed c code => simp [SkipOutcome.candidate] at hcand
    | exhausted c => simp [SkipOutcome.candidate] at hcand

/-- Witness of `SatisfyBounds_inclusive` on `buriedState`: the candidate `k@10` lies below the
upper bound `0xFF`. -/
theorem SatisfyBounds_inclusive_witness :
    (∀ u k, SatisfyBounds u k = true ↔ Slice.compare k u ≤ 0) ∧
    (∀ u k, Slice.compare k u > 0 → SatisfyBounds u k = false) ∧
    Slice.compare ([107, 35] ++ enc 10) buriedState.upperbound_ ≤ 0 :=
  SatisfyBounds_inclusive miniEnv .kForward 12 buriedState
    ((SkipFutureRecords miniEnv .kForward 12 buriedState).getD buriedState)
    { key := [107, 35] ++ enc 10, value := [1] } (by decide) (by decide) (by decide)

/-- C14 (counterexample). In `boundaryState` the upper bound is the key of the record `k@10`
itself: `SatisfyBounds` accepts the key, which is byte-wise equal to the bound, and
`SkipFutureRecords` leaves that record as the regular candidate. -/
theorem SatisfyBounds_inclusive_counterexample :
    Slice.compare ([107, 35] ++ enc 10) boundaryState.upperbound_ ≥ 0 ∧
    SatisfyBounds boundaryState.upperbound_ ([107, 35] ++ enc 10) = true ∧
    ∃ s', SkipFutureRecords miniEnv .kForward 10 boundaryState = some s' ∧
      s'.status_ = .OK ∧
      s'.regular_entry_ = some { key := [107, 35] ++ enc 10, value := [1] } ∧
      (s'.regular_entry_.map fun e => e.key) = some boundaryState.upperbound_ :=
  ⟨by decide, by decide, _, rfl, by decide, by decide, by decide⟩

/-! ## FindLatestRecord with a null output pointer -/

/-- C16 (as amended). `FindLatestRecord` called with a null `latest_record_ht` pointer fails
with a `Corruption` error (which is not the `InvalidArgument` error), for every iterator state,
key and `result_value` pointer, and leaves the iterator state and `*result_value`
unchanged. -/
theorem FindLatestRecord_null_pointer (env : Env) (budget : Nat) (key : Slice)
    (result_value : Option Slice) (s : IntentAwareIterator) :
    FindLatestRecord env budget key none result_value s =
      some { state := s, status := Status.Corruption, latest_record_ht := none,
             result_value := result_value } ∧
    Status.Corruption ≠ Status.InvalidArgument :=
  ⟨rfl, by decide⟩

/-- C16 (counterexample). In Scenario A after `Seek(k)`, `FindLatestRecord(k, nullptr, &v)`
returns a status that is not `InvalidArgument`. -/
theorem FindLatestRecord_null_pointer_counterexample :
    ∃ out, FindLatestRecord miniEnv 10 [107] none (some [])
        ((Seek miniEnv 10 [107] false scenarioA).getD scenarioA) = some out ∧
      out.status ≠ Status.InvalidArgument ∧ out.status = Status.Corruption :=
  ⟨_, rfl, by decide, by decide⟩

/-! ## A failed iterator stays failed -/

theorem ok_HandleStatus (s : IntentAwareIterator) (st : Status)
    (h : (HandleStatus s st).1.status_.ok = true) : s.status_.ok = true :=
  (Frame_HandleStatus s st).2.2.2.2.2.2.2.2 h

theorem ok_SkipFutureRecords (env : Env) (dir : Direction) (budget : Nat)
    (s s' : IntentAwareIterator) (hret : SkipFutureRecords env dir budget s = some s')
    (h : s'.status_.ok = true) : s.status_.ok = true := by
  rw [SkipFutureRecords_eq] at hret
  cases hloop : SkipFutureRecordsLoop env s.encoded_read_time_ s.upperbound_ dir budget
      s.iter_ 0 with
  | none => rw [hloop] at hret; simp at hret
  | some out =>
    rw [hloop] at hret
    simp only [Option.map_some', Option.some.injEq] at hret
    subst hret
    rw [applySkipOutcome_status] at h
    exact (newStatus_ok _ _ h).1

theorem ok_SeekToSuitableIntent (env : Env) (dir : Direction) (budget : Nat)
    (s s' : IntentAwareIterator) (hret : SeekToSuitableIntent env dir budget s = some s')
    (h : s'.status_.ok = true) : s.status_.ok = true := by
  rw [SeekToSuitableIntent_eq] at hret
  exact (Frame_SeekToSuitableIntentLoop env dir budget _ _ hret).2.2.2.2.2.2.2.2 h

theorem ok_Seek (env : Env) (budget : Nat) (key : Slice) (full : Bool)
    (s s' : IntentAwareIterator) (hret : Seek env budget key full s = some s')
    (h : s'.status_.ok = true) : s.status_.ok = true := by
  by_cases hs : s.status_.ok = true
  · exact hs
  · unfold Seek at hret
    simp only [hs, Bool.not_false, if_true, Option.some.injEq] at hret
    subst hret
    exact h

theorem ok_SeekToLatestSubDocKeyInternal (env : Env) (budget : Nat)
    (s s' : IntentAwareIterator) (hret : SeekToLatestSubDocKeyInternal env budget s = some s')
    (h : s'.status_.ok = true) : s.status_.ok = true := by
  unfold SeekToLatestSubDocKeyInternal at hret
  simp only at hret
  cases hd : env.DecodeFromEnd (LatestSubDocKey s) with
  | error code =>
    rw [hd] at hret
    simp only [Option.some.injEq] at hret
    subst hret
    simp [Status.ok] at h
  | ok n =>
    rw [hd] at hret
    exact ok_Seek env budget _ _ s s' hret h

theorem ok_SeekToLatestDocKeyInternal (env : Env) (budget : Nat)
    (s s' : IntentAwareIterator) (hret : SeekToLatestDocKeyInternal env budget s = some s')
    (h : s'.status_.ok = true) : s.status_.ok = true := by
  unfold SeekToLatestDocKeyInternal at hret
  simp only at hret
  cases hd : env.DocKeyEncodedSize (LatestSubDocKey s) with
  | error code =>
    rw [hd] at hret
    simp only [Option.some.injEq] at hret
    subst hret
    simp [Status.ok] at h
  | ok n =>
    rw [hd] at hret
    exact ok_Seek env budget _ _ s s' hret h

theorem ok_PreparePrev (env : Env) (budget : Nat) (key : Slice)
    (s s' : IntentAwareIterator) (b : Bool)
    (hret : PreparePrev env budget key s = some (s', b))
    (h : s'.status_.ok = true) : s.status_.ok = true := by
  unfold PreparePrev at hret
  simp only at hret
  -- the regular side
  have hskip : ∀ s2,
      (if ({ s with iter_ := s.iter_.Seek key } : IntentAwareIterator).iter_.Entry.isSome = true
        then SkipFutureRecords env .kBackward budget
          { s with iter_ := (s.iter_.Seek key).Prev }
        else SkipFutureRecords env .kBackward budget
          { (HandleStatus { s with iter_ := s.iter_.Seek key } (s.iter_.Seek key).status).1 with
            iter_ := (HandleStatus { s with iter_ := s.iter_.Seek key }
              (s.iter_.Seek key).status).1.iter_.SeekToLast }) = some s2 →
      s2.status_.ok = true → s.status_.ok = true := by
    intro s2 h2 hok2
    split at h2
    · have := ok_SkipFutureRecords env _ budget _ s2 h2 hok2
      exact this
    · have := ok_SkipFutureRecords env _ budget _ s2 h2 hok2
      exact ok_HandleStatus { s with iter_ := s.iter_.Seek key } _ this
  generalize hsk : (if ({ s with iter_ := s.iter_.Seek key } :
        IntentAwareIterator).iter_.Entry.isSome = true
      then SkipFutureRecords env .kBackward budget
        { s with iter_ := (s.iter_.Seek key).Prev }
      else SkipFutureRecords env .kBackward budget
        { (HandleStatus { s with iter_ := s.iter_.Seek key } (s.iter_.Seek key).status).1 with
          iter_ := (HandleStatus { s with iter_ := s.iter_.Seek key }
            (s.iter_.Seek key).status).1.iter_.SeekToLast }) = sk at hret hskip
  cases sk with
  | none => simp at hret
  | some s2 =>
    simp only at hret
    have h2 := hskip s2 rfl
    by_cases hi : s2.intent_iter_.isSome = true
    · simp only [hi, if_true] at hret
      have hreset : ∀ x : IntentAwareIterator,
          (onIntentIter (fun it => it.Seek key) (ResetIntentUpperbound env s2)).status_.ok
            = true → s2.status_.ok = true := by
        intro _ hx
        exact (Frame_ResetIntentUpperbound env s2).2.2.2.2.2.2.2.2 hx
      generalize onIntentIter (fun it => it.Seek key) (ResetIntentUpperbound env s2) = s3
        at hret hreset
      have h3 := hreset s3
      split at hret
      · cases h4 : SeekToSuitableIntent env .kBackward budget (onIntentIter Cursor.Prev s3) with
        | none => rw [h4] at hret; simp at hret
        | some s4 =>
          rw [h4] at hret
          simp only [Option.some.injEq, Prod.mk.injEq] at hret
          obtain ⟨rfl, _⟩ := hret
          have := ok_SeekToSuitableIntent env _ budget _ _ h4 h
          exact h2 (h3 this)
      · split at hret
        · simp only [Option.some.injEq, Prod.mk.injEq] at hret
          obtain ⟨rfl, _⟩ := hret
          exact h2 (h3 (ok_HandleStatus s3 _ h))
        · cases h4 : SeekToSuitableIntent env .kBackward budget
              (onIntentIter Cursor.SeekToLast (HandleStatus s3 (intentStatus s3)).1) with
          | none => rw [h4] at hret; simp at hret
          | some s5 =>
            rw [h4] at hret
            simp only [Option.some.injEq, Prod.mk.injEq] at hret
            obtain ⟨rfl, _⟩ := hret
            have := ok_SeekToSuitableIntent env _ budget _ _ h4 h
            exact h2 (h3 (ok_HandleStatus s3 _ this))
    · have hi' : s2.intent_iter_.isSome = false := by simpa using hi
      simp only [hi', Bool.false_eq_true, if_false, Option.some.injEq, Prod.mk.injEq] at hret
      obtain ⟨rfl, _⟩ := hret
      exact h2 h
theorem forward_sticky (env : Env) (budget : Nat) (s : IntentAwareIterator)
    (hfailed : s.status_.ok = false) (key : Slice) (full : Bool) :
    Seek env budget key full s = some s ∧
    SeekForward env budget key s = some s ∧
    SeekPastSubKey env budget key s = some s ∧
    SeekOutOfSubDoc env budget key s = some s ∧
    Next env budget s = some s := by
  simp [Seek, SeekForward, SeekPastSubKey, SeekOutOfSubDoc, Next, hfailed]

theorem ok_PrevSubDocKey (env : Env) (budget : Nat) (key : Slice)
    (s s' : IntentAwareIterator) (hret : PrevSubDocKey env budget key s = some s')
    (h : s'.status_.ok = true) : s.status_.ok = true := by
  unfold PrevSubDocKey at hret
  cases hp : PreparePrev env budget key s with
  | none => rw [hp] at hret; simp at hret
  | some r =>
    obtain ⟨s1, b⟩ := r
    rw [hp] at hret
    cases b with
    | true =>
      simp only at hret
      cases h2 : SeekToLatestSubDocKeyInternal env budget s1 with
      | none => rw [h2] at hret; simp at hret
      | some s2 =>
        rw [h2] at hret
        simp only [Option.some.injEq] at hret
        subst hret
        exact ok_PreparePrev env budget key s s1 true hp
          (ok_SeekToLatestSubDocKeyInternal env budget s1 s2 h2 (FillEntry_status_mono env s2 h))
    | false =>
      simp only [Option.some.injEq] at hret
      subst hret
      exact ok_PreparePrev env budget key s s1 false hp (FillEntry_status_mono env s1 h)

theorem ok_PrevDocKey (env : Env) (budget : Nat) (key : Slice)
    (s s' : IntentAwareIterator) (hret : PrevDocKey env budget key s = some s')
    (h : s'.status_.ok = true) : s.status_.ok = true := by
  unfold PrevDocKey at hret
  cases hp : PreparePrev env budget key s with
  | none => rw [hp] at hret; simp at hret
  | some r =>
    obtain ⟨s1, b⟩ := r
    rw [hp] at hret
    cases b with
    | true =>
      simp only at hret
      cases h2 : SeekToLatestDocKeyInternal env budget s1 with
      | none => rw [h2] at hret; simp at hret
      | some s2 =>
        rw [h2] at hret
        simp only [Option.some.injEq] at hret
        subst hret
        exact ok_PreparePrev env budget key s s1 true hp
          (ok_SeekToLatestDocKeyInternal env budget s1 s2 h2 (FillEntry_status_mono env s2 h))
    | false =>
      simp only [Option.some.injEq] at hret
      subst hret
      exact ok_PreparePrev env budget key s s1 false hp (FillEntry_status_mono env s1 h)

theorem ok_SeekToLastDocKey (env : Env) (budget : Nat)
    (s s' : IntentAwareIterator) (hret : SeekToLastDocKey env budget s = some s')
    (h : s'.status_.ok = true) : s.status_.ok = true := by
  unfold SeekToLastDocKey at hret
  cases h1 : SkipFutureRecords env .kBackward budget { s with iter_ := s.iter_.SeekToLast } with
  | none => rw [h1] at hret; simp at hret
  | some s1 =>
    rw [h1] at hret
    simp only at hret
    have hs1 : s1.status_.ok = true → s.status_.ok = true := by
      intro hx
      have := ok_SkipFutureRecords env _ budget _ s1 h1 hx
      exact this
    have hres : ∀ s2,
        (if s1.intent_iter_.isSome = true then
          SeekToSuitableIntent env .kBackward budget
            (onIntentIter Cursor.SeekToLast (ResetIntentUpperbound env s1))
         else some s1) = some s2 → s2.status_.ok = true → s1.status_.ok = true := by
      intro s2 hx hok2
      split at hx
      · have := ok_SeekToSuitableIntent env _ budget _ _ hx hok2
        exact (Frame_ResetIntentUpperbound env s1).2.2.2.2.2.2.2.2 this
      · simp only [Option.some.injEq] at hx
        subst hx
        exact hok2
    generalize (if s1.intent_iter_.isSome = true then
          SeekToSuitableIntent env .kBackward budget
            (onIntentIter Cursor.SeekToLast (ResetIntentUpperbound env s1))
         else some s1) = res at hret hres
    cases res with
    | none => simp at hret
    | some s2 =>
      simp only at hret
      have h2 := hres s2 rfl
      split at hret
      · cases h3 : SeekToLatestDocKeyInternal env budget s2 with
        | none => rw [h3] at hret; simp at hret
        | some s3 =>
          rw [h3] at hret
          simp only [Option.some.injEq] at hret
          subst hret
          exact hs1 (h2 (ok_SeekToLatestDocKeyInternal env budget s2 s3 h3
            (FillEntry_status_mono env s3 h)))
      · simp only [Option.some.injEq] at hret
        subst hret
        exact hs1 (h2 (FillEntry_status_mono env s2 h))

theorem ok_SkipFutureIntents (env : Env) (budget : Nat)
    (s s' : IntentAwareIterator) (hret : SkipFutureIntents env budget s = some s')
    (h : s'.status_.ok = true) : s.status_.ok = true := by
  unfold SkipFutureIntents at hret
  split at hret
  · simp only [Option.some.injEq] at hret
    subst hret
    exact h
  · split at hret
    · simp only [Option.some.injEq] at hret
      subst hret
      exact h
    · exact ok_SeekToSuitableIntent env _ budget s s' hret h

theorem ok_Revalidate (env : Env) (budget : Nat)
    (s s' : IntentAwareIterator) (hret : Revalidate env budget s = some s')
    (h : s'.status_.ok = true) : s.status_.ok = true := by
  unfold Revalidate at hret
  cases h1 : SkipFutureRecords env .kForward budget s with
  | none => rw [h1] at hret; simp at hret
  | some s1 =>
    rw [h1] at hret
    simp only at hret
    have hs1 : s1.status_.ok = true → s.status_.ok = true :=
      ok_SkipFutureRecords env _ budget s s1 h1
    split at hret
    · have hF := (Frame_SetIntentUpperbound env s1).2.2.2.2.2.2.2.2
      generalize SetIntentUpperbound env s1 = r at hret hF
      split at hret
      · simp only [Option.some.injEq] at hret
        subst hret
        exact hs1 (hF h)
      · cases h2 : SkipFutureIntents env budget r.1 with
        | none => rw [h2] at hret; simp at hret
        | some s2 =>
          rw [h2] at hret
          simp only [Option.some.injEq] at hret
          subst hret
          exact hs1 (hF (ok_SkipFutureIntents env budget _ _ h2 (FillEntry_status_mono env s2 h)))
    · simp only [Option.some.injEq] at hret
      subst hret
      exact hs1 (FillEntry_status_mono env s1 h)

theorem not_ok_of_imp {a b : Status} (h : b.ok = true → a.ok = true) (ha : a.ok = false) :
    b.ok = false := by
  cases hb : b.ok with
  | false => rfl
  | true => rw [h hb] at ha; exact absurd ha (by simp)

/-- C13. Failed is terminal: in a state whose status is not OK, whatever state one of the
operations returns has a status that is not OK. This holds for the positioning calls `Seek`,
`SeekForward`, `SeekPastSubKey`, `SeekOutOfSubDoc`, `Next`, `PrevSubDocKey`, `PrevDocKey` and
`SeekToLastDocKey`, for `Fetch`, `NextFullValue`, `FindOldestRecord`, `FindLatestRecord`
(with any output pointers), `SetUpperbound`, `Revalidate` and `HandleStatus` with any
argument. -/
theorem failed_is_terminal (env : Env) (budget : Nat) (s : IntentAwareIterator)
    (hfailed : s.status_.ok = false) :
    (∀ key full s', Seek env budget key full s = some s' → s'.status_.ok = false) ∧
    (∀ key s', SeekForward env budget key s = some s' → s'.status_.ok = false) ∧
    (∀ key s', SeekPastSubKey env budget key s = some s' → s'.status_.ok = false) ∧
    (∀ key s', SeekOutOfSubDoc env budget key s = some s' → s'.status_.ok = false) ∧
    (∀ s', Next env budget s = some s' → s'.status_.ok = false) ∧
    (∀ key s', PrevSubDocKey env budget key s = some s' → s'.status_.ok = false) ∧
    (∀ key s', PrevDocKey env budget key s = some s' → s'.status_.ok = false) ∧
    (∀ s', SeekToLastDocKey env budget s = some s' → s'.status_.ok = false) ∧
    (FetchCall s).1.status_.ok = false ∧
    (∀ r, NextFullValue env budget s = some r → r.1.status_.ok = false) ∧
    (∀ key min_ht r, FindOldestRecord env budget key min_ht s = some r →
      r.1.status_.ok = false) ∧
    (∀ key latest value r, FindLatestRecord env budget key latest value s = some r →
      r.state.status_.ok = false) ∧
    (∀ upperbound, (SetUpperbound upperbound s).1.status_.ok = false) ∧
    (∀ s', Revalidate env budget s = some s' → s'.status_.ok = false) ∧
    (∀ status, (HandleStatus s status).1.status_.ok = false) := by
  have hsticky := forward_sticky env budget s hfailed
  refine ⟨?_, ?_, ?_, ?_, ?_, ?_, ?_, ?_, hfailed, ?_, ?_, ?_, fun _ => hfailed, ?_, ?_⟩
  · intro key full s' h
    rw [(hsticky key full).1] at h
    simp only [Option.some.injEq] at h; subst h; exact hfailed
  · intro key s' h
    rw [(hsticky key false).2.1] at h
    simp only [Option.some.injEq] at h; subst h; exact hfailed
  · intro key s' h
    rw [(hsticky key false).2.2.1] at h
    simp only [Option.some.injEq] at h; subst h; exact hfailed
  · intro key s' h
    rw [(hsticky key false).2.2.2.1] at h
    simp only [Option.some.injEq] at h; subst h; exact hfailed
  · intro s' h
    rw [(hsticky [] false).2.2.2.2] at h
    simp only [Option.some.injEq] at h; subst h; exact hfailed
  · intro key s' h
    exact not_ok_of_imp (ok_PrevSubDocKey env budget key s s' h) hfailed
  · intro key s' h
    exact not_ok_of_imp (ok_PrevDocKey env budget key s s' h) hfailed
  · intro s' h
    exact not_ok_of_imp (ok_SeekToLastDocKey env budget s s' h) hfailed
  · intro r h
    simp only [NextFullValue, Fetch, hfailed, Bool.not_false, if_true, Option.some.injEq] at h
    subst h; exact hfailed
  · intro key min_ht r h
    simp only [FindOldestRecord, Fetch, hfailed, Bool.not_false, if_true,
      Option.some.injEq] at h
    subst h; exact hfailed
  · intro key latest value r h
    cases latest with
    | none =>
      simp only [FindLatestRecord, Option.some.injEq] at h
      subst h; exact hfailed
    | some t0 =>
      simp only [FindLatestRecord, Fetch, hfailed, Bool.not_false, if_true,
        Option.some.injEq] at h
      subst h; exact hfailed
  · intro s' h
    exact not_ok_of_imp (ok_Revalidate env budget s s' h) hfailed
  · intro status
    exact not_ok_of_imp (ok_HandleStatus s status) hfailed

/-- Witness of `failed_is_terminal` on `failedState`, where the reverse positioning calls do
move the regular cursor. -/
theorem failed_is_terminal_witness :
    (PrevDocKey miniEnv 10 [255] failedState).map (fun t => (t.iter_.pos, t.status_)) =
      some (some 1, Status.IOError) ∧
    (SeekToLastDocKey miniEnv 10 failedState).map (fun t => t.status_.ok) = some false ∧
    (Revalidate miniEnv 10 failedState).map (fun t => t.status_.ok) = some false ∧
    (HandleStatus failedState .OK).1.status_.ok = false ∧
    (HandleStatus failedState Status.Corruption).1.status_.ok = false :=
  ⟨by decide,
    by
      have h := (failed_is_terminal miniEnv 10 failedState (by decide)).2.2.2.2.2.2.2.1
      cases hx : SeekToLastDocKey miniEnv 10 failedState with
      | none => exact absurd hx (by decide)
      | some t => simp only [Option.map_some', Option.some.injEq]; exact h t hx,
    by decide,
    (failed_is_terminal miniEnv 10 failedState (by decide)).2.2.2.2.2.2.2.2.2.2.2.2.2.2 .OK,
    (failed_is_terminal miniEnv 10 failedState (by decide)).2.2.2.2.2.2.2.2.2.2.2.2.2.2
      Status.Corruption⟩

/-! ## Read restart -/

theorem MakeAtLeast_ge (cur other : Slice) : timeLE other (MakeAtLeast cur other) = true := by
  unfold MakeAtLeast timeLT timeLE
  by_cases h : Slice.compare cur other > 0
  · simp [h, Slice.compare_self]
  · simp only [h, decide_False, Bool.false_eq_true, if_false, decide_eq_true_eq]
    have := Slice.compare_antisymm cur other
    omega

/-- After a fill that did not fail and exposed a valid entry that is not from the reader's
own transaction, the maximum seen time is not earlier than the exposed write time. -/
theorem FillEntry_max_seen (env : Env) (t : IntentAwareIterator)
    (hok : (FillEntry env t).status_.ok = true)
    (hvalid : (FillEntry env t).entry_.valid = true)
    (hforeign : (FillEntry env t).entry_.same_transaction = false) :
    timeLE (FillEntry env t).entry_.write_time (FillEntry env t).max_seen_ht_ = true := by
  obtain ⟨rt, ub, it, iit, buf0, st, ms, re, rs, pfx, txn, same, sub, val, sb, en⟩ := t
  have hintent : ∀ x : IntentAwareIterator,
      (FillIntentEntry env x).entry_.same_transaction = false →
      timeLE (FillIntentEntry env x).entry_.write_time (FillIntentEntry env x).max_seen_ht_
        = true := by
    intro x hx
    simp only [FillIntentEntry, GetIntentDocHybridTime] at hx ⊢
    by_cases hm : x.intent_dht_from_same_txn_ = env.kMin
    · simp only [hm, ne_eq, not_true_eq_false, if_false]
      exact MakeAtLeast_ge _ _
    · simp [hm] at hx
  cases re with
  | none =>
    simp only [FillEntry] at hok hvalid hforeign ⊢
    split at hvalid
    · rename_i h
      simp only [h, if_true] at hforeign ⊢
      exact hintent _ hforeign
    · simp at hvalid
  | some e =>
    simp only [FillEntry] at hok hvalid hforeign ⊢
    split at hvalid
    · rename_i h
      simp only [h, if_true] at hok hforeign ⊢
      simp only [FillRegularEntry] at hok ⊢
      cases hw : EncodedFromEnd env e.key with
      | error code => rw [hw] at hok; simp [Status.ok] at hok
      | ok wt => exact MakeAtLeast_ge _ _
    · rename_i h
      simp only [h, if_false] at hforeign ⊢
      exact hintent _ hforeign

/-- C15 (as amended). Read-restart signal: whenever the fill that ends a positioning call did
not fail and exposed a valid entry that is not from the reader's own transaction (a regular
record or a foreign intent) whose `write_time` is newer than the snapshot's read time, the
maximum seen time is not earlier than that `write_time`, and `RestartReadHt` afterwards
returns the decoded maximum seen time, a valid hybrid time that is at least the hybrid time of
the entry (the decoder being monotonic). -/
theorem RestartReadHt_signal (env : Env) (t : IntentAwareIterator) (max_ht entry_ht : Nat)
    (hok : (FillEntry env t).status_.ok = true)
    (hvalid : (FillEntry env t).entry_.valid = true)
    (hforeign : (FillEntry env t).entry_.same_transaction = false)
    (hnewer : timeLT (FillEntry env t).encoded_read_time_.read
      (FillEntry env t).entry_.write_time = true)
    (hmax : env.Decode (FillEntry env t).max_seen_ht_ = .ok max_ht)
    (hentry : env.Decode (FillEntry env t).entry_.write_time = .ok entry_ht)
    (hmono : ∀ a b x y, timeLE a b = true → env.Decode a = .ok x → env.Decode b = .ok y →
      x ≤ y) :
    timeLE (FillEntry env t).entry_.write_time (FillEntry env t).max_seen_ht_ = true ∧
    RestartReadHt env (FillEntry env t) = .ok (some max_ht) ∧ entry_ht ≤ max_ht := by
  have hge := FillEntry_max_seen env t hok hvalid hforeign
  refine ⟨hge, ?_, hmono _ _ _ _ hge hentry hmax⟩
  have hlt : timeLE (FillEntry env t).max_seen_ht_ (FillEntry env t).encoded_read_time_.read
      = false := by
    simp only [timeLE, timeLT, decide_eq_true_eq, decide_eq_false_iff_not] at hge hnewer ⊢
    have h1 := Slice.compare_antisymm (FillEntry env t).entry_.write_time
      (FillEntry env t).max_seen_ht_
    have h2 := Slice.compare_antisymm (FillEntry env t).entry_.write_time
      (FillEntry env t).encoded_read_time_.read
    have := Slice.compare_le_lt_trans (FillEntry env t).max_seen_ht_
      (FillEntry env t).entry_.write_time (FillEntry env t).encoded_read_time_.read
      (by omega) (by omega)
    omega
  simp only [RestartReadHt, hlt, Bool.false_eq_true, if_false, hmax]

/-- Witness of `RestartReadHt_signal`: in `foreignIntentState`, read at 15, `Seek(k)` ends
with the fill of `foreignIntentResolved` and exposes the foreign intent committed at 20;
`RestartReadHt` returns 20. -/
theorem RestartReadHt_signal_witness :
    Seek miniEnv 10 [107] false foreignIntentState =
      some (FillEntry miniEnv foreignIntentResolved) ∧
    Fetch (FillEntry miniEnv foreignIntentResolved) =
      .ok { valid := true, key := [107], value := [9], write_time := enc 20,
            same_transaction := false } ∧
    timeLE (FillEntry miniEnv foreignIntentResolved).entry_.write_time
      (FillEntry miniEnv foreignIntentResolved).max_seen_ht_ = true ∧
    RestartReadHt miniEnv (FillEntry miniEnv foreignIntentResolved) = .ok (some 20) ∧
    20 ≤ 20 :=
  ⟨by decide, by decide,
    RestartReadHt_signal miniEnv foreignIntentResolved 20 20 (by decide) (by decide)
      (by decide) (by decide) (by decide) (by decide)
      (by
        intro a b x y hab ha hb
        simp only [miniEnv] at ha hb
        match a, b, ha, hb, hab with
        | [p], [q], ha, hb, hab =>
          simp only [Except.ok.injEq] at ha hb
          simp only [timeLE, Slice.compare, decide_eq_true_eq] at hab
          subst ha hb
          by_cases h1 : p < q
          · simp [h1] at hab
          · omega
        | [], _, ha, _, _ => simp at ha
        | _ :: _ :: _, _, ha, _, _ => simp at ha
        | [_], [], _, hb, _ => simp at hb
        | [_], _ :: _ :: _, _, hb, _ => simp at hb)⟩

/-- C15 (counterexample). In `ownIntentState 12`, read at 15, `Seek(k)` exposes the intent the
reader's own transaction wrote at provisional time 25, a valid entry whose `write_time` is
newer than the read time; the maximum seen time is only raised to the read time, and
`RestartReadHt` afterwards returns the invalid hybrid time. -/
theorem RestartReadHt_signal_counterexample :
    ∃ s', Seek miniEnv 10 [107] false (ownIntentState 12) = some s' ∧
      Fetch s' = .ok { valid := true, key := [107], value := [9], write_time := enc 25,
                       same_transaction := true } ∧
      timeLT s'.encoded_read_time_.read s'.entry_.write_time = true ∧
      s'.max_seen_ht_ = enc 15 ∧
      RestartReadHt miniEnv s' = .ok none :=
  ⟨_, rfl, by decide, by decide, by decide, by decide⟩

/-! ## Queries for one key -/

theorem RegularSide_refl (t : IntentAwareIterator) : RegularSide t t :=
  ⟨rfl, rfl, rfl, rfl, rfl, id⟩

theorem RegularSide_trans {t r u : IntentAwareIterator} (h1 : RegularSide t r)
    (h2 : RegularSide r u) : RegularSide t u :=
  ⟨h2.1.trans h1.1, h2.2.1.trans h1.2.1, h2.2.2.1.trans h1.2.2.1,
    h2.2.2.2.1.trans h1.2.2.2.1, h2.2.2.2.2.1.trans h1.2.2.2.2.1,
    fun hok => h1.2.2.2.2.2 (h2.2.2.2.2.2 hok)⟩

theorem RegularSide_of_Frame {t r : IntentAwareIterator} (h : Frame t r) : RegularSide t r :=
  ⟨h.1, h.2.1, h.2.2.1, h.2.2.2.1, h.2.2.2.2.1, h.2.2.2.2.2.2.2.2⟩

theorem RegularSide_SeekToSuitableIntent (env : Env) (dir : Direction) (budget : Nat)
    (g : Cursor → Cursor) (t r : IntentAwareIterator)
    (h : SeekToSuitableIntent env dir budget (onIntentIter g t) = some r) :
    RegularSide t r := by
  rw [SeekToSuitableIntent_eq] at h
  have hF := RegularSide_of_Frame (Frame_SeekToSuitableIntentLoop env dir budget _ _ h)
  exact RegularSide_trans (t := t) (r := resetResolved env (onIntentIter g t))
    ⟨rfl, rfl, rfl, rfl, rfl, id⟩ hF

theorem RegularSide_IntentSeekForward (env : Env) (budget : Nat) (prefix_len : Nat)
    (t r : IntentAwareIterator) (h : IntentSeekForward env budget prefix_len t = some r) :
    RegularSide t r := by
  unfold IntentSeekForward at h
  split at h
  · simp only [Option.some.injEq] at h; subst h; exact RegularSide_refl t
  · simp only at h
    have hF := RegularSide_of_Frame (Frame_SetIntentUpperbound env t)
    generalize SetIntentUpperbound env t = u at h hF
    split at h
    · simp only [Option.some.injEq] at h; subst h; exact hF
    · split at h
      · simp only [Option.some.injEq] at h; subst h; exact hF
      · exact RegularSide_trans hF (RegularSide_SeekToSuitableIntent env _ budget _ _ _ h)

/-- What `FindMatchingIntentRecordDocHybridTime` returns when it does not fail: the time of
the resolved intent when its prefix is exactly the key, and the regular side as it was. -/
theorem FindMatchingIntentRecordDocHybridTime_ok (env : Env) (budget : Nat) (key : Slice)
    (s s1 : IntentAwareIterator) (ti : Slice)
    (h : FindMatchingIntentRecordDocHybridTime env budget key s = some (s1, .ok ti)) :
    RegularSide s s1 ∧ s1.status_.ok = true ∧ ti = matchingIntentTime env key s1 := by
  unfold FindMatchingIntentRecordDocHybridTime at h
  simp only at h
  cases hx : IntentSeekForward env budget (IntentPrepareSeek key [] s).2
      (IntentPrepareSeek key [] s).1 with
  | none => rw [hx] at h; simp at h
  | some x =>
    rw [hx] at h
    simp only at h
    have hR : RegularSide s x := by
      have := RegularSide_IntentSeekForward env budget _ _ _ hx
      exact RegularSide_trans (t := s) (r := (IntentPrepareSeek key [] s).1)
        ⟨rfl, rfl, rfl, rfl, rfl, id⟩ this
    by_cases hok : x.status_.ok = true
    · simp only [hok, Bool.not_true, Bool.false_eq_true, if_false] at h
      by_cases hv : x.resolved_intent_state_ = .kValid
      · simp only [hv, ne_eq, not_true_eq_false, if_false] at h
        by_cases hk : Slice.compare x.resolved_intent_key_prefix_ key = 0
        · simp only [hk, if_true, Option.some.injEq, Prod.mk.injEq, Except.ok.injEq] at h
          obtain ⟨rfl, rfl⟩ := h
          refine ⟨⟨hR.1, hR.2.1, hR.2.2.1, hR.2.2.2.1, hR.2.2.2.2.1, hR.2.2.2.2.2⟩, hok, ?_⟩
          simp [matchingIntentTime, hv, hk, GetIntentDocHybridTime]
        · simp only [hk, if_false, Option.some.injEq, Prod.mk.injEq, Except.ok.injEq] at h
          obtain ⟨rfl, rfl⟩ := h
          exact ⟨hR, hok, by simp [matchingIntentTime, hk]⟩
      · simp only [ne_eq, hv, not_false_eq_true, if_true, Option.some.injEq, Prod.mk.injEq,
          Except.ok.injEq] at h
        obtain ⟨rfl, rfl⟩ := h
        exact ⟨hR, hok, by simp [matchingIntentTime, hv]⟩
    · simp [hok] at h

/-- What `GetMatchingRegularRecordDocHybridTime` returns when it does not fail: the time
suffix of the key the regular cursor rests on when that key without the marker byte and the
time is exactly the key asked for; only the maximum seen time changes. -/
theorem GetMatchingRegularRecordDocHybridTime_ok (env : Env) (key : Slice)
    (s s1 : IntentAwareIterator) (tr : Slice)
    (h : GetMatchingRegularRecordDocHybridTime env key s = (s1, .ok tr)) :
    s1 = { s with max_seen_ht_ := s1.max_seen_ht_ } ∧
    ∃ n, env.CheckHybridTimeSizeAndValueType (iterKey s) = .ok n ∧
      (key ≠ Slice.WithoutSuffix (iterKey s) (1 + n) → tr = []) ∧
      (key = Slice.WithoutSuffix (iterKey s) (1 + n) →
        EncodedFromEnd env (iterKey s) = .ok tr) := by
  unfold GetMatchingRegularRecordDocHybridTime at h
  cases hc : env.CheckHybridTimeSizeAndValueType (iterKey s) with
  | error code => rw [hc] at h; simp at h
  | ok n =>
    rw [hc] at h
    simp only at h
    by_cases hk : key = Slice.WithoutSuffix (iterKey s) (1 + n)
    · simp only [← hk, if_true] at h
      cases he : EncodedFromEnd env (iterKey s) with
      | error code => rw [he] at h; simp at h
      | ok wt =>
        rw [he] at h
        simp only [Prod.mk.injEq, Except.ok.injEq] at h
        obtain ⟨rfl, rfl⟩ := h
        exact ⟨rfl, n, rfl, fun hne => absurd hk hne, fun _ => rfl⟩
    · simp only [hk, if_false, Prod.mk.injEq, Except.ok.injEq] at h
      obtain ⟨rfl, rfl⟩ := h
      exact ⟨rfl, n, rfl, fun _ => rfl, fun heq => absurd heq hk⟩
theorem FindLatestRecordIntent_ok (env : Env) (budget : Nat) (key t0 : Slice)
    (s s1 : IntentAwareIterator) (t1 : Slice) (found : Bool)
    (h : FindLatestRecordIntent env budget key t0 s = some (s1, .ok (t1, found))) :
    RegularSide s s1 ∧
    ∃ ti, ti = (if s.intent_iter_.isSome then matchingIntentTime env key s1 else []) ∧
      t1 = laterOf t0 ti ∧ found = decide (!ti.isEmpty ∧ timeLT t0 ti) := by
  unfold FindLatestRecordIntent at h
  by_cases hi : s.intent_iter_.isSome = true
  · simp only [hi, if_true] at h ⊢
    cases hm : FindMatchingIntentRecordDocHybridTime env budget key s with
    | none => rw [hm] at h; simp at h
    | some r =>
      obtain ⟨x, res⟩ := r
      rw [hm] at h
      cases res with
      | error st => simp at h
      | ok dht =>
        simp only at h
        obtain ⟨hR, _, hti⟩ := FindMatchingIntentRecordDocHybridTime_ok env budget key s x dht hm
        by_cases hc : (!dht.isEmpty) = true ∧ timeLT t0 dht = true
        · simp only [hc, and_self, if_true, Option.some.injEq, Prod.mk.injEq,
            Except.ok.injEq] at h
          obtain ⟨rfl, rfl, rfl⟩ := h
          refine ⟨hR, dht, hti, ?_, (decide_eq_true hc).symm⟩
          simp [laterOf, hc]
        · simp only [hc, if_false, Option.some.injEq, Prod.mk.injEq, Except.ok.injEq] at h
          obtain ⟨rfl, rfl, rfl⟩ := h
          refine ⟨hR, dht, hti, ?_, (decide_eq_false hc).symm⟩
          simp only [laterOf, hc, if_false]
  · have hi' : s.intent_iter_.isSome = false := by simpa using hi
    simp only [hi', Bool.false_eq_true, if_false, Option.some.injEq, Prod.mk.injEq,
      Except.ok.injEq] at h ⊢
    obtain ⟨rfl, rfl, rfl⟩ := h
    exact ⟨RegularSide_refl s, [], rfl, by simp [laterOf], by simp⟩

theorem FindLatestRecordRegular_ok (env : Env) (key t1 : Slice)
    (s s1 : IntentAwareIterator) (t2 : Slice) (found : Bool)
    (h : FindLatestRecordRegular env key t1 s = (s1, .ok (t2, found))) :
    s1 = { s with max_seen_ht_ := s1.max_seen_ht_ } ∧
    ∃ tr, (s.regular_entry_ = none → tr = []) ∧
      (s.regular_entry_.isSome = true →
        ∃ n, env.CheckHybridTimeSizeAndValueType (iterKey s) = .ok n ∧
          (key ≠ Slice.WithoutSuffix (iterKey s) (1 + n) → tr = []) ∧
          (key = Slice.WithoutSuffix (iterKey s) (1 + n) →
            EncodedFromEnd env (iterKey s) = .ok tr)) ∧
      t2 = laterOf t1 tr ∧ found = decide (!tr.isEmpty ∧ timeLT t1 tr) := by
  unfold FindLatestRecordRegular at h
  by_cases hi : s.regular_entry_.isSome = true
  · simp only [hi, if_true] at h
    cases hm : GetMatchingRegularRecordDocHybridTime env key s with
    | mk x res =>
      rw [hm] at h
      cases res with
      | error st => simp at h
      | ok dht =>
        simp only at h
        obtain ⟨hx, hn⟩ := GetMatchingRegularRecordDocHybridTime_ok env key s x dht hm
        have hnone : s.regular_entry_ = none → dht = [] := by
          intro hn'; rw [hn'] at hi; simp at hi
        by_cases hc : (!dht.isEmpty) = true ∧ timeLT t1 dht = true
        · simp only [hc, and_self, if_true, Prod.mk.injEq, Except.ok.injEq] at h
          obtain ⟨rfl, rfl, rfl⟩ := h
          exact ⟨hx, dht, hnone, fun _ => hn, by simp [laterOf, hc], (decide_eq_true hc).symm⟩
        · simp only [hc, if_false, Prod.mk.injEq, Except.ok.injEq] at h
          obtain ⟨rfl, rfl, rfl⟩ := h
          exact ⟨hx, dht, hnone, fun _ => hn, by simp only [laterOf, hc, if_false],
            (decide_eq_false hc).symm⟩
  · have hi' : s.regular_entry_.isSome = false := by simpa using hi
    simp only [hi', Bool.false_eq_true, if_false, Prod.mk.injEq, Except.ok.injEq] at h
    obtain ⟨rfl, rfl, rfl⟩ := h
    exact ⟨rfl, [], fun _ => rfl, fun hx => absurd hx hi, by simp [laterOf], by simp⟩

/-- What `SeekForwardRegular` leaves when it does not fail: the cursor and the candidate of the
loop of `SkipFutureRecords` started where the seek helper put the regular cursor, and the
intent side as it was. -/
theorem SeekForwardRegular_ok (env : Env) (budget : Nat) (target : Slice)
    (s s' : IntentAwareIterator) (h : SeekForwardRegular env budget target s = some s')
    (hok : s'.status_.ok = true) :
    ∃ o, SkipFutureRecordsLoop env s.encoded_read_time_ s.upperbound_ .kForward budget
        (env.SeekForward target s.iter_) 0 = some o ∧
      s' = { s with iter_ := o.cursor, regular_entry_ := o.candidate } ∧
      (∀ c code, o ≠ .failed c code) := by
  unfold SeekForwardRegular at h
  rw [SkipFutureRecords_eq] at h
  cases hloop : SkipFutureRecordsLoop env s.encoded_read_time_ s.upperbound_ .kForward budget
      (env.SeekForward target s.iter_) 0 with
  | none => rw [hloop] at h; simp at h
  | some o =>
    rw [hloop] at h
    simp only [Option.map_some', Option.some.injEq] at h
    subst h
    rw [applySkipOutcome_status] at hok
    obtain ⟨hs, hnf⟩ := newStatus_ok _ _ hok
    refine ⟨o, rfl, ?_, hnf⟩
    rw [applySkipOutcome_eq _ o hnf]
    cases o with
    | found c e => rfl
    | outOfBounds c => rfl
    | failed c code => exact absurd rfl (hnf c code)
    | exhausted c =>
      simp only [SkipOutcome.newStatus] at hok ⊢
      by_cases hc : c.status.ok = true
      · simp [hc]
      · simp only [hc, if_false] at hok
        exact absurd hok hc
theorem FindMatchingIntentRecordDocHybridTime_error (env : Env) (budget : Nat) (key : Slice)
    (s s1 : IntentAwareIterator) (st : Status)
    (h : FindMatchingIntentRecordDocHybridTime env budget key s = some (s1, .error st)) :
    st.ok = false ∧ s1.status_ = st := by
  unfold FindMatchingIntentRecordDocHybridTime at h
  simp only at h
  cases hx : IntentSeekForward env budget (IntentPrepareSeek key [] s).2
      (IntentPrepareSeek key [] s).1 with
  | none => rw [hx] at h; simp at h
  | some y =>
    rw [hx] at h
    simp only at h
    by_cases hy : y.status_.ok = true
    · simp only [hy, Bool.not_true, Bool.false_eq_true, if_false] at h
      by_cases hv : y.resolved_intent_state_ = .kValid
      · simp only [hv, ne_eq, not_true_eq_false, if_false] at h
        by_cases hk : Slice.compare y.resolved_intent_key_prefix_ key = 0
        · simp [hk] at h
        · simp [hk] at h
      · simp [hv] at h
    · simp only [hy, Bool.not_false, if_true, Option.some.injEq, Prod.mk.injEq,
        Except.error.injEq] at h
      obtain ⟨rfl, rfl⟩ := h
      exact ⟨by simpa using hy, rfl⟩

theorem GetMatchingRegularRecordDocHybridTime_error (env : Env) (key : Slice)
    (s s1 : IntentAwareIterator) (st : Status)
    (h : GetMatchingRegularRecordDocHybridTime env key s = (s1, .error st)) :
    st.ok = false ∧ s1 = s := by
  unfold GetMatchingRegularRecordDocHybridTime at h
  cases hc : env.CheckHybridTimeSizeAndValueType (iterKey s) with
  | error code =>
    rw [hc] at h
    simp only [Prod.mk.injEq, Except.error.injEq] at h
    obtain ⟨rfl, rfl⟩ := h
    exact ⟨rfl, rfl⟩
  | ok n =>
    rw [hc] at h
    simp only at h
    by_cases hk : key = Slice.WithoutSuffix (iterKey s) (1 + n)
    · simp only [← hk, if_true] at h
      cases he : EncodedFromEnd env (iterKey s) with
      | error code =>
        rw [he] at h
        simp only [Prod.mk.injEq, Except.error.injEq] at h
        obtain ⟨rfl, rfl⟩ := h
        exact ⟨rfl, rfl⟩
      | ok wt => rw [he] at h; simp at h
    · simp [hk] at h

theorem FindLatestRecordIntent_error (env : Env) (budget : Nat) (key t0 : Slice)
    (s s1 : IntentAwareIterator) (st : Status)
    (h : FindLatestRecordIntent env budget key t0 s = some (s1, .error st)) :
    st.ok = false := by
  unfold FindLatestRecordIntent at h
  by_cases hi : s.intent_iter_.isSome = true
  · simp only [hi, if_true] at h
    cases hm : FindMatchingIntentRecordDocHybridTime env budget key s with
    | none => rw [hm] at h; simp at h
    | some r =>
      obtain ⟨x, res⟩ := r
      rw [hm] at h
      cases res with
      | error st' =>
        simp only [Option.some.injEq, Prod.mk.injEq, Except.error.injEq] at h
        obtain ⟨_, rfl⟩ := h
        exact (FindMatchingIntentRecordDocHybridTime_error env budget key s x _ hm).1
      | ok dht =>
        simp only at h
        split at h <;> simp at h
  · simp [hi] at h

theorem FindLatestRecordRegular_error (env : Env) (key t1 : Slice)
    (s s1 : IntentAwareIterator) (st : Status)
    (h : FindLatestRecordRegular env key t1 s = (s1, .error st)) :
    st.ok = false := by
  unfold FindLatestRecordRegular at h
  by_cases hi : s.regular_entry_.isSome = true
  · simp only [hi, if_true] at h
    cases hm : GetMatchingRegularRecordDocHybridTime env key s with
    | mk x res =>
      rw [hm] at h
      cases res with
      | error st' =>
        simp only [Prod.mk.injEq, Except.error.injEq] at h
        obtain ⟨_, rfl⟩ := h
        exact (GetMatchingRegularRecordDocHybridTime_error env key s x _ hm).1
      | ok dht =>
        simp only at h
        split at h <;> simp at h
  · simp [hi] at h

theorem matchingIntentTime_congr (env : Env) (key : Slice) (a b : IntentAwareIterator)
    (h1 : a.resolved_intent_state_ = b.resolved_intent_state_)
    (h2 : a.resolved_intent_key_prefix_ = b.resolved_intent_key_prefix_)
    (h3 : a.intent_dht_from_same_txn_ = b.intent_dht_from_same_txn_)
    (h4 : a.resolved_intent_txn_dht_ = b.resolved_intent_txn_dht_) :
    matchingIntentTime env key a = matchingIntentTime env key b := by
  simp only [matchingIntentTime, GetIntentDocHybridTime, h1, h2, h3, h4]

/-- C17 (as amended). `FindLatestRecord` picks the later resolved time. On a non-failed iterator whose
fetched entry is valid, called with non-null output pointers holding `t0` and `v0`, let `ti`
be the time of the resolved intent when there is an intents cursor and the prefix of the
resolved intent is exactly `key` (absent otherwise), and `tr` the time suffix of the record
the regular cursor rests on when there is a regular candidate and that record's key without
the marker byte and the time is exactly `key` (absent otherwise), the regular cursor and the
candidate being those `SkipFutureRecords` leaves after the seek helper was given
`(key, global_limit)`: over a byte-sorted store of well-formed keys read under ordered limits,
when the seek helper seeks, the candidate is the first visible record at or after
`(key, global_limit)`. On OK return `*latest_record_ht` is the latest of `t0`, `ti` and `tr`,
and `*result_value` is the value of the regular candidate when `tr` is later than both `t0`
and `ti`, otherwise the value of the intent when `ti` is later than `t0` (so also on a tie
between `ti` and `tr`), otherwise `v0` as it was. -/
theorem FindLatestRecord_picks_later (env : Env) (budget : Nat) (key t0 v0 : Slice)
    (s : IntentAwareIterator) (out : FindLatestRecordResult)
    (hok : s.status_.ok = true) (hvalid : s.entry_.valid = true)
    (hret : FindLatestRecord env budget key (some t0) (some v0) s = some out)
    (hstatus : out.status = .OK) :
    ∃ ti tr : Slice,
      ti = (if s.intent_iter_.isSome then matchingIntentTime env key out.state else []) ∧
      (out.state.regular_entry_ = none → tr = []) ∧
      (out.state.regular_entry_.isSome = true →
        ∃ n, env.CheckHybridTimeSizeAndValueType (iterKey out.state) = .ok n ∧
          (key ≠ Slice.WithoutSuffix (iterKey out.state) (1 + n) → tr = []) ∧
          (key = Slice.WithoutSuffix (iterKey out.state) (1 + n) →
            EncodedFromEnd env (iterKey out.state) = .ok tr)) ∧
      (∃ o, SkipFutureRecordsLoop env s.encoded_read_time_ s.upperbound_ .kForward budget
          (env.SeekForward (key ++ [env.kHybridTime] ++ s.encoded_read_time_.global_limit)
            s.iter_) 0 = some o ∧
        out.state.iter_ = o.cursor ∧ out.state.regular_entry_ = o.candidate) ∧
      (∀ data, s.iter_.data = data → s.iter_.upper = none → s.iter_.status = .OK →
        SortedKeys data → WellFormedKeys env data = true →
        OrderedLimits s.encoded_read_time_ →
        2 ≤ env.max_next_calls_while_skipping_future_records →
        2 * data.length + 2 ≤ budget →
        env.SeekForward (key ++ [env.kHybridTime] ++ s.encoded_read_time_.global_limit)
            s.iter_ =
          s.iter_.Seek (key ++ [env.kHybridTime] ++ s.encoded_read_time_.global_limit) →
        ∀ e, out.state.regular_entry_ = some e ↔
          scanRecords env s.encoded_read_time_ s.upperbound_
            (data.drop (lowerBound
              (key ++ [env.kHybridTime] ++ s.encoded_read_time_.global_limit) data)) =
            .found e) ∧
      out.latest_record_ht = some (laterOf (laterOf t0 ti) tr) ∧
      out.result_value = some
        (if !tr.isEmpty ∧ timeLT (laterOf t0 ti) tr then candidateValue out.state v0
         else if !ti.isEmpty ∧ timeLT t0 ti then out.state.resolved_intent_value_
         else v0) := by
  unfold FindLatestRecord at hret
  simp only [Fetch, hok, Bool.not_true, Bool.false_eq_true, if_false, hvalid] at hret
  cases h1 : FindLatestRecordIntent env budget key t0 s with
  | none => rw [h1] at hret; simp at hret
  | some r1 =>
    obtain ⟨s1, res1⟩ := r1
    rw [h1] at hret
    cases res1 with
    | error st =>
      simp only [Option.some.injEq] at hret
      subst hret
      simp only at hstatus
      subst hstatus
      exact absurd (FindLatestRecordIntent_error env budget key t0 s s1 _ h1) (by simp [Status.ok])
    | ok p1 =>
      obtain ⟨t1, fi⟩ := p1
      simp only at hret
      obtain ⟨hR1, ti, hti, ht1, hfi⟩ := FindLatestRecordIntent_ok env budget key t0 s s1 t1 fi h1
      cases h3 : SeekForwardRegular env budget
          (key ++ [env.kHybridTime] ++ s1.encoded_read_time_.global_limit)
          { s1 with seek_buffer_ :=
            key ++ [env.kHybridTime] ++ s1.encoded_read_time_.global_limit } with
      | none => rw [h3] at hret; simp at hret
      | some s3 =>
        rw [h3] at hret
        simp only at hret
        by_cases hok3 : s3.status_.ok = true
        · simp only [hok3, Bool.not_true, Bool.false_eq_true, if_false] at hret
          obtain ⟨o, hloop, hs3, hnf⟩ := SeekForwardRegular_ok env budget _ _ s3 h3 hok3
          simp only at hloop
          have hentry3 : s3.entry_.valid = true := by
            rw [hs3]; simp only; rw [hR1.2.2.2.2.1]; exact hvalid
          simp only [hentry3, Bool.not_true, Bool.false_eq_true, if_false] at hret
          cases h4 : FindLatestRecordRegular env key t1 s3 with
          | mk s4 res4 =>
            rw [h4] at hret
            cases res4 with
            | error st =>
              simp only [Option.some.injEq] at hret
              subst hret
              simp only at hstatus
              subst hstatus
              exact absurd (FindLatestRecordRegular_error env key t1 s3 s4 _ h4)
                (by simp [Status.ok])
            | ok p4 =>
              obtain ⟨t2, fr⟩ := p4
              simp only [Option.some.injEq] at hret
              subst hret
              obtain ⟨hs4, tr, htr0, htr1, ht2, hfr⟩ :=
                FindLatestRecordRegular_ok env key t1 s3 s4 t2 fr h4
              have e_iter : s4.iter_ = o.cursor := by rw [hs4, hs3]
              have e_reg : s4.regular_entry_ = o.candidate := by rw [hs4, hs3]
              have e_reg3 : s4.regular_entry_ = s3.regular_entry_ := by rw [hs4]
              have e_key : iterKey s4 = iterKey s3 := by
                have : s4.iter_ = s3.iter_ := by rw [hs4]
                simp only [iterKey, this]
              have e_val : s4.resolved_intent_value_ = s1.resolved_intent_value_ := by
                rw [hs4, hs3]
              have e_ti : matchingIntentTime env key s4 = matchingIntentTime env key s1 := by
                apply matchingIntentTime_congr <;> rw [hs4, hs3]
              have hloop' : SkipFutureRecordsLoop env s.encoded_read_time_ s.upperbound_
                  .kForward budget
                  (env.SeekForward
                    (key ++ [env.kHybridTime] ++ s.encoded_read_time_.global_limit) s.iter_) 0 =
                  some o := by
                rw [← hR1.1, ← hR1.2.1, ← hR1.2.2.1]; exact hloop
              refine ⟨ti, tr, ?_, ?_, ?_, ⟨o, hloop', e_iter, e_reg⟩, ?_, ?_, ?_⟩
              · simp only [e_ti]; exact hti
              · intro hn; exact htr0 (by rw [← e_reg3]; exact hn)
              · intro hn
                simp only [e_key]
                exact htr1 (by rw [← e_reg3]; exact hn)
              · intro data hdata hupper hcst hsorted hwf hord hthr hbudget hseek e
                have hcur : s.iter_.Seek
                    (key ++ [env.kHybridTime] ++ s.encoded_read_time_.global_limit) =
                    { data := data,
                      pos := some (lowerBound
                        (key ++ [env.kHybridTime] ++ s.encoded_read_time_.global_limit) data),
                      upper := none, status := .OK } := by
                  have hgen : ∀ (c : Cursor) (k : Slice), c.data = data → c.upper = none →
                      c.status = .OK →
                      c.Seek k = { data := data, pos := some (lowerBound k data),
                                   upper := none, status := .OK } := by
                    intro c k a b d
                    cases c
                    simp only at a b d
                    simp [Cursor.Seek, a, b, d]
                  exact hgen _ _ hdata hupper hcst
                obtain ⟨out', hout', hsame⟩ := SkipFutureRecordsLoop_scan env
                  s.encoded_read_time_ s.upperbound_ data .OK hsorted hwf hord hthr budget
                  (lowerBound (key ++ [env.kHybridTime] ++ s.encoded_read_time_.global_limit)
                    data) 0 (by
                    have : (if 0 + 1 ≥ env.max_next_calls_while_skipping_future_records
                        then 1 else 0) ≤ 1 := by split <;> omega
                    omega)
                rw [hseek, hcur, hout'] at hloop'
                simp only [Option.some.injEq] at hloop'
                subst hloop'
                rw [e_reg]
                generalize scanRecords env s.encoded_read_time_ s.upperbound_
                  (data.drop (lowerBound
                    (key ++ [env.kHybridTime] ++ s.encoded_read_time_.global_limit) data)) = sc
                  at hsame
                cases out' with
                | found c e0 =>
                  simp only [SkipOutcome.candidate, SkipOutcome.result, ScanResult.same] at hsame ⊢
                  rcases hsame with h | ⟨h, _⟩
                  · rw [← h]; simp
                  · simp at h
                | outOfBounds c =>
                  simp only [SkipOutcome.candidate, SkipOutcome.result, ScanResult.same] at hsame ⊢
                  rcases hsame with h | ⟨_, h | h⟩
                  · rw [← h]; simp
                  · rw [h]; simp
                  · rw [h]; simp
                | failed c code => exact absurd rfl (hnf c code)
                | exhausted c =>
                  simp only [SkipOutcome.candidate, SkipOutcome.result, ScanResult.same] at hsame ⊢
                  rcases hsame with h | ⟨_, h | h⟩
                  · rw [← h]; simp
                  · rw [h]; simp
                  · rw [h]; simp
              · simp only [ht2, ht1]
              · simp only [FindLatestRecordValue, hfr, hfi, ht1, decide_eq_true_eq,
                  candidateValue]
                by_cases hc : (!tr.isEmpty) = true ∧ timeLT (laterOf t0 ti) tr = true
                · simp only [hc, and_self, if_true]
                  cases hre : s4.regular_entry_ with
                  | none =>
                    have := htr0 (by rw [← e_reg3]; exact hre)
                    rw [this] at hc
                  | some e => rfl
                · simp only [hc, if_false]
                  by_cases hd : (!ti.isEmpty) = true ∧ timeLT t0 ti = true
                  · simp only [hd, and_self, if_true]
                  · simp only [hd, if_false]
        · simp only [hok3, Bool.not_false, if_true, Option.some.injEq] at hret
          subst hret
          simp only at hstatus
          rw [hstatus] at hok3
          exact absurd rfl hok3
/-- C17 (witness). In `committedIntentSought` the regular record of `k` and the intent on `k`
both have time 12: `FindLatestRecord(k)` returns OK, the latest time 12 and the value of the
intent. -/
theorem FindLatestRecord_picks_later_witness :
    FindLatestRecord miniEnv 10 [107] (some (enc 0)) (some []) committedIntentSought =
      some latestRecordOut ∧
    latestRecordOut.latest_record_ht = some (enc 12) ∧
    latestRecordOut.result_value = some [9] ∧
    ∃ ti tr : Slice,
      ti = matchingIntentTime miniEnv [107] latestRecordOut.state ∧
      latestRecordOut.latest_record_ht = some (laterOf (laterOf (enc 0) ti) tr) ∧
      latestRecordOut.result_value = some
        (if !tr.isEmpty ∧ timeLT (laterOf (enc 0) ti) tr then
           candidateValue latestRecordOut.state []
         else if !ti.isEmpty ∧ timeLT (enc 0) ti then
           latestRecordOut.state.resolved_intent_value_
         else []) :=
  ⟨by decide, by decide, by decide,
    match FindLatestRecord_picks_later miniEnv 10 [107] (enc 0) [] committedIntentSought
      latestRecordOut (by decide) (by decide) (by decide) (by decide) with
    | ⟨ti, tr, h1, _, _, _, _, h6, h7⟩ => ⟨ti, tr, h1, h6, h7⟩⟩

/-- C17 (counterexample). The store of `twoVersionsState` holds `k@10`, `k@5` and `l@7`, read
at 15: the first visible regular record at or after `(k, global_limit)` is `k@10`, whose
logical key is `k`. After a seek past the last record the iterator is positioned, not failed,
and exhausted (its fetched entry is invalid): `FindLatestRecord(k)` returns OK and leaves
`*latest_record_ht` and `*result_value` as they were. After `Seek(l)` the iterator rests on
`l@7`, past `k`: the forward-only seek helper leaves the regular cursor there, the candidate
is not a record of `k`, and `FindLatestRecord(k)` returns OK and leaves both outputs as they
were. From `Seek(k)` it returns the time 10 and the value of `k@10`. -/
theorem FindLatestRecord_picks_later_counterexample :
    scanRecords miniEnv twoVersionsState.encoded_read_time_ twoVersionsState.upperbound_
      (twoVersionsState.iter_.data.drop
        (lowerBound ([107] ++ [miniEnv.kHybridTime] ++
          twoVersionsState.encoded_read_time_.global_limit) twoVersionsState.iter_.data)) =
      .found { key := [107, 35] ++ enc 10, value := [2] } ∧
    (Seek miniEnv 10 [109] false twoVersionsState = some exhaustedSought ∧
      exhaustedSought.status_ = .OK ∧ exhaustedSought.entry_.valid = false ∧
      (FindLatestRecord miniEnv 10 [107] (some (enc 0)) (some []) exhaustedSought).map
        (fun o => (o.status, o.latest_record_ht, o.result_value)) =
        some (.OK, some (enc 0), some [])) ∧
    (Seek miniEnv 10 [108] false twoVersionsState = some pastKeySought ∧
      Fetch pastKeySought = .ok { valid := true, key := [108], value := [3],
                                  write_time := enc 7, same_transaction := false } ∧
      (FindLatestRecord miniEnv 10 [107] (some (enc 0)) (some []) pastKeySought).map
        (fun o => (o.status, o.latest_record_ht, o.result_value)) =
        some (.OK, some (enc 0), some [])) ∧
    (FindLatestRecord miniEnv 10 [107] (some (enc 0)) (some []) twoVersionsSought).map
      (fun o => (o.status, o.latest_record_ht, o.result_value)) =
      some (.OK, some (enc 10), some [2]) :=
  ⟨by decide, ⟨by decide, by decide, by decide, by decide⟩,
    ⟨by decide, by decide, by decide⟩, by decide⟩

theorem FindOldestRecordStepBack_ok (env : Env) (budget : Nat)
    (s s' : IntentAwareIterator) (h : FindOldestRecordStepBack env budget s = some (s', true))
    (hok : s'.status_.ok = true) :
    ∃ o, SkipFutureRecordsLoop env s.encoded_read_time_ s.upperbound_ .kForward budget
        (if s.iter_.Entry.isSome then s.iter_.Prev else s.iter_.SeekToLast) 0 = some o ∧
      s' = { s with iter_ := o.cursor, regular_entry_ := o.candidate } ∧
      (∀ c code, o ≠ .failed c code) := by
  have hgen : ∀ (x : IntentAwareIterator) (c : Cursor),
      SkipFutureRecords env .kForward budget { x with iter_ := c } = some s' →
      ∃ o, SkipFutureRecordsLoop env x.encoded_read_time_ x.upperbound_ .kForward budget c 0
          = some o ∧
        s' = { x with iter_ := o.cursor, regular_entry_ := o.candidate } ∧
        (∀ c code, o ≠ .failed c code) := by
    intro x c hx
    rw [SkipFutureRecords_eq] at hx
    simp only at hx
    cases hloop : SkipFutureRecordsLoop env x.encoded_read_time_ x.upperbound_ .kForward budget
        c 0 with
    | none => rw [hloop] at hx; simp at hx
    | some o =>
      rw [hloop] at hx
      simp only [Option.map_some', Option.some.injEq] at hx
      subst hx
      rw [applySkipOutcome_status] at hok
      obtain ⟨hs, hnf⟩ := newStatus_ok _ _ hok
      refine ⟨o, rfl, ?_, hnf⟩
      rw [applySkipOutcome_eq _ o hnf]
      cases o with
      | found c e => rfl
      | outOfBounds c => rfl
      | failed c code => exact absurd rfl (hnf c code)
      | exhausted c =>
        simp only [SkipOutcome.newStatus] at hok ⊢
        by_cases hc : c.status.ok = true
        · simp [hc]
        · simp only [hc, if_false] at hok
          exact absurd hok hc
  unfold FindOldestRecordStepBack at h
  by_cases hv : s.iter_.Entry.isSome = true
  · simp only [hv, if_true] at h ⊢
    cases hx : SkipFutureRecords env .kForward budget { s with iter_ := s.iter_.Prev } with
    | none => rw [hx] at h; simp at h
    | some t =>
      rw [hx] at h
      simp only [Option.map_some', Option.some.injEq, Prod.mk.injEq, and_true] at h
      subst h
      exact hgen s _ hx
  · simp only [hv, if_false] at h ⊢
    by_cases hst : s.iter_.status.ok = true
    · simp only [HandleStatus, hst, if_true] at h
      by_cases hs : s.status_.ok = true
      · simp only [hs, Bool.not_true, Bool.false_eq_true, if_false] at h
        cases hx : SkipFutureRecords env .kForward budget
            { s with iter_ := s.iter_.SeekToLast } with
        | none => rw [hx] at h; simp at h
        | some t =>
          rw [hx] at h
          simp only [Option.map_some', Option.some.injEq, Prod.mk.injEq, and_true] at h
          subst h
          exact hgen s _ hx
      · simp [hs] at h
    · simp [HandleStatus, hst, Status.ok] at h
      have hbad : (s.iter_.status).ok = false := by simpa using hst
      cases hcs : s.iter_.status with
      | OK => rw [hcs] at hst; exact absurd rfl hst
      | Error code => rw [hcs] at h; simp at h
theorem FindOldestRecordIntent_ok (env : Env) (budget : Nat) (key encoded_min : Slice)
    (min_ht : Nat) (hmin : encoded_min = env.EncodeHybridTime min_ht)
    (s s1 : IntentAwareIterator) (r : Option Nat)
    (h : FindOldestRecordIntent env budget key encoded_min s = some (s1, .ok r)) :
    RegularSide s s1 ∧
    ∃ ti, ti = (if s.intent_iter_.isSome then matchingIntentTime env key s1 else []) ∧
      r = countedIntentTime env min_ht ti := by
  subst hmin
  unfold FindOldestRecordIntent at h
  by_cases hi : s.intent_iter_.isSome = true
  · simp only [hi, if_true] at h ⊢
    cases hm : FindMatchingIntentRecordDocHybridTime env budget key s with
    | none => rw [hm] at h; simp at h
    | some p =>
      obtain ⟨x, res⟩ := p
      rw [hm] at h
      cases res with
      | error st => simp at h
      | ok dht =>
        simp only at h
        obtain ⟨hR, _, hti⟩ := FindMatchingIntentRecordDocHybridTime_ok env budget key s x dht hm
        by_cases hc : (!dht.isEmpty) = true ∧ timeLT (env.EncodeHybridTime min_ht) dht = true
        · simp only [hc, and_self, if_true] at h
          cases hd : env.Decode dht with
          | error code => rw [hd] at h; simp at h
          | ok ht =>
            rw [hd] at h
            simp only [Option.some.injEq, Prod.mk.injEq, Except.ok.injEq] at h
            obtain ⟨rfl, rfl⟩ := h
            exact ⟨hR, dht, hti, by simp [countedIntentTime, hc, hd]⟩
        · simp only [hc, if_false, Option.some.injEq, Prod.mk.injEq, Except.ok.injEq] at h
          obtain ⟨rfl, rfl⟩ := h
          exact ⟨hR, dht, hti, by simp only [countedIntentTime, hc, if_false]⟩
  · have hi' : s.intent_iter_.isSome = false := by simpa using hi
    simp only [hi', Bool.false_eq_true, if_false, Option.some.injEq, Prod.mk.injEq,
      Except.ok.injEq] at h ⊢
    obtain ⟨rfl, rfl⟩ := h
    exact ⟨RegularSide_refl s, [], rfl, by simp [countedIntentTime]⟩

theorem FindOldestRecordRegular_ok (env : Env) (key : Slice) (min_ht : Nat)
    (result : Option Nat) (s s1 : IntentAwareIterator) (r : Option Nat)
    (h : FindOldestRecordRegular env key min_ht result s = (s1, .ok r)) :
    s1 = { s with max_seen_ht_ := s1.max_seen_ht_ } ∧
    ∃ tr, (s.regular_entry_ = none → tr = []) ∧
      (s.regular_entry_.isSome = true →
        ∃ n, env.CheckHybridTimeSizeAndValueType (iterKey s) = .ok n ∧
          (key ≠ Slice.WithoutSuffix (iterKey s) (1 + n) → tr = []) ∧
          (key = Slice.WithoutSuffix (iterKey s) (1 + n) →
            EncodedFromEnd env (iterKey s) = .ok tr)) ∧
      r = earlierOf result (countedRegularTime env min_ht tr) := by
  have hnone : ∀ x : Option Nat, x = earlierOf x none := by
    intro x; cases x <;> rfl
  unfold FindOldestRecordRegular at h
  by_cases hi : s.regular_entry_.isSome = true
  · simp only [hi, if_true] at h
    cases hm : GetMatchingRegularRecordDocHybridTime env key s with
    | mk x res =>
      rw [hm] at h
      cases res with
      | error st => simp at h
      | ok dht =>
        simp only at h
        obtain ⟨hx, hn⟩ := GetMatchingRegularRecordDocHybridTime_ok env key s x dht hm
        have hnone' : s.regular_entry_ = none → dht = [] := by
          intro hn'; rw [hn'] at hi; simp at hi
        by_cases hc : (!dht.isEmpty) = true
        · simp only [hc, if_true] at h
          cases hd : env.Decode dht with
          | error code => rw [hd] at h; simp at h
          | ok ht =>
            rw [hd] at h
            simp only [Prod.mk.injEq, Except.ok.injEq] at h
            obtain ⟨rfl, rfl⟩ := h
            refine ⟨hx, dht, hnone', fun _ => hn, ?_⟩
            simp only [countedRegularTime, hc, if_true, hd]
            by_cases hgt : ht > min_ht
            · simp only [hgt, if_true]
              cases result <;> rfl
            · simp only [hgt, if_false]
              exact hnone result
        · simp only [hc, if_false, Prod.mk.injEq, Except.ok.injEq, Bool.false_eq_true] at h
          obtain ⟨rfl, rfl⟩ := h
          refine ⟨hx, dht, hnone', fun _ => hn, ?_⟩
          simp only [countedRegularTime, hc, if_false, Bool.false_eq_true]
          exact hnone _
  · have hi' : s.regular_entry_.isSome = false := by simpa using hi
    simp only [hi', Bool.false_eq_true, if_false, Prod.mk.injEq, Except.ok.injEq] at h
    obtain ⟨rfl, rfl⟩ := h
    exact ⟨rfl, [], fun _ => rfl, fun hx => absurd hx hi, by
      simp only [countedRegularTime, List.isEmpty_nil, Bool.not_true, Bool.false_eq_true,
        if_false]
      exact hnone _⟩

/-- C18 (as amended). `FindOldestRecord(key, minTime)` on a non-failed iterator returns the
invalid time when the fetched entry is invalid. When the fetched entry is valid and the call
returns a time and leaves a non-failed state, the time is the earlier of two times, each
counted only when it is later than `minTime`: the time `ti` of the resolved intent, when there
is an intents cursor and the prefix of the resolved intent is exactly `key` (the resolver
keeps only the most recent visible intent of a key), and the time `tr` of the record the
regular cursor rests on, when there is a regular candidate and that record's key without the
marker byte and the time is exactly `key`; the regular cursor and the candidate are those
`SkipFutureRecords` leaves when started one record before (or, when the cursor is not valid,
at the last record of the store) the place where `SkipFutureRecords` ended after the seek
helper was given `(key, minTime)`. The result is the invalid time when neither counts. -/
theorem FindOldestRecord_earlier_of_two (env : Env) (budget : Nat) (key : Slice)
    (min_ht : Nat) (s st : IntentAwareIterator) (r : Option Nat)
    (hok : s.status_.ok = true)
    (hret : FindOldestRecord env budget key min_ht s = some (st, .ok r))
    (hst : st.status_.ok = true) :
    (s.entry_.valid = false → st = s ∧ r = none) ∧
    (s.entry_.valid = true →
      ∃ ti tr : Slice,
        ti = (if s.intent_iter_.isSome then matchingIntentTime env key st else []) ∧
        (st.regular_entry_ = none → tr = []) ∧
        (st.regular_entry_.isSome = true →
          ∃ n, env.CheckHybridTimeSizeAndValueType (iterKey st) = .ok n ∧
            (key ≠ Slice.WithoutSuffix (iterKey st) (1 + n) → tr = []) ∧
            (key = Slice.WithoutSuffix (iterKey st) (1 + n) →
              EncodedFromEnd env (iterKey st) = .ok tr)) ∧
        (∃ o o2, SkipFutureRecordsLoop env s.encoded_read_time_ s.upperbound_ .kForward budget
            (env.SeekForward (key ++ [env.kHybridTime] ++ env.EncodeHybridTime min_ht)
              s.iter_) 0 = some o ∧
          SkipFutureRecordsLoop env s.encoded_read_time_ s.upperbound_ .kForward budget
            (if o.cursor.Entry.isSome then o.cursor.Prev else o.cursor.SeekToLast) 0 =
            some o2 ∧
          st.iter_ = o2.cursor ∧ st.regular_entry_ = o2.candidate) ∧
        r = earlierOf (countedIntentTime env min_ht ti) (countedRegularTime env min_ht tr)) := by
  unfold FindOldestRecord at hret
  simp only [Fetch, hok, Bool.not_true, Bool.false_eq_true, if_false] at hret
  by_cases hvalid : s.entry_.valid = true
  swap
  · have hv : s.entry_.valid = false := by simpa using hvalid
    simp only [hv, Bool.not_false, if_true, Option.some.injEq, Prod.mk.injEq,
      Except.ok.injEq] at hret
    obtain ⟨rfl, rfl⟩ := hret
    exact ⟨fun _ => ⟨rfl, rfl⟩, fun h => by rw [hv] at h; exact absurd h (by simp)⟩
  refine ⟨fun h => by rw [hvalid] at h; exact absurd h (by simp), fun _ => ?_⟩
  simp only [hvalid, Bool.not_true, Bool.false_eq_true, if_false] at hret
  cases h1 : FindOldestRecordIntent env budget key (env.EncodeHybridTime min_ht) s with
  | none => rw [h1] at hret; simp at hret
  | some r1 =>
    obtain ⟨s1, res1⟩ := r1
    rw [h1] at hret
    cases res1 with
    | error e => simp at hret
    | ok result =>
      simp only at hret
      obtain ⟨hR1, ti, hti, hri⟩ :=
        FindOldestRecordIntent_ok env budget key _ min_ht rfl s s1 result h1
      cases h3 : SeekForwardRegular env budget
          (key ++ [env.kHybridTime] ++ env.EncodeHybridTime min_ht)
          { s1 with seek_buffer_ := key ++ [env.kHybridTime] ++ env.EncodeHybridTime min_ht } with
      | none => rw [h3] at hret; simp at hret
      | some s3 =>
        rw [h3] at hret
        simp only at hret
        by_cases hok3 : s3.status_.ok = true
        swap
        · simp [hok3] at hret
        simp only [hok3, Bool.not_true, Bool.false_eq_true, if_false] at hret
        obtain ⟨o, hloop, hs3, _⟩ := SeekForwardRegular_ok env budget _ _ s3 h3 hok3
        simp only at hloop
        cases h4 : FindOldestRecordStepBack env budget s3 with
        | none => rw [h4] at hret; simp at hret
        | some p4 =>
          obtain ⟨s4, flag⟩ := p4
          rw [h4] at hret
          cases flag with
          | false => simp at hret
          | true =>
            simp only [Option.some.injEq] at hret
            obtain ⟨hst', tr, htr0, htr1, hr⟩ :=
              FindOldestRecordRegular_ok env key min_ht result s4 st r hret
            have hok4 : s4.status_.ok = true := by
              have : st.status_ = s4.status_ := by rw [hst']
              rw [← this]; exact hst
            obtain ⟨o2, hloop2, hs4, _⟩ := FindOldestRecordStepBack_ok env budget s3 s4 h4 hok4
            have e3i : s3.iter_ = o.cursor := by rw [hs3]
            have e3r : s3.encoded_read_time_ = s.encoded_read_time_ := by
              rw [hs3]; exact hR1.1
            have e3u : s3.upperbound_ = s.upperbound_ := by rw [hs3]; exact hR1.2.1
            rw [e3i, e3r, e3u] at hloop2
            have e_iter : st.iter_ = o2.cursor := by rw [hst', hs4]
            have e_reg : st.regular_entry_ = o2.candidate := by rw [hst', hs4]
            have e_reg4 : st.regular_entry_ = s4.regular_entry_ := by rw [hst']
            have e_key : iterKey st = iterKey s4 := by
              have : st.iter_ = s4.iter_ := by rw [hst']
              simp only [iterKey, this]
            have e_ti : matchingIntentTime env key st = matchingIntentTime env key s1 := by
              apply matchingIntentTime_congr <;> rw [hst', hs4, hs3]
            refine ⟨ti, tr, ?_, ?_, ?_, ⟨o, o2, ?_, hloop2, e_iter, e_reg⟩, ?_⟩
            · simp only [e_ti]; exact hti
            · intro hn; exact htr0 (by rw [← e_reg4]; exact hn)
            · intro hn
              simp only [e_key]
              exact htr1 (by rw [← e_reg4]; exact hn)
            · rw [← hR1.1, ← hR1.2.1, ← hR1.2.2.1]; exact hloop
            · rw [hr, hri]
/-- Witness of `FindOldestRecord_earlier_of_two`: over the versions of `k` committed at 14, 12
and 10, read at 15 without an intents cursor, `FindOldestRecord(k, 11)` returns 12. -/
theorem FindOldestRecord_earlier_of_two_witness :
    FindOldestRecord miniEnv 10 [107] 11 threeVersionsSought =
      some (threeVersionsOldest, .ok (some 12)) ∧
    ∃ ti tr : Slice, ti = [] ∧
      some 12 = earlierOf (countedIntentTime miniEnv 11 ti) (countedRegularTime miniEnv 11 tr) :=
  ⟨by decide,
    match (FindOldestRecord_earlier_of_two miniEnv 10 [107] 11 threeVersionsSought
      threeVersionsOldest (some 12) (by decide) (by decide) (by decide)).2 (by decide) with
    | ⟨ti, tr, h1, _, _, _, h5⟩ => ⟨ti, tr, h1.trans (by decide), h5⟩⟩

/-- C18 (counterexample). In `twoIntentsSought`, read at 15, the key `k` has two visible
intents (each is accepted by `ProcessIntent` on its own), committed at 14 and at 12, and no
regular record: `FindOldestRecord(k, 11)` returns 14, although the write at 12 is visible and
later than 11. In `mixedVisibilitySought` the record of `k` committed at 18 is visible (kept
by the visibility test), the one committed at 17 is not: `FindOldestRecord(k, 16)` returns
the invalid time, although the write at 18 is visible and later than 16. -/
theorem FindOldestRecord_earlier_of_two_counterexample :
    (twoIntentsSought.status_ = .OK ∧ twoIntentsSought.entry_.valid = true ∧
      (ProcessIntent miniEnv { key := [107, 20] ++ enc 13, value := [1, 14, 8] }
        (resetResolved miniEnv twoIntentsSought)).resolved_intent_state_ = .kValid ∧
      (ProcessIntent miniEnv { key := [107, 20] ++ enc 13, value := [1, 14, 8] }
        (resetResolved miniEnv twoIntentsSought)).resolved_intent_txn_dht_ = enc 14 ∧
      (ProcessIntent miniEnv { key := [107, 20] ++ enc 11, value := [1, 12, 9] }
        (resetResolved miniEnv twoIntentsSought)).resolved_intent_state_ = .kValid ∧
      (ProcessIntent miniEnv { key := [107, 20] ++ enc 11, value := [1, 12, 9] }
        (resetResolved miniEnv twoIntentsSought)).resolved_intent_txn_dht_ = enc 12 ∧
      (FindOldestRecord miniEnv 10 [107] 11 twoIntentsSought).map (fun p => p.2) =
        some (.ok (some 14))) ∧
    (mixedVisibilitySought.status_ = .OK ∧ mixedVisibilitySought.entry_.valid = true ∧
      SkipFutureRecordsCheck miniEnv mixedVisibilitySought.encoded_read_time_
        { key := [107, 35] ++ enc 18, value := [35] ++ enc 14 ++ [3] } =
        .keep { key := [107, 35] ++ enc 18, value := [3] } ∧
      (FindOldestRecord miniEnv 10 [107] 16 mixedVisibilitySought).map (fun p => p.2) =
        some (.ok none)) := by
  decide

/-! ## Merge record chains -/

theorem getD_append_marker (K t : List Nat) (m : Nat) :
    (K ++ [m] ++ t).getD K.length 0 = m := by
  induction K with
  | nil => simp
  | cons x xs ih => simpa using ih

/-- The first loop of `NextFullValue` walks over the merge records of the key and stops on its
base record. -/
theorem NextFullValueRegularLoop_chain (env : Env) (K : Slice) (data : List KeyValueEntry)
    (base : KeyValueEntry) :
    ∀ (n budget p : Nat) (key value : Slice),
      (∀ i, i < n → ∃ e, data.get? (p + i) = some e ∧ IsRecordOf env K e ∧
        env.IsMergeRecord e.value = true) →
      data.get? (p + n) = some base → IsRecordOf env K base →
      env.IsMergeRecord base.value = false → n + 1 ≤ budget →
      NextFullValueRegularLoop env K budget
          { data := data, pos := some p, upper := none, status := .OK } key value =
        some ({ data := data, pos := some (p + n), upper := none, status := .OK }, true,
          base.key, base.value) := by
  intro n
  induction n with
  | zero =>
    intro budget p key value _ hbase hrec hnm hb
    obtain ⟨b, rfl⟩ : ∃ b, budget = b + 1 := ⟨budget - 1, by omega⟩
    obtain ⟨t, ht⟩ := hrec
    unfold NextFullValueRegularLoop
    rw [Cursor.Entry_unbounded]
    simp only [Nat.add_zero] at hbase
    rw [hbase]
    have hsw : Slice.starts_with base.key K = true := by
      rw [ht, List.append_assoc]; exact starts_with_append K _
    have hmk : base.key.getD K.length 0 = env.kHybridTime := by
      rw [ht]; exact getD_append_marker K t _
    simp only [hsw, hmk, and_self, if_true, hnm, Bool.false_eq_true, if_false, Nat.add_zero]
  | succ n ih =>
    intro budget p key value hchain hbase hrec hnm hb
    obtain ⟨b, rfl⟩ : ∃ b, budget = b + 1 := ⟨budget - 1, by omega⟩
    obtain ⟨e, hget, ⟨t, ht⟩, hm⟩ := hchain 0 (by omega)
    simp only [Nat.add_zero] at hget
    unfold NextFullValueRegularLoop
    rw [Cursor.Entry_unbounded, hget]
    have hsw : Slice.starts_with e.key K = true := by
      rw [ht, List.append_assoc]; exact starts_with_append K _
    have hmk : e.key.getD K.length 0 = env.kHybridTime := by
      rw [ht]; exact getD_append_marker K t _
    simp only [hsw, hmk, and_self, if_true, hm]
    have := ih b (p + 1) e.key e.value
      (fun i hi => by
        obtain ⟨e', h1, h2, h3⟩ := hchain (i + 1) (by omega)
        exact ⟨e', by rw [← h1]; congr 1; omega, h2, h3⟩)
      (by rw [← hbase]; congr 1; omega) hrec hnm (by omega)
    simp only [Cursor.Next, Option.map_some']
    rw [this]
    have hp : p + 1 + n = p + (n + 1) := by omega
    rw [hp]
/-- C19 (as amended). `NextFullValue` reports the base record of the chain. Let the fetched
entry of a non-failed iterator without an intents cursor be a valid entry of key `K` whose
value is a merge record, and let the regular cursor rest on the first of `n` merge records of
`K` that are followed by a non-merge base record of `K` with time `tb`. Then `NextFullValue`
returns, within `n + 1` iterations, the value of the base record together with `write_time`
equal to the time `tb` of the base record, the record on which the walk stops (not the time
of the newest merge record); the returned key is the key of the base record without its
time, and the regular cursor rests on the base record. -/
theorem NextFullValue_base_record_time (env : Env) (budget : Nat) (s : IntentAwareIterator)
    (data : List KeyValueEntry) (p n : Nat) (K tb : Slice) (base : KeyValueEntry)
    (hok : s.status_.ok = true) (hnoint : s.intent_iter_ = none)
    (hvalid : s.entry_.valid = true) (hkey : s.entry_.key = K)
    (hmerge : env.IsMergeRecord s.entry_.value = true)
    (hiter : s.iter_ = { data := data, pos := some p, upper := none, status := .OK })
    (hchain : ∀ i, i < n → ∃ e, data.get? (p + i) = some e ∧ IsRecordOf env K e ∧
      env.IsMergeRecord e.value = true)
    (hbase : data.get? (p + n) = some base)
    (hbkey : base.key = K ++ [env.kHybridTime] ++ tb)
    (hbval : env.IsMergeRecord base.value = false)
    (hsize : env.GetEncodedSize base.key = .ok tb.length)
    (hbudget : n + 1 ≤ budget) :
    ∃ s', NextFullValue env budget s =
        some (s', .ok { valid := true, key := K ++ [env.kHybridTime], value := base.value,
                        write_time := tb, same_transaction := s.entry_.same_transaction }) ∧
      s'.iter_ = { data := data, pos := some (p + n), upper := none, status := .OK } ∧
      s'.status_ = s.status_ ∧ s'.regular_entry_ = s.regular_entry_ := by
  have hloop := NextFullValueRegularLoop_chain env K data base n budget p K
    s.entry_.value hchain hbase ⟨tb, hbkey⟩ hbval hbudget
  have hend : EncodedFromEnd env base.key = .ok tb := by
    simp only [EncodedFromEnd, hsize]
    rw [hbkey, Slice.Suffix_append]
  have hwo : Slice.WithoutSuffix base.key tb.length = K ++ [env.kHybridTime] := by
    rw [hbkey]
    exact Slice.WithoutSuffix_append _ _
  have hOK : Status.OK.ok = true := rfl
  refine ⟨{ s with iter_ := { data := data, pos := some (p + n), upper := none,
                               status := .OK } }, ?_, rfl, rfl, rfl⟩
  unfold NextFullValue
  simp only [Fetch, hok, Bool.not_true, Bool.false_eq_true, if_false, hvalid, hmerge,
    or_self, hkey, hiter, hloop, HandleStatus, hOK, if_true, NextFullValueRegular, hend, hwo,
    NextFullValueIntents, hnoint, Option.isSome_none]

/-- Witness of `NextFullValue_base_record_time` in Scenario D: after `Seek(k)` the fetched
entry is `(k, mergeOp2, 8)`, and `NextFullValue` returns the value of the base record with
`write_time` 2. -/
theorem NextFullValue_base_record_time_witness :
    Fetch scenarioDSought =
      .ok { valid := true, key := [107], value := [77, 2], write_time := enc 8,
            same_transaction := false } ∧
    ∃ s', NextFullValue miniEnv 10 scenarioDSought =
        some (s', .ok { valid := true, key := [107] ++ [miniEnv.kHybridTime], value := [9],
                        write_time := enc 2,
                        same_transaction := scenarioDSought.entry_.same_transaction }) ∧
      s'.iter_ = { data := scenarioD.iter_.data, pos := some (0 + 2), upper := none,
                   status := .OK } ∧
      s'.status_ = scenarioDSought.status_ ∧
      s'.regular_entry_ = scenarioDSought.regular_entry_ :=
  ⟨by decide,
    NextFullValue_base_record_time miniEnv 10 scenarioDSought scenarioD.iter_.data 0 2 [107]
      (enc 2) { key := [107, 35] ++ enc 2, value := [9] }
      (by decide) (by decide) (by decide) (by decide) (by decide) (by decide)
      (by
        intro i hi
        match i, hi with
        | 0, _ => exact ⟨_, rfl, ⟨enc 8, rfl⟩, rfl⟩
        | 1, _ => exact ⟨_, rfl, ⟨enc 5, rfl⟩, rfl⟩)
      (by decide) (by decide) (by decide) (by decide) (by decide)⟩

/-- C19 (counterexample). In Scenario D (`k → mergeOp2` at 8, `k → mergeOp1` at 5, `k → base`
at 2, read at 10) `NextFullValue` after `Seek(k)` returns the value of the base record with
`write_time` 2, not 8, the time of the newest merge record of the chain. -/
theorem NextFullValue_base_record_time_counterexample :
    (NextFullValue miniEnv 10 scenarioDSought).map (fun r => r.2) =
      some (.ok { valid := true, key := [107, 35], value := [9], write_time := enc 2,
                  same_transaction := false }) ∧
    enc 2 ≠ enc 8 := by
  decide
/-- When the fetched entry is invalid or its value is not a merge record, `NextFullValue`
returns what `Fetch` returns and leaves the state as it was. -/
theorem NextFullValue_not_merge (env : Env) (budget : Nat) (s : IntentAwareIterator)
    (entry : FetchedEntry) (hfetch : Fetch s = .ok entry)
    (hplain : entry.valid = false ∨ env.IsMergeRecord entry.value = false) :
    NextFullValue env budget s = some (s, .ok entry) := by
  unfold NextFullValue
  rw [hfetch]
  rcases hplain with h | h <;> simp [h]

/-- C20 (the code at the failing inputs). In `keyChangeSought` `Fetch` reports the entry
`(k, mergeOp, 8)` and the regular cursor reaches the record `l@5` of another key before any
non-merge record of `k`: `NextFullValue` returns OK with the key and the `write_time` of that
other record (`l` followed by the marker byte, time 5) and the value of the merge record of
`k`. In `scenarioDSought`, where the chain of `k` ends in a base record of `k`, the returned
key is `k` followed by the marker byte, not the key `k` that `Fetch` reported. -/
theorem NextFullValue_leaves_key :
    Fetch keyChangeSought =
      .ok { valid := true, key := [107], value := [77, 2], write_time := enc 8,
            same_transaction := false } ∧
    (NextFullValue miniEnv 10 keyChangeSought).map (fun r => r.2) =
      some (.ok { valid := true, key := [108, 35], value := [77, 2], write_time := enc 5,
                  same_transaction := false }) ∧
    Fetch scenarioDSought =
      .ok { valid := true, key := [107], value := [77, 2], write_time := enc 8,
            same_transaction := false } ∧
    (NextFullValue miniEnv 10 scenarioDSought).map (fun r => r.2.map fun e => e.key) =
      some (.ok [107, 35]) := by
  decide

/-! ## Next on an intent winner -/

/-- C30. `Next` acts only on a regular winner: for every non-failed state in which the
current winner is not the regular candidate (there is no regular candidate, or the resolved
intent is Valid and the key under the regular cursor is not byte-wise smaller than the buffer
of the resolved intent), `Next()` returns the state it was given: both cursors, the resolved
intent and the fetched entry are unchanged, so `Fetch` after `Next` returns the same entry as
before. -/
theorem Next_acts_only_on_regular_winner (env : Env) (budget : Nat) (s : IntentAwareIterator)
    (hok : s.status_.ok = true)
    (hwin : s.regular_entry_ = none ∨
      (s.resolved_intent_state_ = .kValid ∧
        ¬ Slice.compare (iterKey s) s.resolved_intent_sub_doc_key_encoded_ < 0)) :
    IsEntryRegular s false = false ∧ Next env budget s = some s ∧
    ∀ r, Next env budget s = some r → r = s ∧ Fetch r = Fetch s := by
  have hreg : IsEntryRegular s false = false := by
    unfold IsEntryRegular
    rcases hwin with h | ⟨h1, h2⟩
    · simp [h]
    · by_cases hn : s.regular_entry_.isNone = true
      · simp [hn]
      · simp [hn, h1, h2]
  have hnext : Next env budget s = some s := by
    simp [Next, hok, hreg]
  refine ⟨hreg, hnext, ?_⟩
  intro r hr
  rw [hnext] at hr
  simp only [Option.some.injEq] at hr
  subst hr
  exact ⟨rfl, rfl⟩

/-- Witness of `Next_acts_only_on_regular_winner` on `intentWinsState`, where the regular
candidate is `k@5` and the fetched entry is the reader's own intent on `k`. -/
theorem Next_acts_only_on_regular_winner_witness :
    (intentWinsState.regular_entry_ = some { key := [107, 35] ++ enc 5, value := [1] } ∧
      Fetch intentWinsState =
        .ok { valid := true, key := [107], value := [9], write_time := enc 25,
              same_transaction := true }) ∧
    (IsEntryRegular intentWinsState false = false ∧
      Next miniEnv 20 intentWinsState = some intentWinsState ∧
      ∀ r, Next miniEnv 20 intentWinsState = some r →
        r = intentWinsState ∧ Fetch r = Fetch intentWinsState) :=
  ⟨⟨by decide, by decide⟩,
    Next_acts_only_on_regular_winner miniEnv 20 intentWinsState (by decide)
      (Or.inr ⟨by decide, by decide⟩)⟩

/-! ## Resolved intents beyond the scan bound -/

/-- C28 (as amended). Out-of-bounds resolved intents are marked NoIntent: when
`SkipFutureIntents`, in a non-failed state with an intents cursor, re-checks an already
resolved intent whose key prefix does not satisfy the scan upper bound, the resolved-intent
state becomes `kNoIntent`; when `ProcessIntent` resolves an intent with nothing resolved
before, the state becomes `kValid` if the prefix of the intent satisfies the scan upper bound
and stays `kNoIntent` if it does not, the prefix and the value of the intent being recorded
in both cases; and `ProcessIntent` never brings about a third state. -/
theorem out_of_bounds_intent_becomes_NoIntent (env : Env) (budget : Nat)
    (t : IntentAwareIterator)
    (hinit : t.intent_iter_.isSome = true) (htok : t.status_.ok = true)
    (hres : t.resolved_intent_state_ ≠ .kNoIntent)
    (htout : SatisfyBounds t.upperbound_ t.resolved_intent_key_prefix_ = false) :
    SkipFutureIntents env budget t = some { t with resolved_intent_state_ := .kNoIntent } ∧
    (∀ (entry : KeyValueEntry) (decoded : DecodeStrongWriteIntentResult)
        (s : IntentAwareIterator),
      env.DecodeStrongWriteIntent entry = .ok decoded →
      s.resolved_intent_state_ = .kNoIntent →
      timeLE decoded.value_time
        (if decoded.same_transaction then s.intent_dht_from_same_txn_
          else s.resolved_intent_txn_dht_) = false →
      timeLT (env.MaxAllowedValueTime decoded s.encoded_read_time_) decoded.value_time = false →
      (ProcessIntent env entry s).resolved_intent_state_ =
        (if SatisfyBounds s.upperbound_ decoded.intent_prefix_ then .kValid else .kNoIntent) ∧
      (ProcessIntent env entry s).resolved_intent_key_prefix_ = decoded.intent_prefix_ ∧
      (ProcessIntent env entry s).resolved_intent_value_ = decoded.intent_value) ∧
    (∀ (entry : KeyValueEntry) (s : IntentAwareIterator),
      (ProcessIntent env entry s).resolved_intent_state_ = .kInvalidPrefix →
      s.resolved_intent_state_ = .kInvalidPrefix) := by
  refine ⟨?_, ?_, ?_⟩
  · simp [SkipFutureIntents, hinit, htok, hres, htout]
  · intro entry decoded s hdec hno hnew hallowed
    by_cases hb : SatisfyBounds s.upperbound_ decoded.intent_prefix_ = true
    · simp [ProcessIntent, hdec, hno, hnew, hallowed, hb]
    · simp [ProcessIntent, hdec, hno, hnew, hallowed, hb]
  · intro entry s h
    unfold ProcessIntent at h
    cases hdec : env.DecodeStrongWriteIntent entry with
    | error code => rw [hdec] at h; exact h
    | ok decoded =>
      rw [hdec] at h
      simp only at h
      by_cases hstale : timeLE decoded.value_time
          (if decoded.same_transaction = true then s.intent_dht_from_same_txn_
           else s.resolved_intent_txn_dht_) = true
      · rw [if_pos hstale] at h; exact h
      · rw [if_neg hstale] at h
        by_cases hmax :
            timeLT (env.MaxAllowedValueTime decoded s.encoded_read_time_) decoded.value_time = true
        · rw [if_pos hmax] at h; exact h
        · rw [if_neg hmax] at h
          simp only at h
          by_cases hno : s.resolved_intent_state_ = .kNoIntent
          · rw [if_pos hno] at h
            split at h <;> simp at h
          · rw [if_neg hno] at h
            exact h

/-- Witness of `out_of_bounds_intent_becomes_NoIntent` on `boundLoweredState`: the intent on
`k` was resolved as Valid by `Seek(k)` under the scan upper bound `[255]`, then the bound was
lowered to `[100]`. -/
theorem out_of_bounds_intent_becomes_NoIntent_witness :
    (boundLoweredState.resolved_intent_state_ = .kValid ∧
      boundLoweredState.resolved_intent_key_prefix_ = [107] ∧
      boundLoweredState.upperbound_ = [100]) ∧
    SkipFutureIntents miniEnv 10 boundLoweredState =
      some { boundLoweredState with resolved_intent_state_ := .kNoIntent } :=
  ⟨⟨by decide, by decide, by decide⟩,
    (out_of_bounds_intent_becomes_NoIntent miniEnv 10 boundLoweredState
      (by decide) (by decide) (by decide) (by decide)).1⟩

/-- C28 (counterexample). `Seek(k)` from `resolvedIntentStart` resolves the intent on `k` as
Valid under the scan upper bound `[255]`; `SetUpperbound([100])` then puts the prefix `k` of
the resolved intent beyond the scan upper bound. `SkipFutureIntents`, re-checking the resolved
intent in this non-failed state, leaves the state `kNoIntent`: it is not a state distinct from
NoIntent. -/
theorem out_of_bounds_intent_becomes_NoIntent_counterexample :
    Seek miniEnv 10 [107] false resolvedIntentStart = some resolvedIntentSought ∧
    resolvedIntentSought.status_ = .OK ∧
    resolvedIntentSought.resolved_intent_state_ = .kValid ∧
    resolvedIntentSought.resolved_intent_key_prefix_ = [107] ∧
    boundLoweredState.upperbound_ = [100] ∧
    SatisfyBounds boundLoweredState.upperbound_
      boundLoweredState.resolved_intent_key_prefix_ = false ∧
    SkipFutureIntents miniEnv 10 boundLoweredState = some boundLoweredRechecked ∧
    boundLoweredRechecked.status_ = .OK ∧
    boundLoweredRechecked.resolved_intent_state_ = .kNoIntent ∧
    boundLoweredRechecked.resolved_intent_state_ ≠ .kInvalidPrefix := by
  decide

/-! ## The merge rules -/

/-- C23 (as amended). Merge comparison rule: when both a regular candidate and a Valid
resolved intent are present, `FillEntry` compares the regular candidate's full key, its time
suffix included, against the buffer (resolved intent prefix ++ kHybridTime ++ resolved write
time) and exposes the regular record exactly when that full key is the lexicographically
smaller of the two, the intent otherwise. -/
theorem FillEntry_merge_comparison (env : Env) (s : IntentAwareIterator) (e : KeyValueEntry)
    (hreg : s.regular_entry_ = some e)
    (hvalid : s.resolved_intent_state_ = .kValid)
    (hbuf : s.resolved_intent_sub_doc_key_encoded_ =
      s.resolved_intent_key_prefix_ ++ [env.kHybridTime] ++ s.resolved_intent_txn_dht_) :
    (Slice.compare e.key
        (s.resolved_intent_key_prefix_ ++ [env.kHybridTime] ++ s.resolved_intent_txn_dht_) < 0 →
      FillEntry env s = FillRegularEntry env e s) ∧
    (¬ Slice.compare e.key
        (s.resolved_intent_key_prefix_ ++ [env.kHybridTime] ++ s.resolved_intent_txn_dht_) < 0 →
      FillEntry env s = FillIntentEntry env s) := by
  constructor
  · intro h
    rw [← hbuf] at h
    simp [FillEntry, hreg, hvalid, h]
  · intro h
    rw [← hbuf] at h
    simp [FillEntry, hreg, hvalid, h]

/-- Witness of `FillEntry_merge_comparison` on `mergeStateEncoded`: the full key of `k@10`
is byte-wise larger than the buffer of the intent resolved at 12, and the intent is
exposed. -/
theorem FillEntry_merge_comparison_witness :
    ((Slice.compare ([107] ++ [35] ++ enc 10) ([107] ++ [35] ++ enc 12) < 0 →
      FillEntry miniEnv mergeStateEncoded =
        FillRegularEntry miniEnv { key := [107] ++ [35] ++ enc 10, value := [1] }
          mergeStateEncoded) ∧
    (¬ Slice.compare ([107] ++ [35] ++ enc 10) ([107] ++ [35] ++ enc 12) < 0 →
      FillEntry miniEnv mergeStateEncoded = FillIntentEntry miniEnv mergeStateEncoded)) ∧
    (FillEntry miniEnv mergeStateEncoded).entry_.value = [9] :=
  ⟨FillEntry_merge_comparison miniEnv mergeStateEncoded
    { key := [107] ++ [35] ++ enc 10, value := [1] } (by decide) (by decide) (by decide),
    by decide⟩

/-- C23 (counterexample). In `mergeStateEncoded` the regular candidate is `k@10` and the
buffer of the Valid resolved intent is `k ++ kHybridTime ++ enc 12`. The candidate's key with
its time suffix stripped (with or without the marker byte) is byte-wise smaller than the
buffer, yet `FillEntry` exposes the intent, not the regular record: the comparison is made
on the full key. -/
theorem FillEntry_merge_comparison_counterexample :
    mergeStateEncoded.regular_entry_ = some { key := [107, 35] ++ enc 10, value := [1] } ∧
    mergeStateEncoded.resolved_intent_state_ = .kValid ∧
    mergeStateEncoded.resolved_intent_sub_doc_key_encoded_ = [107] ++ [35] ++ enc 12 ∧
    Slice.compare (Slice.WithoutSuffix ([107, 35] ++ enc 10) 1)
      mergeStateEncoded.resolved_intent_sub_doc_key_encoded_ < 0 ∧
    Slice.compare (Slice.WithoutSuffix ([107, 35] ++ enc 10) 2)
      mergeStateEncoded.resolved_intent_sub_doc_key_encoded_ < 0 ∧
    FillEntry miniEnv mergeStateEncoded = FillIntentEntry miniEnv mergeStateEncoded ∧
    FillEntry miniEnv mergeStateEncoded ≠
      FillRegularEntry miniEnv { key := [107, 35] ++ enc 10, value := [1] }
        mergeStateEncoded ∧
    (FillEntry miniEnv mergeStateEncoded).entry_ =
      { valid := true, key := [107], value := [9], write_time := enc 12,
        same_transaction := false } := by
  decide

/-- C24. Merge presence rule: after `FillEntry` the fetched entry is valid exactly when a
regular candidate is present or the resolved-intent state is Valid (`HasCurrentEntry`); with
only a regular candidate the entry is that record, cut from its key, with `same_transaction`
false (and when the time suffix of its key does not decode the iterator fails); with only a
Valid intent the entry is the intent (key = resolved prefix, value = resolved value); with
neither, `valid` is false. -/
theorem FillEntry_presence (env : Env) (s : IntentAwareIterator) :
    (FillEntry env s).entry_.valid = HasCurrentEntry s ∧
    (∀ e, s.regular_entry_ = some e → s.resolved_intent_state_ ≠ .kValid →
      (∀ wt, EncodedFromEnd env e.key = .ok wt →
        (FillEntry env s).entry_ =
          { valid := true, key := Slice.WithoutSuffix e.key (wt.length + 1), value := e.value,
            write_time := wt, same_transaction := false } ∧
        (FillEntry env s).status_ = s.status_) ∧
      (∀ code, EncodedFromEnd env e.key = .error code →
        (FillEntry env s).status_ = .Error code)) ∧
    (s.regular_entry_ = none → s.resolved_intent_state_ = .kValid →
      (FillEntry env s).entry_ =
        { valid := true, key := s.resolved_intent_key_prefix_,
          value := s.resolved_intent_value_,
          write_time := (GetIntentDocHybridTime env s).1,
          same_transaction := (GetIntentDocHybridTime env s).2 } ∧
      (FillEntry env s).status_ = s.status_) ∧
    (s.regular_entry_ = none → s.resolved_intent_state_ ≠ .kValid →
      (FillEntry env s).entry_ = { s.entry_ with valid := false } ∧
      (FillEntry env s).status_ = s.status_) := by
  refine ⟨?_, ?_, ?_, ?_⟩
  · unfold FillEntry HasCurrentEntry
    cases hre : s.regular_entry_ with
    | none =>
      by_cases hv : s.resolved_intent_state_ = .kValid
      · simp [hv, FillIntentEntry]
      · simp [hv]
    | some e =>
      simp only [Option.isSome_some, Bool.true_or]
      split
      · unfold FillRegularEntry
        simp only
        split <;> rfl
      · rfl
  · intro e hre hv
    constructor
    · intro wt hwt
      simp [FillEntry, hre, hv, FillRegularEntry, hwt]
    · intro code hcode
      simp [FillEntry, hre, hv, FillRegularEntry, hcode]
  · intro hre hv
    simp [FillEntry, hre, hv, FillIntentEntry]
  · intro hre hv
    simp [FillEntry, hre, hv]

/-- Witness of `FillEntry_presence`: in `twoVersionsSought` only a regular candidate is
present and the entry is that record. -/
theorem FillEntry_presence_witness :
    (FillEntry miniEnv twoVersionsSought).entry_ =
      { valid := true, key := [107], value := [2], write_time := enc 10,
        same_transaction := false } ∧
    (FillEntry miniEnv twoVersionsSought).status_ = twoVersionsSought.status_ :=
  ((FillEntry_presence miniEnv twoVersionsSought).2.1
    { key := [107, 35] ++ enc 10, value := [2] } (by decide) (by decide)).1 (enc 10) (by decide)

/-! ## Soundness of the seek ahead -/

theorem ScanResult.same_symm {a b : ScanResult} (h : a.same b) : b.same a := by
  rcases h with h | ⟨h1, h2⟩
  · exact Or.inl h.symm
  · exact Or.inr ⟨h2, h1⟩

/-- A record between the record examined and the target `(key prefix, global_limit)` of the
seek has, in a store of well-formed keys, a commit time later than `global_limit`. -/
theorem jumped_record_later (env : Env) (rt : EncodedReadHybridTime)
    (data : List KeyValueEntry) (hwf : WellFormedKeys env data = true)
    (entry : KeyValueEntry) (hmem : entry ∈ data) (n : Nat)
    (hn : env.GetEncodedSize entry.key = .ok n)
    (x : KeyValueEntry) (hx : x ∈ data)
    (h1 : Slice.compare entry.key x.key ≤ 0)
    (h2 : Slice.compare x.key (Slice.WithoutSuffix entry.key n ++ rt.global_limit) < 0) :
    ∃ m, env.GetEncodedSize x.key = .ok m ∧
      Slice.compare (Slice.Suffix x.key m) rt.global_limit < 0 := by
  have hp : keyBeforeTime env entry.key = some (Slice.WithoutSuffix entry.key n) := by
    simp [keyBeforeTime, hn]
  have hkey : entry.key = Slice.WithoutSuffix entry.key n ++ Slice.Suffix entry.key n := by
    simp [Slice.WithoutSuffix, Slice.Suffix]
  have h1' : Slice.compare
      (Slice.WithoutSuffix entry.key n ++ Slice.Suffix entry.key n) x.key ≤ 0 := by
    rw [← hkey]; exact h1
  obtain ⟨y, hy⟩ := Slice.between_append (Slice.WithoutSuffix entry.key n)
    (Slice.Suffix entry.key n) rt.global_limit x.key h1' (Int.le_of_lt h2)
  have hstart : Slice.starts_with x.key (Slice.WithoutSuffix entry.key n) = true := by
    rw [hy]; exact starts_with_append _ _
  have hxp := WellFormedKeys_shared env data hwf entry x hmem hx _ hp hstart
  obtain ⟨m, hm, _, hxsplit⟩ := keyBeforeTime_eq env x.key _ hxp
  have hsuf : Slice.Suffix x.key m = y := by
    have : Slice.WithoutSuffix entry.key n ++ Slice.Suffix x.key m =
        Slice.WithoutSuffix entry.key n ++ y := by
      rw [← hxsplit, hy]
    exact List.append_cancel_left this
  refine ⟨m, hm, ?_⟩
  rw [hsuf]
  rw [hy, Slice.compare_append_left] at h2
  exact h2

/-- C21. Skip-optimization transparency under ordered limits: for every byte-sorted regular
store of well-formed keys, every start position, every upper bound and every snapshot with
`read ≤ global_limit` and `local_limit ≤ global_limit`, forward `SkipFutureRecords` with
seek-ahead threshold 3 returns and ends with the same regular candidate (and the same status)
as forward skipping that only steps; and every record between a record and the target
`(key prefix, global_limit)` of the seek issued from it has a commit time later than
`global_limit` and is skipped by the visibility test. -/
theorem SkipFutureRecords_seek_ahead_sound (env : Env) (s : IntentAwareIterator)
    (data : List KeyValueEntry) (p budget : Nat)
    (hiter : s.iter_ = { data := data, pos := some p, upper := none, status := .OK })
    (hsorted : SortedKeys data) (hwf : WellFormedKeys env data = true)
    (hord : OrderedLimits s.encoded_read_time_)
    (hthr : env.max_next_calls_while_skipping_future_records = 3)
    (hbudget : 2 * data.length + 2 ≤ budget) :
    (∃ s1 s2, SkipFutureRecords env .kForward budget s = some s1 ∧
      SkipFutureRecordsStepOnly env budget s = some s2 ∧
      s1.regular_entry_ = s2.regular_entry_ ∧ s1.status_ = s2.status_) ∧
    (∀ (i j n : Nat) (entry x : KeyValueEntry),
      data.get? i = some entry → env.GetEncodedSize entry.key = .ok n →
      i ≤ j →
      j < lowerBound (Slice.WithoutSuffix entry.key n ++ s.encoded_read_time_.global_limit)
        data →
      data.get? j = some x →
      ∃ m, env.GetEncodedSize x.key = .ok m ∧
        timeLT s.encoded_read_time_.global_limit (Slice.Suffix x.key m) = true ∧
        SkipFutureRecordsCheck env s.encoded_read_time_ x = .skip m) := by
  constructor
  · obtain ⟨out, hout, hsame⟩ := SkipFutureRecordsLoop_scan env s.encoded_read_time_
      s.upperbound_ data .OK hsorted hwf hord (by omega) budget p 0 (by
        have : (if 0 + 1 ≥ env.max_next_calls_while_skipping_future_records then 1 else 0)
            ≤ 1 := by split <;> omega
        omega)
    obtain ⟨out', hout', hres', hst'⟩ := SkipFutureRecordsStepOnlyLoop_scan env
      s.encoded_read_time_ s.upperbound_ data .OK budget p (by omega)
    have hst : out.cursor.status = .OK := by
      have := (SkipFutureRecordsLoop_cursor env _ _ _ _ _ _ _ hout).1
      simp only [cursorStatic, Prod.mk.injEq] at this
      exact this.2
    have hs : out.result.same out'.result := by rw [hres']; exact hsame
    have heq := applySkipOutcome_same s out out' hs hst hst'
    refine ⟨applySkipOutcome s out, applySkipOutcome s out', ?_, ?_, ?_, ?_⟩
    · rw [SkipFutureRecords_eq, hiter, hout]; rfl
    · unfold SkipFutureRecordsStepOnly
      rw [hiter, hout']; rfl
    · rw [heq]
    · rw [heq]
  · intro i j n entry x hi hn hij hj hx
    obtain ⟨_, _, _, hmem⟩ := get?_split data i entry hi
    obtain ⟨_, _, hjlen, hxmem⟩ := get?_split data j x hx
    have h1 : Slice.compare entry.key x.key ≤ 0 := by
      rcases Nat.lt_or_ge i j with hlt | hge
      · exact pairwise_get? _ data i j entry x hsorted hlt hi hx
      · have hij' : i = j := by omega
        subst hij'
        rw [hi] at hx
        simp only [Option.some.injEq] at hx
        subst hx
        rw [Slice.compare_self]
    have h2 : Slice.compare x.key
        (Slice.WithoutSuffix entry.key n ++ s.encoded_read_time_.global_limit) < 0 := by
      apply lowerBound_take _ data x
      have hget : (data.take (lowerBound (Slice.WithoutSuffix entry.key n ++
          s.encoded_read_time_.global_limit) data)).get? j = some x := by
        rw [List.get?_eq_getElem?, List.getElem?_take_of_lt hj, ← List.get?_eq_getElem?]; exact hx
      exact (get?_split _ j x hget).2.2.2
    obtain ⟨m, hm, hlate⟩ := jumped_record_later env s.encoded_read_time_ data hwf entry hmem n
      hn x hxmem h1 h2
    refine ⟨m, hm, ?_, SkipFutureRecordsCheck_later env _ hord x m hm hlate⟩
    have := Slice.compare_antisymm (Slice.Suffix x.key m) s.encoded_read_time_.global_limit
    simp only [timeLT, decide_eq_true_eq]
    omega

/-- Witness of `SkipFutureRecords_seek_ahead_sound` on `buriedState`: key `k` with four
versions newer than `global_limit` ahead of the visible one; the record at time 45, between
the first record and the target of the seek, is later than `global_limit` and skipped. -/
theorem SkipFutureRecords_seek_ahead_sound_witness :
    (∃ s1 s2, SkipFutureRecords miniEnv .kForward 12 buriedState = some s1 ∧
      SkipFutureRecordsStepOnly miniEnv 12 buriedState = some s2 ∧
      s1.regular_entry_ = s2.regular_entry_ ∧ s1.status_ = s2.status_) ∧
    (∃ m, miniEnv.GetEncodedSize ([107, 35] ++ enc 45) = .ok m ∧
      timeLT buriedState.encoded_read_time_.global_limit
        (Slice.Suffix ([107, 35] ++ enc 45) m) = true ∧
      SkipFutureRecordsCheck miniEnv buriedState.encoded_read_time_
        { key := [107, 35] ++ enc 45, value := [4] } = .skip m) :=
  have h := SkipFutureRecords_seek_ahead_sound miniEnv buriedState
    [{ key := [107, 35] ++ enc 50, value := [5] }, { key := [107, 35] ++ enc 45, value := [4] },
     { key := [107, 35] ++ enc 40, value := [3] }, { key := [107, 35] ++ enc 35, value := [2] },
     { key := [107, 35] ++ enc 10, value := [1] }] 0 12
    (by decide) (by unfold SortedKeys; decide) (by decide) (by unfold OrderedLimits; decide)
    (by decide) (by decide)
  ⟨h.1, h.2 0 1 1 { key := [107, 35] ++ enc 50, value := [5] }
    { key := [107, 35] ++ enc 45, value := [4] } (by decide) (by decide) (by decide)
    (by decide) (by decide)⟩

/-! ## The seek-ahead threshold -/

theorem scanRecords_withThreshold (env : Env) (n : Nat) (rt : EncodedReadHybridTime)
    (ub : Slice) :
    ∀ l : List KeyValueEntry,
      scanRecords (withThreshold env n) rt ub l = scanRecords env rt ub l := by
  intro l
  induction l with
  | nil => rfl
  | cons x xs ih =>
    have hc : SkipFutureRecordsCheck (withThreshold env n) rt x =
        SkipFutureRecordsCheck env rt x := rfl
    simp only [scanRecords, hc, ih]

/-- With the threshold at 1 (or 0) the loop of forward `SkipFutureRecords` never ends on a
record that is skipped and is not later than `global_limit`: the counter is reset and the
same record is examined again. -/
theorem SkipFutureRecordsLoop_spins (env : Env) (rt : EncodedReadHybridTime) (ub : Slice)
    (c : Cursor) (entry : KeyValueEntry) (m : Nat)
    (hthr : env.max_next_calls_while_skipping_future_records ≤ 1)
    (hentry : c.Entry = some entry) (hb : SatisfyBounds ub entry.key = true)
    (hskip : SkipFutureRecordsCheck env rt entry = .skip m)
    (hnot : ¬ Slice.compare rt.global_limit (Slice.Suffix entry.key m) > 0) :
    ∀ budget cnt, SkipFutureRecordsLoop env rt ub .kForward budget c cnt = none := by
  intro budget
  induction budget with
  | zero => intro cnt; rfl
  | succ k ih =>
    intro cnt
    have hc : cnt + 1 ≥ env.max_next_calls_while_skipping_future_records := by omega
    unfold SkipFutureRecordsLoop
    simp only [hentry, hb, hskip, Bool.not_true, Bool.false_eq_true, if_false, hc, and_self,
      if_true, hnot]
    exact ih 0

/-- From 2 on the threshold does not matter: for every byte-sorted regular store of
well-formed keys, every start position, every snapshot with `read ≤ global_limit` and
`local_limit ≤ global_limit` and every value `n ≥ 2` of
`max_next_calls_while_skipping_future_records`, forward `SkipFutureRecords` returns within
`2 * (number of records) + 2` iterations of its loop, with the same candidate and the same
status as with the default `n = 3`. -/
theorem SkipFutureRecords_threshold_from_two (env : Env) (s : IntentAwareIterator)
    (data : List KeyValueEntry) (p budget n : Nat)
    (hiter : s.iter_ = { data := data, pos := some p, upper := none, status := .OK })
    (hsorted : SortedKeys data) (hwf : WellFormedKeys env data = true)
    (hord : OrderedLimits s.encoded_read_time_)
    (hn : 2 ≤ n) (hbudget : 2 * data.length + 2 ≤ budget) :
    ∃ s1 s2, SkipFutureRecords (withThreshold env n) .kForward budget s = some s1 ∧
      SkipFutureRecords (withThreshold env 3) .kForward budget s = some s2 ∧
      s1.regular_entry_ = s2.regular_entry_ ∧ s1.status_ = s2.status_ := by
  have hwfn : ∀ k, WellFormedKeys (withThreshold env k) data = true := fun _ => hwf
  have hone : ∀ k : Nat, (if 0 + 1 ≥ k then 1 else 0) ≤ 1 := by
    intro k; split <;> omega
  obtain ⟨out, hout, hsame⟩ := SkipFutureRecordsLoop_scan (withThreshold env n)
    s.encoded_read_time_ s.upperbound_ data .OK hsorted (hwfn n) hord hn budget p 0 (by
      have := hone (withThreshold env n).max_next_calls_while_skipping_future_records
      omega)
  obtain ⟨out', hout', hsame'⟩ := SkipFutureRecordsLoop_scan (withThreshold env 3)
    s.encoded_read_time_ s.upperbound_ data .OK hsorted (hwfn 3) hord (Nat.le_succ 2) budget p 0 (by
      have := hone (withThreshold env 3).max_next_calls_while_skipping_future_records
      omega)
  rw [scanRecords_withThreshold] at hsame hsame'
  have hst : out.cursor.status = .OK := by
    have := (SkipFutureRecordsLoop_cursor _ _ _ _ _ _ _ _ hout).1
    simp only [cursorStatic, Prod.mk.injEq] at this
    exact this.2
  have hst' : out'.cursor.status = .OK := by
    have := (SkipFutureRecordsLoop_cursor _ _ _ _ _ _ _ _ hout').1
    simp only [cursorStatic, Prod.mk.injEq] at this
    exact this.2
  have hs : out.result.same out'.result :=
    ScanResult.same_trans hsame (ScanResult.same_symm hsame')
  have heq := applySkipOutcome_same s out out' hs hst hst'
  refine ⟨applySkipOutcome s out, applySkipOutcome s out', ?_, ?_, ?_, ?_⟩
  · rw [SkipFutureRecords_eq, hiter, hout]; rfl
  · rw [SkipFutureRecords_eq, hiter, hout']; rfl
  · rw [heq]
  · rw [heq]

/-- C22 (the code as written). With `max_next_calls_while_skipping_future_records` at 1 (or
0) forward `SkipFutureRecords` does not terminate when the regular cursor rests on a record
within the scan upper bound that the visibility test skips and that is not later than
`global_limit`: the test `++next_counter >= 1` holds, no seek is made, the counter is reset
and the loop examines the same record again, so the model returns for no number of
iterations. -/
theorem SkipFutureRecords_threshold_one_never_returns (env : Env) (s : IntentAwareIterator)
    (entry : KeyValueEntry) (m : Nat)
    (hthr : env.max_next_calls_while_skipping_future_records ≤ 1)
    (hentry : s.iter_.Entry = some entry)
    (hb : SatisfyBounds s.upperbound_ entry.key = true)
    (hskip : SkipFutureRecordsCheck env s.encoded_read_time_ entry = .skip m)
    (hnot : ¬ Slice.compare s.encoded_read_time_.global_limit (Slice.Suffix entry.key m) > 0) :
    ∀ budget, SkipFutureRecords env .kForward budget s = none := by
  intro budget
  have h := SkipFutureRecordsLoop_spins env s.encoded_read_time_ s.upperbound_ s.iter_ entry m
    hthr hentry hb hskip hnot budget 0
  unfold SkipFutureRecords
  rw [h]

/-- Witness of `SkipFutureRecords_threshold_one_never_returns` on `slowRecordState`: a
byte-sorted store of well-formed keys read under ordered limits, the cursor on the plain
record `k@15`, which is skipped (`read = local_limit = 10`) and is not later than
`global_limit` (20). With the threshold at 1 `SkipFutureRecords` never returns; with the
default threshold 3 it returns the candidate `k@5`. -/
theorem SkipFutureRecords_threshold_one_never_returns_witness :
    (SortedKeys slowRecordState.iter_.data ∧
      WellFormedKeys miniEnv slowRecordState.iter_.data = true ∧
      OrderedLimits slowRecordState.encoded_read_time_ ∧
      (SkipFutureRecords (withThreshold miniEnv 3) .kForward 4 slowRecordState).map
        (fun r => r.regular_entry_) = some (some { key := [107, 35] ++ enc 5, value := [1] })) ∧
    ∀ budget, SkipFutureRecords (withThreshold miniEnv 1) .kForward budget slowRecordState
      = none :=
  ⟨⟨by unfold SortedKeys; decide, by decide, by unfold OrderedLimits; decide, by decide⟩,
    SkipFutureRecords_threshold_one_never_returns (withThreshold miniEnv 1) slowRecordState
      { key := [107, 35] ++ enc 15, value := [2] } 1 (by decide) (by decide) (by decide)
      (by decide) (by decide)⟩

/-! ## Same-transaction pinning -/

/-- C25 (as amended). Same-transaction pinning excludes foreign intents that are not later
than the read time: in every resolver state in which a same-transaction intent has been
accepted for the current prefix (`intent_dht_from_same_txn_` is not the minimum and
`resolved_intent_txn_dht_` is pinned to `read`), `ProcessIntent` applied to an intent of
another transaction whose `value_time` is not later than `read` returns the state it was
given, so the resolved value and both resolved times are unchanged and the entry exposed for
the prefix carries the same-transaction intent's value and time. -/
theorem ProcessIntent_pinning_excludes_foreign (env : Env) (entry : KeyValueEntry)
    (decoded : DecodeStrongWriteIntentResult) (s : IntentAwareIterator)
    (hdec : env.DecodeStrongWriteIntent entry = .ok decoded)
    (hforeign : decoded.same_transaction = false)
    (hsame : s.intent_dht_from_same_txn_ ≠ env.kMin)
    (hpin : s.resolved_intent_txn_dht_ = s.encoded_read_time_.read)
    (hold : timeLE decoded.value_time s.encoded_read_time_.read = true) :
    ProcessIntent env entry s = s ∧
    (FillIntentEntry env (ProcessIntent env entry s)).entry_ =
      { valid := true, key := s.resolved_intent_key_prefix_,
        value := s.resolved_intent_value_, write_time := s.intent_dht_from_same_txn_,
        same_transaction := true } := by
  have h : ProcessIntent env entry s = s := by
    simp [ProcessIntent, hdec, hforeign, hpin, hold]
  rw [h]
  exact ⟨rfl, by simp [FillIntentEntry, GetIntentDocHybridTime, hsame]⟩

/-- Witness of `ProcessIntent_pinning_excludes_foreign`: after the reader's own intent on `k`
was accepted, the intent of another transaction committed at 12, before the read time 15,
changes nothing. -/
theorem ProcessIntent_pinning_excludes_foreign_witness :
    ProcessIntent miniEnv committedIntentEntry pinnedState = pinnedState ∧
    (FillIntentEntry miniEnv (ProcessIntent miniEnv committedIntentEntry pinnedState)).entry_ =
      { valid := true, key := pinnedState.resolved_intent_key_prefix_,
        value := pinnedState.resolved_intent_value_,
        write_time := pinnedState.intent_dht_from_same_txn_,
        same_transaction := true } :=
  ProcessIntent_pinning_excludes_foreign miniEnv committedIntentEntry
    { intent_prefix_ := [107], intent_value := [9], intent_time := enc 12,
      value_time := enc 12, same_transaction := false }
    pinnedState (by decide) (by decide) (by decide) (by decide) (by decide)

/-- C25 (counterexample). In `pinnedState` the reader's own intent on `k` (value 9, written
at 25) has been accepted: `intent_dht_from_same_txn_` is not the minimum and
`resolved_intent_txn_dht_` is pinned to `read` (15). `ProcessIntent` applied to the intent on
`k` of another transaction committed at 20 (later than `read`, within `global_limit` 30)
replaces the resolved value by 7 and `resolved_intent_txn_dht_` by 20, and the entry exposed
for `k` carries the value 7 with the time 25 and `same_transaction` set; `Seek(k)` over the
two intents fetches that entry. -/
theorem ProcessIntent_pinning_excludes_foreign_counterexample :
    pinnedState.intent_dht_from_same_txn_ = enc 25 ∧
    pinnedState.intent_dht_from_same_txn_ ≠ miniEnv.kMin ∧
    pinnedState.resolved_intent_txn_dht_ = pinnedState.encoded_read_time_.read ∧
    pinnedState.resolved_intent_key_prefix_ = [107] ∧
    pinnedState.resolved_intent_value_ = [9] ∧
    miniEnv.DecodeStrongWriteIntent foreignLaterEntry =
      .ok { intent_prefix_ := [107], intent_value := [7], intent_time := enc 18,
            value_time := enc 20, same_transaction := false } ∧
    (ProcessIntent miniEnv foreignLaterEntry pinnedState).resolved_intent_value_ = [7] ∧
    (ProcessIntent miniEnv foreignLaterEntry pinnedState).resolved_intent_txn_dht_ = enc 20 ∧
    (ProcessIntent miniEnv foreignLaterEntry pinnedState).intent_dht_from_same_txn_ = enc 25 ∧
    (FillIntentEntry miniEnv (ProcessIntent miniEnv foreignLaterEntry pinnedState)).entry_ =
      { valid := true, key := [107], value := [7], write_time := enc 25,
        same_transaction := true } ∧
    (Seek miniEnv 20 [107] false ownThenForeignState).map Fetch =
      some (.ok { valid := true, key := [107], value := [7], write_time := enc 25,
                  same_transaction := true }) := by
  decide

/-! ## The intent upper bound -/

theorem ProcessIntent_intent_cursor (env : Env) (entry : KeyValueEntry)
    (t : IntentAwareIterator) :
    (ProcessIntent env entry t).intent_iter_ = t.intent_iter_ ∧
    (ProcessIntent env entry t).intent_upperbound_buffer_ = t.intent_upperbound_buffer_ := by
  unfold ProcessIntent
  cases hdec : env.DecodeStrongWriteIntent entry with
  | error code => exact ⟨rfl, rfl⟩
  | ok decoded =>
    simp only
    by_cases hstale : timeLE decoded.value_time
        (if decoded.same_transaction = true then t.intent_dht_from_same_txn_
         else t.resolved_intent_txn_dht_) = true
    · rw [if_pos hstale]; exact ⟨rfl, rfl⟩
    · rw [if_neg hstale]
      by_cases hmax :
          timeLT (env.MaxAllowedValueTime decoded t.encoded_read_time_) decoded.value_time = true
      · rw [if_pos hmax]; exact ⟨rfl, rfl⟩
      · rw [if_neg hmax]; exact ⟨rfl, rfl⟩

theorem SeekToSuitableIntentFinish_intent_cursor (env : Env) (t : IntentAwareIterator) :
    (SeekToSuitableIntentFinish env t).intent_iter_ = t.intent_iter_ ∧
    (SeekToSuitableIntentFinish env t).intent_upperbound_buffer_ =
      t.intent_upperbound_buffer_ := by
  unfold SeekToSuitableIntentFinish HandleStatus UpdateResolvedIntentSubDocKeyEncoded
  simp only
  split <;> split <;> exact ⟨rfl, rfl⟩

/-- The four ways an iteration of the loop of `SeekToSuitableIntent` goes: the jump over the
transaction region, the end of the scan at a key of another prefix or beyond the scan bound,
a failure of `ProcessIntent`, and the step to the neighbouring entry after `ProcessIntent`. -/
theorem SeekToSuitableIntentStep_cases (env : Env) (direction : Direction)
    (entry : KeyValueEntry) (t : IntentAwareIterator) :
    (entry.key.head? = some env.kTransactionId ∧
      SeekToSuitableIntentStep env direction entry t =
        .inr (SkipTransactionRegion env direction t)) ∨
    (entry.key.head? ≠ some env.kTransactionId ∧
      ((t.resolved_intent_state_ ≠ .kNoIntent ∧
          IsIntentForTheSameKey env entry.key t.resolved_intent_key_prefix_ = false) ∨
        SatisfyBounds t.upperbound_ entry.key = false) ∧
      SeekToSuitableIntentStep env direction entry t =
        .inl (SeekToSuitableIntentFinish env t)) ∨
    (entry.key.head? ≠ some env.kTransactionId ∧
      (t.resolved_intent_state_ = .kNoIntent ∨
        IsIntentForTheSameKey env entry.key t.resolved_intent_key_prefix_ = true) ∧
      SatisfyBounds t.upperbound_ entry.key = true ∧
      (ProcessIntent env entry t).status_.ok = false ∧
      SeekToSuitableIntentStep env direction entry t = .inl (ProcessIntent env entry t)) ∨
    (entry.key.head? ≠ some env.kTransactionId ∧
      (t.resolved_intent_state_ = .kNoIntent ∨
        IsIntentForTheSameKey env entry.key t.resolved_intent_key_prefix_ = true) ∧
      SatisfyBounds t.upperbound_ entry.key = true ∧
      (ProcessIntent env entry t).status_.ok = true ∧
      SeekToSuitableIntentStep env direction entry t =
        .inr (onIntentIter (MoveIterator direction) (ProcessIntent env entry t))) := by
  unfold SeekToSuitableIntentStep
  by_cases htxn : entry.key.head? = some env.kTransactionId
  · left
    exact ⟨htxn, by rw [if_pos htxn]⟩
  · right
    rw [if_neg htxn]
    by_cases hkey : t.resolved_intent_state_ ≠ .kNoIntent ∧
        (!IsIntentForTheSameKey env entry.key t.resolved_intent_key_prefix_) = true
    · left
      rw [if_pos hkey]
      exact ⟨htxn, Or.inl ⟨hkey.1, by simpa using hkey.2⟩, rfl⟩
    · rw [if_neg hkey]
      have hk : t.resolved_intent_state_ = .kNoIntent ∨
          IsIntentForTheSameKey env entry.key t.resolved_intent_key_prefix_ = true := by
        by_cases h1 : t.resolved_intent_state_ = .kNoIntent
        · exact Or.inl h1
        · right
          cases h2 : IsIntentForTheSameKey env entry.key t.resolved_intent_key_prefix_ with
          | true => rfl
          | false => exact absurd ⟨h1, by simp [h2]⟩ hkey
      by_cases hb : (!SatisfyBounds t.upperbound_ entry.key) = true
      · left
        rw [if_pos hb]
        exact ⟨htxn, Or.inr (by simpa using hb), rfl⟩
      · right
        rw [if_neg hb]
        have hb' : SatisfyBounds t.upperbound_ entry.key = true := by simpa using hb
        by_cases hst : (!(ProcessIntent env entry t).status_.ok) = true
        · left
          simp only [hst, if_true]
          exact ⟨htxn, hk, hb', by simpa using hst, trivial⟩
        · right
          have hst' : (ProcessIntent env entry t).status_.ok = true := by simpa using hst
          simp only [hst', Bool.not_true, Bool.false_eq_true, if_false]
          exact ⟨htxn, hk, hb', trivial, trivial⟩

theorem map_upper_of_preserving (x : Option Cursor) (g : Cursor → Cursor)
    (hg : ∀ c, (g c).upper = c.upper) :
    (x.map g).map (fun it => it.upper) = x.map (fun it => it.upper) := by
  cases x with
  | none => rfl
  | some c => simp [hg c]

/-- The forward loop of `SeekToSuitableIntent` leaves the intent upper bound alone. -/
theorem SeekToSuitableIntentLoop_forward_bound (env : Env) :
    ∀ (budget : Nat) (t r : IntentAwareIterator),
      SeekToSuitableIntentLoop env .kForward budget t = some r →
      r.intent_upperbound_buffer_ = t.intent_upperbound_buffer_ ∧
      r.intent_iter_.map (fun it => it.upper) = t.intent_iter_.map (fun it => it.upper) := by
  intro budget
  induction budget with
  | zero => intro t r h; simp [SeekToSuitableIntentLoop] at h
  | succ n ih =>
    intro t r h
    unfold SeekToSuitableIntentLoop at h
    have hfin := SeekToSuitableIntentFinish_intent_cursor env t
    cases he : intentEntry t with
    | none =>
      rw [he] at h
      simp only [Option.some.injEq] at h
      subst h
      rw [hfin.1, hfin.2]
      exact ⟨rfl, rfl⟩
    | some entry =>
      rw [he] at h
      simp only at h
      have hpi := ProcessIntent_intent_cursor env entry t
      rcases SeekToSuitableIntentStep_cases env .kForward entry t with
        ⟨_, hs⟩ | ⟨_, _, hs⟩ | ⟨_, _, _, _, hs⟩ | ⟨_, _, _, _, hs⟩
      · rw [hs] at h
        have := ih _ _ h
        rw [this.1, this.2]
        exact ⟨rfl, map_upper_of_preserving _ _ (fun c => rfl)⟩
      · rw [hs] at h
        simp only [Option.some.injEq] at h
        subst h
        rw [hfin.1, hfin.2]
        exact ⟨rfl, rfl⟩
      · rw [hs] at h
        simp only [Option.some.injEq] at h
        subst h
        rw [hpi.1, hpi.2]
        exact ⟨rfl, rfl⟩
      · rw [hs] at h
        have := ih _ _ h
        rw [this.1, this.2]
        refine ⟨hpi.2, ?_⟩
        show ((ProcessIntent env entry t).intent_iter_.map _).map _ = _
        rw [hpi.1]
        exact map_upper_of_preserving _ _ (fun c => rfl)

theorem IntentBoundTracks_FillEntry (env : Env) (t : IntentAwareIterator)
    (h : IntentBoundTracks env t) : IntentBoundTracks env (FillEntry env t) := by
  unfold IntentBoundTracks at h ⊢
  rw [FillEntry_regular_entry, (FillEntry_frame env t).2.1, (IntentSide_FillEntry env t).2.1]
  exact h

/-- After `SetIntentUpperbound` succeeded the intent upper bound is the one computed for the
regular candidate and the scan upper bound, and the intents cursor, when there is one, honours
it. -/
theorem SetIntentUpperbound_tracks (env : Env) (t : IntentAwareIterator)
    (h : (SetIntentUpperbound env t).2 = true) :
    IntentBoundTracks env (SetIntentUpperbound env t).1 ∧
    (t.intent_iter_.isSome = true →
      (SetIntentUpperbound env t).1.intent_iter_.map (fun it => it.upper) =
        some (some (SetIntentUpperbound env t).1.intent_upperbound_buffer_)) := by
  obtain ⟨buf, hbuf, heq, _, _⟩ := SetIntentUpperbound_true env t h
  rw [heq]
  refine ⟨hbuf, ?_⟩
  intro hsome
  cases hi : t.intent_iter_ with
  | none => rw [hi] at hsome; simp at hsome
  | some c => rfl

/-- After `IntentSeekForward` with a non-empty prefix ends in a non-failed state, the intent
upper bound is the one computed for the regular candidate and the scan upper bound. -/
theorem IntentSeekForward_tracks (env : Env) (budget prefix_len : Nat)
    (t r : IntentAwareIterator) (h : IntentSeekForward env budget prefix_len t = some r)
    (hlen : prefix_len ≠ 0) (hrok : r.status_.ok = true) : IntentBoundTracks env r := by
  unfold IntentSeekForward at h
  by_cases hst : t.status_.ok = true
  · simp only [hlen, hst, Bool.not_true, Bool.false_eq_true, or_self, if_false] at h
    by_cases h2 : (SetIntentUpperbound env t).2 = true
    · have htr := (SetIntentUpperbound_tracks env t h2).1
      simp only [h2, Bool.not_true, Bool.false_eq_true, if_false] at h
      split at h
      · simp only [Option.some.injEq] at h
        subst h
        exact htr
      · have hR := RegularSide_SeekToSuitableIntent env _ budget _ _ _ h
        rw [SeekToSuitableIntent_eq] at h
        have hB := (SeekToSuitableIntentLoop_forward_bound env budget _ _ h).1
        unfold IntentBoundTracks at htr ⊢
        rw [hR.2.2.2.1, hR.2.1, hB]
        exact htr
    · have h2' : (SetIntentUpperbound env t).2 = false := by
        cases hb : (SetIntentUpperbound env t).2 with
        | true => exact absurd hb h2
        | false => rfl
      have hbad := SetIntentUpperbound_false env t h2'
      simp only [h2', Bool.not_false, if_true, Option.some.injEq] at h
      subst h
      rw [hbad] at hrok
      simp at hrok
  · simp only [hst, Bool.not_false, or_true, if_true, Option.some.injEq] at h
    subst h
    exact absurd hrok hst

/-- After the tail of `Seek` ends in a non-failed state with an intents cursor, the intent
upper bound is the one computed for the regular candidate and the scan upper bound, and the
intents cursor honours it. -/
theorem SeekTail_tracks (env : Env) (budget : Nat) (k : Slice) (full : Bool)
    (b r : IntentAwareIterator) (h : SeekTail env budget k full b = some r)
    (hinit : b.intent_iter_.isSome = true) (hrok : r.status_.ok = true) :
    IntentBoundTracks env r ∧
    r.intent_iter_.map (fun it => it.upper) = some (some r.intent_upperbound_buffer_) := by
  unfold SeekTail at h
  simp only [hinit, if_true] at h
  by_cases h2 : (SetIntentUpperbound env b).2 = true
  · obtain ⟨htr, hup⟩ := SetIntentUpperbound_tracks env b h2
    have hup := hup hinit
    simp only [h2, Bool.not_true, Bool.false_eq_true, if_false] at h
    have key : ∀ (d s3 : IntentAwareIterator) (key2 : Slice),
        d.regular_entry_ = (SetIntentUpperbound env b).1.regular_entry_ →
        d.upperbound_ = (SetIntentUpperbound env b).1.upperbound_ →
        d.intent_upperbound_buffer_ = (SetIntentUpperbound env b).1.intent_upperbound_buffer_ →
        d.intent_iter_ = (SetIntentUpperbound env b).1.intent_iter_ →
        SeekToSuitableIntent env .kForward budget (onIntentIter (fun it => it.Seek key2) d) =
          some s3 →
        IntentBoundTracks env (FillEntry env s3) ∧
        (FillEntry env s3).intent_iter_.map (fun it => it.upper) =
          some (some (FillEntry env s3).intent_upperbound_buffer_) := by
      intro d s3 key2 hd1 hd2 hd3 hd4 h3
      have hR := RegularSide_SeekToSuitableIntent env _ budget _ _ _ h3
      rw [SeekToSuitableIntent_eq] at h3
      have hB := SeekToSuitableIntentLoop_forward_bound env budget _ _ h3
      have hs3 : IntentBoundTracks env s3 := by
        unfold IntentBoundTracks at htr ⊢
        rw [hR.2.2.2.1, hR.2.1, hB.1]
        show intentUpperboundFor env d.regular_entry_ d.upperbound_ =
          some d.intent_upperbound_buffer_
        rw [hd1, hd2, hd3]
        exact htr
      refine ⟨IntentBoundTracks_FillEntry env s3 hs3, ?_⟩
      rw [(FillEntry_frame env s3).2.2.2, (IntentSide_FillEntry env s3).2.1, hB.2, hB.1]
      show (d.intent_iter_.map _).map _ = some (some d.intent_upperbound_buffer_)
      rw [hd3, hd4, ← hup]
      cases (SetIntentUpperbound env b).1.intent_iter_ with
      | none => rfl
      | some c => rfl
    cases full with
    | false =>
      simp only [Bool.false_eq_true, if_false] at h
      cases h3 : SeekToSuitableIntent env .kForward budget
          (onIntentIter (fun it => it.Seek k) (SetIntentUpperbound env b).1) with
      | none => rw [h3] at h; simp at h
      | some s3 =>
        rw [h3] at h
        simp only [Option.some.injEq] at h
        subst h
        exact key (SetIntentUpperbound env b).1 s3 k rfl rfl rfl rfl h3
    | true =>
      simp only [if_true] at h
      cases h3 : SeekToSuitableIntent env .kForward budget
          (onIntentIter (fun it => it.Seek (k ++ env.StrongWriteSuffix k))
            { (SetIntentUpperbound env b).1 with
              seek_buffer_ := k ++ env.StrongWriteSuffix k }) with
      | none => rw [h3] at h; simp at h
      | some s3 =>
        rw [h3] at h
        simp only [Option.some.injEq] at h
        subst h
        exact key { (SetIntentUpperbound env b).1 with
          seek_buffer_ := k ++ env.StrongWriteSuffix k } s3 _ rfl rfl rfl rfl h3
  · have h2' : (SetIntentUpperbound env b).2 = false := by
      cases hb : (SetIntentUpperbound env b).2 with
      | true => exact absurd hb h2
      | false => rfl
    have hbad := SetIntentUpperbound_false env b h2'
    simp only [h2', Bool.not_false, if_true, Option.some.injEq] at h
    subst h
    rw [hbad] at hrok
    simp at hrok

/-- C29 (as amended). The intent upper bound tracks the regular candidate and the scan bound
after the seeks only. `SetIntentUpperbound`, called in a non-failed state, sets the bound to
(candidate key without kHybridTime marker and time suffix) ++ kMaxByte when a regular
candidate is present (its time suffix decoding and the intents cursor reporting no error),
and otherwise to the scan upper bound, or to the single byte kHighest when the scan upper
bound is empty. After `Seek`, `SeekForward` with a non-empty key, `SeekPastSubKey` and
`SeekOutOfSubDoc` complete in a non-failed state with an initialized intents cursor, the
intent upper bound equals that value for the new candidate and the scan bound. `Next` and
`SetUpperbound` leave the intent upper bound and the intents cursor as they were. -/
theorem intent_upperbound_tracks_after_seeks (env : Env) (budget : Nat) (key ub : Slice)
    (full : Bool) (s r : IntentAwareIterator)
    (hok : s.status_.ok = true) (hinit : s.intent_iter_.isSome = true)
    (hrok : r.status_.ok = true) :
    ((∀ e n, s.regular_entry_ = some e → env.GetEncodedSize e.key = .ok n →
        (intentStatus s).ok = true →
        (SetIntentUpperbound env s).1.intent_upperbound_buffer_ =
          Slice.WithoutSuffix e.key (1 + n) ++ [env.kMaxByte] ∧
        (SetIntentUpperbound env s).1.intent_iter_.map (fun it => it.upper) =
          some (some (Slice.WithoutSuffix e.key (1 + n) ++ [env.kMaxByte]))) ∧
      (s.regular_entry_ = none →
        (SetIntentUpperbound env s).1.intent_upperbound_buffer_ =
          (if s.upperbound_.isEmpty then [env.kHighest] else s.upperbound_) ∧
        (SetIntentUpperbound env s).1.intent_iter_.map (fun it => it.upper) =
          some (some (if s.upperbound_.isEmpty then [env.kHighest] else s.upperbound_)))) ∧
    (Seek env budget key full s = some r →
      IntentBoundTracks env r ∧
      r.intent_iter_.map (fun it => it.upper) = some (some r.intent_upperbound_buffer_)) ∧
    (key ≠ [] → SeekForward env budget key s = some r → IntentBoundTracks env r) ∧
    (SeekPastSubKey env budget key s = some r → IntentBoundTracks env r) ∧
    (SeekOutOfSubDoc env budget key s = some r → IntentBoundTracks env r) ∧
    (Next env budget s = some r →
      r.intent_upperbound_buffer_ = s.intent_upperbound_buffer_ ∧
      r.intent_iter_ = s.intent_iter_) ∧
    ((SetUpperbound ub s).1.intent_upperbound_buffer_ = s.intent_upperbound_buffer_ ∧
      (SetUpperbound ub s).1.intent_iter_ = s.intent_iter_ ∧
      (SetUpperbound ub s).1.upperbound_ = ub) := by
  have hsome : ∃ c, s.intent_iter_ = some c := by
    cases hi : s.intent_iter_ with
    | none => rw [hi] at hinit; simp at hinit
    | some c => exact ⟨c, rfl⟩
  obtain ⟨c, hc⟩ := hsome
  refine ⟨⟨?_, ?_⟩, ?_, ?_, ?_, ?_, ?_, ⟨rfl, rfl, rfl⟩⟩
  · intro e n hre hn hist
    have hfor : intentUpperboundFor env s.regular_entry_ s.upperbound_ =
        some (Slice.WithoutSuffix e.key (1 + n) ++ [env.kMaxByte]) := by
      simp [intentUpperboundFor, hre, hn]
    rw [SetIntentUpperbound_of env s _ hfor hok (fun _ => hist), hc]
    exact ⟨rfl, rfl⟩
  · intro hre
    have hfor : intentUpperboundFor env s.regular_entry_ s.upperbound_ =
        some (if s.upperbound_.isEmpty then [env.kHighest] else s.upperbound_) := by
      simp [intentUpperboundFor, hre]
    rw [SetIntentUpperbound_of env s _ hfor hok (fun h => absurd hre h), hc]
    exact ⟨rfl, rfl⟩
  · intro h
    rw [Seek_eq] at h
    simp only [hok, Bool.not_true, Bool.false_eq_true, if_false] at h
    cases hloop : SkipFutureRecordsLoop env s.encoded_read_time_ s.upperbound_ .kForward budget
        (s.iter_.Seek key) 0 with
    | none => rw [hloop] at h; simp at h
    | some out =>
      rw [hloop] at h
      simp only [Option.map_some', Option.some_bind] at h
      refine SeekTail_tracks env budget key full _ r h ?_ hrok
      rw [(IntentSide_applySkipOutcome _ out).1.1]
      exact hinit
  · intro hkey h
    unfold SeekForward at h
    simp only [hok, Bool.not_true, Bool.false_eq_true, if_false, hinit, if_true] at h
    cases h1 : SeekForwardRegular env budget key
        (IntentPrepareSeek key (env.StrongWriteSuffix key) s).1 with
    | none => rw [h1] at h; simp at h
    | some s1 =>
      rw [h1] at h
      simp only at h
      cases h2 : IntentSeekForward env budget
          (IntentPrepareSeek key (env.StrongWriteSuffix key) s).2 s1 with
      | none => rw [h2] at h; simp at h
      | some s2 =>
        rw [h2] at h
        simp only [Option.some.injEq] at h
        subst h
        refine IntentBoundTracks_FillEntry env s2
          (IntentSeekForward_tracks env budget _ s1 s2 h2 ?_ (FillEntry_status_mono env s2 hrok))
        simp only [IntentPrepareSeek]
        intro h0
        exact hkey (List.length_eq_zero.1 h0)
  · intro h
    unfold SeekPastSubKey at h
    simp only [hok, Bool.not_true, Bool.false_eq_true, if_false, hinit, if_true] at h
    cases h1 : SkipFutureRecords env .kForward budget
        { (IntentPrepareSeekChar key env.kGreaterThanIntentType s).1 with
          iter_ := env.SeekPastSubKey key
            (IntentPrepareSeekChar key env.kGreaterThanIntentType s).1.iter_ } with
    | none => rw [h1] at h; simp at h
    | some s1 =>
      rw [h1] at h
      simp only at h
      cases h2 : IntentSeekForward env budget
          (IntentPrepareSeekChar key env.kGreaterThanIntentType s).2 s1 with
      | none => rw [h2] at h; simp at h
      | some s2 =>
        rw [h2] at h
        simp only [Option.some.injEq] at h
        subst h
        refine IntentBoundTracks_FillEntry env s2
          (IntentSeekForward_tracks env budget _ s1 s2 h2 ?_ (FillEntry_status_mono env s2 hrok))
        simp [IntentPrepareSeekChar]
  · intro h
    unfold SeekOutOfSubDoc at h
    simp only [hok, Bool.not_true, Bool.false_eq_true, if_false, hinit, if_true] at h
    cases h1 : SkipFutureRecords env .kForward budget
        { (IntentPrepareSeekChar key env.kMaxByte s).1 with
          iter_ := env.SeekOutOfSubKey key
            (IntentPrepareSeekChar key env.kMaxByte s).1.iter_ } with
    | none => rw [h1] at h; simp at h
    | some s1 =>
      rw [h1] at h
      simp only at h
      cases h2 : IntentSeekForward env budget
          (IntentPrepareSeekChar key env.kMaxByte s).2 s1 with
      | none => rw [h2] at h; simp at h
      | some s2 =>
        rw [h2] at h
        simp only [Option.some.injEq] at h
        subst h
        refine IntentBoundTracks_FillEntry env s2
          (IntentSeekForward_tracks env budget _ s1 s2 h2 ?_ (FillEntry_status_mono env s2 hrok))
        simp [IntentPrepareSeekChar]
  · intro h
    unfold Next at h
    simp only [hok, Bool.not_true, Bool.false_eq_true, if_false] at h
    split at h
    · rw [SkipFutureRecords_eq] at h
      cases hloop : SkipFutureRecordsLoop env s.encoded_read_time_ s.upperbound_ .kForward
          budget s.iter_.Next 0 with
      | none => rw [hloop] at h; simp at h
      | some out =>
        rw [hloop] at h
        simp only [Option.map_some', Option.some.injEq] at h
        subst h
        have h1 := IntentSide_FillEntry env (applySkipOutcome { s with iter_ := s.iter_.Next } out)
        have h2 := (IntentSide_applySkipOutcome { s with iter_ := s.iter_.Next } out).1
        exact ⟨h1.2.1.trans h2.2.1, h1.1.trans h2.1⟩
    · simp only [Option.some.injEq] at h
      subst h
      exact ⟨rfl, rfl⟩

/-- Witness of `intent_upperbound_tracks_after_seeks`: `Seek(k)` from `gapIntentState` leaves
the candidate `k@10` and the intent upper bound `k ++ 0xFF`. -/
theorem intent_upperbound_tracks_after_seeks_witness :
    Seek miniEnv 20 [107] false gapIntentState = some gapIntentSought ∧
    IntentBoundTracks miniEnv gapIntentSought ∧
    gapIntentSought.regular_entry_ = some { key := [107, 35] ++ enc 10, value := [1] } ∧
    gapIntentSought.intent_upperbound_buffer_ = [107, 255] ∧
    gapIntentSought.intent_iter_.map (fun it => it.upper) = some (some [107, 255]) :=
  have h := (intent_upperbound_tracks_after_seeks miniEnv 20 [107] [] false gapIntentState
    gapIntentSought (by decide) (by decide) (by decide)).2.1 (by decide)
  ⟨by decide, h.1, by decide, by decide, by decide⟩

/-- C29 (counterexample). From `gapIntentSought` (candidate `k@10`, intent upper bound
`k ++ 0xFF`, non-failed, intents cursor initialized) `Next()` moves the candidate to `m@10`
and leaves the intent upper bound `k ++ 0xFF`, where the value for the new candidate is
`m ++ 0xFF`; `SeekForward` with the empty key from there leaves it as well. From
`gapIntentPastEnd` (no candidate, intent upper bound equal to the scan bound `[255]`)
`SetUpperbound([200])` changes the scan bound and leaves the intent upper bound `[255]`. And
with no candidate and an empty scan upper bound `SetIntentUpperbound` sets the bound to the
single byte kHighest, not to the scan upper bound. -/
theorem intent_upperbound_tracks_after_seeks_counterexample :
    (gapIntentSought.status_ = .OK ∧ gapIntentSought.intent_iter_.isSome = true ∧
      Next miniEnv 20 gapIntentSought = some gapIntentNext ∧
      gapIntentNext.status_ = .OK ∧
      gapIntentNext.regular_entry_ = some { key := [109, 35] ++ enc 10, value := [3] } ∧
      gapIntentNext.intent_upperbound_buffer_ = [107, 255] ∧
      gapIntentNext.intent_iter_.map (fun it => it.upper) = some (some [107, 255]) ∧
      intentUpperboundFor miniEnv gapIntentNext.regular_entry_ gapIntentNext.upperbound_ =
        some [109, 255]) ∧
    ((SeekForward miniEnv 20 [] gapIntentNext).map
        (fun r => (r.status_, r.regular_entry_, r.intent_upperbound_buffer_)) =
      some (.OK, some { key := [109, 35] ++ enc 10, value := [3] }, [107, 255])) ∧
    (gapIntentPastEnd.status_ = .OK ∧ gapIntentPastEnd.regular_entry_ = none ∧
      gapIntentPastEnd.intent_upperbound_buffer_ = [255] ∧
      (SetUpperbound [200] gapIntentPastEnd).1.upperbound_ = [200] ∧
      (SetUpperbound [200] gapIntentPastEnd).1.intent_upperbound_buffer_ = [255] ∧
      intentUpperboundFor miniEnv (SetUpperbound [200] gapIntentPastEnd).1.regular_entry_
        (SetUpperbound [200] gapIntentPastEnd).1.upperbound_ = some [200]) ∧
    ((SetIntentUpperbound miniEnv
        { gapIntentPastEnd with upperbound_ := [] }).1.intent_upperbound_buffer_ =
      [miniEnv.kHighest] ∧
      (SetIntentUpperbound miniEnv { gapIntentPastEnd with upperbound_ := [] }).2 = true) := by
  decide

/-! ## The transaction region -/

theorem Slice.compare_head_succ (key : List Nat) (k : Nat) (h : key.head? = some k) :
    Slice.compare key [k + 1] < 0 := by
  cases key with
  | nil => simp at h
  | cons a rest =>
    simp only [List.head?_cons, Option.some.injEq] at h
    subst h
    simp [Slice.compare]

theorem Slice.head_ne_of_lt_single (key : List Nat) (k : Nat)
    (h : Slice.compare key [k] < 0) : key.head? ≠ some k := by
  intro hk
  cases key with
  | nil => simp at hk
  | cons a rest =>
    simp only [List.head?_cons, Option.some.injEq] at hk
    subst hk
    cases rest <;> simp [Slice.compare] at h

theorem lowerBound_ge (target : Slice) :
    ∀ (l : List KeyValueEntry) (e : KeyValueEntry),
      l.get? (lowerBound target l) = some e → Slice.compare e.key target ≥ 0 := by
  intro l
  induction l with
  | nil => intro e h; simp at h
  | cons x xs ih =>
    intro e h
    unfold lowerBound at h
    by_cases hx : Slice.compare x.key target ≥ 0
    · simp only [hx, if_true, List.get?_cons_zero, Option.some.injEq] at h
      subst h
      exact hx
    · simp only [hx, if_false, List.get?_cons_succ] at h
      exact ih e h

theorem lastBelow_lt (allow : Slice → Bool) :
    ∀ (l : List KeyValueEntry) (i : Nat), lastBelow allow l = some i → i < l.length := by
  intro l
  induction l with
  | nil => intro i h; simp [lastBelow] at h
  | cons x xs ih =>
    intro i h
    unfold lastBelow at h
    cases hr : lastBelow allow xs with
    | some j =>
      rw [hr] at h
      simp only [Option.some.injEq] at h
      have := ih j hr
      simp only [List.length_cons]
      omega
    | none =>
      rw [hr] at h
      simp only at h
      split at h
      · simp only [Option.some.injEq] at h
        simp only [List.length_cons]
        omega
      · simp at h

theorem Cursor.Entry_below (c : Cursor) (entry : KeyValueEntry) (h : c.Entry = some entry) :
    c.below entry.key = true := by
  obtain ⟨data, pos, upper, status⟩ := c
  cases pos with
  | none => simp [Cursor.Entry] at h
  | some p =>
    simp only [Cursor.Entry] at h
    cases hg : data.get? p with
    | none => rw [hg] at h; simp at h
    | some e =>
      rw [hg] at h
      simp only at h
      split at h
      · simp only [Option.some.injEq] at h
        subst h
        assumption
      · simp at h

/-- The forward loop of `SeekToSuitableIntent` returns on a byte-sorted intents cursor: every
iteration that goes on moves the cursor to a later entry. -/
theorem SeekToSuitableIntentLoop_forward_returns (env : Env)
    (hmarker : env.kTransactionId + 1 < 256) (data : List KeyValueEntry)
    (hsorted : SortedKeys data) :
    ∀ (n : Nat) (t : IntentAwareIterator) (it : Cursor),
      t.intent_iter_ = some it → it.data = data →
      (∀ p, it.pos = some p → data.length - p ≤ n) →
      ∀ budget, n + 1 ≤ budget →
        ∃ r, SeekToSuitableIntentLoop env .kForward budget t = some r := by
  intro n
  induction n with
  | zero =>
    intro t it hit hdata hpos budget hb
    obtain ⟨b, rfl⟩ : ∃ b, budget = b + 1 := ⟨budget - 1, by omega⟩
    unfold SeekToSuitableIntentLoop
    have he : intentEntry t = it.Entry := by simp [intentEntry, hit]
    rw [he]
    cases hent : it.Entry with
    | none => exact ⟨_, rfl⟩
    | some entry =>
      obtain ⟨p, hp, hget⟩ := Cursor.Entry_some it entry hent
      rw [hdata] at hget
      obtain ⟨_, _, hlt, _⟩ := get?_split data p entry hget
      have := hpos p hp
      omega
  | succ n ih =>
    intro t it hit hdata hpos budget hb
    obtain ⟨b, rfl⟩ : ∃ b, budget = b + 1 := ⟨budget - 1, by omega⟩
    unfold SeekToSuitableIntentLoop
    have he : intentEntry t = it.Entry := by simp [intentEntry, hit]
    rw [he]
    cases hent : it.Entry with
    | none => exact ⟨_, rfl⟩
    | some entry =>
      obtain ⟨p, hp, hget⟩ := Cursor.Entry_some it entry hent
      rw [hdata] at hget
      obtain ⟨_, _, hlt, _⟩ := get?_split data p entry hget
      simp only
      rcases SeekToSuitableIntentStep_cases env .kForward entry t with
        ⟨hreg, hs⟩ | ⟨_, _, hs⟩ | ⟨_, _, _, _, hs⟩ | ⟨_, _, _, _, hs⟩
      · rw [hs]
        simp only
        have hmod : (env.kTransactionId + 1) % 256 = env.kTransactionId + 1 :=
          Nat.mod_eq_of_lt hmarker
        have hafter := lowerBound_after data hsorted p entry hget [env.kTransactionId + 1]
          (Slice.compare_head_succ _ _ hreg)
        refine ih (SkipTransactionRegion env .kForward t)
          (it.Seek [(env.kTransactionId + 1) % 256]) ?_ hdata ?_ b (by omega)
        · simp [SkipTransactionRegion, onIntentIter, hit]
        · intro q hq
          have := hpos p hp
          simp only [Cursor.Seek, Option.some.injEq, hdata, hmod] at hq
          omega
      · rw [hs]; exact ⟨_, rfl⟩
      · rw [hs]; exact ⟨_, rfl⟩
      · rw [hs]
        simp only
        refine ih _ it.Next ?_ hdata ?_ b (by omega)
        · simp [onIntentIter, (ProcessIntent_intent_cursor env entry t).1, hit, MoveIterator]
        · intro q hq
          have := hpos p hp
          simp only [Cursor.Next, hp, Option.map_some', Option.some.injEq] at hq
          omega

/-- The backward loop of `SeekToSuitableIntent` returns once the intent upper bound is the
marker byte `kTransactionId`: no entry of the region is exposed any more, and every iteration
that goes on moves the cursor to an earlier entry. -/
theorem SeekToSuitableIntentLoop_backward_bounded (env : Env) :
    ∀ (n : Nat) (t : IntentAwareIterator) (it : Cursor),
      t.intent_iter_ = some it → it.upper = some [env.kTransactionId] →
      (∀ p, it.pos = some p → p + 1 ≤ n) →
      ∀ budget, n + 1 ≤ budget →
        ∃ r, SeekToSuitableIntentLoop env .kBackward budget t = some r := by
  intro n
  induction n with
  | zero =>
    intro t it hit hup hpos budget hb
    obtain ⟨b, rfl⟩ : ∃ b, budget = b + 1 := ⟨budget - 1, by omega⟩
    unfold SeekToSuitableIntentLoop
    have he : intentEntry t = it.Entry := by simp [intentEntry, hit]
    rw [he]
    cases hent : it.Entry with
    | none => exact ⟨_, rfl⟩
    | some entry =>
      obtain ⟨p, hp, _⟩ := Cursor.Entry_some it entry hent
      have := hpos p hp
      omega
  | succ n ih =>
    intro t it hit hup hpos budget hb
    obtain ⟨b, rfl⟩ : ∃ b, budget = b + 1 := ⟨budget - 1, by omega⟩
    unfold SeekToSuitableIntentLoop
    have he : intentEntry t = it.Entry := by simp [intentEntry, hit]
    rw [he]
    cases hent : it.Entry with
    | none => exact ⟨_, rfl⟩
    | some entry =>
      obtain ⟨p, hp, _⟩ := Cursor.Entry_some it entry hent
      have hbelow := Cursor.Entry_below it entry hent
      have hout : entry.key.head? ≠ some env.kTransactionId := by
        apply Slice.head_ne_of_lt_single
        simpa [Cursor.below, hup] using hbelow
      simp only
      rcases SeekToSuitableIntentStep_cases env .kBackward entry t with
        ⟨hreg, _⟩ | ⟨_, _, hs⟩ | ⟨_, _, _, _, hs⟩ | ⟨_, _, _, _, hs⟩
      · exact absurd hreg hout
      · rw [hs]; exact ⟨_, rfl⟩
      · rw [hs]; exact ⟨_, rfl⟩
      · rw [hs]
        simp only
        refine ih _ it.Prev ?_ hup ?_ b (by omega)
        · simp [onIntentIter, (ProcessIntent_intent_cursor env entry t).1, hit, MoveIterator]
        · intro q hq
          have := hpos p hp
          simp only [Cursor.Prev, hp] at hq
          cases p with
          | zero => simp at hq
          | succ i =>
            simp only [Option.some.injEq] at hq
            omega

/-- The backward loop of `SeekToSuitableIntent` returns on every finite intents cursor: it
jumps over the transaction region at most once. -/
theorem SeekToSuitableIntentLoop_backward_returns (env : Env) :
    ∀ (n : Nat) (t : IntentAwareIterator) (it : Cursor),
      t.intent_iter_ = some it →
      (∀ p e, it.pos = some p → it.data.get? p = some e → p + 1 ≤ n) →
      ∀ budget, n + it.data.length + 2 ≤ budget →
        ∃ r, SeekToSuitableIntentLoop env .kBackward budget t = some r := by
  intro n
  induction n with
  | zero =>
    intro t it hit hpos budget hb
    obtain ⟨b, rfl⟩ : ∃ b, budget = b + 1 := ⟨budget - 1, by omega⟩
    unfold SeekToSuitableIntentLoop
    have he : intentEntry t = it.Entry := by simp [intentEntry, hit]
    rw [he]
    cases hent : it.Entry with
    | none => exact ⟨_, rfl⟩
    | some entry =>
      obtain ⟨p, hp, hget⟩ := Cursor.Entry_some it entry hent
      have := hpos p entry hp hget
      omega
  | succ n ih =>
    intro t it hit hpos budget hb
    obtain ⟨b, rfl⟩ : ∃ b, budget = b + 1 := ⟨budget - 1, by omega⟩
    unfold SeekToSuitableIntentLoop
    have he : intentEntry t = it.Entry := by simp [intentEntry, hit]
    rw [he]
    cases hent : it.Entry with
    | none => exact ⟨_, rfl⟩
    | some entry =>
      obtain ⟨p, hp, hget⟩ := Cursor.Entry_some it entry hent
      simp only
      rcases SeekToSuitableIntentStep_cases env .kBackward entry t with
        ⟨_, hs⟩ | ⟨_, _, hs⟩ | ⟨_, _, _, _, hs⟩ | ⟨_, _, _, _, hs⟩
      · rw [hs]
        simp only
        refine SeekToSuitableIntentLoop_backward_bounded env it.data.length
          (SkipTransactionRegion env .kBackward t)
          (Cursor.SeekToLast { it with upper := some [env.kTransactionId] }) ?_ rfl ?_ b
          (by omega)
        · simp [SkipTransactionRegion, onIntentIter, hit]
        · intro q hq
          simp only [Cursor.SeekToLast] at hq
          have := lastBelow_lt _ _ _ hq
          omega
      · rw [hs]; exact ⟨_, rfl⟩
      · rw [hs]; exact ⟨_, rfl⟩
      · rw [hs]
        simp only
        refine ih _ it.Prev ?_ ?_ b (by
          have : it.Prev.data = it.data := rfl
          rw [this]; omega)
        · simp [onIntentIter, (ProcessIntent_intent_cursor env entry t).1, hit, MoveIterator]
        · intro q e hq _
          have := hpos p entry hp hget
          simp only [Cursor.Prev, hp] at hq
          cases p with
          | zero => simp at hq
          | succ i =>
            simp only [Option.some.injEq] at hq
            omega

/-- C27. The transaction-metadata region is skipped wholesale: in both directions an
iteration of the loop of `SeekToSuitableIntent` on an entry whose key begins with the
`kTransactionId` marker byte is the jump alone, whatever the intent decoder would say of the
entry (`ProcessIntent` is not applied); the jump is one `Seek` to the single byte
`kTransactionId + 1` (forward), or sets the intent upper bound to the single byte
`kTransactionId` and issues one `SeekToLast` (backward); the entry examined next lies outside
the region; and the loop returns, within `2 * (number of entries) + 2` iterations, on every
byte-sorted finite intents cursor. -/
theorem SeekToSuitableIntent_skips_transaction_region (env : Env) (direction : Direction)
    (s : IntentAwareIterator) (it : Cursor) (budget : Nat)
    (hmarker : env.kTransactionId + 1 < 256)
    (hit : s.intent_iter_ = some it) (hsorted : SortedKeys it.data)
    (hbudget : 2 * it.data.length + 2 ≤ budget) :
    (∀ (entry : KeyValueEntry) (t : IntentAwareIterator),
      entry.key.head? = some env.kTransactionId →
      SeekToSuitableIntentStep env direction entry t =
        .inr (SkipTransactionRegion env direction t) ∧
      ∀ env' : Env, env'.kTransactionId = env.kTransactionId →
        SeekToSuitableIntentStep env' direction entry t =
          SeekToSuitableIntentStep env direction entry t) ∧
    SkipTransactionRegion env .kForward s =
      { s with intent_iter_ := some (it.Seek [env.kTransactionId + 1]) } ∧
    SkipTransactionRegion env .kBackward s =
      { s with
        intent_upperbound_buffer_ := [env.kTransactionId]
        intent_iter_ :=
          some (Cursor.SeekToLast { it with upper := some [env.kTransactionId] }) } ∧
    (∀ e, intentEntry (SkipTransactionRegion env direction s) = some e →
      e.key.head? ≠ some env.kTransactionId) ∧
    ∃ r, SeekToSuitableIntent env direction budget s = some r := by
  have hmod : (env.kTransactionId + 1) % 256 = env.kTransactionId + 1 :=
    Nat.mod_eq_of_lt hmarker
  have hfwd : SkipTransactionRegion env .kForward s =
      { s with intent_iter_ := some (it.Seek [env.kTransactionId + 1]) } := by
    simp [SkipTransactionRegion, onIntentIter, hit, hmod]
  have hbwd : SkipTransactionRegion env .kBackward s =
      { s with
        intent_upperbound_buffer_ := [env.kTransactionId]
        intent_iter_ :=
          some (Cursor.SeekToLast { it with upper := some [env.kTransactionId] }) } := by
    simp [SkipTransactionRegion, onIntentIter, hit]
  refine ⟨?_, hfwd, hbwd, ?_, ?_⟩
  · intro entry t hreg
    constructor
    · simp [SeekToSuitableIntentStep, hreg]
    · intro env' henv
      simp [SeekToSuitableIntentStep, hreg, henv, SkipTransactionRegion]
  · intro e he
    cases direction with
    | kForward =>
      rw [hfwd] at he
      simp only [intentEntry] at he
      obtain ⟨p, hp, hget⟩ := Cursor.Entry_some _ e he
      simp only [Cursor.Seek, Option.some.injEq] at hp
      subst hp
      have hge := lowerBound_ge _ _ e hget
      intro hk
      have := Slice.compare_head_succ _ _ hk
      omega
    | kBackward =>
      rw [hbwd] at he
      simp only [intentEntry] at he
      have hbelow := Cursor.Entry_below _ e he
      apply Slice.head_ne_of_lt_single
      simpa [Cursor.below, Cursor.SeekToLast] using hbelow
  · rw [SeekToSuitableIntent_eq]
    cases direction with
    | kForward =>
      exact SeekToSuitableIntentLoop_forward_returns env hmarker it.data hsorted
        it.data.length (resetResolved env s) it hit rfl (fun p _ => by omega) budget (by omega)
    | kBackward =>
      exact SeekToSuitableIntentLoop_backward_returns env it.data.length (resetResolved env s)
        it hit (fun p e _ hget => by
          have := (get?_split it.data p e hget).2.2.1
          omega) budget (by omega)

/-- Witness of `SeekToSuitableIntent_skips_transaction_region`: forward from the first entry
of the region of `regionState`, the jump lands on the intent after the region, which is
resolved. -/
theorem SeekToSuitableIntent_skips_transaction_region_witness :
    (SkipTransactionRegion miniEnv .kForward regionState =
      { regionState with intent_iter_ := some (regionCursor.Seek [miniEnv.kTransactionId + 1]) } ∧
      (∃ r, SeekToSuitableIntent miniEnv .kForward 10 regionState = some r)) ∧
    intentEntry (SkipTransactionRegion miniEnv .kForward regionState) =
      some { key := [121, 20] ++ enc 11, value := [1, 11, 8] } ∧
    (SeekToSuitableIntent miniEnv .kForward 10 regionState).map
      (fun r => (r.resolved_intent_state_, r.resolved_intent_key_prefix_)) =
      some (.kValid, [121]) :=
  have h := SeekToSuitableIntent_skips_transaction_region miniEnv .kForward regionState
    regionCursor 10 (by decide) (by decide) (by unfold SortedKeys; decide) (by decide)
  ⟨⟨h.2.1, h.2.2.2.2⟩, by decide, by decide⟩

/-! ## The resolved intent of a forward scan -/

theorem Slice.head_between (a b : List Nat) (k : Nat) (h1 : Slice.compare a b ≤ 0)
    (ha : a.head? = some k) (h2 : Slice.compare b [k + 1] < 0) : b.head? = some k := by
  cases a with
  | nil => simp at ha
  | cons x ra =>
    simp only [List.head?_cons, Option.some.injEq] at ha
    subst ha
    cases b with
    | nil => simp [Slice.compare] at h1
    | cons y rb =>
      simp only [List.head?_cons, Option.some.injEq]
      simp only [Slice.compare] at h1 h2
      by_cases hxy : x < y
      · by_cases hy : y < x + 1
        · omega
        · simp only [hy, if_false] at h2
          by_cases hy2 : x + 1 < y
          · simp [hy2] at h2
          · simp only [hy2, if_false] at h2
            cases rb <;> simp [Slice.compare] at h2
      · by_cases hyx : y < x
        · simp [hxy, hyx] at h1
        · omega

theorem Slice.compare_prefix_le :
    ∀ (p key : List Nat), Slice.starts_with key p = true → Slice.compare p key ≤ 0 := by
  intro p
  induction p with
  | nil => intro key _; cases key <;> simp [Slice.compare]
  | cons x xs ih =>
    intro key h
    cases key with
    | nil => simp [Slice.starts_with] at h
    | cons y ys =>
      simp only [Slice.starts_with, List.isPrefixOf, Bool.and_eq_true, beq_iff_eq] at h
      obtain ⟨hxy, hrest⟩ := h
      subst hxy
      simp only [Slice.compare, lt_self_iff_false, if_false]
      exact ih ys hrest

theorem timeLE_trans (a b c : Slice) (h1 : timeLE a b = true) (h2 : timeLE b c = true) :
    timeLE a c = true := by
  simp only [timeLE, decide_eq_true_eq] at h1 h2 ⊢
  have e1 := Slice.compare_antisymm a b
  have e2 := Slice.compare_antisymm b c
  have e3 := Slice.compare_antisymm a c
  have := Slice.compare_le_trans c b a (by omega) (by omega)
  omega

theorem timeLE_refl (a : Slice) : timeLE a a = true := by
  simp [timeLE, Slice.compare_self]

/-- A time that is not at or before another is later than every time at or before it. -/
theorem timeLT_of_not_timeLE (a b c : Slice) (h1 : timeLT a b = true)
    (h2 : timeLE c b = false) : timeLT a c = true ∧ timeLE b c = true := by
  simp only [timeLT, timeLE, decide_eq_true_eq, decide_eq_false_iff_not] at h1 h2 ⊢
  have e1 := Slice.compare_antisymm a b
  have e2 := Slice.compare_antisymm b c
  have e3 := Slice.compare_antisymm a c
  have := Slice.compare_lt_trans c b a (by omega) (by omega)
  omega

theorem withinBounds_false_after (c : Cursor) (ub : Slice) (data : List KeyValueEntry)
    (hsorted : SortedKeys data) (q : Nat) (e : KeyValueEntry)
    (hget : data.get? q = some e) (hout : withinBounds c ub e = false) :
    ∀ x ∈ data.drop q, withinBounds c ub x = false := by
  intro x hx
  obtain ⟨hdrop, hsplit, _, _⟩ := get?_split data q e hget
  have hle : Slice.compare e.key x.key ≤ 0 := by
    rw [hdrop] at hx
    rcases List.mem_cons.1 hx with rfl | hx'
    · rw [Slice.compare_self]
    · have hs := hsorted
      rw [hsplit] at hs
      exact (SortedKeys_split _ _ _ hs).2.1 x hx'
  simp only [withinBounds, Bool.and_eq_false_iff] at hout ⊢
  rcases hout with hb | hs
  · left
    unfold Cursor.below at hb ⊢
    cases hu : c.upper with
    | none => rw [hu] at hb; simp at hb
    | some u =>
      rw [hu] at hb
      simp only [decide_eq_false_iff_not, not_lt] at hb ⊢
      by_contra hlt
      have := Slice.compare_le_lt_trans e.key x.key u hle (by omega)
      omega
  · right
    simp only [SatisfyBounds, decide_eq_false_iff_not, not_le] at hs ⊢
    by_contra hle2
    have := Slice.compare_le_trans e.key x.key ub hle (by omega)
    omega

theorem scanCandidates_none (env : Env) (data : List KeyValueEntry) (q : Nat)
    (h : data.get? q = none) : scanCandidates env data q = [] := by
  have : data.length ≤ q := by
    by_contra hlt
    have hlt' : q < data.length := by omega
    rw [List.get?_eq_get hlt'] at h
    simp at h
  simp [scanCandidates, List.drop_eq_nil_of_le this]

theorem scanCandidates_some (env : Env) (data : List KeyValueEntry) (q : Nat)
    (e : KeyValueEntry) (h : data.get? q = some e) :
    scanCandidates env data q =
      if inTransactionRegion env e then scanCandidates env data (q + 1)
      else e :: scanCandidates env data (q + 1) := by
  obtain ⟨hdrop, _, _, _⟩ := get?_split data q e h
  unfold scanCandidates
  rw [hdrop, List.filter_cons]
  cases inTransactionRegion env e <;> simp

/-- The forward jump over the transaction region passes over entries of the region only. -/
theorem scanCandidates_jump (env : Env) (data : List KeyValueEntry)
    (hsorted : SortedKeys data) (q : Nat) (e : KeyValueEntry)
    (hget : data.get? q = some e) (hreg : e.key.head? = some env.kTransactionId) :
    scanCandidates env data (lowerBound [env.kTransactionId + 1] data) =
      scanCandidates env data q := by
  have hafter := lowerBound_after data hsorted q e hget [env.kTransactionId + 1]
    (Slice.compare_head_succ _ _ hreg)
  have key : ∀ m, q + m ≤ lowerBound [env.kTransactionId + 1] data →
      scanCandidates env data (q + m) = scanCandidates env data q := by
    intro m
    induction m with
    | zero => intro _; rfl
    | succ m ih =>
      intro hm
      have hlen := lowerBound_le_length [env.kTransactionId + 1] data
      cases hx : data.get? (q + m) with
      | none =>
        exfalso
        have := List.get?_eq_none.1 hx
        omega
      | some x =>
        have hle : Slice.compare e.key x.key ≤ 0 := by
          rcases Nat.eq_zero_or_pos m with h0 | hpos
          · subst h0
            have hx0 : data.get? q = some x := by simpa using hx
            rw [hget] at hx0
            simp only [Option.some.injEq] at hx0
            rw [hx0, Slice.compare_self]
          · exact pairwise_get? _ data q (q + m) e x hsorted (by omega) hget hx
        have hlow : Slice.compare x.key [env.kTransactionId + 1] < 0 := by
          apply lowerBound_take _ data
          have hget2 : (data.take (lowerBound [env.kTransactionId + 1] data)).get? (q + m) =
              some x := by
            rw [List.get?_eq_getElem?, List.getElem?_take_of_lt (by omega),
              ← List.get?_eq_getElem?]
            exact hx
          exact (get?_split _ _ _ hget2).2.2.2
        have hxreg := Slice.head_between _ _ _ hle hreg hlow
        rw [← ih (by omega), scanCandidates_some env data (q + m) x hx]
        simp [inTransactionRegion, hxreg, Nat.add_assoc]
  have := key (lowerBound [env.kTransactionId + 1] data - q) (by omega)
  rw [← this]
  congr 1
  omega

/-- What `ProcessIntent` does with an intent of another transaction. -/
theorem ProcessIntent_foreign (env : Env) (entry : KeyValueEntry) (t : IntentAwareIterator)
    (d : DecodeStrongWriteIntentResult) (hdec : env.DecodeStrongWriteIntent entry = .ok d)
    (hf : d.same_transaction = false) :
    ProcessIntent env entry t =
      if timeLE d.value_time t.resolved_intent_txn_dht_ = true ∨
          timeLT (env.MaxAllowedValueTime d t.encoded_read_time_) d.value_time = true then t
      else
        { t with
          resolved_intent_key_prefix_ :=
            if t.resolved_intent_state_ = .kNoIntent then d.intent_prefix_
            else t.resolved_intent_key_prefix_
          resolved_intent_state_ :=
            if t.resolved_intent_state_ = .kNoIntent then
              if !SatisfyBounds t.upperbound_ d.intent_prefix_ then .kNoIntent else .kValid
            else t.resolved_intent_state_
          resolved_intent_txn_dht_ := d.value_time
          resolved_intent_value_ := d.intent_value } := by
  unfold ProcessIntent
  simp only [hdec, hf, Bool.false_eq_true, if_false]
  by_cases h1 : timeLE d.value_time t.resolved_intent_txn_dht_ = true
  · simp [h1]
  · by_cases h2 : timeLT (env.MaxAllowedValueTime d t.encoded_read_time_) d.value_time = true
    · simp [h1, h2]
    · simp [h1, h2]

theorem Cursor.below_with_pos (c : Cursor) (x : Option Nat) (k : Slice) :
    Cursor.below { c with pos := x } k = c.below k := rfl

theorem Cursor.Entry_at (c : Cursor) (q : Nat) :
    Cursor.Entry { c with pos := some q } =
      match c.data.get? q with
      | none => none
      | some e => if c.below e.key then some e else none := rfl

theorem SeekToSuitableIntentFinish_resolved (env : Env) (t : IntentAwareIterator) :
    (SeekToSuitableIntentFinish env t).resolved_intent_state_ = t.resolved_intent_state_ ∧
    (SeekToSuitableIntentFinish env t).resolved_intent_key_prefix_ =
      t.resolved_intent_key_prefix_ ∧
    (SeekToSuitableIntentFinish env t).resolved_intent_txn_dht_ = t.resolved_intent_txn_dht_ ∧
    (SeekToSuitableIntentFinish env t).resolved_intent_value_ = t.resolved_intent_value_ := by
  unfold SeekToSuitableIntentFinish HandleStatus UpdateResolvedIntentSubDocKeyEncoded
  simp only
  split <;> split <;> exact ⟨rfl, rfl, rfl, rfl⟩

theorem sameKeyRun_cons (env : Env) (c : Cursor) (ub pfx : Slice) (e : KeyValueEntry)
    (l : List KeyValueEntry) :
    sameKeyRun env c ub pfx (e :: l) =
      if IsIntentForTheSameKey env e.key pfx && withinBounds c ub e then
        e :: sameKeyRun env c ub pfx l
      else [] := by
  simp only [sameKeyRun, List.takeWhile_cons]

theorem sameKeyRun_nil_of_out (env : Env) (c : Cursor) (ub pfx : Slice)
    (l : List KeyValueEntry) (h : ∀ x ∈ l, withinBounds c ub x = false) :
    sameKeyRun env c ub pfx l = [] := by
  cases l with
  | nil => rfl
  | cons x xs =>
    rw [sameKeyRun_cons]
    simp [h x (by simp)]

theorem scanCandidates_subset (env : Env) (data : List KeyValueEntry) (q : Nat) :
    ∀ x ∈ scanCandidates env data q, x ∈ data.drop q := by
  intro x hx
  exact (List.mem_filter.1 hx).1

/-- The ways an iteration of the forward loop of `SeekToSuitableIntent` that ends in a
non-failed state goes, in terms of the position `q` of the intents cursor. -/
theorem SeekToSuitableIntentLoop_forward_iter (env : Env)
    (hmarker : env.kTransactionId + 1 < 256) (it0 : Cursor) (budget : Nat)
    (t r : IntentAwareIterator) (q : Nat)
    (hit : t.intent_iter_ = some { it0 with pos := some q })
    (h : SeekToSuitableIntentLoop env .kForward (budget + 1) t = some r)
    (hrok : r.status_.ok = true) :
    ((it0.data.get? q = none ∨
        ∃ e, it0.data.get? q = some e ∧ withinBounds it0 t.upperbound_ e = false) ∧
      r = SeekToSuitableIntentFinish env t) ∨
    (∃ e, it0.data.get? q = some e ∧ e.key.head? = some env.kTransactionId ∧
      SeekToSuitableIntentLoop env .kForward budget
        { t with
          intent_iter_ :=
            some { it0 with pos := some (lowerBound [env.kTransactionId + 1] it0.data) } } =
        some r) ∨
    (∃ e, it0.data.get? q = some e ∧ e.key.head? ≠ some env.kTransactionId ∧
      (t.resolved_intent_state_ ≠ .kNoIntent ∧
        IsIntentForTheSameKey env e.key t.resolved_intent_key_prefix_ = false) ∧
      r = SeekToSuitableIntentFinish env t) ∨
    (∃ e, it0.data.get? q = some e ∧ e.key.head? ≠ some env.kTransactionId ∧
      withinBounds it0 t.upperbound_ e = true ∧
      (t.resolved_intent_state_ = .kNoIntent ∨
        IsIntentForTheSameKey env e.key t.resolved_intent_key_prefix_ = true) ∧
      (ProcessIntent env e t).status_.ok = true ∧
      SeekToSuitableIntentLoop env .kForward budget
        { ProcessIntent env e t with
          intent_iter_ := some { it0 with pos := some (q + 1) } } = some r) := by
  unfold SeekToSuitableIntentLoop at h
  have he : intentEntry t = Cursor.Entry { it0 with pos := some q } := by
    simp [intentEntry, hit]
  rw [he] at h
  cases hg : it0.data.get? q with
  | none =>
    have hnone : Cursor.Entry { it0 with pos := some q } = none := by
      rw [Cursor.Entry_at, hg]
    rw [hnone] at h
    simp only [Option.some.injEq] at h
    exact Or.inl ⟨Or.inl rfl, h.symm⟩
  | some e =>
    by_cases hb : it0.below e.key = true
    · have hsome : Cursor.Entry { it0 with pos := some q } = some e := by
        rw [Cursor.Entry_at, hg]
        simp only [hb, if_true]
      rw [hsome] at h
      simp only at h
      rcases SeekToSuitableIntentStep_cases env .kForward e t with
        ⟨hreg, hs⟩ | ⟨hreg, hstop, hs⟩ | ⟨_, _, _, hbad, hs⟩ | ⟨hreg, hk, hsb, hst, hs⟩
      · right; left
        rw [hs] at h
        simp only at h
        refine ⟨e, rfl, hreg, ?_⟩
        have hmod : (env.kTransactionId + 1) % 256 = env.kTransactionId + 1 :=
          Nat.mod_eq_of_lt hmarker
        have hjump : SkipTransactionRegion env .kForward t =
            { t with
              intent_iter_ :=
                some { it0 with
                       pos := some (lowerBound [env.kTransactionId + 1] it0.data) } } := by
          simp [SkipTransactionRegion, onIntentIter, hit, Cursor.Seek, hmod]
        rw [hjump] at h
        exact h
      · rw [hs] at h
        simp only [Option.some.injEq] at h
        rcases hstop with hstop | hstop
        · right; right; left
          exact ⟨e, rfl, hreg, hstop, h.symm⟩
        · left
          exact ⟨Or.inr ⟨e, rfl, by simp [withinBounds, hstop]⟩, h.symm⟩
      · rw [hs] at h
        simp only [Option.some.injEq] at h
        subst h
        rw [hbad] at hrok
        simp at hrok
      · right; right; right
        rw [hs] at h
        simp only at h
        refine ⟨e, rfl, hreg, by simp [withinBounds, hb, hsb], hk, hst, ?_⟩
        have hmove : onIntentIter (MoveIterator .kForward) (ProcessIntent env e t) =
            { ProcessIntent env e t with
              intent_iter_ := some { it0 with pos := some (q + 1) } } := by
          simp [onIntentIter, (ProcessIntent_intent_cursor env e t).1, hit, MoveIterator,
            Cursor.Next]
        rw [hmove] at h
        exact h
    · have hnone : Cursor.Entry { it0 with pos := some q } = none := by
        rw [Cursor.Entry_at, hg]
        simp only [hb, if_false, Bool.false_eq_true]
      rw [hnone] at h
      simp only [Option.some.injEq] at h
      exact Or.inl ⟨Or.inr ⟨e, rfl, by simp [withinBounds, hb]⟩, h.symm⟩

theorem ProcessIntent_ok_decodes (env : Env) (entry : KeyValueEntry) (t : IntentAwareIterator)
    (h : (ProcessIntent env entry t).status_.ok = true) :
    ∃ d, env.DecodeStrongWriteIntent entry = .ok d := by
  cases hdec : env.DecodeStrongWriteIntent entry with
  | error code =>
    simp [ProcessIntent, hdec, Status.ok] at h
  | ok d => exact ⟨d, rfl⟩

/-- Once an intent is resolved as Valid, the forward loop of `SeekToSuitableIntent` over
intents of other transactions keeps the prefix and ends with the time and the value of an
intent of greatest `value_time` among the intent resolved so far and the visible intents of
the run of entries for the prefix. -/
theorem SeekToSuitableIntentLoop_run (env : Env) (hmarker : env.kTransactionId + 1 < 256)
    (it0 : Cursor) (hsorted : SortedKeys it0.data)
    (hforeign : ∀ e ∈ it0.data, ∀ d, env.DecodeStrongWriteIntent e = .ok d →
      d.same_transaction = false)
    (ub : Slice) (rt : EncodedReadHybridTime) :
    ∀ (budget : Nat) (t r : IntentAwareIterator) (q : Nat),
      SeekToSuitableIntentLoop env .kForward budget t = some r → r.status_.ok = true →
      t.intent_iter_ = some { it0 with pos := some q } →
      t.upperbound_ = ub → t.encoded_read_time_ = rt →
      t.resolved_intent_state_ = .kValid →
      timeLT env.kMin t.resolved_intent_txn_dht_ = true →
      r.resolved_intent_state_ = .kValid ∧
      r.resolved_intent_key_prefix_ = t.resolved_intent_key_prefix_ ∧
      ((r.resolved_intent_txn_dht_ = t.resolved_intent_txn_dht_ ∧
          r.resolved_intent_value_ = t.resolved_intent_value_) ∨
        ∃ e ∈ sameKeyRun env it0 ub t.resolved_intent_key_prefix_
            (scanCandidates env it0.data q),
          ∃ d, env.DecodeStrongWriteIntent e = .ok d ∧ visibleIntent env rt e = true ∧
            r.resolved_intent_txn_dht_ = d.value_time ∧
            r.resolved_intent_value_ = d.intent_value) ∧
      timeLE t.resolved_intent_txn_dht_ r.resolved_intent_txn_dht_ = true ∧
      ∀ e ∈ sameKeyRun env it0 ub t.resolved_intent_key_prefix_
          (scanCandidates env it0.data q),
        ∀ d, env.DecodeStrongWriteIntent e = .ok d → visibleIntent env rt e = true →
          timeLE d.value_time r.resolved_intent_txn_dht_ = true := by
  intro budget
  induction budget with
  | zero => intro t r q h; simp [SeekToSuitableIntentLoop] at h
  | succ n ih =>
    intro t r q h hrok hit hub hrt hvalid hmin
    have hfinish : r = SeekToSuitableIntentFinish env t →
        sameKeyRun env it0 ub t.resolved_intent_key_prefix_ (scanCandidates env it0.data q) = [] →
        r.resolved_intent_state_ = .kValid ∧
        r.resolved_intent_key_prefix_ = t.resolved_intent_key_prefix_ ∧
        ((r.resolved_intent_txn_dht_ = t.resolved_intent_txn_dht_ ∧
            r.resolved_intent_value_ = t.resolved_intent_value_) ∨
          ∃ e ∈ sameKeyRun env it0 ub t.resolved_intent_key_prefix_
              (scanCandidates env it0.data q),
            ∃ d, env.DecodeStrongWriteIntent e = .ok d ∧ visibleIntent env rt e = true ∧
              r.resolved_intent_txn_dht_ = d.value_time ∧
              r.resolved_intent_value_ = d.intent_value) ∧
        timeLE t.resolved_intent_txn_dht_ r.resolved_intent_txn_dht_ = true ∧
        ∀ e ∈ sameKeyRun env it0 ub t.resolved_intent_key_prefix_
            (scanCandidates env it0.data q),
          ∀ d, env.DecodeStrongWriteIntent e = .ok d → visibleIntent env rt e = true →
            timeLE d.value_time r.resolved_intent_txn_dht_ = true := by
      intro hr hrun
      obtain ⟨f1, f2, f3, f4⟩ := SeekToSuitableIntentFinish_resolved env t
      rw [hrun, hr, f1, f2, f3, f4]
      refine ⟨hvalid, rfl, Or.inl ⟨rfl, rfl⟩, timeLE_refl _, ?_⟩
      intro e he
      simp at he
    rcases SeekToSuitableIntentLoop_forward_iter env hmarker it0 n t r q hit h hrok with
      ⟨hex, hr⟩ | ⟨e, hg, hreg, hloop⟩ | ⟨e, hg, hreg, hstop, hr⟩ |
      ⟨e, hg, hreg, hwb, _, hst, hloop⟩
    · apply hfinish hr
      rcases hex with hnone | ⟨e, hg, hout⟩
      · rw [scanCandidates_none env _ q hnone]; rfl
      · apply sameKeyRun_nil_of_out
        intro x hx
        rw [hub] at hout
        exact withinBounds_false_after it0 ub it0.data hsorted q e hg hout x
          (scanCandidates_subset env _ q x hx)
    · have := ih _ r (lowerBound [env.kTransactionId + 1] it0.data) hloop hrok rfl hub hrt
        hvalid hmin
      rw [scanCandidates_jump env it0.data hsorted q e hg hreg] at this
      exact this
    · apply hfinish hr
      rw [scanCandidates_some env _ q e hg]
      have hnr : inTransactionRegion env e = false := by
        simp [inTransactionRegion, hreg]
      simp only [hnr, Bool.false_eq_true, if_false]
      rw [sameKeyRun_cons]
      simp [hstop.2]
    · obtain ⟨d, hdec⟩ := ProcessIntent_ok_decodes env e t hst
      have hmem : e ∈ it0.data := (get?_split _ q e hg).2.2.2
      have hf := hforeign e hmem d hdec
      have hnr : inTransactionRegion env e = false := by
        simp [inTransactionRegion, hreg]
      have hsame : IsIntentForTheSameKey env e.key t.resolved_intent_key_prefix_ = true := by
        rename_i hk
        rcases hk with hk | hk
        · rw [hvalid] at hk; simp at hk
        · exact hk
      rw [hub] at hwb
      have hrunq : sameKeyRun env it0 ub t.resolved_intent_key_prefix_
          (scanCandidates env it0.data q) =
          e :: sameKeyRun env it0 ub t.resolved_intent_key_prefix_
            (scanCandidates env it0.data (q + 1)) := by
        rw [scanCandidates_some env _ q e hg]
        simp only [hnr, Bool.false_eq_true, if_false]
        rw [sameKeyRun_cons]
        simp [hsame, hwb]
      have hvis : visibleIntent env rt e =
          (timeLT env.kMin d.value_time &&
            !timeLT (env.MaxAllowedValueTime d rt) d.value_time) := by
        simp [visibleIntent, hdec]
      rw [ProcessIntent_foreign env e t d hdec hf] at hloop
      rw [hrunq]
      by_cases hrej : timeLE d.value_time t.resolved_intent_txn_dht_ = true ∨
          timeLT (env.MaxAllowedValueTime d t.encoded_read_time_) d.value_time = true
      · rw [if_pos hrej] at hloop
        obtain ⟨g1, g2, g3, g4, g5⟩ := ih _ r (q + 1) hloop hrok rfl hub hrt hvalid hmin
        refine ⟨g1, g2, ?_, g4, ?_⟩
        · rcases g3 with g3 | ⟨x, hx, dx, hdx, hvx, hx1, hx2⟩
          · exact Or.inl g3
          · exact Or.inr ⟨x, List.mem_cons_of_mem _ hx, dx, hdx, hvx, hx1, hx2⟩
        · intro x hx dx hdx hvx
          rcases List.mem_cons.1 hx with rfl | hx'
          · rw [hdec] at hdx
            simp only [Except.ok.injEq] at hdx
            subst hdx
            rw [hvis] at hvx
            simp only [Bool.and_eq_true, Bool.not_eq_true'] at hvx
            rw [hrt] at hrej
            rcases hrej with hrej | hrej
            · exact timeLE_trans _ _ _ hrej g4
            · rw [hvx.2] at hrej; simp at hrej
          · exact g5 x hx' dx hdx hvx
      · rw [if_neg hrej] at hloop
        have hnle : timeLE d.value_time t.resolved_intent_txn_dht_ = false := by
          cases hc : timeLE d.value_time t.resolved_intent_txn_dht_ with
          | true => exact absurd (Or.inl hc) hrej
          | false => rfl
        have hnmax : timeLT (env.MaxAllowedValueTime d rt) d.value_time = false := by
          cases hc : timeLT (env.MaxAllowedValueTime d rt) d.value_time with
          | true => rw [← hrt] at hc; exact absurd (Or.inr hc) hrej
          | false => rfl
        obtain ⟨hlt, hle⟩ := timeLT_of_not_timeLE env.kMin t.resolved_intent_txn_dht_
          d.value_time hmin hnle
        have hvise : visibleIntent env rt e = true := by
          rw [hvis, hlt, hnmax]; rfl
        have hv' : (if t.resolved_intent_state_ = ResolvedIntentState.kNoIntent then
              if (!SatisfyBounds t.upperbound_ d.intent_prefix_) = true then
                ResolvedIntentState.kNoIntent
              else ResolvedIntentState.kValid
            else t.resolved_intent_state_) = .kValid := by
          rw [hvalid]; rfl
        have hp' : (if t.resolved_intent_state_ = ResolvedIntentState.kNoIntent then
              d.intent_prefix_ else t.resolved_intent_key_prefix_) =
            t.resolved_intent_key_prefix_ := by
          rw [hvalid]; rfl
        obtain ⟨g1, g2, g3, g4, g5⟩ := ih _ r (q + 1) hloop hrok rfl hub hrt hv' hlt
        simp only [hp'] at g2 g3 g5
        refine ⟨g1, g2, Or.inr ?_, timeLE_trans _ _ _ hle g4, ?_⟩
        · rcases g3 with g3 | ⟨x, hx, dx, hdx, hvx, hx1, hx2⟩
          · exact ⟨e, List.mem_cons_self _ _, d, hdec, hvise, g3.1, g3.2⟩
          · exact ⟨x, List.mem_cons_of_mem _ hx, dx, hdx, hvx, hx1, hx2⟩
        · intro x hx dx hdx hvx
          rcases List.mem_cons.1 hx with rfl | hx'
          · rw [hdec] at hdx
            simp only [Except.ok.injEq] at hdx
            subst hdx
            exact g4
          · exact g5 x hx' dx hdx hvx

theorem timeLT_false_of_timeLE (a b : Slice) (h : timeLE a b = true) : timeLT b a = false := by
  simp only [timeLE, timeLT, decide_eq_true_eq, decide_eq_false_iff_not] at h ⊢
  have := Slice.compare_antisymm a b
  omega

theorem timeLT_of_timeLE_false (a b : Slice) (h : timeLE a b = false) : timeLT b a = true := by
  simp only [timeLE, timeLT, decide_eq_true_eq, decide_eq_false_iff_not] at h ⊢
  have := Slice.compare_antisymm a b
  omega

theorem onlyForeignIntents_spec (env : Env) (data : List KeyValueEntry)
    (h : onlyForeignIntents env data = true) :
    ∀ e ∈ data, ∀ d, env.DecodeStrongWriteIntent e = .ok d → d.same_transaction = false := by
  intro e he d hd
  simp only [onlyForeignIntents, List.all_eq_true] at h
  have := h e he
  rw [hd] at this
  simpa using this

theorem prefixesOfKeys_spec (env : Env) (data : List KeyValueEntry)
    (h : prefixesOfKeys env data = true) :
    ∀ e ∈ data, ∀ d, env.DecodeStrongWriteIntent e = .ok d →
      Slice.starts_with e.key d.intent_prefix_ = true := by
  intro e he d hd
  simp only [prefixesOfKeys, List.all_eq_true] at h
  have := h e he
  rw [hd] at this
  exact this

/-- Before any intent is resolved, the forward loop of `SeekToSuitableIntent` over intents of
other transactions either meets no eligible intent and ends with nothing resolved, or resolves
the first eligible intent in scan order and goes on over the run of entries for its
prefix. -/
theorem SeekToSuitableIntentLoop_first (env : Env) (hmarker : env.kTransactionId + 1 < 256)
    (it0 : Cursor) (hsorted : SortedKeys it0.data)
    (hforeign : ∀ e ∈ it0.data, ∀ d, env.DecodeStrongWriteIntent e = .ok d →
      d.same_transaction = false)
    (hpfx : ∀ e ∈ it0.data, ∀ d, env.DecodeStrongWriteIntent e = .ok d →
      Slice.starts_with e.key d.intent_prefix_ = true)
    (ub : Slice) (rt : EncodedReadHybridTime) :
    ∀ (budget : Nat) (t r : IntentAwareIterator) (q : Nat),
      SeekToSuitableIntentLoop env .kForward budget t = some r → r.status_.ok = true →
      t.intent_iter_ = some { it0 with pos := some q } →
      t.upperbound_ = ub → t.encoded_read_time_ = rt →
      t.resolved_intent_state_ = .kNoIntent →
      t.resolved_intent_txn_dht_ = env.kMin →
      ((∀ e ∈ scanCandidates env it0.data q, eligibleIntent env it0 ub rt e = false) ∧
        r.resolved_intent_state_ = .kNoIntent) ∨
      ∃ e0 rest d0,
        (scanCandidates env it0.data q).dropWhile
          (fun e => !eligibleIntent env it0 ub rt e) = e0 :: rest ∧
        eligibleIntent env it0 ub rt e0 = true ∧
        env.DecodeStrongWriteIntent e0 = .ok d0 ∧
        r.resolved_intent_state_ = .kValid ∧
        r.resolved_intent_key_prefix_ = d0.intent_prefix_ ∧
        (∃ e ∈ e0 :: sameKeyRun env it0 ub d0.intent_prefix_ rest,
          ∃ d, env.DecodeStrongWriteIntent e = .ok d ∧ visibleIntent env rt e = true ∧
            r.resolved_intent_txn_dht_ = d.value_time ∧
            r.resolved_intent_value_ = d.intent_value) ∧
        (∀ e ∈ e0 :: sameKeyRun env it0 ub d0.intent_prefix_ rest,
          ∀ d, env.DecodeStrongWriteIntent e = .ok d → visibleIntent env rt e = true →
            timeLE d.value_time r.resolved_intent_txn_dht_ = true) := by
  intro budget
  induction budget with
  | zero => intro t r q h; simp [SeekToSuitableIntentLoop] at h
  | succ n ih =>
    intro t r q h hrok hit hub hrt hno hmin
    rcases SeekToSuitableIntentLoop_forward_iter env hmarker it0 n t r q hit h hrok with
      ⟨hex, hr⟩ | ⟨e, hg, hreg, hloop⟩ | ⟨e, hg, hreg, hstop, hr⟩ |
      ⟨e, hg, hreg, hwb, _, hst, hloop⟩
    · left
      refine ⟨?_, by rw [hr, (SeekToSuitableIntentFinish_resolved env t).1]; exact hno⟩
      rcases hex with hnone | ⟨e, hg, hout⟩
      · rw [scanCandidates_none env _ q hnone]
        intro e he
        simp at he
      · intro x hx
        rw [hub] at hout
        have := withinBounds_false_after it0 ub it0.data hsorted q e hg hout x
          (scanCandidates_subset env _ q x hx)
        simp [eligibleIntent, this]
    · have := ih _ r (lowerBound [env.kTransactionId + 1] it0.data) hloop hrok rfl hub hrt
        hno hmin
      rw [scanCandidates_jump env it0.data hsorted q e hg hreg] at this
      exact this
    · exact absurd hno hstop.1
    · obtain ⟨d, hdec⟩ := ProcessIntent_ok_decodes env e t hst
      have hmem : e ∈ it0.data := (get?_split _ q e hg).2.2.2
      have hf := hforeign e hmem d hdec
      have hnr : inTransactionRegion env e = false := by
        simp [inTransactionRegion, hreg]
      rw [hub] at hwb
      have hcands : scanCandidates env it0.data q =
          e :: scanCandidates env it0.data (q + 1) := by
        rw [scanCandidates_some env _ q e hg]
        simp only [hnr, Bool.false_eq_true, if_false]
      have hvis : visibleIntent env rt e =
          (timeLT env.kMin d.value_time &&
            !timeLT (env.MaxAllowedValueTime d rt) d.value_time) := by
        simp [visibleIntent, hdec]
      rw [ProcessIntent_foreign env e t d hdec hf] at hloop
      rw [hcands]
      by_cases hrej : timeLE d.value_time t.resolved_intent_txn_dht_ = true ∨
          timeLT (env.MaxAllowedValueTime d t.encoded_read_time_) d.value_time = true
      · rw [if_pos hrej] at hloop
        have hnot : eligibleIntent env it0 ub rt e = false := by
          rw [hmin, hrt] at hrej
          rcases hrej with hrej | hrej
          · simp [eligibleIntent, hvis, timeLT_false_of_timeLE _ _ hrej]
          · simp [eligibleIntent, hvis, hrej]
        rcases ih _ r (q + 1) hloop hrok rfl hub hrt hno hmin with
          ⟨hall, hstate⟩ | ⟨e0, rest, d0, hdrop, hrest⟩
        · left
          refine ⟨?_, hstate⟩
          intro x hx
          rcases List.mem_cons.1 hx with rfl | hx'
          · exact hnot
          · exact hall x hx'
        · right
          refine ⟨e0, rest, d0, ?_, hrest⟩
          rw [List.dropWhile_cons]
          simp only [hnot, Bool.not_false, if_true]
          exact hdrop
      · rw [if_neg hrej] at hloop
        have hnle : timeLE d.value_time env.kMin = false := by
          cases hc : timeLE d.value_time env.kMin with
          | true => rw [← hmin] at hc; exact absurd (Or.inl hc) hrej
          | false => rfl
        have hnmax : timeLT (env.MaxAllowedValueTime d rt) d.value_time = false := by
          cases hc : timeLT (env.MaxAllowedValueTime d rt) d.value_time with
          | true => rw [← hrt] at hc; exact absurd (Or.inr hc) hrej
          | false => rfl
        have hlt := timeLT_of_timeLE_false _ _ hnle
        have hvise : visibleIntent env rt e = true := by
          rw [hvis, hlt, hnmax]; rfl
        have heli : eligibleIntent env it0 ub rt e = true := by
          simp [eligibleIntent, hwb, hvise]
        have hsb : SatisfyBounds ub d.intent_prefix_ = true := by
          have h1 := Slice.compare_prefix_le _ _ (hpfx e hmem d hdec)
          have h2 : Slice.compare e.key ub ≤ 0 := by
            simp only [withinBounds, Bool.and_eq_true, SatisfyBounds, decide_eq_true_eq] at hwb
            exact hwb.2
          simp only [SatisfyBounds, decide_eq_true_eq]
          exact Slice.compare_le_trans _ _ _ h1 h2
        have hv' : (if t.resolved_intent_state_ = ResolvedIntentState.kNoIntent then
              if (!SatisfyBounds t.upperbound_ d.intent_prefix_) = true then
                ResolvedIntentState.kNoIntent
              else ResolvedIntentState.kValid
            else t.resolved_intent_state_) = .kValid := by
          rw [hno, hub, hsb]; rfl
        have hp' : (if t.resolved_intent_state_ = ResolvedIntentState.kNoIntent then
              d.intent_prefix_ else t.resolved_intent_key_prefix_) = d.intent_prefix_ := by
          rw [hno]; rfl
        obtain ⟨g1, g2, g3, g4, g5⟩ := SeekToSuitableIntentLoop_run env hmarker it0 hsorted
          hforeign ub rt n _ r (q + 1) hloop hrok rfl hub hrt hv' hlt
        simp only [hp'] at g2 g3 g5
        right
        refine ⟨e, scanCandidates env it0.data (q + 1), d, ?_, heli, hdec, g1, g2, ?_, ?_⟩
        · rw [List.dropWhile_cons]
          simp only [heli, Bool.not_true, Bool.false_eq_true, if_false]
        · rcases g3 with g3 | ⟨x, hx, dx, hdx, hvx, hx1, hx2⟩
          · exact ⟨e, List.mem_cons_self _ _, d, hdec, hvise, g3.1, g3.2⟩
          · exact ⟨x, List.mem_cons_of_mem _ hx, dx, hdx, hvx, hx1, hx2⟩
        · intro x hx dx hdx hvx
          rcases List.mem_cons.1 hx with rfl | hx'
          · rw [hdec] at hdx
            simp only [Except.ok.injEq] at hdx
            subst hdx
            exact g4
          · exact g5 x hx' dx hdx hvx

/-- C26 (as amended). The resolver retains the most recent visible intent of the first
eligible prefix: for every byte-sorted intents cursor holding only intents of other
transactions (the decoded prefix of each being a prefix of its key), forward
`SeekToSuitableIntent` returns, and when it returns with status OK the state is Valid iff some
intent at or after the start, within the upper bound and outside the transaction-metadata
region, has `value_time` later than the minimum time and not exceeding its maximum allowed
time; then the resolved prefix is the prefix `P` of the first such intent in scan order, and
the resolved time and value are those of an intent with the greatest `value_time` among the
visible intents for `P` in the contiguous run of entries that follow. -/
theorem SeekToSuitableIntent_first_prefix_latest (env : Env) (s : IntentAwareIterator)
    (it : Cursor) (p budget : Nat)
    (hmarker : env.kTransactionId + 1 < 256)
    (hit : s.intent_iter_ = some it) (hpos : it.pos = some p)
    (hsorted : SortedKeys it.data)
    (hforeign : onlyForeignIntents env it.data = true)
    (hpfx : prefixesOfKeys env it.data = true)
    (hbudget : it.data.length + 1 ≤ budget) :
    ∃ r, SeekToSuitableIntent env .kForward budget s = some r ∧
      (r.status_.ok = true →
        (r.resolved_intent_state_ = .kValid ↔
          ∃ e ∈ scanCandidates env it.data p,
            eligibleIntent env it s.upperbound_ s.encoded_read_time_ e = true) ∧
        ∀ e0 rest d0,
          (scanCandidates env it.data p).dropWhile
            (fun e => !eligibleIntent env it s.upperbound_ s.encoded_read_time_ e) =
              e0 :: rest →
          env.DecodeStrongWriteIntent e0 = .ok d0 →
          r.resolved_intent_key_prefix_ = d0.intent_prefix_ ∧
          (∃ e ∈ e0 :: sameKeyRun env it s.upperbound_ d0.intent_prefix_ rest,
            ∃ d, env.DecodeStrongWriteIntent e = .ok d ∧
              visibleIntent env s.encoded_read_time_ e = true ∧
              r.resolved_intent_txn_dht_ = d.value_time ∧
              r.resolved_intent_value_ = d.intent_value) ∧
          (∀ e ∈ e0 :: sameKeyRun env it s.upperbound_ d0.intent_prefix_ rest,
            ∀ d, env.DecodeStrongWriteIntent e = .ok d →
              visibleIntent env s.encoded_read_time_ e = true →
              timeLE d.value_time r.resolved_intent_txn_dht_ = true)) := by
  rw [SeekToSuitableIntent_eq]
  obtain ⟨r, hr⟩ := SeekToSuitableIntentLoop_forward_returns env hmarker it.data hsorted
    it.data.length (resetResolved env s) it hit rfl (fun q _ => by omega) budget hbudget
  refine ⟨r, hr, ?_⟩
  intro hrok
  have hit' : (resetResolved env s).intent_iter_ = some { it with pos := some p } := by
    show s.intent_iter_ = _
    rw [hit, ← hpos]
  have hmain := SeekToSuitableIntentLoop_first env hmarker it hsorted
    (onlyForeignIntents_spec env _ hforeign) (prefixesOfKeys_spec env _ hpfx)
    s.upperbound_ s.encoded_read_time_ budget _ r p hr hrok hit' rfl rfl rfl rfl
  rcases hmain with ⟨hall, hstate⟩ | ⟨e0, rest, d0, hdrop, heli, hdec, hvalid, hrest⟩
  · constructor
    · constructor
      · intro hv
        rw [hstate] at hv
        simp at hv
      · rintro ⟨e, he, hel⟩
        rw [hall e he] at hel
        simp at hel
    · intro e0 rest d0 hdrop _
      have hnil : (scanCandidates env it.data p).dropWhile
          (fun e => !eligibleIntent env it s.upperbound_ s.encoded_read_time_ e) = [] := by
        rw [List.dropWhile_eq_nil_iff]
        intro x hx
        simp [hall x hx]
      rw [hnil] at hdrop
      simp at hdrop
  · constructor
    · constructor
      · intro _
        refine ⟨e0, ?_, heli⟩
        have hsub := List.dropWhile_sublist
          (fun e => !eligibleIntent env it s.upperbound_ s.encoded_read_time_ e)
          (l := scanCandidates env it.data p)
        exact hsub.subset (by rw [hdrop]; exact List.mem_cons_self _ _)
      · intro _
        exact hvalid
    · intro e0' rest' d0' hdrop' hdec'
      rw [hdrop] at hdrop'
      simp only [List.cons.injEq] at hdrop'
      obtain ⟨h1, h2⟩ := hdrop'
      subst h1 h2
      rw [hdec] at hdec'
      simp only [Except.ok.injEq] at hdec'
      subst hdec'
      exact hrest

/-- Witness of `SeekToSuitableIntent_first_prefix_latest` on `scanState`: the pending intent
on `j` is passed over, the prefix `k` is resolved, and of its two intents the one committed
at 13 gives the resolved time and value. -/
theorem SeekToSuitableIntent_first_prefix_latest_witness :
    (∃ r, SeekToSuitableIntent miniEnv .kForward 5 scanState = some r ∧
      (r.status_.ok = true →
        (r.resolved_intent_state_ = .kValid ↔
          ∃ e ∈ scanCandidates miniEnv scanCursor.data 0,
            eligibleIntent miniEnv scanCursor scanState.upperbound_
              scanState.encoded_read_time_ e = true) ∧
        ∀ e0 rest d0,
          (scanCandidates miniEnv scanCursor.data 0).dropWhile
            (fun e => !eligibleIntent miniEnv scanCursor scanState.upperbound_
              scanState.encoded_read_time_ e) = e0 :: rest →
          miniEnv.DecodeStrongWriteIntent e0 = .ok d0 →
          r.resolved_intent_key_prefix_ = d0.intent_prefix_ ∧
          (∃ e ∈ e0 :: sameKeyRun miniEnv scanCursor scanState.upperbound_ d0.intent_prefix_ rest,
            ∃ d, miniEnv.DecodeStrongWriteIntent e = .ok d ∧
              visibleIntent miniEnv scanState.encoded_read_time_ e = true ∧
              r.resolved_intent_txn_dht_ = d.value_time ∧
              r.resolved_intent_value_ = d.intent_value) ∧
          (∀ e ∈ e0 :: sameKeyRun miniEnv scanCursor scanState.upperbound_ d0.intent_prefix_ rest,
            ∀ d, miniEnv.DecodeStrongWriteIntent e = .ok d →
              visibleIntent miniEnv scanState.encoded_read_time_ e = true →
              timeLE d.value_time r.resolved_intent_txn_dht_ = true))) ∧
    (SeekToSuitableIntent miniEnv .kForward 5 scanState = some scanResolved ∧
      scanResolved.status_ = .OK ∧
      scanResolved.resolved_intent_state_ = .kValid ∧
      scanResolved.resolved_intent_key_prefix_ = [107] ∧
      scanResolved.resolved_intent_txn_dht_ = enc 13 ∧
      scanResolved.resolved_intent_value_ = [8] ∧
      (scanCandidates miniEnv scanCursor.data 0).dropWhile
        (fun e => !eligibleIntent miniEnv scanCursor scanState.upperbound_
          scanState.encoded_read_time_ e) =
        [{ key := [107, 20] ++ enc 14, value := [1, 12, 9] },
         { key := [107, 20] ++ enc 11, value := [1, 13, 8] },
         { key := [108, 20] ++ enc 5, value := [1, 5, 7] }] ∧
      sameKeyRun miniEnv scanCursor scanState.upperbound_ [107]
        [{ key := [107, 20] ++ enc 11, value := [1, 13, 8] },
         { key := [108, 20] ++ enc 5, value := [1, 5, 7] }] =
        [{ key := [107, 20] ++ enc 11, value := [1, 13, 8] }]) :=
  ⟨SeekToSuitableIntent_first_prefix_latest miniEnv scanState scanCursor 0 5
    (by decide) (by decide) (by decide) (by unfold SortedKeys; decide) (by decide) (by decide)
    (by decide),
    by decide, by decide, by decide, by decide, by decide, by decide, by decide, by decide⟩

/-- C26 (counterexample). The intents cursor of `pendingOnlyState` holds one intent on `k`, of
another transaction that is still pending: it lies at the start, within the upper bound and
outside the transaction-metadata region, and its `value_time`, the minimum time, does not
exceed its maximum allowed time. Forward `SeekToSuitableIntent` returns with status OK and
the state is `kNoIntent`, not Valid: `ProcessIntent` ignores an intent whose `value_time` is
not later than the resolved time, which starts at the minimum. And with a decoder that
reports a prefix beyond the scan upper bound for an intent whose key is within it
(`strayPrefixEnv`), the visible intent of `committedOnlyState` is accepted by `ProcessIntent`
and the state stays `kNoIntent`. -/
theorem SeekToSuitableIntent_first_prefix_latest_counterexample :
    (SortedKeys [({ key := [107, 20] ++ enc 25, value := [2, 0, 9] } : KeyValueEntry)] ∧
      intentEntry pendingOnlyState = some { key := [107, 20] ++ enc 25, value := [2, 0, 9] } ∧
      miniEnv.DecodeStrongWriteIntent { key := [107, 20] ++ enc 25, value := [2, 0, 9] } =
        .ok { intent_prefix_ := [107], intent_value := [9], intent_time := enc 25,
              value_time := miniEnv.kMin, same_transaction := false } ∧
      SatisfyBounds pendingOnlyState.upperbound_ ([107, 20] ++ enc 25) = true ∧
      ([107, 20] ++ enc 25).head? ≠ some miniEnv.kTransactionId ∧
      timeLT (miniEnv.MaxAllowedValueTime
          { intent_prefix_ := [107], intent_value := [9], intent_time := enc 25,
            value_time := miniEnv.kMin, same_transaction := false }
          pendingOnlyState.encoded_read_time_) miniEnv.kMin = false ∧
      SeekToSuitableIntent miniEnv .kForward 5 pendingOnlyState = some pendingOnlyResolved ∧
      pendingOnlyResolved.status_ = .OK ∧
      pendingOnlyResolved.resolved_intent_state_ = .kNoIntent) ∧
    (intentEntry committedOnlyState = some committedIntentEntry ∧
      strayPrefixEnv.DecodeStrongWriteIntent committedIntentEntry =
        .ok { intent_prefix_ := [255, 255], intent_value := [9], intent_time := enc 12,
              value_time := enc 12, same_transaction := false } ∧
      SatisfyBounds committedOnlyState.upperbound_ committedIntentEntry.key = true ∧
      visibleIntent strayPrefixEnv committedOnlyState.encoded_read_time_
        committedIntentEntry = true ∧
      (SeekToSuitableIntent strayPrefixEnv .kForward 5 committedOnlyState).map
        (fun r => (r.status_, r.resolved_intent_state_)) = some (.OK, .kNoIntent)) := by
  refine ⟨⟨by unfold SortedKeys; decide, by decide, by decide, by decide, by decide, by decide,
    by decide, by decide, by decide⟩, by decide, by decide, by decide, by decide, by decide⟩

end docdb
